import Mathlib

/-!
# Sweep-and-prune space and convex colliders of ODE
(`ode/src/collision_sapspace.cpp`, `ode/src/convex.cpp`)

A shallow embedding of the sweep-and-prune broad phase: the box pruning sweep,
the OPCODE radix sorter, the pair filter and the dirty/clean list bookkeeping of
`dxSAPSpace`, and of the colliders of the convex hull against a plane, a sphere,
another convex hull and a ray, together with the properties proved about them.

Conventions of the embedding.

* Scalars (`dReal`, `float`) are elements of a linear order `α`; single-precision
  values are the elements left unchanged by the cast `toFloat : α → α`, which
  stands for the C conversion `(float)x` (the identity when `dReal` is `float`,
  rounding to nearest when `dReal` is `double`).
* Pointers to geometries are natural numbers (`0` is the null pointer) and the
  geometry records live in a heap `Nat → dxGeom α`.
* A read outside an array is undefined behaviour and makes the embedded function
  return `none`; a failed assertion makes it return `Except.error`.
-/

set_option linter.unusedSectionVars false
set_option linter.unusedVariables false

namespace SAP

/-! ## Data model -/

/-- The couple structure `dxSAPSpace::Pair`: two indices into the box array. -/
structure Pair where
  id0 : Nat
  id1 : Nat
deriving DecidableEq

/-- The fields of `dxGeom` that the sweep-and-prune space reads or writes.
`aabb` is the array `dReal aabb[6]` (minimum at `2*axis`, maximum at
`2*axis+1`); `next` and `tome` are the two link pointers that the space abuses
to store the indices into its dirty and clean lists, read back as `int`. -/
structure dxGeom (α : Type) where
  gflags : Nat
  body : Nat
  category_bits : Nat
  collide_bits : Nat
  parent_space : Nat
  next : Int
  tome : Int
  aabb : Nat → α

/-! ## Box pruning (`dxSAPSpace::BoxPruning`) -/

section BoxPruning

variable {α : Type} [LinearOrder α]

/-- Step 1 of `BoxPruning`: `poslist[i] = (float)TmpGeomList[i]->aabb[ax0idx]`
for every box, followed by the sentinel `poslist[count++] = ODE_INFINITY4`. -/
def buildPoslist (toFloat : α → α) (ODE_INFINITY4 : α) (ax0idx : Nat)
    (geoms : List (dxGeom α)) : List α :=
  geoms.map (fun g => toFloat (g.aabb ax0idx)) ++ [ODE_INFINITY4]

/-- The loop `while ( poslist[*RunningAddress++] < poslist[IndexPair.id0] ) {}`.
The first argument is the part of `Sorted` from `RunningAddress` on, the second
the position of `RunningAddress`; the result is its position after the loop. -/
def advanceRunning (poslist : List α) (p0 : α) : List Nat → Nat → Option Nat
  | [], _ => none
  | x :: xs, r =>
    match poslist[x]? with
    | none => none
    | some p => if p < p0 then advanceRunning poslist p0 xs (r + 1) else some (r + 1)

/-- The loop `while ( poslist[ IndexPair.id1 = *RunningAddress2++ ] <= idx0ax0max )`
with its body: the closed-interval test on the two other axes and
`pairs.push( IndexPair )`. The list argument is the part of `Sorted` from
`RunningAddress2` on; the result is the list of pairs pushed, in order. -/
def sweep (poslist : List α) (geoms : List (dxGeom α)) (ax1idx ax2idx : Nat)
    (id0 : Nat) (g0 : dxGeom α) (idx0ax0max idx0ax1max idx0ax2max : α) :
    List Nat → Option (List Pair)
  | [] => none
  | id1 :: rest =>
    match poslist[id1]? with
    | none => none
    | some p1 =>
      if p1 ≤ idx0ax0max then
        match geoms[id1]? with
        | none => none
        | some g1 =>
          match sweep poslist geoms ax1idx ax2idx id0 g0 idx0ax0max idx0ax1max idx0ax2max
              rest with
          | none => none
          | some more =>
            if (g1.aabb ax1idx ≤ idx0ax1max ∧ g0.aabb ax1idx ≤ g1.aabb (ax1idx + 1)) ∧
                (g1.aabb ax2idx ≤ idx0ax2max ∧ g0.aabb ax2idx ≤ g1.aabb (ax2idx + 1))
            then some (⟨id0, id1⟩ :: more) else some more
      else some []

/-- The main loop `while ( RunningAddress < LastSorted && Sorted < LastSorted )`.
`total` is the incremented `count` (boxes plus sentinel), `sorted` the whole index
array, the list argument the part of it from the pointer `Sorted` on and the
last argument the position of `RunningAddress`. -/
def pruneLoop (poslist : List α) (geoms : List (dxGeom α)) (ax0idx ax1idx ax2idx : Nat)
    (sorted : List Nat) (total : Nat) : List Nat → Nat → Option (List Pair)
  | [], _ => some []
  | id0 :: rest, r =>
    if r < total then
      match poslist[id0]? with
      | none => none
      | some p0 =>
        match advanceRunning poslist p0 (sorted.drop r) r with
        | none => none
        | some r2 =>
          if r2 < total then
            match geoms[id0]? with
            | none => none
            | some g0 =>
              match sweep poslist geoms ax1idx ax2idx id0 g0 (g0.aabb (ax0idx + 1))
                  (g0.aabb (ax1idx + 1)) (g0.aabb (ax2idx + 1)) (sorted.drop r2) with
              | none => none
              | some ps =>
                match pruneLoop poslist geoms ax0idx ax1idx ax2idx sorted total rest r2 with
                | none => none
                | some more => some (ps ++ more)
          else pruneLoop poslist geoms ax0idx ax1idx ax2idx sorted total rest r2
    else some []

/-- `dxSAPSpace::BoxPruning( count, geoms, pairs )` with `count = geoms.length`:
the list of pairs pushed onto `pairs`. `RadixSort` is the sorter called in step 2
(it returns `count + 1` indices), `toFloat` the cast `(float)`, `ODE_INFINITY4`
the sentinel constant. -/
def BoxPruning (toFloat : α → α) (ODE_INFINITY4 : α) (RadixSort : List α → List Nat)
    (ax0idx ax1idx ax2idx : Nat) (geoms : List (dxGeom α)) : Option (List Pair) :=
  let poslist := buildPoslist toFloat ODE_INFINITY4 ax0idx geoms
  let Sorted := RadixSort poslist
  pruneLoop poslist geoms ax0idx ax1idx ax2idx Sorted (geoms.length + 1) Sorted 0

/-- Closed-interval overlap of two boxes on the axis stored at `axidx`. -/
def overlapOn (axidx : Nat) (g h : dxGeom α) : Prop :=
  g.aabb axidx ≤ h.aabb (axidx + 1) ∧ h.aabb axidx ≤ g.aabb (axidx + 1)

/-- The index array `s` lists `poslist` in ascending order. -/
def SortsAscending (poslist : List α) (s : List Nat) : Prop :=
  s.Pairwise (fun a b => ∀ x ∈ poslist[a]?, ∀ y ∈ poslist[b]?, x ≤ y)

instance (axidx : Nat) (g h : dxGeom α) : Decidable (overlapOn axidx g h) := by
  unfold overlapOn; infer_instance

instance (poslist : List α) (s : List Nat) : Decidable (SortsAscending poslist s) := by
  unfold SortsAscending; infer_instance

end BoxPruning

/-- A box over the integers extended by `⊤` (the value of `dInfinity`), given by
its six finite bounds, with the fields the sweep does not read zeroed. -/
def mkBoxT (x0 x1 y0 y1 z0 z1 : Int) : dxGeom (WithTop Int) :=
  { gflags := 0, body := 0, category_bits := 0, collide_bits := 0, parent_space := 0,
    next := 0, tome := 0,
    aabb := fun i => match i with
      | 0 => (x0 : Int) | 1 => (x1 : Int) | 2 => (y0 : Int) | 3 => (y1 : Int)
      | 4 => (z0 : Int) | _ => (z1 : Int) }

/-- Number of halvings that bring a magnitude below `2^24`. -/
def sigShift : Nat → Nat → Nat
  | 0, _ => 0
  | f + 1, a => if a < 2 ^ 24 then 0 else sigShift f (a / 2) + 1

/-- The conversion `(float)x` of an integer-valued `double` `x` (magnitude far
below the single-precision overflow threshold): round to nearest with 24
significant bits, ties to the even significand. -/
def roundSingle (x : Int) : Int :=
  let a := x.natAbs
  let sh := sigShift 104 a
  let q := a / 2 ^ sh
  let r := a % 2 ^ sh
  let q2 := if 2 * r < 2 ^ sh then q else if 2 ^ sh < 2 * r then q + 1
            else if q % 2 = 0 then q else q + 1
  if x < 0 then -((q2 * 2 ^ sh : Nat) : Int) else ((q2 * 2 ^ sh : Nat) : Int)

/-! ## Radix sort (`RadixSort`, OPCODE)

The input array is read as `uint32` words (`input = (uint32*)input2`) on a
little-endian machine: byte `j` of a word `w` is `(w / 256^j) % 256`. The byte
offsets `nb*4` and `id<<2` are computed in 32 bits (`wordCount`, `wordIndex`). Arrays are
maps from index to value. A single-precision value is given by its bit pattern;
for values that are not NaN the order of IEEE 754 is the order of the
sign-magnitude integer `fltKey` (so `-0.0` and `+0.0` are equal), and every
comparison with a NaN is false. -/

/-- The static data of the sorter: `mCurrentSize` (a `uint32` whose top bit marks
the ranks invalid) and the two rank arrays `mRanks1`, `mRanks2`. -/
structure RadixState where
  mCurrentSize : Nat
  mRanks1 : Nat → Nat
  mRanks2 : Nat → Nat

/-- `mCurrentSize|=0x80000000`. -/
def INVALIDATE_RANKS (mCurrentSize : Nat) : Nat := mCurrentSize ||| 0x80000000

/-- `mCurrentSize&=0x7fffffff`. -/
def VALIDATE_RANKS (mCurrentSize : Nat) : Nat := mCurrentSize &&& 0x7fffffff

/-- `(mCurrentSize&0x7fffffff)`. -/
def CURRENT_SIZE (mCurrentSize : Nat) : Nat := mCurrentSize &&& 0x7fffffff

/-- `(mCurrentSize&0x80000000)`. -/
def INVALID_RANKS (mCurrentSize : Nat) : Nat := mCurrentSize &&& 0x80000000

/-- Byte `j` of the 32-bit word `w` (little-endian byte address `j`). -/
def byteOf (w j : Nat) : Nat := (w / 256 ^ j) % 256

/-- A bit pattern is a NaN when its exponent field is all ones and its fraction is
not zero, that is when its 31 magnitude bits exceed `0x7f800000`. -/
def isNaN (w : Nat) : Bool := decide (0x7f800000 < w % 0x80000000)

/-- The sign-magnitude integer of a bit pattern: the magnitude bits, negated
when the sign bit is set. -/
def fltKey (w : Nat) : Int :=
  if (w / 0x80000000) % 2 = 0 then ((w % 0x80000000 : Nat) : Int)
  else -((w % 0x80000000 : Nat) : Int)

/-- The comparison `a < b` of two single-precision values given by their bits. -/
def fltLt (a b : Nat) : Bool := !isNaN a && !isNaN b && decide (fltKey a < fltKey b)

/-- The comparison `a <= b` of two single-precision values given by their bits. -/
def fltLe (a b : Nat) : Bool := !isNaN a && !isNaN b && decide (fltKey a ≤ fltKey b)

/-- The number of words between `p` and `pe = &p[nb*4]`: the product `nb*4` is a
`uint32` and wraps at `2^32`. -/
def wordCount (nb : Nat) : Nat := (nb * 4 % 2 ^ 32) / 4

/-- The word that holds the byte `InputBytes[id<<2]`: the shift `id<<2` is a
`uint32` and wraps at `2^32`. -/
def wordIndex (id : Nat) : Nat := (id * 4 % 2 ^ 32) / 4

/-- `h[i]++`. -/
def bump (h : Nat → Nat) (i : Nat) : Nat → Nat := Function.update h i (h i + 1)

/-- `h0[*p++]++; h1[*p++]++; h2[*p++]++; h3[*p++]++;` for the four bytes of one
word, with `h0..h3` the four 256-entry blocks of `mHistogram`. -/
def countWord (h : Nat → Nat) (w : Nat) : Nat → Nat :=
  bump (bump (bump (bump h (byteOf w 0)) (256 + byteOf w 1)) (512 + byteOf w 2))
    (768 + byteOf w 3)

/-- The temporal-coherence loop `while(p!=pe)` with its early out. `rd k` is the
index read at step `k` (`k` itself when the ranks are invalid, `mRanks1[k]`
otherwise). Arguments: words left, position `k`, `PrevVal`, histograms. Result:
`AlreadySorted`, the position of `p` at exit, the histograms. -/
def coherenceLoop (input2 : Nat → Nat) (rd : Nat → Nat) :
    Nat → Nat → Nat → (Nat → Nat) → Bool × Nat × (Nat → Nat)
  | 0, k, _, h => (true, k, h)
  | rem + 1, k, PrevVal, h =>
    if fltLt (input2 (rd k)) PrevVal then (false, k, h)
    else coherenceLoop input2 rd rem (k + 1) (input2 (rd k)) (countWord h (input2 k))

/-- The loop that finishes the histograms after an early out. -/
def finishHistograms (input : Nat → Nat) : Nat → Nat → (Nat → Nat) → (Nat → Nat)
  | 0, _, h => h
  | rem + 1, k, h => finishHistograms input rem (k + 1) (countWord h (input k))

/-- `for(i=128;i<256;i++) NbNegativeValues += h3[i];`. -/
def NbNegativeValues (h : Nat → Nat) : Nat :=
  (List.range 128).foldl (fun acc i => acc + h (768 + (128 + i))) 0

/-- Offsets of the unsigned passes and of the positive half of the last pass:
`mLink[0] = base; mLink[i] = mLink[i-1] + CurCount[i-1]`. -/
def linkPositive (CurCount : Nat → Nat) (base : Nat) : Nat → Nat
  | 0 => base
  | i + 1 => linkPositive CurCount base i + CurCount i

/-- Offsets of the negative half of the last pass before the fix-up loop, as a
function of `255 - bucket`: `mLink[255] = mRanks2;`
`mLink[254-i] = mLink[255-i] + CurCount[255-i]`. -/
def linkNegative (CurCount : Nat → Nat) : Nat → Nat
  | 0 => 0
  | i + 1 => linkNegative CurCount i + CurCount (255 - i)

/-- The table `mLink` of the last pass after `mLink[i] += CurCount[i]` for the
negative buckets `128..255`. -/
def mLinkSigned (CurCount : Nat → Nat) (nbNeg : Nat) (b : Nat) : Nat :=
  if b < 128 then linkPositive CurCount nbNeg b
  else linkNegative CurCount (255 - b) + CurCount b

/-- The scattering loop of an unsigned pass, `*mLink[InputBytes[id<<2]]++ = id`,
over `id = src k`. Arguments: entries left, position `k`, `mLink`, `mRanks2`. -/
def scatter (digit : Nat → Nat) (src : Nat → Nat) :
    Nat → Nat → (Nat → Nat) → (Nat → Nat) → (Nat → Nat)
  | 0, _, _, dst => dst
  | rem + 1, k, link, dst =>
    scatter digit src rem (k + 1)
      (Function.update link (digit (src k)) (link (digit (src k)) + 1))
      (Function.update dst (link (digit (src k))) (src k))

/-- The scattering loop of the last pass: `*mLink[Radix]++ = id` for a positive
number (`Radix<128`), `*(--mLink[Radix]) = id` for a negative one. -/
def scatterSigned (radix : Nat → Nat) (src : Nat → Nat) :
    Nat → Nat → (Nat → Nat) → (Nat → Nat) → (Nat → Nat)
  | 0, _, _, dst => dst
  | rem + 1, k, link, dst =>
    if radix (src k) < 128 then
      scatterSigned radix src rem (k + 1)
        (Function.update link (radix (src k)) (link (radix (src k)) + 1))
        (Function.update dst (link (radix (src k))) (src k))
    else
      scatterSigned radix src rem (k + 1)
        (Function.update link (radix (src k)) (link (radix (src k)) - 1))
        (Function.update dst (link (radix (src k)) - 1) (src k))

/-- The indices a pass reads: `i` itself while the ranks are invalid, `mRanks1[i]`
once they are valid. -/
def currentRanks (st : RadixState) : Nat → Nat :=
  if INVALID_RANKS st.mCurrentSize ≠ 0 then id else st.mRanks1

/-- `VALIDATE_RANKS` in the branch `if(INVALID_RANKS)` of a pass. -/
def validated (mCurrentSize : Nat) : Nat :=
  if INVALID_RANKS mCurrentSize ≠ 0 then VALIDATE_RANKS mCurrentSize else mCurrentSize

/-- One pass `j != 3` of the loop `for(j=0;j<4;j++)`: `CHECK_PASS_VALIDITY`,
the offsets, the scattering into `mRanks2` and the swap of the two arrays. -/
def radixPass (input : Nat → Nat) (nb : Nat) (h : Nat → Nat) (j : Nat)
    (st : RadixState) : RadixState :=
  if h (j * 256 + byteOf (input 0) j) = nb then st
  else
    { mCurrentSize := validated st.mCurrentSize
      mRanks1 := scatter (fun i => byteOf (input (wordIndex i)) j) (currentRanks st) nb 0
        (linkPositive (fun b => h (j * 256 + b)) 0) st.mRanks2
      mRanks2 := st.mRanks1 }

/-- The pass `j == 3`, which places the negative values first and in reverse
order, or reverses the current list when the pass is useless and every value is
negative. -/
def radixPassSigned (input : Nat → Nat) (nb : Nat) (h : Nat → Nat) (st : RadixState) :
    RadixState :=
  if h (3 * 256 + byteOf (input 0) 3) = nb then
    if 128 ≤ byteOf (input 0) 3 then
      { mCurrentSize := validated st.mCurrentSize
        mRanks1 := fun i => if i < nb then currentRanks st (nb - i - 1) else st.mRanks2 i
        mRanks2 := st.mRanks1 }
    else st
  else
    { mCurrentSize := validated st.mCurrentSize
      mRanks1 := scatterSigned (fun i => input i >>> 24) (currentRanks st) nb 0
        (mLinkSigned (fun b => h (3 * 256 + b)) (NbNegativeValues h)) st.mRanks2
      mRanks2 := st.mRanks1 }

/-- The four passes. -/
def radixPasses (input : Nat → Nat) (nb : Nat) (h : Nat → Nat) (st : RadixState) :
    RadixState :=
  radixPassSigned input nb h (radixPass input nb h 2 (radixPass input nb h 1
    (radixPass input nb h 0 st)))

/-- The resizing at the head of `RadixSort`. `fresh1`, `fresh2` are the contents
of the arrays obtained from `new uint32[nb]`. -/
def resize (st : RadixState) (fresh1 fresh2 : Nat → Nat) (nb : Nat) : RadixState :=
  if nb ≠ CURRENT_SIZE st.mCurrentSize then
    if CURRENT_SIZE st.mCurrentSize < nb then
      { mCurrentSize := INVALIDATE_RANKS nb, mRanks1 := fresh1, mRanks2 := fresh2 }
    else { st with mCurrentSize := INVALIDATE_RANKS nb }
  else st

/-- `RadixSort( input2, nb )`: the static data after the call; the returned
pointer is the final `mRanks1`. -/
def RadixSort (st : RadixState) (fresh1 fresh2 : Nat → Nat) (input2 : Nat → Nat)
    (nb : Nat) : RadixState :=
  let st1 := resize st fresh1 fresh2 nb
  if INVALID_RANKS st1.mCurrentSize ≠ 0 then
    match coherenceLoop input2 id (wordCount nb) 0 (input2 0) (fun _ => 0) with
    | (true, _, _) => { st1 with mRanks1 := fun i => if i < nb then i else st1.mRanks1 i }
    | (false, k, h) =>
      radixPasses input2 nb (finishHistograms input2 (wordCount nb - k) k h) st1
  else
    match coherenceLoop input2 st1.mRanks1 (wordCount nb) 0 (input2 (st1.mRanks1 0))
        (fun _ => 0) with
    | (true, _, _) => st1
    | (false, k, h) =>
      radixPasses input2 nb (finishHistograms input2 (wordCount nb - k) k h) st1

/-- The first `nb` entries of the array returned by `RadixSort`. -/
def sortedIndices (st : RadixState) (nb : Nat) : List Nat :=
  (List.range nb).map st.mRanks1

/-- The sorter state set up by `RadixSortRef`: no arrays, size zero, ranks
invalid. -/
def radixInit : RadixState :=
  { mCurrentSize := INVALIDATE_RANKS 0, mRanks1 := fun _ => 0, mRanks2 := fun _ => 0 }

/-- The states the sorter can be in: `mCurrentSize` is a `uint32`, and when the
ranks are valid the first `CURRENT_SIZE` entries of `mRanks1` hold each index
below `CURRENT_SIZE` exactly once. -/
def RadixInv (st : RadixState) : Prop :=
  st.mCurrentSize < 2 ^ 32 ∧
  (INVALID_RANKS st.mCurrentSize = 0 →
    ((List.range (CURRENT_SIZE st.mCurrentSize)).map st.mRanks1).Perm
      (List.range (CURRENT_SIZE st.mCurrentSize)))

/-- A word list as an input array (entries past the end read as zero). -/
def arrayOf (l : List Nat) : Nat → Nat := fun i => l.getD i 0

/-- The two scattering loops over the list of indices they read: an index whose
digit `b` satisfies `fwd b` is stored at `mLink[b]++`, any other at `--mLink[b]`. -/
def scatterL (fwd : Nat → Bool) (digit : Nat → Nat) :
    List Nat → (Nat → Nat) → (Nat → Nat) → (Nat → Nat)
  | [], _, dst => dst
  | x :: rest, link, dst =>
    if fwd (digit x) then
      scatterL fwd digit rest (Function.update link (digit x) (link (digit x) + 1))
        (Function.update dst (link (digit x)) x)
    else
      scatterL fwd digit rest (Function.update link (digit x) (link (digit x) - 1))
        (Function.update dst (link (digit x) - 1) x)

/-- The entries of `ids` whose digit is `b`, in order. -/
def bucket (digit : Nat → Nat) (ids : List Nat) (b : Nat) : List Nat :=
  ids.filter (fun x => digit x = b)

/-- Position `p` lies in the part of the destination reserved for bucket `b`,
which holds `c b` entries and is filled upwards from `link b` or downwards from
`link b`. -/
def inSeg (fwd : Nat → Bool) (link c : Nat → Nat) (b p : Nat) : Prop :=
  if fwd b then link b ≤ p ∧ p < link b + c b else link b - c b ≤ p ∧ p < link b

/-- The slot of the `k`-th entry of bucket `b`. -/
def slot (fwd : Nat → Bool) (link : Nat → Nat) (b k : Nat) : Nat :=
  if fwd b then link b + k else link b - 1 - k

/-- The list a scattering loop produces: the buckets in the order `bk 0, bk 1, ..`
of their ranks, a bucket filled downwards being reversed. -/
def scattered (fwd : Nat → Bool) (digit : Nat → Nat) (bk : Nat → Nat) (T : Nat)
    (ids : List Nat) : List Nat :=
  (List.range T).flatMap
    (fun t => if fwd (bk t) then bucket digit ids (bk t) else (bucket digit ids (bk t)).reverse)

/-- The order of the buckets in the last pass: the negative buckets `255..128`
first, then the positive buckets `0..127`. -/
def signedBucket (t : Nat) : Nat := if t < 128 then 255 - t else t - 128

/-- The part of a word sorted by the first `j` passes: its `j` low bytes. -/
def lowBytes (j w : Nat) : Nat := w % 256 ^ j

/-- The list of indices the next pass reads. -/
def ranksList (st : RadixState) (nb : Nat) : List Nat :=
  (List.range nb).map (currentRanks st)

/-- The histograms count, for each of the four bytes, the words that hold each
byte value. -/
def HistOK (input : Nat → Nat) (nb : Nat) (h : Nat → Nat) : Prop :=
  ∀ j b, j < 4 → b < 256 →
    h (j * 256 + b) = (List.range nb).countP (fun i => byteOf (input i) j = b)

/-- The loop invariant of `for(j=0;j<4;j++)` before pass `j`: the current list is
a permutation of the indices, sorted on the `j` low bytes, and as long as the
ranks are invalid all words agree on their `j` low bytes. -/
def PassInv (input : Nat → Nat) (nb j : Nat) (st : RadixState) : Prop :=
  (ranksList st nb).Perm (List.range nb) ∧
  (ranksList st nb).Pairwise
    (fun a b => lowBytes j (input a) ≤ lowBytes j (input b)) ∧
  (INVALID_RANKS st.mCurrentSize ≠ 0 →
    ∀ i, i < nb → lowBytes j (input i) = lowBytes j (input 0))

/-- An input array whose first word is `2.0` and whose other words are `1.0`. -/
def descendingInput : Nat → Nat := fun i => if i = 0 then 0x40000000 else 0x3F800000

/-- An input array whose first word is `2` and whose other words are `1` (two
positive denormal values, in descending order at the start). -/
def wrapInput : Nat → Nat := fun i => if i = 0 then 2 else 1

/-- The ranks are valid and neither rank array holds the index `0` anywhere. -/
def NoZero (st : RadixState) : Prop :=
  INVALID_RANKS st.mCurrentSize = 0 ∧ (∀ p, st.mRanks1 p ≠ 0) ∧ (∀ p, st.mRanks2 p ≠ 0)

/-! ## The space: pair filter, `add`, `remove`

An operation of the space returns an `Outcome`: the state when it returns
normally, or the message of the failed assertion together with the state at the
moment of the failure. The call-back of a collision pass is recorded as the
list of its invocations. The values of the flag constants `GEOM_DIRTY`,
`GEOM_AABB_BAD` (an `enum` of `collision_kernel.h`) are parameters. -/

/-- The result of an operation that may fail an assertion. -/
inductive Outcome (σ : Type) where
  | ok : σ → Outcome σ
  | failed : String → σ → Outcome σ

/-- `GEOM_INVALID_IDX`. -/
def GEOM_INVALID_IDX : Int := -1

/-- `collideGeomsNoAABBs( g1, g2, data, callback )`: the invocations of the
call-back, each recorded as `(data, g1, g2)`. `heap` gives the records of the two
geometries and `AABBTest o1 o2 aabb` is the virtual `o1->AABBTest (o2, aabb)`. -/
def collideGeomsNoAABBs {α δ : Type} (GEOM_AABB_BAD : Nat) (heap : Nat → dxGeom α)
    (AABBTest : Nat → Nat → (Nat → α) → Int) (g1 g2 : Nat) (data : δ) :
    Outcome (List (δ × Nat × Nat)) :=
  if ¬ ((heap g1).gflags &&& GEOM_AABB_BAD = 0) then
    .failed "assertion \"(g1->gflags & GEOM_AABB_BAD)==0\" failed" []
  else if ¬ ((heap g2).gflags &&& GEOM_AABB_BAD = 0) then
    .failed "assertion \"(g2->gflags & GEOM_AABB_BAD)==0\" failed" []
  else if (heap g1).body = (heap g2).body ∧ (heap g1).body ≠ 0 then .ok []
  else if ¬ ((heap g1).category_bits &&& (heap g2).collide_bits ≠ 0 ∨
      (heap g2).category_bits &&& (heap g1).collide_bits ≠ 0) then .ok []
  else if AABBTest g1 g2 (heap g2).aabb = 0 then .ok []
  else if AABBTest g2 g1 (heap g1).aabb = 0 then .ok []
  else .ok [(data, g1, g2)]

/-- The state of a `dxSAPSpace` with the records of the geometries: its address
`self`, `count`, `lock_count`, its own `gflags`, the two lists of geometry
pointers and the heap. -/
structure dxSAPSpace (α : Type) where
  self : Nat
  count : Int
  lock_count : Int
  gflags : Nat
  DirtyList : List Nat
  GeomList : List Nat
  heap : Nat → dxGeom α

/-- Modelled from the spec: `dGeomMoved` (in `collision_kernel.cpp`) applied to the
space itself "marks owner's bounding volume stale up the space hierarchy"; of
that only the flags of this space belong to the state. -/
def dGeomMoved {α : Type} (GEOM_DIRTY GEOM_AABB_BAD : Nat) (s : dxSAPSpace α) :
    dxSAPSpace α :=
  { s with gflags := s.gflags ||| (GEOM_DIRTY ||| GEOM_AABB_BAD) }

/-- `dxSAPSpace::add( g )`. -/
def add {α : Type} (GEOM_DIRTY GEOM_AABB_BAD : Nat) (s : dxSAPSpace α) (g : Nat) :
    Outcome (dxSAPSpace α) :=
  if s.lock_count ≠ 0 then .failed "invalid operation for locked space" s
  else if g = 0 then .failed "Bad argument(s)" s
  else if ¬ ((s.heap g).parent_space = 0 ∧ (s.heap g).next = 0) then
    .failed "geom is already in a space" s
  else
    .ok (dGeomMoved GEOM_DIRTY GEOM_AABB_BAD
      { s with
        heap := Function.update s.heap g
          { s.heap g with
            gflags := (s.heap g).gflags ||| (GEOM_DIRTY ||| GEOM_AABB_BAD)
            next := (s.DirtyList.length : Int)
            tome := GEOM_INVALID_IDX
            parent_space := s.self }
        DirtyList := s.DirtyList ++ [g]
        count := s.count + 1 })

/-- `dxSAPSpace::remove( g )`. -/
def remove {α : Type} (GEOM_DIRTY GEOM_AABB_BAD : Nat) (s : dxSAPSpace α) (g : Nat) :
    Outcome (dxSAPSpace α) :=
  if s.lock_count ≠ 0 then .failed "invalid operation for locked space" s
  else if g = 0 then .failed "Bad argument(s)" s
  else if (s.heap g).parent_space ≠ s.self then .failed "object is not in this space" s
  else
    let dirtyIdx := (s.heap g).next
    let geomIdx := (s.heap g).tome
    if ¬ ((dirtyIdx = GEOM_INVALID_IDX ∧ 0 ≤ geomIdx ∧ geomIdx < s.GeomList.length) ∨
        (geomIdx = GEOM_INVALID_IDX ∧ 0 ≤ dirtyIdx ∧ dirtyIdx < s.DirtyList.length)) then
      .failed "geom indices messed up" s
    else if dirtyIdx ≠ GEOM_INVALID_IDX then
      let dirtySize := s.DirtyList.length
      let lastG := s.DirtyList.getD (dirtySize - 1) 0
      let heap1 := Function.update s.heap lastG { s.heap lastG with next := dirtyIdx }
      let heap2 := Function.update heap1 g { heap1 g with next := GEOM_INVALID_IDX }
      .ok (dGeomMoved GEOM_DIRTY GEOM_AABB_BAD
        { s with
          DirtyList := (s.DirtyList.set dirtyIdx.toNat lastG).take (dirtySize - 1)
          count := s.count - 1
          heap := Function.update heap2 g { heap2 g with parent_space := 0 } })
    else
      let geomSize := s.GeomList.length
      let lastG := s.GeomList.getD (geomSize - 1) 0
      let heap1 := Function.update s.heap lastG { s.heap lastG with tome := geomIdx }
      let heap2 := Function.update heap1 g { heap1 g with tome := GEOM_INVALID_IDX }
      .ok (dGeomMoved GEOM_DIRTY GEOM_AABB_BAD
        { s with
          GeomList := (s.GeomList.set geomIdx.toNat lastG).take (geomSize - 1)
          count := s.count - 1
          heap := Function.update heap2 g { heap2 g with parent_space := 0 } })

/-- The space is well formed: every entry of the dirty list is a geometry of this
space whose stored dirty index is its position and whose clean index is the
invalid marker, every entry of the clean list likewise with the roles of the two
indices exchanged, and `count` is the sum of the two sizes. -/
def WellFormed {α : Type} (s : dxSAPSpace α) : Prop :=
  s.self ≠ 0 ∧
  (∀ k, k < s.DirtyList.length →
    s.DirtyList.getD k 0 ≠ 0 ∧
    (s.heap (s.DirtyList.getD k 0)).parent_space = s.self ∧
    (s.heap (s.DirtyList.getD k 0)).next = (k : Int) ∧
    (s.heap (s.DirtyList.getD k 0)).tome = GEOM_INVALID_IDX) ∧
  (∀ k, k < s.GeomList.length →
    s.GeomList.getD k 0 ≠ 0 ∧
    (s.heap (s.GeomList.getD k 0)).parent_space = s.self ∧
    (s.heap (s.GeomList.getD k 0)).tome = (k : Int) ∧
    (s.heap (s.GeomList.getD k 0)).next = GEOM_INVALID_IDX) ∧
  s.count = (s.DirtyList.length : Int) + (s.GeomList.length : Int)

instance {α : Type} (s : dxSAPSpace α) : Decidable (WellFormed s) := by
  unfold WellFormed; infer_instance

/-- A geometry record that is in no space, with the given flag and bit fields. -/
def freeGeom (gflags body category_bits collide_bits : Nat) : dxGeom Int :=
  { gflags := gflags, body := body, category_bits := category_bits,
    collide_bits := collide_bits, parent_space := 0, next := 0, tome := 0,
    aabb := fun _ => 0 }

/-- A geometry record of the space at address `sp`, with the given stored
indices. -/
def memberGeom (sp : Nat) (next tome : Int) : dxGeom Int :=
  { gflags := 0, body := 0, category_bits := 0, collide_bits := 0, parent_space := sp,
    next := next, tome := tome, aabb := fun _ => 0 }

/-- A space at address `100` with dirty list `1, 2, 3` and clean list `4, 5`; the
geometry `6` is in no space. -/
def demoSpace : dxSAPSpace Int :=
  { self := 100, count := 5, lock_count := 0, gflags := 0,
    DirtyList := [1, 2, 3], GeomList := [4, 5],
    heap := fun g => match g with
      | 1 => memberGeom 100 0 (-1)
      | 2 => memberGeom 100 1 (-1)
      | 3 => memberGeom 100 2 (-1)
      | 4 => memberGeom 100 (-1) 0
      | 5 => memberGeom 100 (-1) 1
      | _ => freeGeom 0 0 0 0 }

/-- `dxSAPSpace::dirty( g )`. It neither tests the lock counter nor changes the
count. -/
def dirty {α : Type} (s : dxSAPSpace α) (g : Nat) : Outcome (dxSAPSpace α) :=
  if g = 0 then .failed "Bad argument(s)" s
  else if (s.heap g).parent_space ≠ s.self then .failed "object is not in this space" s
  else
    let dirtyIdx := (s.heap g).next
    if dirtyIdx ≠ GEOM_INVALID_IDX then .ok s
    else
      let geomIdx := (s.heap g).tome
      if ¬ (0 ≤ geomIdx ∧ geomIdx < s.GeomList.length) then
        .failed "geom indices messed up" s
      else
        let geomSize := s.GeomList.length
        let lastG := s.GeomList.getD (geomSize - 1) 0
        let heap1 := Function.update s.heap lastG { s.heap lastG with tome := geomIdx }
        let heap2 := Function.update heap1 g { heap1 g with tome := GEOM_INVALID_IDX }
        .ok { s with
          GeomList := (s.GeomList.set geomIdx.toNat lastG).take (geomSize - 1)
          DirtyList := s.DirtyList ++ [g]
          heap := Function.update heap2 g
            { heap2 g with next := (s.DirtyList.length : Int) } }

/-- `x &= ~m` on flag words. -/
def clearFlags (x m : Nat) : Nat := x ^^^ (x &&& m)

/-- The body of the loop of `cleanGeoms` for the dirty entry `g` at index `i`,
on the clean list (already resized) and the heap. `IS_SPACE g` tells whether `g`
is a space; `cleanGeomsOf g` is the virtual call `((dxSpace*)g)->cleanGeoms()`
and `recomputeAABB g` the call `g->recomputeAABB()`, both as transformations of
the heap. -/
def cleanGeom {α : Type} (IS_SPACE : Nat → Bool)
    (cleanGeomsOf recomputeAABB : Nat → (Nat → dxGeom α) → (Nat → dxGeom α))
    (GEOM_DIRTY GEOM_AABB_BAD : Nat) (geomSize : Nat) (i g : Nat)
    (st : List Nat × (Nat → dxGeom α)) : List Nat × (Nat → dxGeom α) :=
  let heap1 := if IS_SPACE g then cleanGeomsOf g st.2 else st.2
  let heap2 := recomputeAABB g heap1
  let heap3 := Function.update heap2 g
    { heap2 g with gflags := clearFlags (heap2 g).gflags (GEOM_DIRTY ||| GEOM_AABB_BAD) }
  let heap4 := Function.update heap3 g { heap3 g with next := GEOM_INVALID_IDX }
  let heap5 := Function.update heap4 g { heap4 g with tome := ((geomSize + i : Nat) : Int) }
  (st.1.set (geomSize + i) g, heap5)

/-- The loop `for( int i = 0; i < dirtySize; ++i )` of `cleanGeoms`: the list
argument is the part of the dirty list from index `i` on. -/
def cleanLoop {α : Type} (IS_SPACE : Nat → Bool)
    (cleanGeomsOf recomputeAABB : Nat → (Nat → dxGeom α) → (Nat → dxGeom α))
    (GEOM_DIRTY GEOM_AABB_BAD : Nat) (geomSize : Nat) :
    List Nat → Nat → List Nat × (Nat → dxGeom α) → List Nat × (Nat → dxGeom α)
  | [], _, st => st
  | g :: rest, i, st =>
    cleanLoop IS_SPACE cleanGeomsOf recomputeAABB GEOM_DIRTY GEOM_AABB_BAD geomSize rest
      (i + 1)
      (cleanGeom IS_SPACE cleanGeomsOf recomputeAABB GEOM_DIRTY GEOM_AABB_BAD geomSize i g st)

/-- `dxSAPSpace::cleanGeoms()`. The slots that `GeomList.setSize` adds are
uninitialised; they read as the null pointer here and are all overwritten by the
loop. -/
def cleanGeoms {α : Type} (IS_SPACE : Nat → Bool)
    (cleanGeomsOf recomputeAABB : Nat → (Nat → dxGeom α) → (Nat → dxGeom α))
    (GEOM_DIRTY GEOM_AABB_BAD : Nat) (s : dxSAPSpace α) : dxSAPSpace α :=
  let dirtySize := s.DirtyList.length
  if dirtySize = 0 then s
  else
    let s1 := { s with lock_count := s.lock_count + 1 }
    let geomSize := s1.GeomList.length
    let st := cleanLoop IS_SPACE cleanGeomsOf recomputeAABB GEOM_DIRTY GEOM_AABB_BAD
      geomSize s1.DirtyList 0 (s1.GeomList ++ List.replicate dirtySize 0, s1.heap)
    { s1 with GeomList := st.1, heap := st.2, DirtyList := [],
              lock_count := s1.lock_count - 1 }

/-- The virtual calls made by `cleanGeoms` on a geometry `g` respect the space at
address `self`: they leave the parent space of every geometry as it is, the two
stored indices of every geometry of the space as they are, and the whole record
of every geometry of the space other than `g`. -/
def RespectsSpace {α : Type} (self : Nat)
    (f : Nat → (Nat → dxGeom α) → (Nat → dxGeom α)) : Prop :=
  ∀ g h g2, ((f g h) g2).parent_space = (h g2).parent_space ∧
    ((h g2).parent_space = self →
      ((f g h) g2).next = (h g2).next ∧ ((f g h) g2).tome = (h g2).tome ∧
      (g2 ≠ g → (f g h) g2 = h g2))

/-- The heap of `cleanGeoms` when the loop reaches the index `i`: the first `i`
dirty entries have been treated. -/
def heapAtIndex {α : Type} (IS_SPACE : Nat → Bool)
    (cleanGeomsOf recomputeAABB : Nat → (Nat → dxGeom α) → (Nat → dxGeom α))
    (GEOM_DIRTY GEOM_AABB_BAD : Nat) (s : dxSAPSpace α) (i : Nat) : Nat → dxGeom α :=
  (cleanLoop IS_SPACE cleanGeomsOf recomputeAABB GEOM_DIRTY GEOM_AABB_BAD s.GeomList.length
    (s.DirtyList.take i) 0
    (s.GeomList ++ List.replicate s.DirtyList.length 0, s.heap)).2

/-- The state carried by an outcome, whether the operation returned or failed. -/
def Outcome.state {σ : Type} : Outcome σ → σ
  | .ok s => s
  | .failed _ s => s

/-- Sequencing: the next step runs on the state of a normal return; a failure
ends the run. -/
def Outcome.bind {σ : Type} (o : Outcome σ) (f : σ → Outcome σ) : Outcome σ :=
  match o with
  | .ok s => f s
  | .failed msg s => .failed msg s

/-- A collision pass in progress: the space, and the invocations of the call-back
made so far, each recorded as `(data, g1, g2)` with the state of the space at the
moment of the invocation. -/
structure Pass (α δ : Type) where
  space : dxSAPSpace α
  calls : List (δ × Nat × Nat × dxSAPSpace α)

/-- The invocations decided by a pair filter are carried out in order: each is
recorded with the state it finds, and the call-back (`dNearCallback`, a
transformation of the space that may itself fail an assertion) runs on that
state. -/
def runCalls {α δ : Type}
    (callback : δ → Nat → Nat → dxSAPSpace α → Outcome (dxSAPSpace α)) :
    List (δ × Nat × Nat) → Pass α δ → Outcome (Pass α δ)
  | [], p => .ok p
  | (d, g1, g2) :: rest, p =>
    match callback d g1 g2 p.space with
    | .ok s2 =>
      runCalls callback rest { space := s2, calls := p.calls ++ [(d, g1, g2, p.space)] }
    | .failed msg s2 =>
      .failed msg { space := s2, calls := p.calls ++ [(d, g1, g2, p.space)] }

/-- A call `collideGeomsNoAABBs( g1, g2, data, callback )` made during a pass. -/
def collidePair {α δ : Type} (GEOM_AABB_BAD : Nat)
    (AABBTest : Nat → Nat → (Nat → α) → Int)
    (callback : δ → Nat → Nat → dxSAPSpace α → Outcome (dxSAPSpace α)) (data : δ)
    (g1 g2 : Nat) (p : Pass α δ) : Outcome (Pass α δ) :=
  match collideGeomsNoAABBs GEOM_AABB_BAD p.space.heap AABBTest g1 g2 data with
  | .failed msg _ => .failed msg p
  | .ok calls => runCalls callback calls p

/-- The loop of `collide` that separates the enabled geometries of the clean list
into `TmpGeomList` (first component) and `TmpInfGeomList` (second component). -/
def separate {α : Type} [DecidableEq α] (heap : Nat → dxGeom α) (GEOM_ENABLED : Nat)
    (dInfinity : α) (axis0max : Nat) : List Nat → List Nat × List Nat → List Nat × List Nat
  | [], acc => acc
  | g :: rest, acc =>
    if (heap g).gflags &&& GEOM_ENABLED = 0 then
      separate heap GEOM_ENABLED dInfinity axis0max rest acc
    else if (heap g).aabb axis0max = dInfinity then
      separate heap GEOM_ENABLED dInfinity axis0max rest (acc.1, acc.2 ++ [g])
    else separate heap GEOM_ENABLED dInfinity axis0max rest (acc.1 ++ [g], acc.2)

/-- The loop `for( int j = 0; j < overlapCount; ++j )` of `collide`. An index of
a pair that is no position of `TmpGeomList` is a read outside the array. -/
def collideOverlapping {α δ : Type} (GEOM_AABB_BAD : Nat)
    (AABBTest : Nat → Nat → (Nat → α) → Int)
    (callback : δ → Nat → Nat → dxSAPSpace α → Outcome (dxSAPSpace α)) (data : δ)
    (TmpGeomList : List Nat) : List Pair → Pass α δ → Outcome (Pass α δ)
  | [], p => .ok p
  | pair :: rest, p =>
    match TmpGeomList[pair.id0]?, TmpGeomList[pair.id1]? with
    | some g1, some g2 =>
      (collidePair GEOM_AABB_BAD AABBTest callback data g1 g2 p).bind
        (collideOverlapping GEOM_AABB_BAD AABBTest callback data TmpGeomList rest)
    | _, _ => .failed "read outside an array" p

/-- An inner loop of `collide`: `g1` against every geometry of a list, in order. -/
def collideWith {α δ : Type} (GEOM_AABB_BAD : Nat)
    (AABBTest : Nat → Nat → (Nat → α) → Int)
    (callback : δ → Nat → Nat → dxSAPSpace α → Outcome (dxSAPSpace α)) (data : δ)
    (g1 : Nat) : List Nat → Pass α δ → Outcome (Pass α δ)
  | [], p => .ok p
  | g2 :: rest, p =>
    (collidePair GEOM_AABB_BAD AABBTest callback data g1 g2 p).bind
      (collideWith GEOM_AABB_BAD AABBTest callback data g1 rest)

/-- The loop `for ( m = 0; m < infSize; ++m )` of `collide`; the list argument is
the part of `TmpInfGeomList` from index `m` on. -/
def collideInfinite {α δ : Type} (GEOM_AABB_BAD : Nat)
    (AABBTest : Nat → Nat → (Nat → α) → Int)
    (callback : δ → Nat → Nat → dxSAPSpace α → Outcome (dxSAPSpace α)) (data : δ)
    (TmpGeomList : List Nat) : List Nat → Pass α δ → Outcome (Pass α δ)
  | [], p => .ok p
  | g1 :: rest, p =>
    ((collideWith GEOM_AABB_BAD AABBTest callback data g1 rest p).bind
      (collideWith GEOM_AABB_BAD AABBTest callback data g1 TmpGeomList)).bind
      (collideInfinite GEOM_AABB_BAD AABBTest callback data TmpGeomList rest)

/-- The statement `lock_count--` that ends a pass. -/
def unlock {α δ : Type} (p : Pass α δ) : Outcome (Pass α δ) :=
  .ok { p with space := { p.space with lock_count := p.space.lock_count - 1 } }

/-- The body of `collide` after the assertion on the counts, on the space as
`cleanGeoms` left it: the separation of the enabled geometries, the box pruning
of the finite ones, the three loops that call `collideGeomsNoAABBs`, and
`lock_count--`. `TmpGeomList` and `TmpInfGeomList`, scratch members that every
pass fills anew, are local lists here. A read outside an array, in `BoxPruning`
or through the index of a pair, ends the pass as a failure. -/
def collideCleaned {α δ : Type} [LinearOrder α] (toFloat : α → α) (ODE_INFINITY4 : α)
    (RadixSort : List α → List Nat) (ax0idx ax1idx ax2idx : Nat)
    (GEOM_AABB_BAD GEOM_ENABLED : Nat) (dInfinity : α)
    (AABBTest : Nat → Nat → (Nat → α) → Int)
    (cb : δ → Nat → Nat → dxSAPSpace α → Outcome (dxSAPSpace α))
    (data : δ) (s2 : dxSAPSpace α) : Outcome (Pass α δ) :=
  let tmp := separate s2.heap GEOM_ENABLED dInfinity (ax0idx + 1) s2.GeomList ([], [])
  let TmpGeomList := tmp.1
  let TmpInfGeomList := tmp.2
  match (if 0 < TmpGeomList.length then
      BoxPruning toFloat ODE_INFINITY4 RadixSort ax0idx ax1idx ax2idx
        (TmpGeomList.map s2.heap)
    else some []) with
  | none => .failed "read outside an array" { space := s2, calls := [] }
  | some overlapBoxes =>
    ((collideOverlapping GEOM_AABB_BAD AABBTest cb data TmpGeomList overlapBoxes
        { space := s2, calls := [] }).bind
      (collideInfinite GEOM_AABB_BAD AABBTest cb data TmpGeomList TmpInfGeomList)).bind
      unlock

/-- `dxSAPSpace::collide( data, callback )`. A null `callback` is `none`.
`GEOM_ENABLED` and `dInfinity` are parameters, and so is the sorter, as for
`BoxPruning`. -/
def collide {α δ : Type} [LinearOrder α] (toFloat : α → α) (ODE_INFINITY4 : α)
    (RadixSort : List α → List Nat) (ax0idx ax1idx ax2idx : Nat) (IS_SPACE : Nat → Bool)
    (cleanGeomsOf recomputeAABB : Nat → (Nat → dxGeom α) → (Nat → dxGeom α))
    (GEOM_DIRTY GEOM_AABB_BAD GEOM_ENABLED : Nat) (dInfinity : α)
    (AABBTest : Nat → Nat → (Nat → α) → Int)
    (callback : Option (δ → Nat → Nat → dxSAPSpace α → Outcome (dxSAPSpace α)))
    (data : δ) (s : dxSAPSpace α) : Outcome (Pass α δ) :=
  match callback with
  | none => .failed "Bad argument(s)" { space := s, calls := [] }
  | some cb =>
    let s1 := { s with lock_count := s.lock_count + 1 }
    let s2 := cleanGeoms IS_SPACE cleanGeomsOf recomputeAABB GEOM_DIRTY GEOM_AABB_BAD s1
    let geom_count := s2.GeomList.length
    if (geom_count : Int) ≠ s2.count then
      .failed "geom counts messed up" { space := s2, calls := [] }
    else
      collideCleaned toFloat ODE_INFINITY4 RadixSort ax0idx ax1idx ax2idx GEOM_AABB_BAD
        GEOM_ENABLED dInfinity AABBTest cb data s2

/-- The loop of `collide2`: `geom_count` is read once, `GeomList[i]` and the flags
of the geometry at every iteration; `i` counts up from the second argument. A
slot past the current size of the clean list is a read outside the array.
`collideAABBs` (of `collision_space_internal.h`) is a parameter: it tells from
the heap which invocations of the call-back the pair gives rise to. -/
def collide2Loop {α δ : Type} (GEOM_ENABLED : Nat)
    (collideAABBs : (Nat → dxGeom α) → Nat → Nat → δ → Outcome (List (δ × Nat × Nat)))
    (callback : δ → Nat → Nat → dxSAPSpace α → Outcome (dxSAPSpace α)) (data : δ)
    (geom : Nat) : Nat → Nat → Pass α δ → Outcome (Pass α δ)
  | 0, _, p => .ok p
  | rem + 1, i, p =>
    match p.space.GeomList[i]? with
    | none => .failed "read outside an array" p
    | some g =>
      if (p.space.heap g).gflags &&& GEOM_ENABLED ≠ 0 then
        match collideAABBs p.space.heap g geom data with
        | .failed msg _ => .failed msg p
        | .ok calls =>
          (runCalls callback calls p).bind
            (collide2Loop GEOM_ENABLED collideAABBs callback data geom rem (i + 1))
      else collide2Loop GEOM_ENABLED collideAABBs callback data geom rem (i + 1) p

/-- `dxSAPSpace::collide2( data, geom, callback )`. -/
def collide2 {α δ : Type} (IS_SPACE : Nat → Bool)
    (cleanGeomsOf recomputeAABB : Nat → (Nat → dxGeom α) → (Nat → dxGeom α))
    (GEOM_DIRTY GEOM_AABB_BAD GEOM_ENABLED : Nat)
    (collideAABBs : (Nat → dxGeom α) → Nat → Nat → δ → Outcome (List (δ × Nat × Nat)))
    (callback : Option (δ → Nat → Nat → dxSAPSpace α → Outcome (dxSAPSpace α)))
    (data : δ) (geom : Nat) (s : dxSAPSpace α) : Outcome (Pass α δ) :=
  match callback with
  | none => .failed "Bad argument(s)" { space := s, calls := [] }
  | some cb =>
    if geom = 0 then .failed "Bad argument(s)" { space := s, calls := [] }
    else
      let s1 := { s with lock_count := s.lock_count + 1 }
      let s2 := cleanGeoms IS_SPACE cleanGeomsOf recomputeAABB GEOM_DIRTY GEOM_AABB_BAD s1
      let s3 := { s2 with heap := recomputeAABB geom s2.heap }
      (collide2Loop GEOM_ENABLED collideAABBs cb data geom s3.GeomList.length 0
        { space := s3, calls := [] }).bind unlock

/-- A postcondition of a fallible operation: `J` on the state of a normal return,
`JF` on the state left by a failure. -/
def Outcome.Post {σ : Type} (J JF : σ → Prop) : Outcome σ → Prop
  | .ok s => J s
  | .failed _ s => JF s

/-- A step of a pass keeps `J`: an invocation of the call-back from a pass that
satisfies `J` leads to a pass that satisfies `J` again when the call-back
returns, and `JF` when it fails. -/
def StepKeeps {α δ : Type}
    (callback : δ → Nat → Nat → dxSAPSpace α → Outcome (dxSAPSpace α))
    (J JF : Pass α δ → Prop) : Prop :=
  ∀ (p : Pass α δ) (d : δ) (g1 g2 : Nat), J p →
    (∀ s2, callback d g1 g2 p.space = .ok s2 →
      J { space := s2, calls := p.calls ++ [(d, g1, g2, p.space)] }) ∧
    (∀ msg s2, callback d g1 g2 p.space = .failed msg s2 →
      JF { space := s2, calls := p.calls ++ [(d, g1, g2, p.space)] })

/-- The state `s2` is the state `s` with its dirty geometries cleaned: the dirty
list is empty, the clean list is the old clean list followed by the old dirty
list, the count is unchanged, and the record of the geometry that was at index
`i` of the dirty list is the one that `g->recomputeAABB()` produced when the loop
of `cleanGeoms` reached `i`, with the flags `GEOM_DIRTY` and `GEOM_AABB_BAD`
cleared, the dirty index invalid and the clean index `geomSize + i`. -/
def Converged {α : Type} (IS_SPACE : Nat → Bool)
    (cleanGeomsOf recomputeAABB : Nat → (Nat → dxGeom α) → (Nat → dxGeom α))
    (GEOM_DIRTY GEOM_AABB_BAD : Nat) (s s2 : dxSAPSpace α) : Prop :=
  s2.DirtyList = [] ∧ s2.GeomList = s.GeomList ++ s.DirtyList ∧ s2.count = s.count ∧
  ∀ (i g : Nat), s.DirtyList[i]? = some g →
    s2.GeomList[s.GeomList.length + i]? = some g ∧
    (s2.heap g).aabb =
      ((recomputeAABB g
        (if IS_SPACE g then
          cleanGeomsOf g
            (heapAtIndex IS_SPACE cleanGeomsOf recomputeAABB GEOM_DIRTY GEOM_AABB_BAD s i)
        else heapAtIndex IS_SPACE cleanGeomsOf recomputeAABB GEOM_DIRTY GEOM_AABB_BAD s i))
        g).aabb ∧
    (s2.heap g).gflags &&& GEOM_DIRTY = 0 ∧ (s2.heap g).gflags &&& GEOM_AABB_BAD = 0 ∧
    (s2.heap g).tome = ((s.GeomList.length + i : Nat) : Int) ∧
    (s2.heap g).next = GEOM_INVALID_IDX

/-- The call-back always returns and leaves the two lists, the count and the
records of the geometries as they are (it dirties no geometry). -/
def LeavesGeometries {α δ : Type}
    (callback : δ → Nat → Nat → dxSAPSpace α → Outcome (dxSAPSpace α)) : Prop :=
  ∀ (d : δ) (g1 g2 : Nat) (st : dxSAPSpace α), ∃ st2,
    callback d g1 g2 st = .ok st2 ∧ st2.DirtyList = st.DirtyList ∧
    st2.GeomList = st.GeomList ∧ st2.count = st.count ∧ st2.heap = st.heap

/-- A geometry record of the space at address `sp`: an axis-aligned cube from `lo`
to `hi` on every axis, with the given flags and stored indices, that collides
with every geometry of its kind. -/
def boxGeom (sp gflags : Nat) (next tome lo hi : Int) : dxGeom Int :=
  { gflags := gflags, body := 0, category_bits := 1, collide_bits := 1, parent_space := sp,
    next := next, tome := tome, aabb := fun i => if i % 2 = 0 then lo else hi }

/-- A space at address `100` with the flag values `GEOM_DIRTY = 1`,
`GEOM_AABB_BAD = 4`, `GEOM_ENABLED = 16`: the enabled cubes `1` (from 0 to 2)
and `2` (from 1 to 3) are dirty, the enabled cube `3` (from 10 to 11) is clean. -/
def liveSpace : dxSAPSpace Int :=
  { self := 100, count := 3, lock_count := 0, gflags := 0,
    DirtyList := [1, 2], GeomList := [3],
    heap := fun g => match g with
      | 1 => boxGeom 100 21 0 (-1) 0 2
      | 2 => boxGeom 100 21 1 (-1) 1 3
      | 3 => boxGeom 100 16 (-1) 0 10 11
      | _ => freeGeom 0 0 0 0 }

/-- A pass of `collide` over `liveSpace`: no geometry is a space, the AABBs are
recomputed to what they were, the sorter returns the order of the three minima
`10, 0, 1` and the sentinel, every `AABBTest` accepts, and the call-back is
`callback`. -/
def livePass (callback : Nat → Nat → Nat → dxSAPSpace Int → Outcome (dxSAPSpace Int)) :
    Outcome (Pass Int Nat) :=
  collide (fun x => x) 1000000 (fun _ => [1, 2, 0, 3]) 0 2 4 (fun _ => false)
    (fun _ h => h) (fun _ h => h) 1 4 16 2000000 (fun _ _ _ => 1) (some callback) 7
    liveSpace

/-- The call-back leaves the lock counter of the space as it finds it (whatever
it does to the space it does through operations of the space, each of which
restores the counter before it returns). -/
def KeepsLock {α δ : Type}
    (callback : δ → Nat → Nat → dxSAPSpace α → Outcome (dxSAPSpace α)) : Prop :=
  ∀ (d : δ) (g1 g2 : Nat) (st st2 : dxSAPSpace α),
    callback d g1 g2 st = .ok st2 → st2.lock_count = st.lock_count

/-- The membership invariant of the space: it is well formed (every entry of a
list is a geometry of the space whose stored index for that list is its position
and whose index for the other list is the invalid marker, and the count is the
sum of the two sizes) and every geometry whose parent is the space is in one of
the two lists. -/
def Membership {α : Type} (s : dxSAPSpace α) : Prop :=
  WellFormed s ∧ ∀ g, (s.heap g).parent_space = s.self → g ∈ s.DirtyList ∨ g ∈ s.GeomList

/-- The entries of a dirty list are geometries of the space at `self` that store
their position as dirty index and the invalid marker as clean index. -/
def DirtyOK {α : Type} (self : Nat) (heap : Nat → dxGeom α) (l : List Nat) : Prop :=
  ∀ k, k < l.length →
    l.getD k 0 ≠ 0 ∧ (heap (l.getD k 0)).parent_space = self ∧
    (heap (l.getD k 0)).next = (k : Int) ∧ (heap (l.getD k 0)).tome = GEOM_INVALID_IDX

/-- The entries of a clean list are geometries of the space at `self` that store
their position as clean index and the invalid marker as dirty index. -/
def CleanOK {α : Type} (self : Nat) (heap : Nat → dxGeom α) (l : List Nat) : Prop :=
  ∀ k, k < l.length →
    l.getD k 0 ≠ 0 ∧ (heap (l.getD k 0)).parent_space = self ∧
    (heap (l.getD k 0)).tome = (k : Int) ∧ (heap (l.getD k 0)).next = GEOM_INVALID_IDX

/-! ## Convex colliders (`ode/src/convex.cpp`)

Scalars (`dReal`) are elements of a linearly ordered field and their arithmetic
is exact; the quotient of `IntersectSegmentPlane`, whose divisor the source does
not test, follows the IEEE rules for a divisor zero (`dRealQuotient`). Vectors, matrices and the arrays behind `planes`, `points` and
`polygons` are functions on the natural numbers (`p + k` and `&p[k]` are
`offset p k`); a rotation matrix `dMatrix3` has three rows of four scalars.
Offsets computed in `int` or `unsigned int`, such as `i*3` and `i*4`, are taken
to be exact. The macros and constants of `odemath.h` and `collision_kernel.h`
are not among the sources: the arithmetic ones are modelled below, the others
(`NUMC_MASK`, `CONTACTS_UNIMPORTANT`, `dInfinity`, `dEpsilon`, `dSqrt`,
`dNormalize3`, `dDOT13`) are parameters. A contact array is a function from the
index of a record to the record, and `SAFECONTACT(flags, contact, i, skip)` is
the record at index `i`. -/

section Convex

variable {α : Type} [LinearOrderedField α]

/-- The pointer `p + k`, or `&p[k]`. -/
def offset {β : Type} (p : Nat → β) (k : Nat) : Nat → β := fun j => p (k + j)

/-- The three assignments `v[0] = x; v[1] = y; v[2] = z;` to a vector. -/
def setVec3 (v : Nat → α) (x y z : α) : Nat → α :=
  fun j => if j = 0 then x else if j = 1 then y else if j = 2 then z else v j

/-- Modelled from the spec: the macro `dDOT(a,b)` of `odemath.h`, the dot product
of the first three components ("signed distance to the plane"). -/
def dDOT (a b : Nat → α) : α := a 0 * b 0 + a 1 * b 1 + a 2 * b 2

/-- Modelled from the spec: `dVector3Dot(a,b)`, the same dot product. -/
def dVector3Dot (a b : Nat → α) : α := a 0 * b 0 + a 1 * b 1 + a 2 * b 2

/-- Modelled from the spec: the macro `dMULTIPLY0_331(A,B,C)` of `odemath.h`,
`A = B*C` for a rotation matrix `B` and a vector `C` ("transformed to world
space"): `A[i] = dDOT(B + 4*i, C)` for `i = 0, 1, 2`. -/
def dMULTIPLY0_331 (A B C : Nat → α) : Nat → α :=
  setVec3 A (dDOT B C) (dDOT (offset B 4) C) (dDOT (offset B 8) C)

/-- Modelled from the spec: `dVector3Add(a,b,c)`, `c = a + b` on three
components. -/
def dVector3Add (a b c : Nat → α) : Nat → α :=
  setVec3 c (a 0 + b 0) (a 1 + b 1) (a 2 + b 2)

/-- Modelled from the spec: `dVector3Copy(a,c)`, `c = a` on three components. -/
def dVector3Copy (a c : Nat → α) : Nat → α := setVec3 c (a 0) (a 1) (a 2)

/-- Modelled from the spec: the macro `dCROSS(a,=,b,c)` of `odemath.h`, the cross
product `a = b x c` ("cross product of one edge from each convex"). -/
def dCROSS (a b c : Nat → α) : Nat → α :=
  setVec3 a (b 1 * c 2 - b 2 * c 1) (b 2 * c 0 - b 0 * c 2) (b 0 * c 1 - b 1 * c 0)

/-- Modelled from the spec: `dFabs`, the absolute value. -/
def dFabs (x : α) : α := if x < 0 then -x else x

/-- `dxPosR`: position and rotation. -/
structure dxPosR (α : Type) where
  pos : Nat → α
  R : Nat → α

/-- `dContactGeom`, the fields that the convex colliders write. `g1` and `g2` are
pointers to geometries. -/
structure dContactGeom (α : Type) where
  pos : Nat → α
  normal : Nat → α
  depth : α
  g1 : Nat
  g2 : Nat

/-- `dxConvex`: the pose, the plane, point and polygon arrays with their counts,
and the edge set in its iteration order. -/
structure dxConvex (α : Type) where
  final_posr : dxPosR α
  planes : Nat → α
  planecount : Nat
  points : Nat → α
  pointcount : Nat
  polygons : Nat → Nat
  edges : List (Nat × Nat)

/-- `dxPlane`: the plane equation `p[0..3]`. -/
structure dxPlane (α : Type) where
  p : Nat → α

/-- `dxSphere`: pose and radius. -/
structure dxSphere (α : Type) where
  final_posr : dxPosR α
  radius : α

/-- `dxRay`: pose and length. -/
structure dxRay (α : Type) where
  final_posr : dxPosR α
  length : α

/-- What a collider leaves: the value it returns and the contact array. -/
structure Contacts (α : Type) where
  count : Nat
  contact : Nat → dContactGeom α

/-- The vertex at offset `k` of the point array in world space: the statements
`dMULTIPLY0_331 (v,R,&points[k]); v[i] = pos[i] + v[i];` on a fresh vector. -/
def worldPoint (cvx : dxConvex α) (k : Nat) : Nat → α :=
  dVector3Add cvx.final_posr.pos
    (dMULTIPLY0_331 (fun _ => 0) cvx.final_posr.R (offset cvx.points k))
    (dMULTIPLY0_331 (fun _ => 0) cvx.final_posr.R (offset cvx.points k))

/-- `LTEQ_ZERO`. -/
def LTEQ_ZERO : Nat := 0x10000000

/-- `GTEQ_ZERO`. -/
def GTEQ_ZERO : Nat := 0x20000000

/-- `BOTH_SIGNS`. -/
def BOTH_SIGNS : Nat := LTEQ_ZERO ||| GTEQ_ZERO

/-- The loop of `dCollideConvexPlane` over the vertices: arguments are the
iterations left, the index `i`, and `contacts`, `totalsign` and the contact
array. -/
def convexPlaneLoop (Convex : dxConvex α) (Plane : dxPlane α) (o1 o2 maxc : Nat) :
    Nat → Nat → Nat × Nat × (Nat → dContactGeom α) → Nat × Nat × (Nat → dContactGeom α)
  | 0, _, st => st
  | rem + 1, i, (contacts, totalsign, contact) =>
    let v2 := worldPoint Convex (i * 3)
    let distance2 := dVector3Dot Plane.p v2 - Plane.p 3
    let distance2sign :=
      if distance2 ≤ 0 then (if distance2 ≠ 0 then LTEQ_ZERO else BOTH_SIGNS) else GTEQ_ZERO
    let st2 : Nat × (Nat → dContactGeom α) :=
      if distance2 ≤ 0 ∧ contacts ≠ maxc then
        (contacts + 1, Function.update contact contacts
          { normal := dVector3Copy Plane.p (contact contacts).normal
            pos := dVector3Copy v2 (contact contacts).pos
            depth := -distance2
            g1 := o1
            g2 := o2 })
      else (contacts, contact)
    let totalsign2 := totalsign ||| distance2sign
    if (st2.1 ^^^ maxc) ||| totalsign2 = BOTH_SIGNS then (st2.1, totalsign2, st2.2)
    else convexPlaneLoop Convex Plane o1 o2 maxc rem (i + 1) (st2.1, totalsign2, st2.2)

/-- `dCollideConvexPlane (o1, o2, flags, contact, skip)` for the convex `Convex`
at `o1` and the plane `Plane` at `o2`. The assertions on `skip` and on the
classes of the geometries are left out. -/
def dCollideConvexPlane (NUMC_MASK : Nat) (Convex : dxConvex α) (Plane : dxPlane α)
    (o1 o2 : Nat) (flags : Nat) (contact : Nat → dContactGeom α) : Outcome (Contacts α) :=
  if ¬ (1 ≤ flags &&& NUMC_MASK) then
    .failed "assertion \"(flags & NUMC_MASK) >= 1\" failed" { count := 0, contact := contact }
  else if ¬ (BOTH_SIGNS &&& NUMC_MASK = 0) then
    .failed "assertion \"(BOTH_SIGNS & NUMC_MASK) == 0\" failed"
      { count := 0, contact := contact }
  else
    let maxc := flags &&& NUMC_MASK
    let st := convexPlaneLoop Convex Plane o1 o2 maxc Convex.pointcount 0 (0, 0, contact)
    if st.2.1 = BOTH_SIGNS then .ok { count := st.1, contact := st.2.2 }
    else .ok { count := 0, contact := st.2.2 }

end Convex

/-- The identity rotation, as a `dMatrix3`. -/
def identityR : Nat → ℚ := fun k => if k = 0 ∨ k = 5 ∨ k = 10 then 1 else 0

/-- The eight vertices of the axis-aligned cube of half-extent `h` centred at the
origin: coordinate `c` of vertex `v` is `-h` when bit `c` of `v` is clear and
`h` when it is set. -/
def cubePoints (h : ℚ) : Nat → ℚ :=
  fun k => if (k / 3) / 2 ^ (k % 3) % 2 = 0 then -h else h

/-- The six planes of that cube, outward normals: `+x, -x, +y, -y, +z, -z`, each
with offset `h`. -/
def cubePlanes (h : ℚ) : Nat → ℚ :=
  fun k =>
    if k % 4 = 3 then h
    else if k % 4 = (k / 4) / 2 then (if (k / 4) % 2 = 0 then 1 else -1)
    else 0

/-- The polygon buffer of the cube: six quads, each the count `4` followed by the
indices of its vertices in order around the face. -/
def cubePolygons : Nat → Nat :=
  fun k => ([4, 1, 3, 7, 5, 4, 0, 4, 6, 2, 4, 2, 6, 7, 3, 4, 0, 1, 5, 4, 4, 4, 5, 7, 6,
    4, 0, 2, 3, 1] : List Nat).getD k 0

/-- The convex cube of half-extent `h` at position `pos` with the identity
rotation. The edge set is left empty where it is not read. -/
def cubeConvex (h : ℚ) (pos : Nat → ℚ) (edges : List (Nat × Nat)) : dxConvex ℚ :=
  { final_posr := { pos := pos, R := identityR }
    planes := cubePlanes h, planecount := 6
    points := cubePoints h, pointcount := 8
    polygons := cubePolygons, edges := edges }

/-- An empty contact array. -/
def noContacts : Nat → dContactGeom ℚ :=
  fun _ => { pos := fun _ => 0, normal := fun _ => 0, depth := 0, g1 := 0, g2 := 0 }

/-- The plane with normal `(0,0,1)` and offset `d`. -/
def zPlane (d : ℚ) : dxPlane ℚ := { p := fun k => if k = 2 then 1 else if k = 3 then d else 0 }

section ConvexPlaneSpec

variable {α : Type} [LinearOrderedField α]

/-- The signed distance `distance2` of vertex `i` of the convex to the plane, as
the loop of `dCollideConvexPlane` computes it. -/
def planeDistance (Convex : dxConvex α) (Plane : dxPlane α) (i : Nat) : α :=
  dVector3Dot Plane.p (worldPoint Convex (i * 3)) - Plane.p 3

/-- The contact that `dCollideConvexPlane` stores for vertex `i` in a record that
held `old`. -/
def planeContact (Convex : dxConvex α) (Plane : dxPlane α) (o1 o2 : Nat)
    (old : dContactGeom α) (i : Nat) : dContactGeom α :=
  { normal := dVector3Copy Plane.p old.normal
    pos := dVector3Copy (worldPoint Convex (i * 3)) old.pos
    depth := -planeDistance Convex Plane i
    g1 := o1
    g2 := o2 }

/-- The vertices among the `n` first whose signed distance is not positive, in
index order. -/
def touching (Convex : dxConvex α) (Plane : dxPlane α) (i n : Nat) : List Nat :=
  (List.range' i n).filter (fun k => planeDistance Convex Plane k ≤ 0)

/-- The value of `totalsign` when a distance `<= 0` has been seen (`le`) and a
distance `>= 0` has been seen (`ge`). -/
def signBits (le ge : Bool) : Nat :=
  (if le then LTEQ_ZERO else 0) ||| (if ge then GTEQ_ZERO else 0)

end ConvexPlaneSpec

/-- The vertices of a convex, as triples of local coordinates in index order. -/
def vertexList {α : Type} (cvx : dxConvex α) : List (α × α × α) :=
  (List.range cvx.pointcount).map
    (fun v => (cvx.points (v * 3), cvx.points (v * 3 + 1), cvx.points (v * 3 + 2)))

/-- The eight corners of the axis-aligned cube of half-extent `h` centred at the
origin. -/
def cubeCorners (h : ℚ) : List (ℚ × ℚ × ℚ) :=
  [(-h, -h, -h), (h, -h, -h), (-h, h, -h), (h, h, -h),
   (-h, -h, h), (h, -h, h), (-h, h, h), (h, h, h)]

section SphereConvex

variable {α : Type} [LinearOrderedField α]

/-- The loop of `IsPointInPolygon`; `polygon` points past the count. Arguments:
iterations left, `i`, `out`. Result: the value returned and `out`. -/
def IsPointInPolygonLoop (p : Nat → α) (polygon : Nat → Nat) (convex : dxConvex α)
    (pointcount : Nat) : Nat → Nat → (Nat → α) → Bool × (Nat → α)
  | 0, _, out => (true, out)
  | rem + 1, i, out =>
    let a := worldPoint convex (polygon i * 3)
    let b := worldPoint convex (polygon ((i + 1) % pointcount) * 3)
    let c := worldPoint convex (polygon ((i + 2) % pointcount) * 3)
    let ab := setVec3 (fun _ => 0) (b 0 - a 0) (b 1 - a 1) (b 2 - a 2)
    let ac := setVec3 (fun _ => 0) (c 0 - a 0) (c 1 - a 1) (c 2 - a 2)
    let ap := setVec3 (fun _ => 0) (p 0 - a 0) (p 1 - a 1) (p 2 - a 2)
    let d1 := dDOT ab ap
    let d2 := dDOT ac ap
    if d1 ≤ 0 ∧ d2 ≤ 0 then (false, setVec3 out (a 0) (a 1) (a 2))
    else
      let bp := setVec3 (fun _ => 0) (p 0 - b 0) (p 1 - b 1) (p 2 - b 2)
      let d3 := dDOT ab bp
      let d4 := dDOT ac bp
      if 0 ≤ d3 ∧ d4 ≤ d3 then (false, setVec3 out (b 0) (b 1) (b 2))
      else
        let vc := d1 * d4 - d3 * d2
        if vc ≤ 0 ∧ 0 ≤ d1 ∧ d3 ≤ 0 then
          let v := d1 / (d1 - d3)
          (false, setVec3 out (a 0 + ab 0 * v) (a 1 + ab 1 * v) (a 2 + ab 2 * v))
        else IsPointInPolygonLoop p polygon convex pointcount rem (i + 1) out

/-- `IsPointInPolygon(p, polygon, convex, out)`: the value returned and `out`. -/
def IsPointInPolygon (p : Nat → α) (polygon : Nat → Nat) (convex : dxConvex α)
    (out : Nat → α) : Bool × (Nat → α) :=
  IsPointInPolygonLoop p (offset polygon 1) convex (polygon 0) (polygon 0) 0 out

/-- The vector `plane` of `dCollideSphereConvex` for face `i`: the rotated normal
of the face and, at index 3, its offset. -/
def rotatedPlane (Convex : dxConvex α) (i : Nat) : Nat → α :=
  Function.update
    (dMULTIPLY0_331 (fun _ => 0) Convex.final_posr.R (offset Convex.planes (i * 4)))
    3 (offset Convex.planes (i * 4) 3)

/-- The vector `offsetpos` of `dCollideSphereConvex`. -/
def offsetpos (Sphere : dxSphere α) (Convex : dxConvex α) : Nat → α :=
  setVec3 (fun _ => 0) (Sphere.final_posr.pos 0 - Convex.final_posr.pos 0)
    (Sphere.final_posr.pos 1 - Convex.final_posr.pos 1)
    (Sphere.final_posr.pos 2 - Convex.final_posr.pos 2)

/-- The distance `dist` from the sphere centre to the plane of face `i`, as
`dCollideSphereConvex` computes it. -/
def sphereDistance (Sphere : dxSphere α) (Convex : dxConvex α) (i : Nat) : α :=
  dVector3Dot (rotatedPlane Convex i) (offsetpos Sphere Convex) - rotatedPlane Convex i 3

/-- How the loop of `dCollideSphereConvex` ends: with `return 1` and the contact
written, or at the end of the faces with `closestdist`, `closestplane` and
`sphereinside`. -/
inductive SphereScan (α : Type) where
  | hit : dContactGeom α → SphereScan α
  | done : α → Nat → Bool → SphereScan α

/-- The loop of `dCollideSphereConvex` over the faces. Arguments: iterations
left, `i`, and `closestdist`, `closestplane`, `sphereinside` and the offset of
`pPoly` in the polygon buffer. `old` is the record that `contact` points to. -/
def sphereConvexLoop (dSqrt : α → α) (Sphere : dxSphere α) (Convex : dxConvex α)
    (o1 o2 : Nat) (old : dContactGeom α) :
    Nat → Nat → α × Nat × Bool × Nat → SphereScan α
  | 0, _, (closestdist, closestplane, sphereinside, _) =>
    .done closestdist closestplane sphereinside
  | rem + 1, i, (closestdist, closestplane, sphereinside, pPoly) =>
    let plane := rotatedPlane Convex i
    let dist := dVector3Dot plane (offsetpos Sphere Convex) - plane 3
    if 0 < dist then
      if dist < Sphere.radius then
        let inside := IsPointInPolygon Sphere.final_posr.pos (offset Convex.polygons pPoly)
          Convex (fun _ => 0)
        if inside.1 then
          .hit
            { normal := setVec3 old.normal (plane 0) (plane 1) (plane 2)
              pos := setVec3 old.pos
                (Sphere.final_posr.pos 0 + (-(plane 0) * Sphere.radius))
                (Sphere.final_posr.pos 1 + (-(plane 1) * Sphere.radius))
                (Sphere.final_posr.pos 2 + (-(plane 2) * Sphere.radius))
              depth := Sphere.radius - dist
              g1 := o1
              g2 := o2 }
        else
          let out := inside.2
          let temp := setVec3 (fun _ => 0) (Sphere.final_posr.pos 0 - out 0)
            (Sphere.final_posr.pos 1 - out 1) (Sphere.final_posr.pos 2 - out 2)
          let dist2 := temp 0 * temp 0 + temp 1 * temp 1 + temp 2 * temp 2
          if dist2 < Sphere.radius * Sphere.radius then
            let dist3 := dSqrt dist2
            .hit
              { normal := setVec3 old.normal (temp 0 / dist3) (temp 1 / dist3) (temp 2 / dist3)
                pos := setVec3 old.pos
                  (Sphere.final_posr.pos 0 + (-(temp 0 / dist3) * Sphere.radius))
                  (Sphere.final_posr.pos 1 + (-(temp 1 / dist3) * Sphere.radius))
                  (Sphere.final_posr.pos 2 + (-(temp 2 / dist3) * Sphere.radius))
                depth := Sphere.radius - dist3
                g1 := o1
                g2 := o2 }
          else
            sphereConvexLoop dSqrt Sphere Convex o1 o2 old rem (i + 1)
              (closestdist, closestplane, false, pPoly + (Convex.polygons pPoly + 1))
      else
        sphereConvexLoop dSqrt Sphere Convex o1 o2 old rem (i + 1)
          (closestdist, closestplane, false, pPoly + (Convex.polygons pPoly + 1))
    else if sphereinside = true ∧ dFabs dist < closestdist then
      sphereConvexLoop dSqrt Sphere Convex o1 o2 old rem (i + 1)
        (dFabs dist, i, sphereinside, pPoly + (Convex.polygons pPoly + 1))
    else
      sphereConvexLoop dSqrt Sphere Convex o1 o2 old rem (i + 1)
        (closestdist, closestplane, sphereinside, pPoly + (Convex.polygons pPoly + 1))

/-- `dCollideSphereConvex (o1, o2, flags, contact, skip)` for the sphere `Sphere`
at `o1` and the convex `Convex` at `o2`. The local `closestplane` is declared
without a value: what it holds before a face sets it is the parameter
`closestplane`. -/
def dCollideSphereConvex (NUMC_MASK : Nat) (dInfinity : α) (dSqrt : α → α)
    (closestplane : Nat) (Sphere : dxSphere α) (Convex : dxConvex α) (o1 o2 : Nat)
    (flags : Nat) (contact : Nat → dContactGeom α) : Outcome (Contacts α) :=
  if ¬ (1 ≤ flags &&& NUMC_MASK) then
    .failed "assertion \"(flags & NUMC_MASK) >= 1\" failed" { count := 0, contact := contact }
  else
    match sphereConvexLoop dSqrt Sphere Convex o1 o2 (contact 0) Convex.planecount 0
        (dInfinity, closestplane, true, 0) with
    | .hit c => .ok { count := 1, contact := Function.update contact 0 c }
    | .done closestdist closestplane sphereinside =>
      if sphereinside = true then
        .ok { count := 1
              contact := Function.update contact 0
                { normal := dMULTIPLY0_331 (contact 0).normal Convex.final_posr.R
                    (offset Convex.planes (closestplane * 4))
                  pos := setVec3 (contact 0).pos (Sphere.final_posr.pos 0)
                    (Sphere.final_posr.pos 1) (Sphere.final_posr.pos 2)
                  depth := closestdist + Sphere.radius
                  g1 := o1
                  g2 := o2 } }
      else .ok { count := 0, contact := contact }

end SphereConvex

/-- The faces of a convex, as quadruples (normal and offset) in index order. -/
def planeList {α : Type} (cvx : dxConvex α) : List (α × α × α × α) :=
  (List.range cvx.planecount).map
    (fun i => (cvx.planes (i * 4), cvx.planes (i * 4 + 1), cvx.planes (i * 4 + 2),
      cvx.planes (i * 4 + 3)))

/-- The six faces of the axis-aligned cube of half-extent `h` centred at the
origin. -/
def cubeFaces (h : ℚ) : List (ℚ × ℚ × ℚ × ℚ) :=
  [(1, 0, 0, h), (-1, 0, 0, h), (0, 1, 0, h), (0, -1, 0, h), (0, 0, 1, h), (0, 0, -1, h)]

/-- The sphere of radius `r` centred at `(x, y, z)`. -/
def sphereAt (x y z r : ℚ) : dxSphere ℚ :=
  { final_posr := { pos := fun k => if k = 0 then x else if k = 1 then y else if k = 2 then z
                      else 0
                    R := identityR }
    radius := r }

section ConvexConvex

variable {α : Type} [LinearOrderedField α]

/-- The vector `point` of `ComputeInterval` for vertex `i`: the statements
`dMULTIPLY0_331 (point,R,points+(i*3)); point[k] += pos[k];`. -/
def intervalPoint (cvx : dxConvex α) (i : Nat) : Nat → α :=
  let point := dMULTIPLY0_331 (fun _ => 0) cvx.final_posr.R (offset cvx.points (i * 3))
  setVec3 point (point 0 + cvx.final_posr.pos 0) (point 1 + cvx.final_posr.pos 1)
    (point 2 + cvx.final_posr.pos 2)

/-- The loop of `ComputeInterval`. Arguments: iterations left, `i`, and `min`,
`max`. -/
def ComputeIntervalLoop (cvx : dxConvex α) (axis : Nat → α) : Nat → Nat → α × α → α × α
  | 0, _, mm => mm
  | rem + 1, i, (min, max) =>
    let value := dDOT (intervalPoint cvx i) axis - axis 3
    if value < min then ComputeIntervalLoop cvx axis rem (i + 1) (value, max)
    else if max < value then ComputeIntervalLoop cvx axis rem (i + 1) (min, value)
    else ComputeIntervalLoop cvx axis rem (i + 1) (min, max)

/-- `ComputeInterval(cvx, axis, min, max)`: the pair `(min, max)`. The first
vertex is read whatever `pointcount` is. -/
def ComputeInterval (cvx : dxConvex α) (axis : Nat → α) : α × α :=
  let value := dDOT (intervalPoint cvx 0) axis - axis 3
  ComputeIntervalLoop cvx axis (cvx.pointcount - 1) 1 (value, value)

/-- The variables that `CheckSATConvexFaces` updates through its reference
parameters: `min_depth`, `side_index`, and the convexes that `*g1` and `*g2`
point to (`none` for `NULL`). -/
structure SATState (α : Type) where
  min_depth : α
  side_index : Int
  g1 : Option (dxConvex α)
  g2 : Option (dxConvex α)

/-- The vector `plane` of `CheckSATConvexFaces` for face `i` of `cvx1`. -/
def facePlane (dNormalize3 : (Nat → α) → (Nat → α)) (cvx1 : dxConvex α) (i : Nat) : Nat → α :=
  let plane := dNormalize3
    (dMULTIPLY0_331 (fun _ => 0) cvx1.final_posr.R (offset cvx1.planes (i * 4)))
  Function.update plane 3
    (cvx1.planes (i * 4 + 3) +
      (plane 0 * cvx1.final_posr.pos 0 + plane 1 * cvx1.final_posr.pos 1 +
        plane 2 * cvx1.final_posr.pos 2))

/-- The loop of `CheckSATConvexFaces`. Arguments: iterations left, `i`, and the
variables behind the reference parameters. Result: the value returned and those
variables. -/
def CheckSATConvexFacesLoop (dNormalize3 : (Nat → α) → (Nat → α)) (cvx1 cvx2 : dxConvex α) :
    Nat → Nat → SATState α → Bool × SATState α
  | 0, _, st => (true, st)
  | rem + 1, i, st =>
    let plane := facePlane dNormalize3 cvx1 i
    let mm1 := ComputeInterval cvx1 plane
    let mm2 := ComputeInterval cvx2 plane
    if mm2.2 < mm1.1 ∨ mm1.2 < mm2.1 then (false, st)
    else
      let depth := min mm1.2 mm2.2 - max mm1.1 mm2.1
      if mm2.2 * mm2.1 < 0 ∧ dFabs depth < dFabs st.min_depth then
        CheckSATConvexFacesLoop dNormalize3 cvx1 cvx2 rem (i + 1)
          { min_depth := depth, side_index := (i : Int), g1 := some cvx1, g2 := some cvx2 }
      else CheckSATConvexFacesLoop dNormalize3 cvx1 cvx2 rem (i + 1) st

/-- `CheckSATConvexFaces(cvx1, cvx2, min_depth, side_index, g1, g2)`. -/
def CheckSATConvexFaces (dNormalize3 : (Nat → α) → (Nat → α)) (cvx1 cvx2 : dxConvex α)
    (st : SATState α) : Bool × SATState α :=
  CheckSATConvexFacesLoop dNormalize3 cvx1 cvx2 cvx1.planecount 0 st

/-- The edge vector of `CheckSATConvexEdges` for the edge `e` of `cvx`: the second
end point minus the first, both rotated. -/
def edgeVector (cvx : dxConvex α) (e : Nat × Nat) : Nat → α :=
  let t := dMULTIPLY0_331 (fun _ => 0) cvx.final_posr.R (offset cvx.points (e.1 * 3))
  let e1 := dMULTIPLY0_331 (fun _ => 0) cvx.final_posr.R (offset cvx.points (e.2 * 3))
  setVec3 e1 (e1 0 - t 0) (e1 1 - t 1) (e1 2 - t 2)

/-- The vector `plane` of `CheckSATConvexEdges` for the edge vectors `e1`, `e2`. -/
def edgePlane (e1 e2 : Nat → α) : Nat → α :=
  Function.update (dCROSS (fun _ => 0) e1 e2) 3 0

/-- The inner loop of `CheckSATConvexEdges`, over the edges of `cvx2` that are
left. -/
def CheckSATConvexEdgesInner (cvx1 cvx2 : dxConvex α) (e1 : Nat → α) :
    List (Nat × Nat) → Bool
  | [] => true
  | j :: js =>
    let plane := edgePlane e1 (edgeVector cvx2 j)
    let mm1 := ComputeInterval cvx1 plane
    let mm2 := ComputeInterval cvx2 plane
    if mm2.2 < mm1.1 ∨ mm1.2 < mm2.1 then false
    else CheckSATConvexEdgesInner cvx1 cvx2 e1 js

/-- The outer loop of `CheckSATConvexEdges`, over the edges of `cvx1` that are
left. -/
def CheckSATConvexEdgesOuter (cvx1 cvx2 : dxConvex α) : List (Nat × Nat) → Bool
  | [] => true
  | i :: is =>
    if CheckSATConvexEdgesInner cvx1 cvx2 (edgeVector cvx1 i) cvx2.edges then
      CheckSATConvexEdgesOuter cvx1 cvx2 is
    else false

/-- `CheckSATConvexEdges(cvx1, cvx2, ...)`: the value returned; the reference
parameters are not written. -/
def CheckSATConvexEdges (cvx1 cvx2 : dxConvex α) : Bool :=
  CheckSATConvexEdgesOuter cvx1 cvx2 cvx1.edges

/-- The loop `for(int i=0;i<side_index;++i) pPoly+=pPoly[0]+1;` of
`TestConvexIntersection`: the offset of `pPoly` in the polygon buffer. -/
def skipPolygons (polygons : Nat → Nat) : Nat → Nat → Nat
  | 0, pPoly => pPoly
  | rem + 1, pPoly => skipPolygons polygons rem (pPoly + (polygons pPoly + 1))

/-- The loop of `TestConvexIntersection` over the vertices of the face at
`pPoly`. Arguments: iterations left, `i`, and `contacts` with the contact
array. -/
def faceContactLoop (g1 : dxConvex α) (pPoly : Nat → Nat) (maxc : Nat) :
    Nat → Nat → Nat × (Nat → dContactGeom α) → Contacts α
  | 0, _, (contacts, contact) => { count := contacts, contact := contact }
  | rem + 1, i, (contacts, contact) =>
    let pos1 := dMULTIPLY0_331 (contact contacts).pos g1.final_posr.R
      (offset g1.points (pPoly (i + 1) * 3))
    let pos2 := dVector3Add g1.final_posr.pos pos1 pos1
    let contact2 := Function.update contact contacts { contact contacts with pos := pos2 }
    if contacts + 1 = maxc then { count := contacts + 1, contact := contact2 }
    else faceContactLoop g1 pPoly maxc rem (i + 1) (contacts + 1, contact2)

/-- `TestConvexIntersection(cvx1, cvx2, flags, contact, skip)`. -/
def TestConvexIntersection (NUMC_MASK : Nat) (dInfinity : α)
    (dNormalize3 : (Nat → α) → (Nat → α)) (cvx1 cvx2 : dxConvex α) (flags : Nat)
    (contact : Nat → dContactGeom α) : Outcome (Contacts α) :=
  let maxc := flags &&& NUMC_MASK
  if maxc = 0 then
    .failed "assertion \"maxc != 0\" failed" { count := 0, contact := contact }
  else
    let r1 := CheckSATConvexFaces dNormalize3 cvx1 cvx2
      { min_depth := dInfinity, side_index := -1, g1 := none, g2 := none }
    if r1.1 = false then .ok { count := 0, contact := contact }
    else
      let r2 := CheckSATConvexFaces dNormalize3 cvx2 cvx1 r1.2
      if r2.1 = false then .ok { count := 0, contact := contact }
      else if CheckSATConvexEdges cvx1 cvx2 = false then .ok { count := 0, contact := contact }
      else
        match r2.2.g1 with
        | none => .ok { count := 0, contact := contact }
        | some g1 =>
          let pPoly := skipPolygons g1.polygons r2.2.side_index.toNat 0
          .ok (faceContactLoop g1 (offset g1.polygons pPoly) maxc (g1.polygons pPoly) 0
            (0, contact))

/-- `dCollideConvexConvex (o1, o2, flags, contact, skip)` for the convexes
`Convex1` at `o1` and `Convex2` at `o2`. -/
def dCollideConvexConvex (NUMC_MASK : Nat) (dInfinity : α)
    (dNormalize3 : (Nat → α) → (Nat → α)) (Convex1 Convex2 : dxConvex α) (flags : Nat)
    (contact : Nat → dContactGeom α) : Outcome (Contacts α) :=
  if ¬ (1 ≤ flags &&& NUMC_MASK) then
    .failed "assertion \"(flags & NUMC_MASK) >= 1\" failed" { count := 0, contact := contact }
  else TestConvexIntersection NUMC_MASK dInfinity dNormalize3 Convex1 Convex2 flags contact

/-- The projections of the world-space vertices of `cvx1` and of `cvx2` on the
axis `a` are disjoint: every vertex of one projects strictly below every vertex
of the other. -/
def Separated (cvx1 cvx2 : dxConvex α) (a : Nat → α) : Prop :=
  (∀ v1 v2, v1 < cvx1.pointcount → v2 < cvx2.pointcount →
    dDOT (worldPoint cvx1 (v1 * 3)) a < dDOT (worldPoint cvx2 (v2 * 3)) a) ∨
  (∀ v1 v2, v1 < cvx1.pointcount → v2 < cvx2.pointcount →
    dDOT (worldPoint cvx2 (v2 * 3)) a < dDOT (worldPoint cvx1 (v1 * 3)) a)

/-- The world-space normal of face `i` of `cvx`: the normal rotated by the
rotation of the shape. -/
def worldNormal (cvx : dxConvex α) (i : Nat) : Nat → α :=
  dMULTIPLY0_331 (fun _ => 0) cvx.final_posr.R (offset cvx.planes (i * 4))

/-- What is assumed of `dNormalize3`: a vector that is not zero is scaled by a
positive factor. -/
def Normalises (dNormalize3 : (Nat → α) → (Nat → α)) : Prop :=
  ∀ v : Nat → α, (v 0 ≠ 0 ∨ v 1 ≠ 0 ∨ v 2 ≠ 0) →
    ∃ c : α, 0 < c ∧ ∀ k, k < 3 → dNormalize3 v k = c * v k

end ConvexConvex

section RayConvex

variable {α : Type} [LinearOrderedField α]

/-- The first loop of `dCollideRayConvex`: the value of `flag` after it, `1` when
the start of the ray is on or in front of the plane of a face. Arguments:
iterations left and `i`. -/
def rayStartLoop (ray : dxRay α) (convex : dxConvex α) : Nat → Nat → Nat
  | 0, _ => 0
  | rem + 1, i =>
    let plane := offset convex.planes (i * 4)
    let alpha := dDOT plane ray.final_posr.pos - plane 3
    if 0 ≤ alpha then 1 else rayStartLoop ray convex rem (i + 1)

/-- The loop of `dCollideRayConvex` over the planes `j` other than `i`: the value
of `flag` after it. The offset subtracted is that of `plane`, the plane of face
`i`. Arguments: iterations left and `j`. -/
def rayOtherPlanesLoop (dEpsilon : α) (convex : dxConvex α) (plane : Nat → α)
    (pos : Nat → α) (i : Nat) : Nat → Nat → Nat
  | 0, _ => 0
  | rem + 1, j =>
    if i = j then rayOtherPlanesLoop dEpsilon convex plane pos i rem (j + 1)
    else
      let planej := offset convex.planes (j * 4)
      let beta := dDOT planej pos - plane 3
      if dEpsilon < beta then 1
      else rayOtherPlanesLoop dEpsilon convex plane pos i rem (j + 1)

/-- The second loop of `dCollideRayConvex`, over the faces: the record that
`contact` points to after it. Arguments: iterations left, `i` and that record. -/
def rayHitLoop (CONTACTS_UNIMPORTANT : Nat) (dEpsilon : α)
    (dDOT13 : (Nat → α) → (Nat → α) → α) (ray : dxRay α) (convex : dxConvex α)
    (flags : Nat) (nsign : α) : Nat → Nat → dContactGeom α → dContactGeom α
  | 0, _, c => c
  | rem + 1, i, c =>
    let plane := offset convex.planes (i * 4)
    let alpha := nsign * (dDOT plane ray.final_posr.pos - plane 3)
    let beta := dDOT13 plane (offset ray.final_posr.R 2) * nsign
    if beta < -dEpsilon ∧ 0 ≤ alpha ∧ alpha ≤ ray.length ∧ alpha < c.depth then
      let c1 : dContactGeom α :=
        { c with
          pos := setVec3 c.pos
            (ray.final_posr.pos 0 + alpha * ray.final_posr.R (0 * 4 + 2))
            (ray.final_posr.pos 1 + alpha * ray.final_posr.R (1 * 4 + 2))
            (ray.final_posr.pos 2 + alpha * ray.final_posr.R (2 * 4 + 2)) }
      if rayOtherPlanesLoop dEpsilon convex plane c1.pos i convex.planecount 0 = 0 then
        let c2 : dContactGeom α :=
          { c1 with
            normal := setVec3 c1.normal (nsign * plane 0) (nsign * plane 1) (nsign * plane 2)
            depth := alpha }
        if flags &&& CONTACTS_UNIMPORTANT ≠ 0 ∧ c2.depth ≤ ray.length then c2
        else rayHitLoop CONTACTS_UNIMPORTANT dEpsilon dDOT13 ray convex flags nsign rem (i + 1) c2
      else rayHitLoop CONTACTS_UNIMPORTANT dEpsilon dDOT13 ray convex flags nsign rem (i + 1) c1
    else rayHitLoop CONTACTS_UNIMPORTANT dEpsilon dDOT13 ray convex flags nsign rem (i + 1) c

/-- `dCollideRayConvex (o1, o2, flags, contact, skip)` for the ray `ray` at `o1`
and the convex `convex` at `o2`. -/
def dCollideRayConvex (NUMC_MASK CONTACTS_UNIMPORTANT : Nat) (dInfinity dEpsilon : α)
    (dDOT13 : (Nat → α) → (Nat → α) → α) (ray : dxRay α) (convex : dxConvex α)
    (o1 o2 : Nat) (flags : Nat) (contact : Nat → dContactGeom α) : Outcome (Contacts α) :=
  if ¬ (1 ≤ flags &&& NUMC_MASK) then
    .failed "assertion \"(flags & NUMC_MASK) >= 1\" failed" { count := 0, contact := contact }
  else
    let flag := rayStartLoop ray convex convex.planecount 0
    let nsign : α := if flag ≠ 0 then 1 else -1
    let c0 : dContactGeom α := { contact 0 with g1 := o1, g2 := o2, depth := dInfinity }
    let c := rayHitLoop CONTACTS_UNIMPORTANT dEpsilon dDOT13 ray convex flags nsign
      convex.planecount 0 c0
    .ok { count := if c.depth ≤ ray.length then 1 else 0
          contact := Function.update contact 0 c }

end RayConvex

/-- The ray of length `len` from `(x, y, z)` along the `z` axis of its frame,
which the identity rotation leaves along the world `z` axis. -/
def rayAt (x y z len : ℚ) : dxRay ℚ :=
  { final_posr := { pos := fun k => if k = 0 then x else if k = 1 then y else if k = 2 then z
                      else 0
                    R := identityR }
    length := len }

/-- Every invocation of the call-back recorded in the pass was made on two
geometries that satisfy `P`. -/
def CallsAmong {α δ : Type} (P : Nat → Prop) (p : Pass α δ) : Prop :=
  ∀ c ∈ p.calls, P c.2.1 ∧ P c.2.2.1

/-- The call-back leaves the flag `GEOM_ENABLED` of every geometry as it finds
it, whether it returns or fails. -/
def KeepsEnabled {α δ : Type} (GEOM_ENABLED : Nat)
    (callback : δ → Nat → Nat → dxSAPSpace α → Outcome (dxSAPSpace α)) : Prop :=
  ∀ (d : δ) (g1 g2 : Nat) (st : dxSAPSpace α) (g : Nat),
    ((callback d g1 g2 st).state.heap g).gflags &&& GEOM_ENABLED =
      (st.heap g).gflags &&& GEOM_ENABLED

/-- An enabled geometry record whose AABB has no lower bound on the first axis
(`-dInfinity` for `dInfinity = 2000000`) and the upper bound `5`, as the AABB of
a half-space has; on the other axes it extends from 0 to 5. -/
def halfSpaceGeom : dxGeom Int :=
  { gflags := 16, body := 0, category_bits := 1, collide_bits := 1, parent_space := 100,
    next := -1, tome := 0,
    aabb := fun i => if i = 0 then -2000000 else if i % 2 = 0 then 0 else 5 }

/-- The closed intervals of two boxes on the axis stored at `axidx` touch: both
intervals are well formed and the maximum of one is the minimum of the other. -/
def TouchOn {α : Type} [LinearOrder α] (axidx : Nat) (g h : dxGeom α) : Prop :=
  (g.aabb axidx ≤ g.aabb (axidx + 1) ∧ h.aabb axidx ≤ h.aabb (axidx + 1)) ∧
    (g.aabb (axidx + 1) = h.aabb axidx ∨ h.aabb (axidx + 1) = g.aabb axidx)

instance {α : Type} [LinearOrder α] (axidx : Nat) (g h : dxGeom α) :
    Decidable (TouchOn axidx g h) := by
  unfold TouchOn; infer_instance

section ConvexShape

variable {α : Type} [LinearOrder α]

/-- The macro `dMIN(A,B)` of `convex.cpp`: `((A)>(B) ? (B) : (A))`. -/
def dMIN (A B : α) : α := if B < A then B else A

/-- The macro `dMAX(A,B)` of `convex.cpp`: `((A)>(B) ? (A) : (B))`. -/
def dMAX (A B : α) : α := if B < A then A else B

end ConvexShape

section ConvexAABB

variable {α : Type} [LinearOrderedField α]

/-- The loop of `dxConvex::computeAABB`. Arguments: iterations left, the offset
`i` into the point array, and `aabb`. -/
def computeAABBLoop (cvx : dxConvex α) : Nat → Nat → (Nat → α) → (Nat → α)
  | 0, _, aabb => aabb
  | rem + 1, i, aabb =>
    let point := dMULTIPLY0_331 (fun _ => 0) cvx.final_posr.R (offset cvx.points i)
    let aabb0 := Function.update aabb 0 (dMIN (aabb 0) (point 0 + cvx.final_posr.pos 0))
    let aabb1 := Function.update aabb0 1 (dMAX (aabb0 1) (point 0 + cvx.final_posr.pos 0))
    let aabb2 := Function.update aabb1 2 (dMIN (aabb1 2) (point 1 + cvx.final_posr.pos 1))
    let aabb3 := Function.update aabb2 3 (dMAX (aabb2 3) (point 1 + cvx.final_posr.pos 1))
    let aabb4 := Function.update aabb3 4 (dMIN (aabb3 4) (point 2 + cvx.final_posr.pos 2))
    let aabb5 := Function.update aabb4 5 (dMAX (aabb4 5) (point 2 + cvx.final_posr.pos 2))
    computeAABBLoop cvx rem (i + 3) aabb5

/-- `dxConvex::computeAABB()`: the array `aabb` after the call, from the array
before it. The first vertex is read whatever `pointcount` is; the loop runs for
`i = 3, 6, ...` below `pointcount*3`. -/
def computeAABB (cvx : dxConvex α) (aabb : Nat → α) : Nat → α :=
  let point := dMULTIPLY0_331 (fun _ => 0) cvx.final_posr.R cvx.points
  let aabb0 := Function.update aabb 0 (point 0 + cvx.final_posr.pos 0)
  let aabb1 := Function.update aabb0 1 (point 0 + cvx.final_posr.pos 0)
  let aabb2 := Function.update aabb1 2 (point 1 + cvx.final_posr.pos 1)
  let aabb3 := Function.update aabb2 3 (point 1 + cvx.final_posr.pos 1)
  let aabb4 := Function.update aabb3 4 (point 2 + cvx.final_posr.pos 2)
  let aabb5 := Function.update aabb4 5 (point 2 + cvx.final_posr.pos 2)
  computeAABBLoop cvx (cvx.pointcount - 1) 3 aabb5

/-- Coordinate `k` of vertex `v` of the convex in world space, `R*v + pos`. -/
def worldCoord (cvx : dxConvex α) (v k : Nat) : α :=
  dMULTIPLY0_331 (fun _ => 0) cvx.final_posr.R (offset cvx.points (v * 3)) k +
    cvx.final_posr.pos k

end ConvexAABB

section ConvexEdges

variable {α : Type}

/-- `std::set<edge>::insert` on a set of pairs held in its iteration order, which
is ascending in the lexicographic order of `std::pair`: a pair that is in the
set already is not inserted again. -/
def setInsert (e : Nat × Nat) : List (Nat × Nat) → List (Nat × Nat)
  | [] => [e]
  | x :: xs =>
    if e = x then x :: xs
    else if e.1 < x.1 ∨ (e.1 = x.1 ∧ e.2 < x.2) then e :: x :: xs
    else x :: setInsert e xs

/-- The inner loop of `dxConvex::FillEdges` for the polygon at the offset
`points_in_poly` of the polygon buffer (`index` is `points_in_poly + 1`).
Arguments: iterations left, `j`, and the edge set. -/
def fillPolygonEdges (polygons : Nat → Nat) (points_in_poly : Nat) :
    Nat → Nat → List (Nat × Nat) → List (Nat × Nat)
  | 0, _, edges => edges
  | rem + 1, j, edges =>
    let index := offset polygons (points_in_poly + 1)
    fillPolygonEdges polygons points_in_poly rem (j + 1)
      (setInsert (dMIN (index j) (index ((j + 1) % polygons points_in_poly)),
        dMAX (index j) (index ((j + 1) % polygons points_in_poly))) edges)

/-- The outer loop of `dxConvex::FillEdges`. Arguments: iterations left, the
offset of `points_in_poly` in the polygon buffer, and the edge set. -/
def FillEdgesLoop (polygons : Nat → Nat) : Nat → Nat → List (Nat × Nat) → List (Nat × Nat)
  | 0, _, edges => edges
  | rem + 1, points_in_poly, edges =>
    FillEdgesLoop polygons rem (points_in_poly + (polygons points_in_poly + 1))
      (fillPolygonEdges polygons points_in_poly (polygons points_in_poly) 0 edges)

/-- `dxConvex::FillEdges()`: the pairs are inserted into the edge set as it
is. -/
def FillEdges (cvx : dxConvex α) : dxConvex α :=
  { cvx with edges := FillEdgesLoop cvx.polygons cvx.planecount 0 cvx.edges }

/-- `dCreateConvex (space, _planes, _planecount, _points, _pointcount,
_polygons)`, that is `new dxConvex (...)`: the constructor sets the members, the
edge set starts empty and `FillEdges()` is called. The pose, which the base
class sets up, is a parameter. -/
def dCreateConvex (final_posr : dxPosR α) (_planes : Nat → α) (_planecount : Nat)
    (_points : Nat → α) (_pointcount : Nat) (_polygons : Nat → Nat) : dxConvex α :=
  FillEdges
    { final_posr := final_posr, planes := _planes, planecount := _planecount,
      points := _points, pointcount := _pointcount, polygons := _polygons, edges := [] }

/-- `dGeomSetConvex (g, _planes, _planecount, _points, _pointcount, _polygons)` on
the convex `s` that `g` points to. -/
def dGeomSetConvex (s : dxConvex α) (_planes : Nat → α) (_planecount : Nat)
    (_points : Nat → α) (_pointcount : Nat) (_polygons : Nat → Nat) : dxConvex α :=
  { s with planes := _planes, planecount := _planecount, points := _points,
           pointcount := _pointcount, polygons := _polygons }

/-- The unordered pair of the index at position `j` of the polygon at the offset
`p` of the buffer and the cyclically next index of that polygon, smaller index
first. -/
def polygonEdge (polygons : Nat → Nat) (p j : Nat) : Nat × Nat :=
  (min (polygons (p + 1 + j)) (polygons (p + 1 + (j + 1) % polygons p)),
    max (polygons (p + 1 + j)) (polygons (p + 1 + (j + 1) % polygons p)))

/-- The pair `e` is an edge of the polygon buffer with `planecount` polygons:
the pair of two cyclically consecutive indices of one of the polygons. -/
def IsPolygonEdge (polygons : Nat → Nat) (planecount : Nat) (e : Nat × Nat) : Prop :=
  ∃ q, q < planecount ∧ ∃ j, j < polygons (skipPolygons polygons q 0) ∧
    e = polygonEdge polygons (skipPolygons polygons q 0) j

instance (polygons : Nat → Nat) (planecount : Nat) (e : Nat × Nat) :
    Decidable (IsPolygonEdge polygons planecount e) := by
  unfold IsPolygonEdge; infer_instance

/-- The eight vertices of the axis-aligned cube of half-extent `h` centred at the
origin, numbered around the bottom face and then around the top face:
`(-,-,-), (+,-,-), (+,+,-), (-,+,-), (-,-,+), (+,-,+), (+,+,+), (-,+,+)`. -/
def ringPoints (h : ℚ) : Nat → ℚ :=
  fun k => ([-h, -h, -h, h, -h, -h, h, h, -h, -h, h, -h,
    -h, -h, h, h, -h, h, h, h, h, -h, h, h] : List ℚ).getD k 0

/-- The polygon buffer of the cube for the vertices numbered as in `ringPoints`:
the faces `+x, -x, +y, -y, +z, -z`. -/
def ringPolygons : Nat → Nat :=
  fun k => ([4, 1, 2, 6, 5, 4, 0, 4, 7, 3, 4, 2, 3, 7, 6, 4, 0, 1, 5, 4, 4, 4, 5, 6, 7,
    4, 0, 3, 2, 1] : List Nat).getD k 0

end ConvexEdges

section RaySpec

variable {α : Type} [LinearOrderedField α]

/-- The signed distance `alpha` of the start of the ray to the plane of face `i`,
as the two loops of `dCollideRayConvex` compute it before the sign is applied:
`dDOT( plane, ray->final_posr->pos ) - plane[3]`. -/
def rayAlpha (ray : dxRay α) (convex : dxConvex α) (i : Nat) : α :=
  dDOT (offset convex.planes (i * 4)) ray.final_posr.pos - offset convex.planes (i * 4) 3

/-- The product `dDOT13( plane, ray->final_posr->R+2 )` that the second loop of
`dCollideRayConvex` takes for "plane-normal DOT ray-normal" of face `i`. -/
def rayBeta (dDOT13 : (Nat → α) → (Nat → α) → α) (ray : dxRay α) (convex : dxConvex α)
    (i : Nat) : α :=
  dDOT13 (offset convex.planes (i * 4)) (offset ray.final_posr.R 2)

/-- The test of the second loop of `dCollideRayConvex` on face `i`, with the best
depth so far `depth`. -/
def rayCandidate (dEpsilon : α) (dDOT13 : (Nat → α) → (Nat → α) → α) (ray : dxRay α)
    (convex : dxConvex α) (nsign depth : α) (i : Nat) : Prop :=
  rayBeta dDOT13 ray convex i * nsign < -dEpsilon ∧ 0 ≤ nsign * rayAlpha ray convex i ∧
    nsign * rayAlpha ray convex i ≤ ray.length ∧ nsign * rayAlpha ray convex i < depth

end RaySpec

/-- The rotation that takes the axes `x, y, z` of a frame to the world axes
`y, z, x`: the rows are `(0,0,1), (1,0,0), (0,1,0)`, so the `z` axis of the frame,
along which a ray points, is the world `x` axis. -/
def cyclicR : Nat → ℚ := fun k => if k = 2 ∨ k = 4 ∨ k = 9 then 1 else 0

/-- The ray of length `len` from `(x, y, z)` along the world `x` axis. -/
def rayAlongX (x y z len : ℚ) : dxRay ℚ :=
  { final_posr := { pos := fun k => if k = 0 then x else if k = 1 then y else if k = 2 then z
                      else 0
                    R := cyclicR }
    length := len }

/-- The six planes of the axis-aligned box of half-extents `hx, hy, hz` centred at
the origin, outward normals: `+x, -x, +y, -y, +z, -z`. -/
def boxPlanes (hx hy hz : ℚ) : Nat → ℚ :=
  fun k => ([1, 0, 0, hx, -1, 0, 0, hx, 0, 1, 0, hy, 0, -1, 0, hy, 0, 0, 1, hz,
    0, 0, -1, hz] : List ℚ).getD k 0

/-- The eight vertices of that box: coordinate `c` of vertex `v` is negative when
bit `c` of `v` is clear and positive when it is set. -/
def boxPoints (hx hy hz : ℚ) : Nat → ℚ :=
  fun k => ([-hx, -hy, -hz, hx, -hy, -hz, -hx, hy, -hz, hx, hy, -hz,
    -hx, -hy, hz, hx, -hy, hz, -hx, hy, hz, hx, hy, hz] : List ℚ).getD k 0

/-- The convex box of half-extents `hx, hy, hz` at position `pos` with the
identity rotation, its edge set as the constructor builds it. -/
def boxConvex (hx hy hz : ℚ) (pos : Nat → ℚ) : dxConvex ℚ :=
  dCreateConvex { pos := pos, R := identityR } (boxPlanes hx hy hz) 6 (boxPoints hx hy hz) 8
    cubePolygons

/-- The macro `dDOTpq(a,b,1,3)`, the reading of `dDOT13(a,b)` used in the concrete
runs: `a[0]*b[0] + a[1]*b[3] + a[2]*b[6]`. -/
def dot13 (a b : Nat → ℚ) : ℚ := a 0 * b 0 + a 1 * b 3 + a 2 * b 6

section RaySteps

variable {α : Type} [LinearOrderedField α]

/-- The point of the ray at the parameter `alpha`, written to the first three
entries of `old`: the contact point that the second loop of `dCollideRayConvex`
computes. -/
def rayPoint (ray : dxRay α) (old : Nat → α) (alpha : α) : Nat → α :=
  setVec3 old (ray.final_posr.pos 0 + alpha * ray.final_posr.R (0 * 4 + 2))
    (ray.final_posr.pos 1 + alpha * ray.final_posr.R (1 * 4 + 2))
    (ray.final_posr.pos 2 + alpha * ray.final_posr.R (2 * 4 + 2))

end RaySteps

section ReferenceFace

variable {α : Type} [LinearOrderedField α]

/-- The test `max2<min1 || max1<min2` of `CheckSATConvexFaces (cvx1, cvx2, ...)` on
face `i` of `cvx1`: the two intervals on the plane of the face are disjoint. -/
def faceSeparates (dNormalize3 : (Nat → α) → (Nat → α)) (cvx1 cvx2 : dxConvex α)
    (i : Nat) : Prop :=
  (ComputeInterval cvx2 (facePlane dNormalize3 cvx1 i)).2 <
      (ComputeInterval cvx1 (facePlane dNormalize3 cvx1 i)).1 ∨
    (ComputeInterval cvx1 (facePlane dNormalize3 cvx1 i)).2 <
      (ComputeInterval cvx2 (facePlane dNormalize3 cvx1 i)).1

/-- The test `(max2*min2)<0` of `CheckSATConvexFaces (cvx1, cvx2, ...)` on face `i`
of `cvx1`: the interval of the other shape on the plane of the face straddles
zero. -/
def faceStraddles (dNormalize3 : (Nat → α) → (Nat → α)) (cvx1 cvx2 : dxConvex α)
    (i : Nat) : Prop :=
  (ComputeInterval cvx2 (facePlane dNormalize3 cvx1 i)).2 *
    (ComputeInterval cvx2 (facePlane dNormalize3 cvx1 i)).1 < 0

/-- The overlap `depth` that `CheckSATConvexFaces (cvx1, cvx2, ...)` computes on
face `i` of `cvx1`. -/
def faceDepth (dNormalize3 : (Nat → α) → (Nat → α)) (cvx1 cvx2 : dxConvex α) (i : Nat) : α :=
  min (ComputeInterval cvx1 (facePlane dNormalize3 cvx1 i)).2
      (ComputeInterval cvx2 (facePlane dNormalize3 cvx1 i)).2 -
    max (ComputeInterval cvx1 (facePlane dNormalize3 cvx1 i)).1
      (ComputeInterval cvx2 (facePlane dNormalize3 cvx1 i)).1

end ReferenceFace

/-- The unit cube at the origin, its edge set left empty. -/
def originCube : dxConvex ℚ := cubeConvex (1 / 2) (fun _ => 0) []

/-- The unit cube at `(0.75, 0, 0)`, which overlaps `originCube` by a quarter on
the first axis; its edge set is left empty. -/
def shiftedCube : dxConvex ℚ := cubeConvex (1 / 2) (fun k => if k = 0 then 3 / 4 else 0) []

/-- `dxSAPSpace::getGeom( i )`: the pointer it returns. A read outside one of the
two arrays is a failure of its own. -/
def getGeom {α : Type} (s : dxSAPSpace α) (i : Int) : Outcome Nat :=
  if ¬ (0 ≤ i ∧ i < s.count) then .failed "index out of range" 0
  else
    let dirtySize : Int := (s.DirtyList.length : Int)
    if i < dirtySize then
      match s.DirtyList[i.toNat]? with
      | some g => .ok g
      | none => .failed "read outside DirtyList" 0
    else
      match s.GeomList[(i - dirtySize).toNat]? with
      | some g => .ok g
      | none => .failed "read outside GeomList" 0

section SegmentPlane

variable {α : Type} [LinearOrderedField α]

/-- The value of a quotient of two `dReal` under the IEEE rules that the division
of the source follows: a number, an infinity (`true` for the negative one), or
not a number. -/
inductive dRealQuotient (α : Type) where
  | num : α → dRealQuotient α
  | inf : Bool → dRealQuotient α
  | nan : dRealQuotient α

/-- The quotient `x / y` of the source. With a divisor other than zero it is the
exact quotient; `0 / 0` is not a number; any other `x / 0` is an infinity whose
sign is that of `x` when the zero is `+0.0` and the opposite one when it is
`-0.0`, which `negZero` tells. -/
def dRealDiv (negZero : Bool) (x y : α) : dRealQuotient α :=
  if y = 0 then
    if x = 0 then .nan else .inf (xor (decide (x < 0)) negZero)
  else .num (x / y)

/-- The comparison `t >= c` of a quotient with a number: every comparison with
not a number is false. -/
def dRealQuotient.ge (t : dRealQuotient α) (c : α) : Bool :=
  match t with
  | .num x => decide (c ≤ x)
  | .inf negative => !negative
  | .nan => false

/-- The comparison `t <= c` of a quotient with a number. -/
def dRealQuotient.le (t : dRealQuotient α) (c : α) : Bool :=
  match t with
  | .num x => decide (x ≤ c)
  | .inf negative => negative
  | .nan => false

/-- The number that a quotient holds, for the products `t * ab[k]`, which the
source forms only after the test has found `t` in `[0, 1]`. -/
def dRealQuotient.value (t : dRealQuotient α) : α :=
  match t with
  | .num x => x
  | .inf _ => 0
  | .nan => 0

/-- `IntersectSegmentPlane (a, b, p, t, q)`: the value returned with `t` and `q`
as the call leaves them. The function does not test the divisor `dDOT(p,ab)`;
`negZero` tells the sign of a divisor that is zero. -/
def IntersectSegmentPlane (negZero : Bool) (a b p : Nat → α) (q : Nat → α) :
    Bool × dRealQuotient α × (Nat → α) :=
  let ab : Nat → α := setVec3 (fun _ => 0) (b 0 - a 0) (b 1 - a 1) (b 2 - a 2)
  let t := dRealDiv negZero (p 3 - dDOT p a) (dDOT p ab)
  if t.ge 0 = true ∧ t.le 1 = true then
    (true, t, setVec3 q (a 0 + t.value * ab 0) (a 1 + t.value * ab 1) (a 2 + t.value * ab 2))
  else (false, t, q)

end SegmentPlane

/-- The vector with the components `x, y, z` and a fourth entry `w`. -/
def vec4 (x y z w : ℚ) : Nat → ℚ :=
  fun k => if k = 0 then x else if k = 1 then y else if k = 2 then z else if k = 3 then w
    else 0

/-- The corners of a convex octagon in the plane, anticlockwise: its sides lie on
the lines `y = 2`, `-3x + 4y = 12`, `x = -2`, `-3x - 4y = 12`, `y = -2`,
`3x - 4y = 12`, `x = 2` and `3x + 4y = 12`. -/
def octagonCorners : List (ℚ × ℚ) :=
  [(4 / 3, 2), (-4 / 3, 2), (-2, 3 / 2), (-2, -3 / 2), (-4 / 3, -2), (4 / 3, -2),
   (2, -3 / 2), (2, 3 / 2)]

/-- The sixteen vertices of the prism over that octagon between `z = -1` and
`z = 1`: the vertices `0..7` are the corners at `z = 1`, the vertices `8..15` the
corners at `z = -1`. -/
def octagonPoints : Nat → ℚ :=
  fun k =>
    if k % 3 = 0 then (octagonCorners.getD (k / 3 % 8) (0, 0)).1
    else if k % 3 = 1 then (octagonCorners.getD (k / 3 % 8) (0, 0)).2
    else if k / 3 < 8 then 1 else -1

/-- The ten planes of the prism, outward unit normals: the top `z = 1`, the bottom
`z = -1`, and the eight sides in the order of the corners. -/
def octagonPlanes : Nat → ℚ :=
  fun k => ([0, 0, 1, 1, 0, 0, -1, 1,
    0, 1, 0, 2, -3 / 5, 4 / 5, 0, 12 / 5, -1, 0, 0, 2, -3 / 5, -4 / 5, 0, 12 / 5,
    0, -1, 0, 2, 3 / 5, -4 / 5, 0, 12 / 5, 1, 0, 0, 2, 3 / 5, 4 / 5, 0, 12 / 5] : List ℚ).getD k 0

/-- The polygon buffer of the prism: the top octagon, the bottom octagon and the
eight side quads, each with the count first and its vertices anticlockwise seen
from outside. -/
def octagonPolygons : Nat → Nat :=
  fun k => ([8, 0, 1, 2, 3, 4, 5, 6, 7, 8, 15, 14, 13, 12, 11, 10, 9, 8,
    4, 0, 8, 9, 1, 4, 1, 9, 10, 2, 4, 2, 10, 11, 3, 4, 3, 11, 12, 4,
    4, 4, 12, 13, 5, 4, 5, 13, 14, 6, 4, 6, 14, 15, 7, 4, 7, 15, 8, 0] : List Nat).getD k 0

/-- The octagonal prism as a convex at the origin with the identity rotation. -/
def octagonPrism : dxConvex ℚ :=
  dCreateConvex { pos := fun _ => 0, R := identityR } octagonPlanes 10 octagonPoints 16
    octagonPolygons

/-- A rotation about the world `z` axis composed with `cyclicR`: the rows are
`(0,-3/5,4/5), (0,4/5,3/5), (-1,0,0)`, so the `z` axis of the frame, along which a
ray points, is the world direction `(4/5, 3/5, 0)`. -/
def obliqueR : Nat → ℚ :=
  fun k => ([0, -3 / 5, 4 / 5, 0, 0, 4 / 5, 3 / 5, 0, -1, 0, 0, 0] : List ℚ).getD k 0

/-- The ray of length `len` from `(x, y, z)` along the world direction
`(4/5, 3/5, 0)`. -/
def rayOblique (x y z len : ℚ) : dxRay ℚ :=
  { final_posr := { pos := fun k => if k = 0 then x else if k = 1 then y else if k = 2 then z
                      else 0
                    R := obliqueR }
    length := len }

/-- The calls `collideGeomsNoAABBs( g1, g2, data, callback )` on the pairs of a
list, in order; a failure ends the run. -/
def collideAll {α δ : Type} (GEOM_AABB_BAD : Nat)
    (AABBTest : Nat → Nat → (Nat → α) → Int)
    (callback : δ → Nat → Nat → dxSAPSpace α → Outcome (dxSAPSpace α)) (data : δ) :
    List (Nat × Nat) → Pass α δ → Outcome (Pass α δ)
  | [], p => .ok p
  | c :: rest, p =>
    (collidePair GEOM_AABB_BAD AABBTest callback data c.1 c.2 p).bind
      (collideAll GEOM_AABB_BAD AABBTest callback data rest)

/-- The pairs `(g1, g2)` that the loop of `collide` over the overlapping boxes
hands to `collideGeomsNoAABBs`, in order: the entries of `TmpGeomList` at the two
indices of every pair. -/
def handedOverlapping (TmpGeomList : List Nat) (overlapBoxes : List Pair) : List (Nat × Nat) :=
  overlapBoxes.map (fun pair => (TmpGeomList.getD pair.id0 0, TmpGeomList.getD pair.id1 0))

/-- The pairs `(g1, g2)` that the loop `for ( m = 0; m < infSize; ++m )` of
`collide` hands to `collideGeomsNoAABBs`, in order: every entry of
`TmpInfGeomList` with the entries after it and then with the entries of
`TmpGeomList`. The list argument is the part of `TmpInfGeomList` from index `m`
on. -/
def handedInfinite (TmpGeomList : List Nat) : List Nat → List (Nat × Nat)
  | [] => []
  | g1 :: rest =>
    (rest.map (fun g2 => (g1, g2)) ++ TmpGeomList.map (fun g2 => (g1, g2))) ++
      handedInfinite TmpGeomList rest

/-- The pairs that one pass of `collide` hands to `collideGeomsNoAABBs`, in
order. -/
def handedPairs (TmpGeomList TmpInfGeomList : List Nat) (overlapBoxes : List Pair) :
    List (Nat × Nat) :=
  handedOverlapping TmpGeomList overlapBoxes ++ handedInfinite TmpGeomList TmpInfGeomList

/-- A space at address `100` whose clean list holds the enabled cubes `1` (from 0
to 2) and `2` (from 1 to 3) and the enabled geometry `3`, whose AABB reaches from
`-2000000` to `2000000`, the value of `dInfinity` in the passes over it. -/
def mixedSpace : dxSAPSpace Int :=
  { self := 100, count := 3, lock_count := 0, gflags := 0,
    DirtyList := [], GeomList := [1, 2, 3],
    heap := fun g => match g with
      | 1 => boxGeom 100 16 (-1) 0 0 2
      | 2 => boxGeom 100 16 (-1) 1 1 3
      | 3 => boxGeom 100 16 (-1) 2 (-2000000) 2000000
      | _ => freeGeom 0 0 0 0 }

/-- The rotation about the world `y` axis with the rows `(3/5, 0, 4/5)`,
`(0, 1, 0)`, `(-4/5, 0, 3/5)`: the `z` axis of the frame, along which a ray
points, is the world direction `(4/5, 0, 3/5)`. -/
def tiltedR : Nat → ℚ :=
  fun k => ([3 / 5, 0, 4 / 5, 0, 0, 1, 0, 0, -4 / 5, 0, 3 / 5, 0] : List ℚ).getD k 0

/-- The ray of length `len` from `(x, y, z)` along the world direction
`(4/5, 0, 3/5)`. -/
def rayTilted (x y z len : ℚ) : dxRay ℚ :=
  { final_posr := { pos := fun k => if k = 0 then x else if k = 1 then y else if k = 2 then z
                      else 0
                    R := tiltedR }
    length := len }

/-- The direction of a ray in world space, the third column of its rotation: the
entries `R[0*4+2]`, `R[1*4+2]`, `R[2*4+2]` by which `dCollideRayConvex` multiplies
`alpha` for the contact point. -/
def rayDirection {α : Type} (ray : dxRay α) : Nat → α :=
  fun k => ray.final_posr.R (k * 4 + 2)

/-- A space at address `100` whose clean list holds the enabled cube `1` (from 0
to 2), the cube `2` (from 1 to 3) with the flag `GEOM_ENABLED = 16` clear, and the
enabled geometry `3`, whose AABB reaches from `-2000000` to `2000000`, the value
of `dInfinity` in the passes over it. -/
def pausedSpace : dxSAPSpace Int :=
  { self := 100, count := 3, lock_count := 0, gflags := 0,
    DirtyList := [], GeomList := [1, 2, 3],
    heap := fun g => match g with
      | 1 => boxGeom 100 16 (-1) 0 0 2
      | 2 => boxGeom 100 0 (-1) 1 1 3
      | 3 => boxGeom 100 16 (-1) 2 (-2000000) 2000000
      | _ => freeGeom 0 0 0 0 }

/-- A call-back that disables the geometry `g`: it clears the flag
`GEOM_ENABLED = 16` of `g`, as `dGeomDisable` does, and leaves the rest of the
space as it finds it. -/
def disablingCallback (g : Nat) (_ : Nat) (_ _ : Nat) (st : dxSAPSpace Int) :
    Outcome (dxSAPSpace Int) :=
  .ok { st with
    heap := Function.update st.heap g { st.heap g with gflags := clearFlags (st.heap g).gflags 16 } }

/-! ## Lemmas on box pruning -/

section BoxPruningLemmas

variable {α : Type} [LinearOrder α]

theorem advanceRunning_self (poslist : List α) (p0 : α) (id0 : Nat) (rest : List Nat)
    (r : Nat) (h : poslist[id0]? = some p0) :
    advanceRunning poslist p0 (id0 :: rest) r = some (r + 1) := by
  simp [advanceRunning, h]

theorem buildPoslist_getElem?_lt (toFloat : α → α) (inf4 : α) (ax0idx : Nat)
    (geoms : List (dxGeom α)) (i : Nat) (g : dxGeom α) (hg : geoms[i]? = some g) :
    (buildPoslist toFloat inf4 ax0idx geoms)[i]? = some (toFloat (g.aabb ax0idx)) := by
  have hi : i < geoms.length := by
    rcases Nat.lt_or_ge i geoms.length with h | h
    · exact h
    · rw [List.getElem?_eq_none h] at hg; cases hg
  unfold buildPoslist
  rw [List.getElem?_append_left (by simpa using hi)]
  simp [List.getElem?_map, hg]

theorem buildPoslist_getElem?_length (toFloat : α → α) (inf4 : α) (ax0idx : Nat)
    (geoms : List (dxGeom α)) :
    (buildPoslist toFloat inf4 ax0idx geoms)[geoms.length]? = some inf4 := by
  unfold buildPoslist
  rw [List.getElem?_append_right (by simp)]
  simp

/-- Every pair pushed by one sweep has `id0` first, an `id1` taken from the part
of the index array that was swept, and passed the three tests of the loop. -/
theorem sweep_sound (poslist : List α) (geoms : List (dxGeom α)) (ax1idx ax2idx : Nat)
    (id0 : Nat) (g0 : dxGeom α) (m0 m1 m2 : α) :
    ∀ (l : List Nat) (ps : List Pair),
      sweep poslist geoms ax1idx ax2idx id0 g0 m0 m1 m2 l = some ps →
      ∀ p ∈ ps, p.id0 = id0 ∧ p.id1 ∈ l ∧ ∃ p1 g1, poslist[p.id1]? = some p1 ∧
        geoms[p.id1]? = some g1 ∧ p1 ≤ m0 ∧
        (g1.aabb ax1idx ≤ m1 ∧ g0.aabb ax1idx ≤ g1.aabb (ax1idx + 1)) ∧
        (g1.aabb ax2idx ≤ m2 ∧ g0.aabb ax2idx ≤ g1.aabb (ax2idx + 1)) := by
  intro l
  induction l with
  | nil => intro ps h; simp [sweep] at h
  | cons id1 rest ih =>
    intro ps h p hp
    simp only [sweep] at h
    split at h
    · cases h
    · rename_i p1 hp1
      split at h
      · rename_i hle
        split at h
        · cases h
        · rename_i g1 hg1
          split at h
          · cases h
          · rename_i more hmore
            have ihm := ih more hmore
            split at h
            · rename_i htest
              cases h
              rcases List.mem_cons.1 hp with rfl | hp2
              · exact ⟨rfl, List.mem_cons_self _ _, p1, g1, hp1, hg1, hle, htest.1, htest.2⟩
              · obtain ⟨a, b, c⟩ := ihm p hp2
                exact ⟨a, List.mem_cons_of_mem _ b, c⟩
            · cases h
              obtain ⟨a, b, c⟩ := ihm p hp
              exact ⟨a, List.mem_cons_of_mem _ b, c⟩
      · cases h
        cases hp

/-- One turn of the main loop when `RunningAddress` and `Sorted` point at the same
entry: the empty loop stops at once, one past that entry. -/
theorem pruneLoop_cons (poslist : List α) (geoms : List (dxGeom α)) (a0 a1 a2 : Nat)
    (total : Nat) (pre : List Nat) (id0 : Nat) (rest : List Nat) (p0 : α)
    (hp0 : poslist[id0]? = some p0) :
    pruneLoop poslist geoms a0 a1 a2 (pre ++ id0 :: rest) total (id0 :: rest) pre.length =
      if pre.length < total then
        if pre.length + 1 < total then
          match geoms[id0]? with
          | none => none
          | some g0 =>
            match sweep poslist geoms a1 a2 id0 g0 (g0.aabb (a0 + 1)) (g0.aabb (a1 + 1))
                (g0.aabb (a2 + 1)) rest with
            | none => none
            | some ps =>
              match pruneLoop poslist geoms a0 a1 a2 ((pre ++ [id0]) ++ rest) total rest
                  (pre ++ [id0]).length with
              | none => none
              | some more => some (ps ++ more)
        else pruneLoop poslist geoms a0 a1 a2 ((pre ++ [id0]) ++ rest) total rest
          (pre ++ [id0]).length
      else some [] := by
  have hd : (pre ++ id0 :: rest).drop pre.length = id0 :: rest := by simp
  have hd2 : (pre ++ id0 :: rest).drop (pre.length + 1) = rest := by
    rw [← List.drop_drop, hd]; rfl
  have hl : (pre ++ [id0]).length = pre.length + 1 := by simp
  have ha : (pre ++ [id0]) ++ rest = pre ++ id0 :: rest := by simp
  rw [ha, hl]
  conv => lhs; unfold pruneLoop
  simp only [hp0, hd, advanceRunning_self poslist p0 id0 rest pre.length hp0, hd2]

/-- Soundness of the main loop: every pushed pair `(id0, id1)` has `id0` before
`id1` in the swept part of the index array, both indices name boxes, and the
pair passed the primary-axis test of the sweep and the closed-interval tests on
the two other axes. -/
theorem pruneLoop_sound (poslist : List α) (geoms : List (dxGeom α)) (a0 a1 a2 : Nat)
    (total : Nat) (R : Nat → Nat → Prop) :
    ∀ (l pre : List Nat) (pairs : List Pair), l.Pairwise R →
      pruneLoop poslist geoms a0 a1 a2 (pre ++ l) total l pre.length = some pairs →
      ∀ p ∈ pairs, R p.id0 p.id1 ∧ ∃ g0 p1 g1, geoms[p.id0]? = some g0 ∧
        poslist[p.id1]? = some p1 ∧ geoms[p.id1]? = some g1 ∧ p1 ≤ g0.aabb (a0 + 1) ∧
        (g1.aabb a1 ≤ g0.aabb (a1 + 1) ∧ g0.aabb a1 ≤ g1.aabb (a1 + 1)) ∧
        (g1.aabb a2 ≤ g0.aabb (a2 + 1) ∧ g0.aabb a2 ≤ g1.aabb (a2 + 1)) := by
  intro l
  induction l with
  | nil =>
    intro pre pairs _ h p hp
    simp [pruneLoop] at h
    subst h
    cases hp
  | cons id0 rest ih =>
    intro pre pairs hR h p hp
    have hRrest : rest.Pairwise R := (List.pairwise_cons.1 hR).2
    have hR0 : ∀ x ∈ rest, R id0 x := (List.pairwise_cons.1 hR).1
    cases hp0 : poslist[id0]? with
    | none =>
      unfold pruneLoop at h
      simp only [hp0] at h
      split at h
      · cases h
      · cases h; cases hp
    | some p0 =>
      rw [pruneLoop_cons poslist geoms a0 a1 a2 total pre id0 rest p0 hp0] at h
      split at h
      · split at h
        · split at h
          · cases h
          · rename_i g0 hg0
            split at h
            · cases h
            · rename_i ps hps
              split at h
              · cases h
              · rename_i more hmore
                cases h
                rcases List.mem_append.1 hp with hp1 | hp2
                · obtain ⟨e0, hmem, p1, g1, h1, h2, h3, h4, h5⟩ :=
                    sweep_sound poslist geoms a1 a2 id0 g0 _ _ _ rest ps hps p hp1
                  refine ⟨?_, g0, p1, g1, ?_, h1, h2, h3, h4, h5⟩
                  · rw [e0]; exact hR0 _ hmem
                  · rw [e0]; exact hg0
                · exact ih (pre ++ [id0]) more hRrest hmore p hp2
        · exact ih (pre ++ [id0]) pairs hRrest h p hp
      · cases h; cases hp

/-- Completeness of one sweep over an ascending part of the index array that
holds an entry above `m0`: the sweep stops there, and every entry of the window
that passes the tests is pushed. -/
theorem sweep_complete (poslist : List α) (geoms : List (dxGeom α)) (a1 a2 : Nat)
    (id0 : Nat) (g0 : dxGeom α) (m0 m1 m2 : α) :
    ∀ (l : List Nat), (∀ x ∈ l, ∃ v, poslist[x]? = some v) →
      (∀ x ∈ l, ∀ v, poslist[x]? = some v → v ≤ m0 → ∃ g, geoms[x]? = some g) →
      (∃ x ∈ l, ∃ v, poslist[x]? = some v ∧ m0 < v) →
      SortsAscending poslist l →
      ∃ ps, sweep poslist geoms a1 a2 id0 g0 m0 m1 m2 l = some ps ∧
        ∀ j ∈ l, ∀ v g1, poslist[j]? = some v → geoms[j]? = some g1 → v ≤ m0 →
          (g1.aabb a1 ≤ m1 ∧ g0.aabb a1 ≤ g1.aabb (a1 + 1)) →
          (g1.aabb a2 ≤ m2 ∧ g0.aabb a2 ≤ g1.aabb (a2 + 1)) →
          (⟨id0, j⟩ : Pair) ∈ ps := by
  intro l
  induction l with
  | nil =>
    intro _ _ hstop _
    obtain ⟨x, hx, _⟩ := hstop
    cases hx
  | cons id1 rest ih =>
    intro hpos hgeo hstop hsorted
    obtain ⟨p1, hp1⟩ := hpos id1 (List.mem_cons_self _ _)
    have hsrest : SortsAscending poslist rest := (List.pairwise_cons.1 hsorted).2
    have hs0 := (List.pairwise_cons.1 hsorted).1
    by_cases hle : p1 ≤ m0
    · obtain ⟨g1, hg1⟩ := hgeo id1 (List.mem_cons_self _ _) p1 hp1 hle
      have hstop2 : ∃ x ∈ rest, ∃ v, poslist[x]? = some v ∧ m0 < v := by
        obtain ⟨x, hx, v, hv, hlt⟩ := hstop
        rcases List.mem_cons.1 hx with rfl | hx2
        · rw [hp1] at hv
          cases hv
          exact absurd hle (not_le.2 hlt)
        · exact ⟨x, hx2, v, hv, hlt⟩
      obtain ⟨more, hmore, hmem⟩ := ih (fun x hx => hpos x (List.mem_cons_of_mem _ hx))
        (fun x hx => hgeo x (List.mem_cons_of_mem _ hx)) hstop2 hsrest
      by_cases htest : (g1.aabb a1 ≤ m1 ∧ g0.aabb a1 ≤ g1.aabb (a1 + 1)) ∧
          (g1.aabb a2 ≤ m2 ∧ g0.aabb a2 ≤ g1.aabb (a2 + 1))
      · refine ⟨⟨id0, id1⟩ :: more, ?_, ?_⟩
        · simp only [sweep, hp1, hle, hg1, hmore, htest]
          simp
        · intro j hj v g hv hg hvle t1 t2
          rcases List.mem_cons.1 hj with rfl | hj2
          · exact List.mem_cons_self _ _
          · exact List.mem_cons_of_mem _ (hmem j hj2 v g hv hg hvle t1 t2)
      · refine ⟨more, ?_, ?_⟩
        · simp only [sweep, hp1, hle, hg1, hmore, htest]
          simp
        · intro j hj v g hv hg hvle t1 t2
          rcases List.mem_cons.1 hj with rfl | hj2
          · rw [hg1] at hg
            cases hg
            exact absurd ⟨t1, t2⟩ htest
          · exact hmem j hj2 v g hv hg hvle t1 t2
    · refine ⟨[], ?_, ?_⟩
      · simp only [sweep, hp1, hle]
        simp
      · intro j hj v g hv hg hvle t1 t2
        rcases List.mem_cons.1 hj with rfl | hj2
        · rw [hp1] at hv
          cases hv
          exact absurd hvle hle
        · exact absurd (le_trans (hs0 j hj2 p1 hp1 v hv) hvle) hle

/-- Completeness of the main loop on an ascending, duplicate-free index array
whose entries are boxes except for the sentinel entry `sent`, which carries a
key above every box's key and primary-axis maximum. -/
theorem pruneLoop_complete (poslist : List α) (geoms : List (dxGeom α)) (a0 a1 a2 : Nat)
    (sent : Nat) (inf4 : α) (hposSent : poslist[sent]? = some inf4) :
    ∀ (l pre : List Nat), SortsAscending poslist l → l.Nodup → (l ≠ [] → sent ∈ l) →
      (∀ x ∈ l, x ≠ sent → ∃ g, geoms[x]? = some g ∧ g.aabb (a0 + 1) < inf4 ∧
        ∃ v, poslist[x]? = some v ∧ v < inf4) →
      ∃ pairs, pruneLoop poslist geoms a0 a1 a2 (pre ++ l) (pre ++ l).length l pre.length
          = some pairs ∧
        ∀ i ∈ l, ∀ j ∈ l, i ≠ j → ∀ gi gj vi vj, geoms[i]? = some gi →
          geoms[j]? = some gj → poslist[i]? = some vi → poslist[j]? = some vj →
          vj ≤ gi.aabb (a0 + 1) → vi ≤ gj.aabb (a0 + 1) →
          overlapOn a1 gi gj → overlapOn a2 gi gj →
          (⟨i, j⟩ : Pair) ∈ pairs ∨ (⟨j, i⟩ : Pair) ∈ pairs := by
  intro l
  induction l with
  | nil =>
    intro pre _ _ _ _
    exact ⟨[], by simp [pruneLoop], fun i hi => by cases hi⟩
  | cons id0 rest ih =>
    intro pre hsorted hnodup hsent hbox
    have hsrest : SortsAscending poslist rest := (List.pairwise_cons.1 hsorted).2
    have hs0 := (List.pairwise_cons.1 hsorted).1
    have hnd := List.nodup_cons.1 hnodup
    have hpos0 : ∃ p0, poslist[id0]? = some p0 := by
      by_cases h0 : id0 = sent
      · exact ⟨inf4, by rw [h0]; exact hposSent⟩
      · obtain ⟨g, _, _, v, hv, _⟩ := hbox id0 (List.mem_cons_self _ _) h0
        exact ⟨v, hv⟩
    obtain ⟨p0, hp0⟩ := hpos0
    have hlen : (pre ++ id0 :: rest).length = pre.length + rest.length + 1 := by
      simp; omega
    rw [pruneLoop_cons poslist geoms a0 a1 a2 _ pre id0 rest p0 hp0, hlen]
    have hlt : pre.length < pre.length + rest.length + 1 := by omega
    rw [if_pos hlt]
    cases hrest : rest with
    | nil =>
      refine ⟨[], by simp [pruneLoop], ?_⟩
      intro i hi j hj hij
      rw [List.mem_singleton] at hi hj
      exact absurd (hi.trans hj.symm) hij
    | cons y ys =>
      rw [← hrest]
      have hne : rest ≠ [] := by rw [hrest]; exact List.cons_ne_nil _ _
      have hlt2 : pre.length + 1 < pre.length + rest.length + 1 := by
        have : 0 < rest.length := List.length_pos.2 hne
        omega
      rw [if_pos hlt2]
      have hy : y ∈ rest := by rw [hrest]; exact List.mem_cons_self _ _
      have hsentl : sent ∈ id0 :: rest := hsent (List.cons_ne_nil _ _)
      have hid0 : id0 ≠ sent := by
        intro h0
        have hys : y ≠ sent := by
          intro h; rw [← h0] at h; rw [h] at hy; exact hnd.1 hy
        obtain ⟨g, _, _, v, hv, hvlt⟩ := hbox y (List.mem_cons_of_mem _ hy) hys
        have h1 := hs0 y hy p0 hp0 v hv
        rw [h0, hposSent] at hp0
        cases hp0
        exact absurd h1 (not_le.2 hvlt)
      have hsentr : sent ∈ rest := by
        rcases List.mem_cons.1 hsentl with h | h
        · exact absurd h.symm hid0
        · exact h
      obtain ⟨g0, hg0, hmax0, v0, hv0, _⟩ := hbox id0 (List.mem_cons_self _ _) hid0
      have hposr : ∀ x ∈ rest, ∃ v, poslist[x]? = some v := by
        intro x hx
        by_cases hxs : x = sent
        · exact ⟨inf4, by rw [hxs]; exact hposSent⟩
        · obtain ⟨g, _, _, v, hv, _⟩ := hbox x (List.mem_cons_of_mem _ hx) hxs
          exact ⟨v, hv⟩
      have hgeor : ∀ x ∈ rest, ∀ v, poslist[x]? = some v → v ≤ g0.aabb (a0 + 1) →
          ∃ g, geoms[x]? = some g := by
        intro x hx v hv hvle
        have hxs : x ≠ sent := by
          intro h
          rw [h, hposSent] at hv
          cases hv
          exact absurd hvle (not_le.2 hmax0)
        obtain ⟨g, hg, _⟩ := hbox x (List.mem_cons_of_mem _ hx) hxs
        exact ⟨g, hg⟩
      obtain ⟨ps, hps, hpsmem⟩ := sweep_complete poslist geoms a1 a2 id0 g0
        (g0.aabb (a0 + 1)) (g0.aabb (a1 + 1)) (g0.aabb (a2 + 1)) rest hposr hgeor
        ⟨sent, hsentr, inf4, hposSent, hmax0⟩ hsrest
      obtain ⟨more, hmore, hmoremem⟩ := ih (pre ++ [id0]) hsrest hnd.2 (fun _ => hsentr)
        (fun x hx => hbox x (List.mem_cons_of_mem _ hx))
      have hlen2 : ((pre ++ [id0]) ++ rest).length = pre.length + rest.length + 1 := by
        simp; omega
      rw [hlen2] at hmore
      refine ⟨ps ++ more, by simp only [hg0, hps, hmore], ?_⟩
      intro i hi j hj hij gi gj vi vj hgi hgj hvi hvj hji hij2 ho1 ho2
      rcases List.mem_cons.1 hi with rfl | hi2
      · rcases List.mem_cons.1 hj with rfl | hj2
        · exact absurd rfl hij
        · left
          rw [hg0] at hgi
          cases hgi
          exact List.mem_append_left _
            (hpsmem j hj2 vj gj hvj hgj hji ⟨ho1.2, ho1.1⟩ ⟨ho2.2, ho2.1⟩)
      · rcases List.mem_cons.1 hj with rfl | hj2
        · right
          rw [hg0] at hgj
          cases hgj
          exact List.mem_append_left _
            (hpsmem i hi2 vi gi hvi hgi hij2 ⟨ho1.1, ho1.2⟩ ⟨ho2.1, ho2.2⟩)
        · rcases hmoremem i hi2 j hj2 hij gi gj vi vj hgi hgj hvi hvj hji hij2 ho1 ho2
            with h | h
          · exact Or.inl (List.mem_append_right _ h)
          · exact Or.inr (List.mem_append_right _ h)

end BoxPruningLemmas

/-! ## Box pruning: the claims -/

section BoxPruningClaims

variable {α : Type} [LinearOrder α]

/-- C1 (as amended): `BoxPruning` misses no overlap when the cast to `float`
leaves every primary-axis minimum unchanged. For boxes whose primary-axis
coordinates lie below the sentinel and a sorter that returns a permutation of
`0..n` listing `poslist` in ascending order, `BoxPruning` returns a pair list,
and for every two distinct boxes `i`, `j` whose closed intervals intersect on the
three sort axes the list contains `(i,j)` or `(j,i)`. -/
theorem BoxPruning_misses_no_overlap_of_exact (toFloat : α → α) (ODE_INFINITY4 : α)
    (RadixSort : List α → List Nat) (ax0idx ax1idx ax2idx : Nat)
    (geoms : List (dxGeom α))
    (hax : ax0idx + 1 < 6 ∧ ax1idx + 1 < 6 ∧ ax2idx + 1 < 6)
    (hfin : ∀ g ∈ geoms, g.aabb ax0idx < ODE_INFINITY4 ∧ g.aabb (ax0idx + 1) < ODE_INFINITY4)
    (hexact : ∀ g ∈ geoms, toFloat (g.aabb ax0idx) = g.aabb ax0idx)
    (hperm : (RadixSort (buildPoslist toFloat ODE_INFINITY4 ax0idx geoms)).Perm
      (List.range (geoms.length + 1)))
    (hasc : SortsAscending (buildPoslist toFloat ODE_INFINITY4 ax0idx geoms)
      (RadixSort (buildPoslist toFloat ODE_INFINITY4 ax0idx geoms))) :
    ∃ pairs, BoxPruning toFloat ODE_INFINITY4 RadixSort ax0idx ax1idx ax2idx geoms
        = some pairs ∧
      ∀ i j gi gj, geoms[i]? = some gi → geoms[j]? = some gj → i ≠ j →
        overlapOn ax0idx gi gj → overlapOn ax1idx gi gj → overlapOn ax2idx gi gj →
        (⟨i, j⟩ : Pair) ∈ pairs ∨ (⟨j, i⟩ : Pair) ∈ pairs := by
  have hsentpos := buildPoslist_getElem?_length toFloat ODE_INFINITY4 ax0idx geoms
  have hnodup : (RadixSort (buildPoslist toFloat ODE_INFINITY4 ax0idx geoms)).Nodup :=
    hperm.nodup_iff.2 (List.nodup_range _)
  have hmemS : ∀ x, x ∈ RadixSort (buildPoslist toFloat ODE_INFINITY4 ax0idx geoms) ↔
      x < geoms.length + 1 := by
    intro x
    rw [hperm.mem_iff, List.mem_range]
  have hlookup : ∀ x, x < geoms.length → ∃ g, geoms[x]? = some g ∧ g ∈ geoms := by
    intro x hx
    exact ⟨geoms[x], List.getElem?_eq_getElem hx, List.getElem_mem hx⟩
  obtain ⟨pairs, hpairs, hmem⟩ := pruneLoop_complete
    (buildPoslist toFloat ODE_INFINITY4 ax0idx geoms) geoms ax0idx ax1idx ax2idx
    geoms.length ODE_INFINITY4 hsentpos
    (RadixSort (buildPoslist toFloat ODE_INFINITY4 ax0idx geoms)) [] hasc hnodup
    (fun _ => (hmemS _).2 (Nat.lt_succ_self _))
    (by
      intro x hx hxs
      have hxlt : x < geoms.length := by
        have := (hmemS x).1 hx
        omega
      obtain ⟨g, hg, hgm⟩ := hlookup x hxlt
      refine ⟨g, hg, (hfin g hgm).2, toFloat (g.aabb ax0idx),
        buildPoslist_getElem?_lt toFloat ODE_INFINITY4 ax0idx geoms x g hg, ?_⟩
      rw [hexact g hgm]
      exact (hfin g hgm).1)
  have hlen : (RadixSort (buildPoslist toFloat ODE_INFINITY4 ax0idx geoms)).length
      = geoms.length + 1 := by
    rw [hperm.length_eq, List.length_range]
  refine ⟨pairs, ?_, ?_⟩
  · unfold BoxPruning
    simp only [List.nil_append, List.length_nil, hlen] at hpairs
    exact hpairs
  · intro i j gi gj hgi hgj hij h0 h1 h2
    have hilt : i < geoms.length := by
      rcases Nat.lt_or_ge i geoms.length with h | h
      · exact h
      · rw [List.getElem?_eq_none h] at hgi; cases hgi
    have hjlt : j < geoms.length := by
      rcases Nat.lt_or_ge j geoms.length with h | h
      · exact h
      · rw [List.getElem?_eq_none h] at hgj; cases hgj
    have hgim : gi ∈ geoms := List.getElem?_mem hgi
    have hgjm : gj ∈ geoms := List.getElem?_mem hgj
    refine hmem i ((hmemS i).2 (by omega)) j ((hmemS j).2 (by omega)) hij gi gj
      (toFloat (gi.aabb ax0idx)) (toFloat (gj.aabb ax0idx)) hgi hgj
      (buildPoslist_getElem?_lt toFloat ODE_INFINITY4 ax0idx geoms i gi hgi)
      (buildPoslist_getElem?_lt toFloat ODE_INFINITY4 ax0idx geoms j gj hgj) ?_ ?_ h1 h2
    · rw [hexact gj hgjm]; exact h0.2
    · rw [hexact gi hgim]; exact h0.1

/-- C2 (as amended): `BoxPruning` reports only pairs that pass its tests. Every
pair `(a,b)` it appends names two boxes with
`(float)min_a <= (float)min_b <= max_a` on the primary axis (the keys are the
minima after the cast to `float`; the first inequality is the ascending order
of the index array) and closed-interval overlap on each of the two other axes;
when the cast leaves both minima unchanged and box `b` is well formed on the
primary axis, the two boxes intersect on the primary axis as well. -/
theorem BoxPruning_reports_only_key_overlap (toFloat : α → α) (ODE_INFINITY4 : α)
    (RadixSort : List α → List Nat) (ax0idx ax1idx ax2idx : Nat)
    (geoms : List (dxGeom α)) (pairs : List Pair)
    (hax : ax0idx + 1 < 6 ∧ ax1idx + 1 < 6 ∧ ax2idx + 1 < 6)
    (hasc : SortsAscending (buildPoslist toFloat ODE_INFINITY4 ax0idx geoms)
      (RadixSort (buildPoslist toFloat ODE_INFINITY4 ax0idx geoms)))
    (hrun : BoxPruning toFloat ODE_INFINITY4 RadixSort ax0idx ax1idx ax2idx geoms
      = some pairs) :
    ∀ p ∈ pairs, ∃ ga gb, geoms[p.id0]? = some ga ∧ geoms[p.id1]? = some gb ∧
      toFloat (ga.aabb ax0idx) ≤ toFloat (gb.aabb ax0idx) ∧
      toFloat (gb.aabb ax0idx) ≤ ga.aabb (ax0idx + 1) ∧
      overlapOn ax1idx ga gb ∧ overlapOn ax2idx ga gb ∧
      (toFloat (ga.aabb ax0idx) = ga.aabb ax0idx →
        toFloat (gb.aabb ax0idx) = gb.aabb ax0idx →
        gb.aabb ax0idx ≤ gb.aabb (ax0idx + 1) → overlapOn ax0idx ga gb) := by
  intro p hp
  unfold BoxPruning at hrun
  obtain ⟨hR, g0, p1, g1, hg0, hp1, hg1, hle, ht1, ht2⟩ :=
    pruneLoop_sound (buildPoslist toFloat ODE_INFINITY4 ax0idx geoms) geoms ax0idx ax1idx
      ax2idx (geoms.length + 1) _
      (RadixSort (buildPoslist toFloat ODE_INFINITY4 ax0idx geoms)) [] pairs hasc
      (by simpa using hrun) p hp
  have hk0 := buildPoslist_getElem?_lt toFloat ODE_INFINITY4 ax0idx geoms p.id0 g0 hg0
  have hk1 := buildPoslist_getElem?_lt toFloat ODE_INFINITY4 ax0idx geoms p.id1 g1 hg1
  rw [hk1] at hp1
  cases hp1
  have hord := hR _ hk0 _ hk1
  refine ⟨g0, g1, hg0, hg1, hord, hle, ⟨ht1.2, ht1.1⟩, ⟨ht2.2, ht2.1⟩, ?_⟩
  intro e0 e1 hwf
  rw [e1] at hle
  rw [e0, e1] at hord
  exact ⟨le_trans hord hwf, hle⟩

end BoxPruningClaims

/-! ### Concrete runs of box pruning -/

/-- C1, counterexample to the claim as stated: with double-precision boxes
`A = [0,16777219]x[0,5]x[0,5]` and `B = [16777219,16777300]x[1,2]x[3,4]`, which
touch on the primary axis and overlap on the two others, the key of `B` is
`(float)16777219 = 16777220 > max_A`; the index array `0,1,2` is a permutation
that lists the keys in ascending order, and `BoxPruning` reports no pair. -/
theorem BoxPruning_misses_overlap_under_rounding :
    ([0, 1, 2] : List Nat).Perm (List.range 3) ∧
    SortsAscending (buildPoslist (WithTop.map roundSingle) ⊤ 0
      [mkBoxT 0 16777219 0 5 0 5, mkBoxT 16777219 16777300 1 2 3 4]) [0, 1, 2] ∧
    overlapOn 0 (mkBoxT 0 16777219 0 5 0 5) (mkBoxT 16777219 16777300 1 2 3 4) ∧
    overlapOn 2 (mkBoxT 0 16777219 0 5 0 5) (mkBoxT 16777219 16777300 1 2 3 4) ∧
    overlapOn 4 (mkBoxT 0 16777219 0 5 0 5) (mkBoxT 16777219 16777300 1 2 3 4) ∧
    BoxPruning (WithTop.map roundSingle) (⊤ : WithTop Int) (fun _ => [0, 1, 2]) 0 2 4
      [mkBoxT 0 16777219 0 5 0 5, mkBoxT 16777219 16777300 1 2 3 4] = some [] := by
  decide

/-- C1, witness: two touching boxes in a single-precision build (the cast is the
identity), index array `0,1,2`. -/
theorem BoxPruning_misses_no_overlap_of_exact_witness :
    (∀ g ∈ [mkBoxT 0 5 0 5 0 5, mkBoxT 5 9 1 2 3 4],
      g.aabb 0 < (⊤ : WithTop Int) ∧ g.aabb (0 + 1) < (⊤ : WithTop Int)) ∧
    (∃ pairs, BoxPruning id (⊤ : WithTop Int) (fun _ => [0, 1, 2]) 0 2 4
        [mkBoxT 0 5 0 5 0 5, mkBoxT 5 9 1 2 3 4] = some pairs ∧
      ∀ i j gi gj, [mkBoxT 0 5 0 5 0 5, mkBoxT 5 9 1 2 3 4][i]? = some gi →
        [mkBoxT 0 5 0 5 0 5, mkBoxT 5 9 1 2 3 4][j]? = some gj → i ≠ j →
        overlapOn 0 gi gj → overlapOn 2 gi gj → overlapOn 4 gi gj →
        (⟨i, j⟩ : Pair) ∈ pairs ∨ (⟨j, i⟩ : Pair) ∈ pairs) :=
  ⟨by decide,
   BoxPruning_misses_no_overlap_of_exact id (⊤ : WithTop Int) (fun _ => [0, 1, 2]) 0 2 4
    [mkBoxT 0 5 0 5 0 5, mkBoxT 5 9 1 2 3 4] (by decide) (by decide) (by decide)
    (by decide) (by decide)⟩

/-- C2, counterexample to the claim as stated: with double-precision boxes
`A = [0,16777216]x[0,5]x[0,5]` and `B = [16777217,16777300]x[1,2]x[3,4]` the key
of `B` is `(float)16777217 = 16777216 <= max_A`, so `BoxPruning` appends the pair
`(0,1)` although `min_B > max_A`: the two boxes are disjoint on the primary
axis. Both boxes are well formed and the index array `0,1,2` is ascending. -/
theorem BoxPruning_reports_disjoint_under_rounding :
    SortsAscending (buildPoslist (WithTop.map roundSingle) ⊤ 0
      [mkBoxT 0 16777216 0 5 0 5, mkBoxT 16777217 16777300 1 2 3 4]) [0, 1, 2] ∧
    (∀ g ∈ [mkBoxT 0 16777216 0 5 0 5, mkBoxT 16777217 16777300 1 2 3 4],
      g.aabb 0 ≤ g.aabb 1 ∧ g.aabb 2 ≤ g.aabb 3 ∧ g.aabb 4 ≤ g.aabb 5) ∧
    BoxPruning (WithTop.map roundSingle) (⊤ : WithTop Int) (fun _ => [0, 1, 2]) 0 2 4
      [mkBoxT 0 16777216 0 5 0 5, mkBoxT 16777217 16777300 1 2 3 4] = some [⟨0, 1⟩] ∧
    ¬ ((mkBoxT 16777217 16777300 1 2 3 4).aabb 0 ≤ (mkBoxT 0 16777216 0 5 0 5).aabb 1) ∧
    ¬ overlapOn 0 (mkBoxT 0 16777216 0 5 0 5) (mkBoxT 16777217 16777300 1 2 3 4) := by
  decide

/-- C2, witness: the rounding run above, where the appended pair satisfies the
inequalities on the keys. -/
theorem BoxPruning_reports_only_key_overlap_witness :
    BoxPruning (WithTop.map roundSingle) (⊤ : WithTop Int) (fun _ => [0, 1, 2]) 0 2 4
      [mkBoxT 0 16777216 0 5 0 5, mkBoxT 16777217 16777300 1 2 3 4] = some [⟨0, 1⟩] ∧
    ∀ p ∈ [(⟨0, 1⟩ : Pair)], ∃ ga gb,
      [mkBoxT 0 16777216 0 5 0 5, mkBoxT 16777217 16777300 1 2 3 4][p.id0]? = some ga ∧
      [mkBoxT 0 16777216 0 5 0 5, mkBoxT 16777217 16777300 1 2 3 4][p.id1]? = some gb ∧
      WithTop.map roundSingle (ga.aabb 0) ≤ WithTop.map roundSingle (gb.aabb 0) ∧
      WithTop.map roundSingle (gb.aabb 0) ≤ ga.aabb (0 + 1) ∧
      overlapOn 2 ga gb ∧ overlapOn 4 ga gb ∧
      (WithTop.map roundSingle (ga.aabb 0) = ga.aabb 0 →
        WithTop.map roundSingle (gb.aabb 0) = gb.aabb 0 →
        gb.aabb 0 ≤ gb.aabb (0 + 1) → overlapOn 0 ga gb) :=
  ⟨by decide,
   BoxPruning_reports_only_key_overlap (WithTop.map roundSingle) (⊤ : WithTop Int)
    (fun _ => [0, 1, 2]) 0 2 4
    [mkBoxT 0 16777216 0 5 0 5, mkBoxT 16777217 16777300 1 2 3 4] [⟨0, 1⟩]
    (by decide) (by decide) (by decide)⟩

/-! ## Lemmas on the radix sorter -/

theorem and_low31 (m : Nat) : m &&& 0x7fffffff = m % 2 ^ 31 := by
  have : (0x7fffffff : Nat) = 2 ^ 31 - 1 := by norm_num
  rw [this, Nat.and_pow_two_sub_one_eq_mod]

theorem and_bit31 (m : Nat) : m &&& 0x80000000 = if m.testBit 31 then 2 ^ 31 else 0 := by
  have : (0x80000000 : Nat) = 2 ^ 31 := by norm_num
  rw [this]
  apply Nat.eq_of_testBit_eq
  intro i
  rw [Nat.testBit_and, Nat.testBit_two_pow]
  by_cases h : m.testBit 31
  · simp only [h, if_true, Nat.testBit_two_pow]
    by_cases hi : 31 = i
    · subst hi; simp [h]
    · simp [hi]
  · simp only [h]
    by_cases hi : 31 = i
    · subst hi; simp [h]
    · simp [hi]

theorem CURRENT_SIZE_INVALIDATE (nb : Nat) (h : nb < 2 ^ 31) :
    CURRENT_SIZE (INVALIDATE_RANKS nb) = nb := by
  unfold CURRENT_SIZE INVALIDATE_RANKS
  rw [and_low31]
  have h2 : (0x80000000 : Nat) = 2 ^ 31 := by norm_num
  rw [h2]
  apply Nat.eq_of_testBit_eq
  intro i
  rw [Nat.testBit_mod_two_pow, Nat.testBit_or, Nat.testBit_two_pow]
  by_cases hi : i < 31
  · have : ¬ (31 = i) := by omega
    simp [hi, this]
  · have : nb.testBit i = false :=
      Nat.testBit_lt_two_pow (lt_of_lt_of_le h (Nat.pow_le_pow_right (by norm_num) (by omega)))
    simp [hi, this]

theorem INVALID_RANKS_INVALIDATE (m : Nat) : INVALID_RANKS (INVALIDATE_RANKS m) ≠ 0 := by
  unfold INVALID_RANKS INVALIDATE_RANKS
  rw [and_bit31]
  have : (0x80000000 : Nat) = 2 ^ 31 := by norm_num
  rw [this, Nat.testBit_or, Nat.testBit_two_pow]
  simp

theorem INVALID_RANKS_VALIDATE (m : Nat) : INVALID_RANKS (VALIDATE_RANKS m) = 0 := by
  unfold INVALID_RANKS VALIDATE_RANKS
  rw [and_bit31, and_low31, Nat.testBit_mod_two_pow]
  simp

theorem CURRENT_SIZE_VALIDATE (m : Nat) : CURRENT_SIZE (VALIDATE_RANKS m) = CURRENT_SIZE m := by
  unfold CURRENT_SIZE VALIDATE_RANKS
  rw [and_low31, and_low31, Nat.mod_mod]

theorem VALIDATE_RANKS_lt (m : Nat) : VALIDATE_RANKS m < 2 ^ 32 := by
  unfold VALIDATE_RANKS
  rw [and_low31]
  exact lt_trans (Nat.mod_lt _ (by norm_num)) (by norm_num)

theorem INVALIDATE_RANKS_lt (m : Nat) (h : m < 2 ^ 32) : INVALIDATE_RANKS m < 2 ^ 32 := by
  unfold INVALIDATE_RANKS
  exact Nat.or_lt_two_pow h (by norm_num)

theorem INVALID_RANKS_validated (m : Nat) : INVALID_RANKS (validated m) = 0 := by
  unfold validated
  split
  · exact INVALID_RANKS_VALIDATE m
  · rename_i h
    exact not_not.1 h

theorem CURRENT_SIZE_validated (m : Nat) : CURRENT_SIZE (validated m) = CURRENT_SIZE m := by
  unfold validated
  split
  · exact CURRENT_SIZE_VALIDATE m
  · rfl

theorem validated_lt (m : Nat) (h : m < 2 ^ 32) : validated m < 2 ^ 32 := by
  unfold validated
  split
  · exact VALIDATE_RANKS_lt m
  · exact h

/-! ### The 32-bit byte offsets -/

theorem wordCount_of_lt (nb : Nat) (h : nb < 2 ^ 30) : wordCount nb = nb := by
  unfold wordCount
  rw [Nat.mod_eq_of_lt (by omega)]
  omega

theorem wordIndex_of_lt (id : Nat) (h : id < 2 ^ 30) : wordIndex id = id := by
  unfold wordIndex
  rw [Nat.mod_eq_of_lt (by omega)]
  omega

theorem wordCount_le (nb : Nat) : wordCount nb ≤ nb := by
  unfold wordCount
  have := Nat.mod_le (nb * 4) (2 ^ 32)
  omega

/-! ### Histograms -/

theorem byteOf_lt (w j : Nat) : byteOf w j < 256 := Nat.mod_lt _ (by norm_num)

theorem countWord_apply (h : Nat → Nat) (w j b : Nat) (hj : j < 4) (hb : b < 256) :
    countWord h w (j * 256 + b) = h (j * 256 + b) + if byteOf w j = b then 1 else 0 := by
  have h0 := byteOf_lt w 0
  have h1 := byteOf_lt w 1
  have h2 := byteOf_lt w 2
  have h3 := byteOf_lt w 3
  unfold countWord bump
  simp only [Function.update_apply]
  interval_cases j <;> split_ifs <;> first | omega | simp_all

theorem finishHistograms_apply (input : Nat → Nat) (j b : Nat) (hj : j < 4) (hb : b < 256) :
    ∀ (rem k : Nat) (h : Nat → Nat),
      finishHistograms input rem k h (j * 256 + b) =
        h (j * 256 + b) + (List.range' k rem).countP (fun i => byteOf (input i) j = b) := by
  intro rem
  induction rem with
  | zero => intro k h; simp [finishHistograms]
  | succ rem ih =>
    intro k h
    rw [finishHistograms, ih, countWord_apply h _ j b hj hb, List.range'_succ,
      List.countP_cons]
    simp only [decide_eq_true_eq]
    omega

theorem coherenceLoop_finish (input rd : Nat → Nat) :
    ∀ (rem k prev : Nat) (h : Nat → Nat),
      k ≤ (coherenceLoop input rd rem k prev h).2.1 ∧
      (coherenceLoop input rd rem k prev h).2.1 ≤ k + rem ∧
      finishHistograms input (k + rem - (coherenceLoop input rd rem k prev h).2.1)
        (coherenceLoop input rd rem k prev h).2.1 (coherenceLoop input rd rem k prev h).2.2
        = finishHistograms input rem k h := by
  intro rem
  induction rem with
  | zero => intro k prev h; simp [coherenceLoop]
  | succ rem ih =>
    intro k prev h
    unfold coherenceLoop
    split
    · simp
    · obtain ⟨h1, h2, h3⟩ := ih (k + 1) (input (rd k)) (countWord h (input k))
      refine ⟨by omega, by omega, ?_⟩
      have : k + (rem + 1) = k + 1 + rem := by omega
      rw [this, h3]
      rfl

/-- The entry compared with `input[rd (k+i)]` at step `i` of the coherence loop
that starts at position `k` with `PrevVal = prev`. -/
theorem coherenceLoop_true_iff (input rd : Nat → Nat) :
    ∀ (rem k prev : Nat) (h : Nat → Nat),
      (coherenceLoop input rd rem k prev h).1 = true ↔
        ∀ i, i < rem →
          fltLt (input (rd (k + i))) (if i = 0 then prev else input (rd (k + i - 1)))
            = false := by
  intro rem
  induction rem with
  | zero => intro k prev h; simp [coherenceLoop]
  | succ rem ih =>
    intro k prev h
    unfold coherenceLoop
    split
    · rename_i hlt
      constructor
      · intro hc; cases hc
      · intro hall
        have := hall 0 (by omega)
        simp only [Nat.add_zero, if_true] at this
        rw [this] at hlt
        cases hlt
    · rename_i hlt
      rw [ih]
      constructor
      · intro hall i hi
        rcases Nat.eq_zero_or_pos i with rfl | hpos
        · simpa using hlt
        · have := hall (i - 1) (by omega)
          have e1 : k + 1 + (i - 1) = k + i := by omega
          rw [e1] at this
          rw [if_neg (by omega)]
          by_cases hi1 : i - 1 = 0
          · rw [if_pos hi1] at this
            have e2 : k + i - 1 = k := by omega
            rw [e2]; exact this
          · rw [if_neg hi1] at this
            have e3 : k + i - 1 - 1 + 1 = k + i - 1 := by omega
            have e4 : k + i - 1 = k + i - 1 := rfl
            have e5 : k + 1 + (i - 1) - 1 = k + i - 1 := by omega
            exact this
      · intro hall i hi
        have := hall (i + 1) (by omega)
        rw [if_neg (by omega)] at this
        have e1 : k + (i + 1) = k + 1 + i := by omega
        rw [e1] at this
        by_cases hi0 : i = 0
        · rw [if_pos hi0]
          subst hi0
          simpa using this
        · rw [if_neg hi0]
          exact this

/-! ### The scattering loops -/

theorem scatter_eq_scatterL (digit src : Nat → Nat) :
    ∀ (rem k : Nat) (link dst : Nat → Nat),
      scatter digit src rem k link dst =
        scatterL (fun _ => true) digit ((List.range' k rem).map src) link dst := by
  intro rem
  induction rem with
  | zero => intro k link dst; simp [scatter, scatterL]
  | succ rem ih =>
    intro k link dst
    rw [scatter, ih, List.range'_succ, List.map_cons, scatterL]
    simp

theorem scatterSigned_eq_scatterL (radix src : Nat → Nat) :
    ∀ (rem k : Nat) (link dst : Nat → Nat),
      scatterSigned radix src rem k link dst =
        scatterL (fun b => decide (b < 128)) radix ((List.range' k rem).map src) link dst := by
  intro rem
  induction rem with
  | zero => intro k link dst; simp [scatterSigned, scatterL]
  | succ rem ih =>
    intro k link dst
    rw [scatterSigned, List.range'_succ, List.map_cons, scatterL]
    by_cases h : radix (src k) < 128
    · rw [if_pos h, ih]; simp [h]
    · rw [if_neg h, ih]; simp [h]

theorem scatterL_congr (fwd : Nat → Bool) (d1 d2 : Nat → Nat) :
    ∀ (ids : List Nat) (link dst : Nat → Nat), (∀ x ∈ ids, d1 x = d2 x) →
      scatterL fwd d1 ids link dst = scatterL fwd d2 ids link dst := by
  intro ids
  induction ids with
  | nil => intro _ _ _; rfl
  | cons x rest ih =>
    intro link dst h
    rw [scatterL, scatterL, h x (List.mem_cons_self _ _)]
    split
    · exact ih _ _ (fun y hy => h y (List.mem_cons_of_mem _ hy))
    · exact ih _ _ (fun y hy => h y (List.mem_cons_of_mem _ hy))

theorem bucket_cons (digit : Nat → Nat) (x : Nat) (rest : List Nat) (b : Nat) :
    bucket digit (x :: rest) b =
      if digit x = b then x :: bucket digit rest b else bucket digit rest b := by
  unfold bucket
  by_cases h : digit x = b
  · rw [List.filter_cons_of_pos (by simpa using h), if_pos h]
  · rw [List.filter_cons_of_neg (by simpa using h), if_neg h]

/-- What a scattering loop leaves in the destination: when the parts reserved for
the buckets do not overlap, the `k`-th entry of bucket `b` is in its slot and
every position outside the reserved parts is untouched. -/
theorem scatterL_spec (fwd : Nat → Bool) (digit : Nat → Nat) :
    ∀ (ids : List Nat) (link dst : Nat → Nat),
      (∀ b b2 p, b ≠ b2 → inSeg fwd link (fun c => (bucket digit ids c).length) b p →
        inSeg fwd link (fun c => (bucket digit ids c).length) b2 p → False) →
      (∀ b, fwd b = false → (bucket digit ids b).length ≤ link b) →
      (∀ b k x, (bucket digit ids b)[k]? = some x →
        scatterL fwd digit ids link dst (slot fwd link b k) = x) ∧
      (∀ p, (∀ b, ¬ inSeg fwd link (fun c => (bucket digit ids c).length) b p) →
        scatterL fwd digit ids link dst p = dst p) := by
  intro ids
  induction ids with
  | nil =>
    intro link dst _ _
    refine ⟨?_, fun p _ => rfl⟩
    intro b k x h
    simp [bucket] at h
  | cons x0 rest ih =>
    intro link dst hdisj hroom
    have hc0 : (bucket digit (x0 :: rest) (digit x0)).length
        = (bucket digit rest (digit x0)).length + 1 := by
      rw [bucket_cons, if_pos rfl, List.length_cons]
    have hcne : ∀ b, b ≠ digit x0 →
        (bucket digit (x0 :: rest) b).length = (bucket digit rest b).length := by
      intro b hb
      rw [bucket_cons, if_neg (fun h => hb h.symm)]
    by_cases hf : fwd (digit x0) = true
    · -- stored upwards
      have hstep : scatterL fwd digit (x0 :: rest) link dst =
          scatterL fwd digit rest (Function.update link (digit x0) (link (digit x0) + 1))
            (Function.update dst (link (digit x0)) x0) := by
        rw [scatterL, if_pos hf]
      have hS1 : ∀ b p, inSeg fwd (Function.update link (digit x0) (link (digit x0) + 1))
          (fun c => (bucket digit rest c).length) b p →
          inSeg fwd link (fun c => (bucket digit (x0 :: rest) c).length) b p := by
        intro b p hin
        unfold inSeg at hin ⊢
        by_cases hb : b = digit x0
        · subst hb
          simp only [hf, if_true, Function.update_same] at hin ⊢
          rw [hc0]; omega
        · simp only [Function.update_noteq hb] at hin
          simp only [hcne b hb]
          exact hin
      have hown : inSeg fwd link (fun c => (bucket digit (x0 :: rest) c).length) (digit x0)
          (link (digit x0)) := by
        unfold inSeg
        simp only [hf, if_true]
        rw [hc0]; omega
      have hS2 : ∀ b, ¬ inSeg fwd (Function.update link (digit x0) (link (digit x0) + 1))
          (fun c => (bucket digit rest c).length) b (link (digit x0)) := by
        intro b hin
        by_cases hb : b = digit x0
        · subst hb
          unfold inSeg at hin
          simp only [hf, if_true, Function.update_same] at hin
          omega
        · exact hdisj b (digit x0) _ hb (hS1 b _ hin) hown
      obtain ⟨ihA, ihB⟩ := ih (Function.update link (digit x0) (link (digit x0) + 1))
        (Function.update dst (link (digit x0)) x0)
        (fun b b2 p hne h1 h2 => hdisj b b2 p hne (hS1 b p h1) (hS1 b2 p h2))
        (by
          intro b hb
          have hbne : b ≠ digit x0 := by
            intro h; rw [h] at hb; rw [hb] at hf; cases hf
          rw [Function.update_noteq hbne, ← hcne b hbne]
          exact hroom b hb)
      rw [hstep]
      refine ⟨?_, ?_⟩
      · intro b k x hx
        by_cases hb : b = digit x0
        · subst hb
          rw [bucket_cons, if_pos rfl] at hx
          cases k with
          | zero =>
            simp only [List.getElem?_cons_zero, Option.some.injEq] at hx
            subst hx
            have : slot fwd link (digit x0) 0 = link (digit x0) := by
              unfold slot; simp [hf]
            rw [this, ihB _ hS2, Function.update_same]
          | succ k =>
            simp only [List.getElem?_cons_succ] at hx
            have := ihA (digit x0) k x hx
            have e : slot fwd (Function.update link (digit x0) (link (digit x0) + 1))
                (digit x0) k = slot fwd link (digit x0) (k + 1) := by
              unfold slot; simp only [hf, if_true, Function.update_same]; omega
            rw [e] at this
            exact this
        · rw [bucket_cons, if_neg (fun h => hb h.symm)] at hx
          have := ihA b k x hx
          have e : slot fwd (Function.update link (digit x0) (link (digit x0) + 1)) b k
              = slot fwd link b k := by
            unfold slot; simp only [Function.update_noteq hb]
          rw [e] at this
          exact this
      · intro p hp
        rw [ihB p (fun b hin => hp b (hS1 b p hin))]
        have hne : p ≠ link (digit x0) := by
          intro h; rw [h] at hp; exact hp _ hown
        rw [Function.update_noteq hne]
    · -- stored downwards
      have hf2 : fwd (digit x0) = false := by simpa using hf
      have hr0 := hroom (digit x0) hf2
      rw [hc0] at hr0
      have hstep : scatterL fwd digit (x0 :: rest) link dst =
          scatterL fwd digit rest (Function.update link (digit x0) (link (digit x0) - 1))
            (Function.update dst (link (digit x0) - 1) x0) := by
        rw [scatterL, if_neg hf]
      have hS1 : ∀ b p, inSeg fwd (Function.update link (digit x0) (link (digit x0) - 1))
          (fun c => (bucket digit rest c).length) b p →
          inSeg fwd link (fun c => (bucket digit (x0 :: rest) c).length) b p := by
        intro b p hin
        unfold inSeg at hin ⊢
        by_cases hb : b = digit x0
        · subst hb
          simp only [hf2, Function.update_same] at hin ⊢
          rw [hc0]
          simp only [Bool.false_eq_true, if_false] at hin ⊢
          omega
        · simp only [Function.update_noteq hb] at hin
          simp only [hcne b hb]
          exact hin
      have hown : inSeg fwd link (fun c => (bucket digit (x0 :: rest) c).length) (digit x0)
          (link (digit x0) - 1) := by
        unfold inSeg
        simp only [hf2, Bool.false_eq_true, if_false]
        rw [hc0]; omega
      have hS2 : ∀ b, ¬ inSeg fwd (Function.update link (digit x0) (link (digit x0) - 1))
          (fun c => (bucket digit rest c).length) b (link (digit x0) - 1) := by
        intro b hin
        by_cases hb : b = digit x0
        · subst hb
          unfold inSeg at hin
          simp only [hf2, Bool.false_eq_true, if_false, Function.update_same] at hin
          omega
        · exact hdisj b (digit x0) _ hb (hS1 b _ hin) hown
      obtain ⟨ihA, ihB⟩ := ih (Function.update link (digit x0) (link (digit x0) - 1))
        (Function.update dst (link (digit x0) - 1) x0)
        (fun b b2 p hne h1 h2 => hdisj b b2 p hne (hS1 b p h1) (hS1 b2 p h2))
        (by
          intro b hb
          by_cases hbe : b = digit x0
          · subst hbe
            rw [Function.update_same]; omega
          · rw [Function.update_noteq hbe, ← hcne b hbe]
            exact hroom b hb)
      rw [hstep]
      refine ⟨?_, ?_⟩
      · intro b k x hx
        by_cases hb : b = digit x0
        · subst hb
          rw [bucket_cons, if_pos rfl] at hx
          cases k with
          | zero =>
            simp only [List.getElem?_cons_zero, Option.some.injEq] at hx
            subst hx
            have : slot fwd link (digit x0) 0 = link (digit x0) - 1 := by
              unfold slot; simp [hf2]
            rw [this, ihB _ hS2, Function.update_same]
          | succ k =>
            simp only [List.getElem?_cons_succ] at hx
            have := ihA (digit x0) k x hx
            have e : slot fwd (Function.update link (digit x0) (link (digit x0) - 1))
                (digit x0) k = slot fwd link (digit x0) (k + 1) := by
              unfold slot
              simp only [hf2, Bool.false_eq_true, if_false, Function.update_same]; omega
            rw [e] at this
            exact this
        · rw [bucket_cons, if_neg (fun h => hb h.symm)] at hx
          have := ihA b k x hx
          have e : slot fwd (Function.update link (digit x0) (link (digit x0) - 1)) b k
              = slot fwd link b k := by
            unfold slot; simp only [Function.update_noteq hb]
          rw [e] at this
          exact this
      · intro p hp
        rw [ihB p (fun b hin => hp b (hS1 b p hin))]
        have hne : p ≠ link (digit x0) - 1 := by
          intro h; rw [h] at hp; exact hp _ hown
        rw [Function.update_noteq hne]

/-! ### From slots to lists -/

theorem linkPositive_base (c : Nat → Nat) (base : Nat) :
    ∀ n, linkPositive c base n = base + linkPositive c 0 n := by
  intro n
  induction n with
  | zero => simp [linkPositive]
  | succ n ih => rw [linkPositive, linkPositive, ih]; omega

theorem linkPositive_congr (c1 c2 : Nat → Nat) (base : Nat) :
    ∀ n, (∀ b, b < n → c1 b = c2 b) → linkPositive c1 base n = linkPositive c2 base n := by
  intro n
  induction n with
  | zero => intro _; rfl
  | succ n ih =>
    intro h
    rw [linkPositive, linkPositive, ih (fun b hb => h b (by omega)), h n (by omega)]

theorem linkPositive_mono (c : Nat → Nat) (base : Nat) :
    ∀ m n, m ≤ n → linkPositive c base m ≤ linkPositive c base n := by
  intro m n h
  induction n with
  | zero =>
    have : m = 0 := by omega
    subst this; exact le_refl _
  | succ n ih =>
    rcases Nat.eq_or_lt_of_le h with h1 | h1
    · rw [h1]
    · have := ih (by omega)
      rw [linkPositive]; omega

theorem linkNegative_eq (c : Nat → Nat) :
    ∀ n, linkNegative c n = linkPositive (fun t => c (255 - t)) 0 n := by
  intro n
  induction n with
  | zero => rfl
  | succ n ih => rw [linkNegative, linkPositive, ih]

theorem getElem?_map_range' (F : Nat → Nat) (a n k : Nat) :
    ((List.range' a n).map F)[k]? = if k < n then some (F (a + k)) else none := by
  rw [List.getElem?_map]
  by_cases h : k < n
  · rw [if_pos h, List.getElem?_eq_getElem (by simpa using h)]
    simp
  · rw [if_neg h, List.getElem?_eq_none (by simpa using h)]
    rfl

/-- Reading a function along consecutive segments, each of which holds one of the
lists `f 0, f 1, ..`, gives their concatenation. -/
theorem map_range'_segments (F : Nat → Nat) (f : Nat → List Nat) (s : Nat) :
    ∀ B, (∀ b, b < B → ∀ k x, (f b)[k]? = some x →
        F (s + linkPositive (fun t => (f t).length) 0 b + k) = x) →
      (List.range' s (linkPositive (fun t => (f t).length) 0 B)).map F =
        (List.range B).flatMap f := by
  intro B
  induction B with
  | zero => intro _; simp [linkPositive]
  | succ B ih =>
    intro h
    have ih2 := ih (fun b hb => h b (by omega))
    have hsucc : linkPositive (fun t => (f t).length) 0 (B + 1) =
        (f B).length + linkPositive (fun t => (f t).length) 0 B := by
      rw [linkPositive]; omega
    rw [hsucc, ← List.range'_append_1, List.map_append, ih2, List.range_succ,
      List.flatMap_append]
    congr 1
    simp only [List.flatMap_cons, List.flatMap_nil, List.append_nil]
    apply List.ext_getElem?
    intro k
    rw [getElem?_map_range']
    by_cases hk : k < (f B).length
    · rw [if_pos hk, List.getElem?_eq_getElem hk]
      congr 1
      exact h B (by omega) k _ (List.getElem?_eq_getElem hk)
    · rw [if_neg hk, List.getElem?_eq_none (by omega)]

theorem bucket_length_zero (digit : Nat → Nat) (ids : List Nat) (b : Nat)
    (h : ∀ x ∈ ids, digit x ≠ b) : (bucket digit ids b).length = 0 := by
  unfold bucket
  rw [List.length_eq_zero, List.filter_eq_nil_iff]
  intro x hx
  simpa using h x hx

/-- The first entries of the destination after a scattering loop whose table
`mLink` holds the running sums of the bucket sizes, taken in the order
`bk 0, bk 1, ..` of the ranks: they list the buckets in that order. -/
theorem scatterL_list (fwd : Nat → Bool) (digit : Nat → Nat) (ids : List Nat)
    (link dst : Nat → Nat) (T : Nat) (bk : Nat → Nat)
    (hinj : ∀ t, t < T → ∀ t2, t2 < T → bk t = bk t2 → t = t2)
    (hdig : ∀ x ∈ ids, ∃ t, t < T ∧ bk t = digit x)
    (hlink : ∀ t, t < T → link (bk t) =
      if fwd (bk t) then linkPositive (fun u => (bucket digit ids (bk u)).length) 0 t
      else linkPositive (fun u => (bucket digit ids (bk u)).length) 0 (t + 1)) :
    (List.range' 0 (linkPositive (fun u => (bucket digit ids (bk u)).length) 0 T)).map
      (scatterL fwd digit ids link dst) = scattered fwd digit bk T ids := by
  have hG1 : ∀ t, linkPositive (fun u => (bucket digit ids (bk u)).length) 0 (t + 1) =
      linkPositive (fun u => (bucket digit ids (bk u)).length) 0 t +
        (bucket digit ids (bk t)).length := fun t => rfl
  have hmono := linkPositive_mono (fun u => (bucket digit ids (bk u)).length) 0
  -- the reserved part of a bucket with a rank
  have hseg : ∀ t, t < T → ∀ p,
      inSeg fwd link (fun c => (bucket digit ids c).length) (bk t) p ↔
        linkPositive (fun u => (bucket digit ids (bk u)).length) 0 t ≤ p ∧
        p < linkPositive (fun u => (bucket digit ids (bk u)).length) 0 (t + 1) := by
    intro t ht p
    unfold inSeg
    rw [hlink t ht, hG1]
    by_cases hf : fwd (bk t) = true
    · simp only [hf, if_true]
    · simp only [hf, if_false, Bool.false_eq_true]
      constructor <;> intro h <;> omega
  -- a bucket without a rank is empty
  have hnone : ∀ b, (∀ t, t < T → bk t ≠ b) → ∀ p,
      ¬ inSeg fwd link (fun c => (bucket digit ids c).length) b p := by
    intro b hb p hin
    have hz : (bucket digit ids b).length = 0 := by
      apply bucket_length_zero
      intro x hx hxb
      obtain ⟨t, ht, hbt⟩ := hdig x hx
      exact hb t ht (hbt.trans hxb)
    unfold inSeg at hin
    simp only [hz] at hin
    split at hin <;> omega
  have hrank : ∀ b, (∃ t, t < T ∧ bk t = b) ∨ (∀ t, t < T → bk t ≠ b) := by
    intro b
    by_cases h : ∃ t, t < T ∧ bk t = b
    · exact Or.inl h
    · right
      intro t ht hbt
      exact h ⟨t, ht, hbt⟩
  obtain ⟨hA, _⟩ := scatterL_spec fwd digit ids link dst
    (by
      intro b b2 p hne h1 h2
      rcases hrank b with ⟨t, ht, rfl⟩ | hb
      · rcases hrank b2 with ⟨t2, ht2, rfl⟩ | hb2
        · have i1 := (hseg t ht p).1 h1
          have i2 := (hseg t2 ht2 p).1 h2
          have htne : t ≠ t2 := fun h => hne (by rw [h])
          rcases Nat.lt_or_gt_of_ne htne with hlt | hgt
          · have := hmono (t + 1) t2 (by omega)
            omega
          · have := hmono (t2 + 1) t (by omega)
            omega
        · exact hnone _ hb2 p h2
      · exact hnone _ hb p h1)
    (by
      intro b hb
      rcases hrank b with ⟨t, ht, rfl⟩ | hb2
      · rw [hlink t ht, hb]
        simp only [Bool.false_eq_true, if_false]
        rw [hG1]; omega
      · have hz : (bucket digit ids b).length = 0 := by
          apply bucket_length_zero
          intro x hx hxb
          obtain ⟨t, ht, hbt⟩ := hdig x hx
          exact hb2 t ht (hbt.trans hxb)
        omega)
  have hlen : ∀ t, (if fwd (bk t) then bucket digit ids (bk t)
      else (bucket digit ids (bk t)).reverse).length = (bucket digit ids (bk t)).length := by
    intro t
    split <;> simp
  have hcongr : linkPositive (fun u => (if fwd (bk u) then bucket digit ids (bk u)
      else (bucket digit ids (bk u)).reverse).length) 0 =
      linkPositive (fun u => (bucket digit ids (bk u)).length) 0 := by
    funext n
    exact linkPositive_congr _ _ 0 n (fun b _ => hlen b)
  unfold scattered
  rw [← hcongr]
  apply map_range'_segments
  intro t ht k x hx
  rw [hcongr, Nat.zero_add]
  by_cases hf : fwd (bk t) = true
  · simp only [hf, if_true] at hx
    have := hA (bk t) k x hx
    unfold slot at this
    rw [hlink t ht] at this
    simp only [hf, if_true] at this
    exact this
  · simp only [hf, if_false, Bool.false_eq_true] at hx
    have hk : k < (bucket digit ids (bk t)).length := by
      by_contra hc
      rw [List.getElem?_eq_none (by simpa using hc)] at hx
      cases hx
    rw [List.getElem?_reverse hk] at hx
    have := hA (bk t) _ x hx
    unfold slot at this
    rw [hlink t ht] at this
    simp only [hf, if_false, Bool.false_eq_true] at this
    rw [hG1] at this
    have e : linkPositive (fun u => (bucket digit ids (bk u)).length) 0 t +
        (bucket digit ids (bk t)).length - 1 - ((bucket digit ids (bk t)).length - 1 - k)
        = linkPositive (fun u => (bucket digit ids (bk u)).length) 0 t + k := by omega
    rw [e] at this
    exact this

theorem mem_bucket (digit : Nat → Nat) (ids : List Nat) (b x : Nat) :
    x ∈ bucket digit ids b ↔ x ∈ ids ∧ digit x = b := by
  unfold bucket
  simp [List.mem_filter]

theorem mem_scattered (fwd : Nat → Bool) (digit : Nat → Nat) (bk : Nat → Nat) (T : Nat)
    (ids : List Nat) (x : Nat) :
    x ∈ scattered fwd digit bk T ids ↔ x ∈ ids ∧ ∃ t, t < T ∧ bk t = digit x := by
  unfold scattered
  rw [List.mem_flatMap]
  constructor
  · rintro ⟨t, ht, hx⟩
    rw [List.mem_range] at ht
    have hx2 : x ∈ bucket digit ids (bk t) := by
      split at hx
      · exact hx
      · exact List.mem_reverse.1 hx
    rw [mem_bucket] at hx2
    exact ⟨hx2.1, t, ht, hx2.2.symm⟩
  · rintro ⟨hx, t, ht, hbt⟩
    refine ⟨t, List.mem_range.2 ht, ?_⟩
    have hx2 : x ∈ bucket digit ids (bk t) := (mem_bucket _ _ _ _).2 ⟨hx, hbt.symm⟩
    split
    · exact hx2
    · exact List.mem_reverse.2 hx2

/-- A scattering loop permutes the list it reads. -/
theorem scattered_perm (fwd : Nat → Bool) (digit : Nat → Nat) (bk : Nat → Nat) (T : Nat)
    (ids : List Nat) (hnd : ids.Nodup)
    (hinj : ∀ t, t < T → ∀ t2, t2 < T → bk t = bk t2 → t = t2)
    (hdig : ∀ x ∈ ids, ∃ t, t < T ∧ bk t = digit x) :
    (scattered fwd digit bk T ids).Perm ids := by
  apply (List.perm_ext_iff_of_nodup ?_ hnd).2
  · intro x
    rw [mem_scattered]
    exact ⟨fun h => h.1, fun h => ⟨h, hdig x h⟩⟩
  · unfold scattered
    rw [List.nodup_flatMap]
    constructor
    · intro t _
      have : (bucket digit ids (bk t)).Nodup := hnd.filter _
      split
      · exact this
      · exact List.nodup_reverse.2 this
    · have hpw : (List.range T).Pairwise (fun a b => a ≠ b) := List.nodup_range T
      have hall : ∀ t ∈ List.range T, t < T := fun t ht => List.mem_range.1 ht
      refine List.Pairwise.imp_of_mem ?_ hpw
      intro a b ha hb hab
      have hda : ∀ x, x ∈ (if fwd (bk a) then bucket digit ids (bk a)
          else (bucket digit ids (bk a)).reverse) → digit x = bk a := by
        intro x hx
        have : x ∈ bucket digit ids (bk a) := by
          split at hx
          · exact hx
          · exact List.mem_reverse.1 hx
        exact ((mem_bucket _ _ _ _).1 this).2
      have hdb : ∀ x, x ∈ (if fwd (bk b) then bucket digit ids (bk b)
          else (bucket digit ids (bk b)).reverse) → digit x = bk b := by
        intro x hx
        have : x ∈ bucket digit ids (bk b) := by
          split at hx
          · exact hx
          · exact List.mem_reverse.1 hx
        exact ((mem_bucket _ _ _ _).1 this).2
      show List.Disjoint _ _
      intro x hxa hxb
      exact hab (hinj a (hall a ha) b (hall b hb) ((hda x hxa).symm.trans (hdb x hxb)))

/-! ### Keys -/

theorem lowBytes_succ (j w : Nat) :
    lowBytes (j + 1) w = byteOf w j * 256 ^ j + lowBytes j w := by
  unfold lowBytes byteOf
  rw [Nat.mod_pow_succ]
  ring

theorem lowBytes_lt (j w : Nat) : lowBytes j w < 256 ^ j :=
  Nat.mod_lt _ (Nat.pow_pos (by norm_num))

theorem lowBytes_zero (w : Nat) : lowBytes 0 w = 0 := by
  unfold lowBytes; simp [Nat.mod_one]

theorem shiftRight24 (w : Nat) (h : w < 2 ^ 32) : w >>> 24 = byteOf w 3 := by
  unfold byteOf
  rw [Nat.shiftRight_eq_div_pow]
  have : w / 2 ^ 24 < 256 := by
    rw [Nat.div_lt_iff_lt_mul (by norm_num)]
    calc w < 2 ^ 32 := h
      _ = 256 * 2 ^ 24 := by norm_num
  have e : (256 : Nat) ^ 3 = 2 ^ 24 := by norm_num
  rw [e, Nat.mod_eq_of_lt this]

theorem word_eq (w : Nat) (h : w < 2 ^ 32) : w = byteOf w 3 * 2 ^ 24 + lowBytes 3 w := by
  unfold byteOf lowBytes
  have e : (256 : Nat) ^ 3 = 2 ^ 24 := by norm_num
  rw [e]
  have : w / 2 ^ 24 < 256 := by
    rw [Nat.div_lt_iff_lt_mul (by norm_num)]
    calc w < 2 ^ 32 := h
      _ = 256 * 2 ^ 24 := by norm_num
  rw [Nat.mod_eq_of_lt this]
  have := Nat.div_add_mod w (2 ^ 24)
  rw [Nat.mul_comm] at this
  exact this.symm

theorem fltKey_of_positive (w : Nat) (h : w < 2 ^ 32) (hb : byteOf w 3 < 128) :
    fltKey w = (w : Int) := by
  have hw := word_eq w h
  have hl := lowBytes_lt 3 w
  have hlt : w < 2 ^ 31 := by
    have e : (256 : Nat) ^ 3 = 2 ^ 24 := by norm_num
    rw [e] at hl
    omega
  unfold fltKey
  have e1 : w / 0x80000000 = 0 := Nat.div_eq_of_lt (by simpa using hlt)
  have e2 : w % 0x80000000 = w := Nat.mod_eq_of_lt (by simpa using hlt)
  rw [e1, e2]
  simp

theorem fltKey_of_negative (w : Nat) (h : w < 2 ^ 32) (hb : 128 ≤ byteOf w 3) :
    fltKey w = -((w : Int) - 2 ^ 31) := by
  have hw := word_eq w h
  have hge : 2 ^ 31 ≤ w := by omega
  unfold fltKey
  have e1 : w / 0x80000000 = 1 := by
    apply Nat.div_eq_of_lt_le <;> omega
  have e2 : w % 0x80000000 = w - 2 ^ 31 := by
    have := Nat.div_add_mod w 0x80000000
    rw [e1] at this
    omega
  rw [e1, e2]
  simp only [Nat.one_mod, one_ne_zero, if_false]
  rw [Nat.cast_sub hge]
  norm_num

theorem signedBucket_lt (t : Nat) (h : t < 256) : signedBucket t < 256 := by
  unfold signedBucket; split <;> omega

theorem signedBucket_inj (t : Nat) (ht : t < 256) (t2 : Nat) (ht2 : t2 < 256)
    (h : signedBucket t = signedBucket t2) : t = t2 := by
  unfold signedBucket at h
  split at h <;> split at h <;> omega

theorem signedBucket_surj (d : Nat) (h : d < 256) : ∃ t, t < 256 ∧ signedBucket t = d := by
  by_cases hd : d < 128
  · exact ⟨d + 128, by omega, by unfold signedBucket; rw [if_neg (by omega)]; omega⟩
  · exact ⟨255 - d, by omega, by unfold signedBucket; rw [if_pos (by omega)]; omega⟩

/-- An unsigned pass turns a list sorted on its `j` low bytes into a list sorted
on its `j+1` low bytes. -/
theorem scattered_sorted_unsigned (input : Nat → Nat) (j : Nat) (ids : List Nat)
    (hs : ids.Pairwise (fun a b => lowBytes j (input a) ≤ lowBytes j (input b))) :
    (scattered (fun _ => true) (fun i => byteOf (input i) j) id 256 ids).Pairwise
      (fun a b => lowBytes (j + 1) (input a) ≤ lowBytes (j + 1) (input b)) := by
  unfold scattered
  rw [List.pairwise_flatMap]
  constructor
  · intro t _
    simp only [if_true]
    have hp : (bucket (fun i => byteOf (input i) j) ids (id t)).Pairwise
        (fun a b => lowBytes j (input a) ≤ lowBytes j (input b)) := hs.filter _
    refine List.Pairwise.imp_of_mem ?_ hp
    intro a b ha hb hab
    rw [mem_bucket] at ha hb
    rw [lowBytes_succ, lowBytes_succ, ha.2, hb.2]
    omega
  · refine List.Pairwise.imp ?_ (List.pairwise_lt_range 256)
    intro t1 t2 hlt x hx y hy
    simp only [if_true, mem_bucket, id] at hx hy
    rw [lowBytes_succ, lowBytes_succ, hx.2, hy.2]
    have hl := lowBytes_lt j (input x)
    have : (t1 + 1) * 256 ^ j ≤ t2 * 256 ^ j := Nat.mul_le_mul_right _ (by omega)
    have e : (t1 + 1) * 256 ^ j = t1 * 256 ^ j + 256 ^ j := by ring
    omega

/-- The last pass turns a list sorted on its three low bytes into a list sorted
as single-precision values. -/
theorem scattered_sorted_signed (input : Nat → Nat) (ids : List Nat)
    (hw : ∀ x ∈ ids, input x < 2 ^ 32)
    (hs : ids.Pairwise (fun a b => lowBytes 3 (input a) ≤ lowBytes 3 (input b))) :
    (scattered (fun b => decide (b < 128)) (fun i => input i >>> 24) signedBucket 256
      ids).Pairwise (fun a b => fltKey (input a) ≤ fltKey (input b)) := by
  have hbucket : ∀ t x, x ∈ (if (decide (signedBucket t < 128)) = true
      then bucket (fun i => input i >>> 24) ids (signedBucket t)
      else (bucket (fun i => input i >>> 24) ids (signedBucket t)).reverse) →
      x ∈ ids ∧ byteOf (input x) 3 = signedBucket t := by
    intro t x hx
    have hx2 : x ∈ bucket (fun i => input i >>> 24) ids (signedBucket t) := by
      split at hx
      · exact hx
      · exact List.mem_reverse.1 hx
    rw [mem_bucket] at hx2
    exact ⟨hx2.1, by rw [← shiftRight24 _ (hw x hx2.1)]; exact hx2.2⟩
  unfold scattered
  rw [List.pairwise_flatMap]
  constructor
  · intro t _
    have hp : (bucket (fun i => input i >>> 24) ids (signedBucket t)).Pairwise
        (fun a b => lowBytes 3 (input a) ≤ lowBytes 3 (input b)) := hs.filter _
    by_cases hpos : signedBucket t < 128
    · simp only [hpos, decide_True, if_true]
      refine List.Pairwise.imp_of_mem ?_ hp
      intro a b ha hb hab
      rw [mem_bucket] at ha hb
      have hba : byteOf (input a) 3 = signedBucket t := by
        rw [← shiftRight24 _ (hw a ha.1)]; exact ha.2
      have hbb : byteOf (input b) 3 = signedBucket t := by
        rw [← shiftRight24 _ (hw b hb.1)]; exact hb.2
      rw [fltKey_of_positive _ (hw a ha.1) (by omega),
        fltKey_of_positive _ (hw b hb.1) (by omega)]
      have wa := word_eq _ (hw a ha.1)
      have wb := word_eq _ (hw b hb.1)
      omega
    · simp only [hpos, decide_False, if_false, Bool.false_eq_true]
      rw [List.pairwise_reverse]
      refine List.Pairwise.imp_of_mem ?_ hp
      intro a b ha hb hab
      rw [mem_bucket] at ha hb
      have hba : byteOf (input a) 3 = signedBucket t := by
        rw [← shiftRight24 _ (hw a ha.1)]; exact ha.2
      have hbb : byteOf (input b) 3 = signedBucket t := by
        rw [← shiftRight24 _ (hw b hb.1)]; exact hb.2
      rw [fltKey_of_negative _ (hw a ha.1) (by omega),
        fltKey_of_negative _ (hw b hb.1) (by omega)]
      have wa := word_eq _ (hw a ha.1)
      have wb := word_eq _ (hw b hb.1)
      omega
  · refine List.Pairwise.imp_of_mem ?_ (List.pairwise_lt_range 256)
    intro t1 t2 ht1 ht2 hlt x hx y hy
    rw [List.mem_range] at ht1 ht2
    obtain ⟨hxi, hxb⟩ := hbucket t1 x hx
    obtain ⟨hyi, hyb⟩ := hbucket t2 y hy
    have wx := word_eq _ (hw x hxi)
    have wy := word_eq _ (hw y hyi)
    have lx := lowBytes_lt 3 (input x)
    have ly := lowBytes_lt 3 (input y)
    have e : (256 : Nat) ^ 3 = 2 ^ 24 := by norm_num
    rw [e] at lx ly
    have hwx := hw x hxi
    have hwy := hw y hyi
    unfold signedBucket at hxb hyb
    by_cases h1 : t1 < 128
    · rw [if_pos h1] at hxb
      rw [fltKey_of_negative _ hwx (by omega)]
      by_cases h2 : t2 < 128
      · rw [if_pos h2] at hyb
        rw [fltKey_of_negative _ hwy (by omega)]
        omega
      · rw [if_neg h2] at hyb
        by_cases hy128 : byteOf (input y) 3 < 128
        · rw [fltKey_of_positive _ hwy hy128]
          omega
        · rw [fltKey_of_negative _ hwy (by omega)]
          omega
    · rw [if_neg h1] at hxb
      have h2 : ¬ t2 < 128 := by omega
      rw [if_neg h2] at hyb
      by_cases hx128 : byteOf (input x) 3 < 128
      · by_cases hy128 : byteOf (input y) 3 < 128
        · rw [fltKey_of_positive _ hwx hx128, fltKey_of_positive _ hwy hy128]
          omega
        · rw [fltKey_of_positive _ hwx hx128, fltKey_of_negative _ hwy (by omega)]
          omega
      · by_cases hy128 : byteOf (input y) 3 < 128
        · rw [fltKey_of_negative _ hwx (by omega), fltKey_of_positive _ hwy hy128]
          omega
        · rw [fltKey_of_negative _ hwx (by omega), fltKey_of_negative _ hwy (by omega)]
          omega

/-! ### The passes -/

theorem hist_skip (input : Nat → Nat) (nb : Nat) (h : Nat → Nat) (j : Nat) (hj : j < 4)
    (hh : HistOK input nb h) (hskip : h (j * 256 + byteOf (input 0) j) = nb) :
    ∀ i, i < nb → byteOf (input i) j = byteOf (input 0) j := by
  intro i hi
  have h1 := hh j (byteOf (input 0) j) hj (byteOf_lt _ _)
  rw [hskip] at h1
  have h2 : (List.range nb).countP (fun i => byteOf (input i) j = byteOf (input 0) j)
      = (List.range nb).length := by rw [List.length_range]; exact h1.symm
  rw [List.countP_eq_length] at h2
  simpa using h2 i (List.mem_range.2 hi)

theorem bucket_length_hist (input : Nat → Nat) (nb : Nat) (h : Nat → Nat) (j b : Nat)
    (hj : j < 4) (hb : b < 256) (hh : HistOK input nb h) (ids : List Nat)
    (hp : ids.Perm (List.range nb)) :
    (bucket (fun i => byteOf (input i) j) ids b).length = h (j * 256 + b) := by
  rw [hh j b hj hb]
  unfold bucket
  rw [← List.countP_eq_length_filter]
  exact hp.countP_eq _

theorem ranksList_mem_lt (st : RadixState) (nb : Nat)
    (hp : (ranksList st nb).Perm (List.range nb)) :
    ∀ x ∈ ranksList st nb, x < nb := by
  intro x hx
  exact List.mem_range.1 ((hp.mem_iff).1 hx)

theorem currentRanks_of_valid (st : RadixState) (h : INVALID_RANKS st.mCurrentSize = 0) :
    currentRanks st = st.mRanks1 := by
  unfold currentRanks
  rw [if_neg (not_not.2 h)]

theorem currentRanks_of_invalid (st : RadixState) (h : INVALID_RANKS st.mCurrentSize ≠ 0) :
    currentRanks st = id := by
  unfold currentRanks
  rw [if_pos h]

/-- The list written by a performed pass, given the table of offsets. -/
theorem performed_list (fwd : Nat → Bool) (digit : Nat → Nat) (bk : Nat → Nat)
    (ids : List Nat) (link dst : Nat → Nat) (hnd : ids.Nodup)
    (hinj : ∀ t, t < 256 → ∀ t2, t2 < 256 → bk t = bk t2 → t = t2)
    (hdig : ∀ x ∈ ids, ∃ t, t < 256 ∧ bk t = digit x)
    (hlink : ∀ t, t < 256 → link (bk t) =
      if fwd (bk t) then linkPositive (fun u => (bucket digit ids (bk u)).length) 0 t
      else linkPositive (fun u => (bucket digit ids (bk u)).length) 0 (t + 1)) :
    (List.range ids.length).map (scatterL fwd digit ids link dst) =
      scattered fwd digit bk 256 ids := by
  have h1 := scatterL_list fwd digit ids link dst 256 bk hinj hdig hlink
  have h2 := (scattered_perm fwd digit bk 256 ids hnd hinj hdig).length_eq
  have h3 := congrArg List.length h1
  rw [List.length_map, List.length_range'] at h3
  rw [List.range_eq_range', ← h2, ← h3]
  exact h1

theorem radixPass_inv (input : Nat → Nat) (nb : Nat) (h : Nat → Nat) (j : Nat) (hj : j < 3)
    (st : RadixState) (hnb : nb ≤ 2 ^ 30) (hh : HistOK input nb h)
    (hinv : PassInv input nb j st) :
    PassInv input nb (j + 1) (radixPass input nb h j st) := by
  obtain ⟨hperm, hsorted, hsame⟩ := hinv
  unfold radixPass
  split
  · -- the pass is skipped
    rename_i hskip
    have hall := hist_skip input nb h j (by omega) hh hskip
    refine ⟨hperm, ?_, ?_⟩
    · refine List.Pairwise.imp_of_mem ?_ hsorted
      intro a b ha hb hab
      have ha2 := ranksList_mem_lt st nb hperm a ha
      have hb2 := ranksList_mem_lt st nb hperm b hb
      rw [lowBytes_succ, lowBytes_succ, hall a ha2, hall b hb2]
      omega
    · intro hinvalid i hi
      rw [lowBytes_succ, lowBytes_succ, hall i hi, hsame hinvalid i hi]
  · -- the pass is performed
    have hvalid : INVALID_RANKS (validated st.mCurrentSize) = 0 :=
      INVALID_RANKS_validated _
    have hlen : (ranksList st nb).length = nb := by
      unfold ranksList; simp
    have hnd : (ranksList st nb).Nodup := hperm.nodup_iff.2 (List.nodup_range _)
    have hlist : ranksList
        { mCurrentSize := validated st.mCurrentSize
          mRanks1 := scatter (fun i => byteOf (input (wordIndex i)) j) (currentRanks st) nb 0
            (linkPositive (fun b => h (j * 256 + b)) 0) st.mRanks2
          mRanks2 := st.mRanks1 } nb =
        scattered (fun _ => true) (fun i => byteOf (input i) j) id 256 (ranksList st nb) := by
      have e1 : ranksList
          { mCurrentSize := validated st.mCurrentSize
            mRanks1 := scatter (fun i => byteOf (input (wordIndex i)) j) (currentRanks st) nb 0
              (linkPositive (fun b => h (j * 256 + b)) 0) st.mRanks2
            mRanks2 := st.mRanks1 } nb =
          (List.range nb).map (scatter (fun i => byteOf (input (wordIndex i)) j)
              (currentRanks st) nb 0
              (linkPositive (fun b => h (j * 256 + b)) 0) st.mRanks2) := by
        unfold ranksList
        rw [currentRanks_of_valid _ hvalid]
      rw [e1, scatter_eq_scatterL]
      have e2 : (List.range' 0 nb).map (currentRanks st) = ranksList st nb := by
        unfold ranksList; rw [List.range_eq_range']
      rw [e2, scatterL_congr _ _ (fun i => byteOf (input i) j) _ _ _
        (fun x hx => by
          simp only
          rw [wordIndex_of_lt x (lt_of_lt_of_le (ranksList_mem_lt st nb hperm x hx) hnb)])]
      have := performed_list (fun _ => true) (fun i => byteOf (input i) j) id
        (ranksList st nb) (linkPositive (fun b => h (j * 256 + b)) 0) st.mRanks2 hnd
        (fun t _ t2 _ ht => ht)
        (fun x _ => ⟨byteOf (input x) j, byteOf_lt _ _, rfl⟩)
        (by
          intro t ht
          simp only [id, if_true]
          apply linkPositive_congr
          intro b hb
          exact (bucket_length_hist input nb h j b (by omega) (by omega) hh _ hperm).symm)
      rw [hlen] at this
      exact this
    refine ⟨?_, ?_, ?_⟩
    · rw [hlist]
      exact (scattered_perm _ _ _ _ _ hnd (fun t _ t2 _ ht => ht)
        (fun x _ => ⟨byteOf (input x) j, byteOf_lt _ _, rfl⟩)).trans hperm
    · rw [hlist]
      exact scattered_sorted_unsigned input j _ hsorted
    · intro hinvalid
      exact absurd hvalid hinvalid

/-! ### The last pass -/

theorem linkPositive_sum (c : Nat → Nat) :
    ∀ n, linkPositive c 0 n = ∑ i in Finset.range n, c i := by
  intro n
  induction n with
  | zero => simp [linkPositive]
  | succ n ih => rw [linkPositive, ih, Finset.sum_range_succ]

theorem foldl_add_sum (g : Nat → Nat) :
    ∀ n, (List.range n).foldl (fun acc i => acc + g i) 0 = ∑ i in Finset.range n, g i := by
  intro n
  induction n with
  | zero => simp
  | succ n ih =>
    rw [List.range_succ, List.foldl_append, ih, Finset.sum_range_succ]
    simp

theorem NbNegativeValues_eq (h : Nat → Nat) :
    NbNegativeValues h = linkNegative (fun b => h (3 * 256 + b)) 128 := by
  unfold NbNegativeValues
  rw [foldl_add_sum, linkNegative_eq, linkPositive_sum,
    ← Finset.sum_range_reflect (fun i => h (768 + (128 + i))) 128]
  apply Finset.sum_congr rfl
  intro i hi
  rw [Finset.mem_range] at hi
  have : 768 + (128 + (128 - 1 - i)) = 3 * 256 + (255 - i) := by omega
  rw [this]

theorem linkPositive_add (c : Nat → Nat) (a : Nat) :
    ∀ n, linkPositive c 0 (a + n) =
      linkPositive c 0 a + linkPositive (fun u => c (a + u)) 0 n := by
  intro n
  induction n with
  | zero => simp [linkPositive]
  | succ n ih =>
    rw [← Nat.add_assoc, linkPositive, ih, linkPositive]
    omega

theorem bucket_congr (d1 d2 : Nat → Nat) (ids : List Nat) (b : Nat)
    (h : ∀ x ∈ ids, d1 x = d2 x) : bucket d1 ids b = bucket d2 ids b := by
  unfold bucket
  apply List.filter_congr
  intro x hx
  rw [h x hx]

theorem map_range_reflect (f : Nat → Nat) (g : Nat → Nat) (n : Nat) :
    (List.range n).map (fun i => if i < n then f (n - i - 1) else g i) =
      ((List.range n).map f).reverse := by
  apply List.ext_getElem?
  intro k
  by_cases hk : k < n
  · rw [List.getElem?_eq_getElem (by simpa using hk),
      List.getElem?_eq_getElem (by simpa using hk)]
    rw [List.getElem_reverse]
    simp only [List.getElem_map, List.getElem_range, List.length_map, List.length_range]
    rw [if_pos hk, show n - k - 1 = n - 1 - k from by omega]
  · rw [List.getElem?_eq_none (by simpa using hk), List.getElem?_eq_none (by simpa using hk)]

/-- The table of offsets of the last pass holds the running sums of the bucket
sizes in the order of `signedBucket`. -/
theorem mLinkSigned_ranks (input : Nat → Nat) (nb : Nat) (h : Nat → Nat)
    (hh : HistOK input nb h) (ids : List Nat) (hp : ids.Perm (List.range nb))
    (hw : ∀ i, i < nb → input i < 2 ^ 32) :
    ∀ t, t < 256 →
      mLinkSigned (fun b => h (3 * 256 + b)) (NbNegativeValues h) (signedBucket t) =
        if (decide (signedBucket t < 128)) = true then
          linkPositive (fun u => (bucket (fun i => input i >>> 24) ids
            (signedBucket u)).length) 0 t
        else
          linkPositive (fun u => (bucket (fun i => input i >>> 24) ids
            (signedBucket u)).length) 0 (t + 1) := by
  have hcnt : ∀ b, b < 256 →
      (bucket (fun i => input i >>> 24) ids b).length = h (3 * 256 + b) := by
    intro b hb
    rw [bucket_congr (fun i => input i >>> 24) (fun i => byteOf (input i) 3) ids b
      (fun x hx => shiftRight24 _ (hw x (List.mem_range.1 (hp.mem_iff.1 hx))))]
    exact bucket_length_hist input nb h 3 b (by omega) hb hh ids hp
  have hneg : ∀ m, m ≤ 128 →
      linkPositive (fun u => (bucket (fun i => input i >>> 24) ids
        (signedBucket u)).length) 0 m = linkNegative (fun b => h (3 * 256 + b)) m := by
    intro m hm
    rw [linkNegative_eq]
    apply linkPositive_congr
    intro u hu
    have : signedBucket u = 255 - u := by unfold signedBucket; rw [if_pos (by omega)]
    rw [this]
    exact hcnt _ (by omega)
  intro t ht
  unfold mLinkSigned
  by_cases h128 : t < 128
  · have hsb : signedBucket t = 255 - t := by unfold signedBucket; rw [if_pos h128]
    have hn : ¬ (255 - t < 128) := by omega
    rw [hsb]
    simp only [hn, decide_False, if_false, Bool.false_eq_true]
    rw [hneg (t + 1) (by omega), linkNegative]
    have : 255 - (255 - t) = t := by omega
    rw [this]
  · obtain ⟨v, rfl⟩ : ∃ v, t = 128 + v := ⟨t - 128, by omega⟩
    have hsb : signedBucket (128 + v) = v := by
      unfold signedBucket; rw [if_neg h128]; omega
    have hn : v < 128 := by omega
    rw [hsb]
    simp only [hn, decide_True, if_true]
    rw [linkPositive_add, hneg 128 (le_refl _), ← NbNegativeValues_eq, linkPositive_base]
    congr 1
    apply linkPositive_congr
    intro u hu
    have : signedBucket (128 + u) = u := by
      unfold signedBucket; rw [if_neg (by omega)]; omega
    rw [this]
    exact (hcnt u (by omega)).symm

theorem radixPassSigned_spec (input : Nat → Nat) (nb : Nat) (h : Nat → Nat)
    (st : RadixState) (hh : HistOK input nb h) (hw : ∀ i, i < nb → input i < 2 ^ 32)
    (hinv : PassInv input nb 3 st) :
    (INVALID_RANKS (radixPassSigned input nb h st).mCurrentSize ≠ 0 →
      ∀ i, i < nb → input i = input 0) ∧
    (INVALID_RANKS (radixPassSigned input nb h st).mCurrentSize = 0 →
      (sortedIndices (radixPassSigned input nb h st) nb).Perm (List.range nb) ∧
      (sortedIndices (radixPassSigned input nb h st) nb).Pairwise
        (fun a b => fltKey (input a) ≤ fltKey (input b))) := by
  obtain ⟨hperm, hsorted, hsame⟩ := hinv
  have hmem := ranksList_mem_lt st nb hperm
  have hlen : (ranksList st nb).length = nb := by unfold ranksList; simp
  have hnd : (ranksList st nb).Nodup := hperm.nodup_iff.2 (List.nodup_range _)
  unfold radixPassSigned
  split
  · rename_i hskip
    have hall := hist_skip input nb h 3 (by omega) hh hskip
    split
    · -- useless pass, every value negative: the list is reversed
      rename_i hneg
      have hvalid : INVALID_RANKS (validated st.mCurrentSize) = 0 :=
        INVALID_RANKS_validated _
      refine ⟨fun hc => absurd hvalid hc, fun _ => ?_⟩
      have hlist : sortedIndices
          { mCurrentSize := validated st.mCurrentSize
            mRanks1 := fun i => if i < nb then currentRanks st (nb - i - 1) else st.mRanks2 i
            mRanks2 := st.mRanks1 } nb = (ranksList st nb).reverse := by
        unfold sortedIndices ranksList
        exact map_range_reflect _ _ nb
      rw [hlist]
      refine ⟨(List.reverse_perm _).trans hperm, ?_⟩
      rw [List.pairwise_reverse]
      refine List.Pairwise.imp_of_mem ?_ hsorted
      intro a b ha hb hab
      have ha2 := hmem a ha
      have hb2 := hmem b hb
      rw [fltKey_of_negative _ (hw a ha2) (by rw [hall a ha2]; exact hneg),
        fltKey_of_negative _ (hw b hb2) (by rw [hall b hb2]; exact hneg)]
      have wa := word_eq _ (hw a ha2)
      have wb := word_eq _ (hw b hb2)
      rw [hall a ha2] at wa
      rw [hall b hb2] at wb
      omega
    · -- useless pass, every value positive: nothing to do
      rename_i hpos
      refine ⟨?_, ?_⟩
      · intro hinvalid i hi
        have wi := word_eq _ (hw i hi)
        by_cases h0 : 0 < nb
        · have w0 := word_eq _ (hw 0 h0)
          rw [wi, w0, hall i hi, hsame hinvalid i hi]
        · omega
      · intro hvalid
        have hlist : sortedIndices st nb = ranksList st nb := by
          unfold sortedIndices ranksList
          rw [currentRanks_of_valid st hvalid]
        rw [hlist]
        refine ⟨hperm, ?_⟩
        refine List.Pairwise.imp_of_mem ?_ hsorted
        intro a b ha hb hab
        have ha2 := hmem a ha
        have hb2 := hmem b hb
        rw [fltKey_of_positive _ (hw a ha2) (by rw [hall a ha2]; omega),
          fltKey_of_positive _ (hw b hb2) (by rw [hall b hb2]; omega)]
        have wa := word_eq _ (hw a ha2)
        have wb := word_eq _ (hw b hb2)
        rw [hall a ha2] at wa
        rw [hall b hb2] at wb
        omega
  · -- the pass is performed
    have hvalid : INVALID_RANKS (validated st.mCurrentSize) = 0 :=
      INVALID_RANKS_validated _
    refine ⟨fun hc => absurd hvalid hc, fun _ => ?_⟩
    have hdig : ∀ x ∈ ranksList st nb, ∃ t, t < 256 ∧ signedBucket t = input x >>> 24 := by
      intro x hx
      apply signedBucket_surj
      rw [shiftRight24 _ (hw x (hmem x hx))]
      exact byteOf_lt _ _
    have hlist : sortedIndices
        { mCurrentSize := validated st.mCurrentSize
          mRanks1 := scatterSigned (fun i => input i >>> 24) (currentRanks st) nb 0
            (mLinkSigned (fun b => h (3 * 256 + b)) (NbNegativeValues h)) st.mRanks2
          mRanks2 := st.mRanks1 } nb =
        scattered (fun b => decide (b < 128)) (fun i => input i >>> 24) signedBucket 256
          (ranksList st nb) := by
      unfold sortedIndices
      simp only
      rw [scatterSigned_eq_scatterL]
      have e2 : (List.range' 0 nb).map (currentRanks st) = ranksList st nb := by
        unfold ranksList; rw [List.range_eq_range']
      rw [e2]
      have := performed_list (fun b => decide (b < 128)) (fun i => input i >>> 24)
        signedBucket (ranksList st nb)
        (mLinkSigned (fun b => h (3 * 256 + b)) (NbNegativeValues h)) st.mRanks2 hnd
        signedBucket_inj hdig
        (mLinkSigned_ranks input nb h hh (ranksList st nb) hperm hw)
      rw [hlen] at this
      exact this
    rw [hlist]
    refine ⟨(scattered_perm _ _ _ _ _ hnd signedBucket_inj hdig).trans hperm, ?_⟩
    exact scattered_sorted_signed input _ (fun x hx => hw x (hmem x hx)) hsorted

/-! ### The whole sort -/

theorem histOK_finish (input : Nat → Nat) (nb : Nat) :
    HistOK input nb (finishHistograms input nb 0 (fun _ => 0)) := by
  intro j b hj hb
  rw [finishHistograms_apply input j b hj hb, List.range_eq_range']
  simp

theorem histOK_coherence (input rd : Nat → Nat) (nb prev : Nat) :
    HistOK input nb (finishHistograms input
      (nb - (coherenceLoop input rd nb 0 prev (fun _ => 0)).2.1)
      (coherenceLoop input rd nb 0 prev (fun _ => 0)).2.1
      (coherenceLoop input rd nb 0 prev (fun _ => 0)).2.2) := by
  have h := (coherenceLoop_finish input rd nb 0 prev (fun _ => 0)).2.2
  rw [Nat.zero_add] at h
  rw [h]
  exact histOK_finish input nb

theorem fltLt_irrefl (a : Nat) : fltLt a a = false := by
  unfold fltLt
  simp

theorem fltLt_ne (a b : Nat) (h : fltLt a b = true) : a ≠ b := by
  intro hab
  rw [hab, fltLt_irrefl] at h
  cases h

theorem fltLt_false_of_fltLe (a b : Nat) (h : fltLe a b = true) : fltLt b a = false := by
  unfold fltLe at h
  unfold fltLt
  simp only [Bool.and_eq_true, Bool.not_eq_true', decide_eq_true_eq] at h
  simp only [Bool.and_eq_false_imp, Bool.and_eq_true, Bool.not_eq_true', decide_eq_false_iff_not,
    not_lt]
  intro _
  exact h.2

theorem fltLe_of_fltLt_false (a b : Nat) (ha : isNaN a = false) (hb : isNaN b = false)
    (h : fltLt b a = false) : fltLe a b = true := by
  unfold fltLt at h
  unfold fltLe
  rw [ha, hb] at h ⊢
  simp only [Bool.not_false, Bool.true_and, decide_eq_false_iff_not, not_lt] at h
  simpa using h

theorem fltLe_of_key (a b : Nat) (ha : isNaN a = false) (hb : isNaN b = false)
    (h : fltKey a ≤ fltKey b) : fltLe a b = true := by
  unfold fltLe
  rw [ha, hb]
  simpa using h

/-- An early out of the coherence loop exhibits two different words. -/
theorem coherence_false_distinct (input rd : Nat → Nat) (nb : Nat)
    (hrd : ∀ i, i < nb → rd i < nb)
    (h : (coherenceLoop input rd nb 0 (input (rd 0)) (fun _ => 0)).1 = false) :
    ∃ a b, a < nb ∧ b < nb ∧ input a ≠ input b := by
  have hnot : ¬ ((coherenceLoop input rd nb 0 (input (rd 0)) (fun _ => 0)).1 = true) := by
    rw [h]; simp
  rw [coherenceLoop_true_iff] at hnot
  push_neg at hnot
  obtain ⟨i, hi, hlt⟩ := hnot
  have hlt2 : fltLt (input (rd (0 + i)))
      (if i = 0 then input (rd 0) else input (rd (0 + i - 1))) = true := by
    simpa using hlt
  rw [Nat.zero_add] at hlt2
  by_cases hi0 : i = 0
  · rw [if_pos hi0, hi0, fltLt_irrefl] at hlt2
    cases hlt2
  · rw [if_neg hi0] at hlt2
    exact ⟨rd i, rd (i - 1), hrd i hi, hrd (i - 1) (by omega), fltLt_ne _ _ hlt2⟩

theorem radixPasses_spec (input : Nat → Nat) (nb : Nat) (h : Nat → Nat) (st : RadixState)
    (hnb : nb ≤ 2 ^ 30) (hh : HistOK input nb h) (hw : ∀ i, i < nb → input i < 2 ^ 32)
    (hinv : PassInv input nb 0 st)
    (hdiff : ∃ a b, a < nb ∧ b < nb ∧ input a ≠ input b) :
    INVALID_RANKS (radixPasses input nb h st).mCurrentSize = 0 ∧
    (sortedIndices (radixPasses input nb h st) nb).Perm (List.range nb) ∧
    (sortedIndices (radixPasses input nb h st) nb).Pairwise
      (fun a b => fltKey (input a) ≤ fltKey (input b)) := by
  have h1 := radixPass_inv input nb h 0 (by omega) st hnb hh hinv
  have h2 := radixPass_inv input nb h 1 (by omega) _ hnb hh h1
  have h3 := radixPass_inv input nb h 2 (by omega) _ hnb hh h2
  obtain ⟨hA, hB⟩ := radixPassSigned_spec input nb h _ hh hw h3
  have hvalid : INVALID_RANKS (radixPasses input nb h st).mCurrentSize = 0 := by
    by_contra hc
    obtain ⟨a, b, ha, hb, hab⟩ := hdiff
    exact hab ((hA hc a ha).trans (hA hc b hb).symm)
  exact ⟨hvalid, hB hvalid⟩

theorem radixPass_size (input : Nat → Nat) (nb : Nat) (h : Nat → Nat) (j : Nat)
    (st : RadixState) :
    CURRENT_SIZE (radixPass input nb h j st).mCurrentSize = CURRENT_SIZE st.mCurrentSize ∧
    (st.mCurrentSize < 2 ^ 32 → (radixPass input nb h j st).mCurrentSize < 2 ^ 32) := by
  unfold radixPass
  split
  · exact ⟨rfl, fun h => h⟩
  · exact ⟨CURRENT_SIZE_validated _, validated_lt _⟩

theorem radixPassSigned_size (input : Nat → Nat) (nb : Nat) (h : Nat → Nat)
    (st : RadixState) :
    CURRENT_SIZE (radixPassSigned input nb h st).mCurrentSize
      = CURRENT_SIZE st.mCurrentSize ∧
    (st.mCurrentSize < 2 ^ 32 → (radixPassSigned input nb h st).mCurrentSize < 2 ^ 32) := by
  unfold radixPassSigned
  split
  · split
    · exact ⟨CURRENT_SIZE_validated _, validated_lt _⟩
    · exact ⟨rfl, fun h => h⟩
  · exact ⟨CURRENT_SIZE_validated _, validated_lt _⟩

theorem radixPasses_size (input : Nat → Nat) (nb : Nat) (h : Nat → Nat) (st : RadixState) :
    CURRENT_SIZE (radixPasses input nb h st).mCurrentSize = CURRENT_SIZE st.mCurrentSize ∧
    (st.mCurrentSize < 2 ^ 32 → (radixPasses input nb h st).mCurrentSize < 2 ^ 32) := by
  unfold radixPasses
  have a0 := radixPass_size input nb h 0 st
  have a1 := radixPass_size input nb h 1 (radixPass input nb h 0 st)
  have a2 := radixPass_size input nb h 2 (radixPass input nb h 1 (radixPass input nb h 0 st))
  have a3 := radixPassSigned_size input nb h
    (radixPass input nb h 2 (radixPass input nb h 1 (radixPass input nb h 0 st)))
  exact ⟨a3.1.trans (a2.1.trans (a1.1.trans a0.1)),
    fun hlt => a3.2 (a2.2 (a1.2 (a0.2 hlt)))⟩

/-- After the resizing the ranks are valid only if nothing was resized. -/
theorem resize_valid (st : RadixState) (fresh1 fresh2 : Nat → Nat) (nb : Nat)
    (h : INVALID_RANKS (resize st fresh1 fresh2 nb).mCurrentSize = 0) :
    resize st fresh1 fresh2 nb = st ∧ CURRENT_SIZE st.mCurrentSize = nb := by
  unfold resize at h ⊢
  split at h
  · split at h
    · exact absurd h (INVALID_RANKS_INVALIDATE nb)
    · exact absurd h (INVALID_RANKS_INVALIDATE nb)
  · rename_i hne
    rw [if_neg hne]
    exact ⟨rfl, (not_not.1 hne).symm⟩

theorem resize_invalid (st : RadixState) (fresh1 fresh2 : Nat → Nat) (nb : Nat)
    (h : INVALID_RANKS st.mCurrentSize ≠ 0) :
    INVALID_RANKS (resize st fresh1 fresh2 nb).mCurrentSize ≠ 0 := by
  unfold resize
  split
  · split
    · exact INVALID_RANKS_INVALIDATE nb
    · exact INVALID_RANKS_INVALIDATE nb
  · exact h

theorem resize_size (st : RadixState) (fresh1 fresh2 : Nat → Nat) (nb : Nat)
    (hnb : nb < 2 ^ 31) (hst : st.mCurrentSize < 2 ^ 32) :
    CURRENT_SIZE (resize st fresh1 fresh2 nb).mCurrentSize = nb ∧
    (resize st fresh1 fresh2 nb).mCurrentSize < 2 ^ 32 := by
  have hnb2 : nb < 2 ^ 32 := lt_trans hnb (by norm_num)
  unfold resize
  split
  · split
    · exact ⟨CURRENT_SIZE_INVALIDATE nb hnb, INVALIDATE_RANKS_lt nb hnb2⟩
    · exact ⟨CURRENT_SIZE_INVALIDATE nb hnb, INVALIDATE_RANKS_lt nb hnb2⟩
  · rename_i hne
    exact ⟨(not_not.1 hne).symm, hst⟩

/-- The loop invariant holds before the first pass. -/
theorem passInv_zero (input : Nat → Nat) (nb : Nat) (st : RadixState)
    (hp : INVALID_RANKS st.mCurrentSize = 0 →
      ((List.range nb).map st.mRanks1).Perm (List.range nb)) :
    PassInv input nb 0 st := by
  refine ⟨?_, ?_, ?_⟩
  · unfold ranksList
    by_cases hv : INVALID_RANKS st.mCurrentSize = 0
    · rw [currentRanks_of_valid st hv]; exact hp hv
    · rw [currentRanks_of_invalid st hv]; simp
  · apply List.pairwise_of_forall
    intro a b
    rw [lowBytes_zero, lowBytes_zero]
  · intro _ i _
    rw [lowBytes_zero, lowBytes_zero]

theorem pairwise_map_range_adjacent (R : Nat → Nat → Prop) (r : Nat → Nat) (nb : Nat)
    (h : ((List.range nb).map r).Pairwise R) :
    ∀ k, k + 1 < nb → R (r k) (r (k + 1)) := by
  intro k hk
  rw [List.pairwise_iff_getElem] at h
  have := h k (k + 1) (by simp; omega) (by simpa using hk) (by omega)
  simpa using this

theorem coherence_true_adjacent (input rd : Nat → Nat) (nb : Nat)
    (hrd : ∀ i, i < nb → rd i < nb) (hnan : ∀ i, i < nb → isNaN (input i) = false)
    (h : (coherenceLoop input rd nb 0 (input (rd 0)) (fun _ => 0)).1 = true) :
    ∀ k, k + 1 < nb → fltLe (input (rd k)) (input (rd (k + 1))) = true := by
  intro k hk
  rw [coherenceLoop_true_iff] at h
  have := h (k + 1) hk
  rw [if_neg (by omega)] at this
  have e1 : 0 + (k + 1) = k + 1 := by omega
  rw [e1] at this
  have e2 : k + 1 - 1 = k := by omega
  rw [e2] at this
  exact fltLe_of_fltLt_false _ _ (hnan _ (hrd k (by omega))) (hnan _ (hrd (k + 1) hk)) this

theorem coherence_true_of_adjacent (input rd : Nat → Nat) (nb : Nat)
    (h : ∀ k, k + 1 < nb → fltLe (input (rd k)) (input (rd (k + 1))) = true) :
    (coherenceLoop input rd nb 0 (input (rd 0)) (fun _ => 0)).1 = true := by
  rw [coherenceLoop_true_iff]
  intro i hi
  by_cases hi0 : i = 0
  · rw [if_pos hi0, hi0]
    exact fltLt_irrefl _
  · rw [if_neg hi0]
    have := h (i - 1) (by omega)
    have e1 : i - 1 + 1 = i := by omega
    rw [e1] at this
    have e2 : 0 + i = i := by omega
    rw [e2]
    exact fltLt_false_of_fltLe _ _ this

theorem RadixInv_radixInit : RadixInv radixInit := by
  refine ⟨?_, ?_⟩
  · exact INVALIDATE_RANKS_lt 0 (by norm_num)
  · intro h
    exact absurd h (INVALID_RANKS_INVALIDATE 0)

/-- What `RadixSort` returns from a state whose ranks, if valid for this size,
are a permutation: a permutation of the indices, which lists values that are
not NaN in ascending order, and a state that satisfies `RadixInv` again. -/
theorem RadixSort_result (st : RadixState) (fresh1 fresh2 : Nat → Nat) (input : Nat → Nat)
    (nb : Nat) (hnb30 : nb < 2 ^ 30) (hw : ∀ i, i < nb → input i < 2 ^ 32)
    (hst : INVALID_RANKS st.mCurrentSize = 0 → CURRENT_SIZE st.mCurrentSize = nb →
      ((List.range nb).map st.mRanks1).Perm (List.range nb)) :
    (sortedIndices (RadixSort st fresh1 fresh2 input nb) nb).Perm (List.range nb) ∧
    ((∀ i, i < nb → isNaN (input i) = false) → ∀ k, k + 1 < nb →
      fltLe (input ((RadixSort st fresh1 fresh2 input nb).mRanks1 k))
        (input ((RadixSort st fresh1 fresh2 input nb).mRanks1 (k + 1))) = true) ∧
    (RadixInv st → RadixInv (RadixSort st fresh1 fresh2 input nb)) := by
  have hnb : nb < 2 ^ 31 := lt_trans hnb30 (by norm_num)
  have hkey : ∀ (s : RadixState), INVALID_RANKS s.mCurrentSize = 0 →
      (sortedIndices s nb).Pairwise (fun a b => fltKey (input a) ≤ fltKey (input b)) →
      (sortedIndices s nb).Perm (List.range nb) →
      (∀ i, i < nb → isNaN (input i) = false) → ∀ k, k + 1 < nb →
      fltLe (input (s.mRanks1 k)) (input (s.mRanks1 (k + 1))) = true := by
    intro s _ hpw hperm hnan k hk
    have hadj := pairwise_map_range_adjacent _ s.mRanks1 nb hpw k hk
    have hm : ∀ i, i < nb → s.mRanks1 i < nb := by
      intro i hi
      apply List.mem_range.1
      apply hperm.mem_iff.1
      unfold sortedIndices
      exact List.mem_map.2 ⟨i, List.mem_range.2 hi, rfl⟩
    exact fltLe_of_key _ _ (hnan _ (hm k (by omega))) (hnan _ (hm (k + 1) hk)) hadj
  unfold RadixSort
  simp only
  rw [wordCount_of_lt nb hnb30]
  by_cases hv : INVALID_RANKS (resize st fresh1 fresh2 nb).mCurrentSize ≠ 0
  · rw [if_pos hv]
    have hinv0 : PassInv input nb 0 (resize st fresh1 fresh2 nb) :=
      passInv_zero input nb _ (fun h => absurd h hv)
    have hH := histOK_coherence input id nb (input 0)
    have hD := coherence_false_distinct input id nb (fun i hi => hi)
    have hT := coherence_true_adjacent input id nb (fun i hi => hi)
    simp only [id] at hD hT
    rcases hcl : coherenceLoop input id nb 0 (input 0) (fun _ => 0) with ⟨b, k, h⟩
    rw [hcl] at hH hD hT
    cases b
    · -- the passes are run
      simp only at hH ⊢
      obtain ⟨hvalid, hperm, hpw⟩ := radixPasses_spec input nb _ _ (le_of_lt hnb30) hH hw hinv0 (hD rfl)
      refine ⟨hperm, hkey _ hvalid hpw hperm, ?_⟩
      intro hinv
      obtain ⟨hs1, hs2⟩ := radixPasses_size input nb
        (finishHistograms input (nb - k) k h) (resize st fresh1 fresh2 nb)
      obtain ⟨hr1, hr2⟩ := resize_size st fresh1 fresh2 nb hnb hinv.1
      refine ⟨hs2 hr2, ?_⟩
      intro _
      rw [hs1, hr1]
      exact hperm
    · -- already sorted: the identity is returned
      simp only
      have hid : sortedIndices
          { mCurrentSize := (resize st fresh1 fresh2 nb).mCurrentSize
            mRanks1 := fun i => if i < nb then i else (resize st fresh1 fresh2 nb).mRanks1 i
            mRanks2 := (resize st fresh1 fresh2 nb).mRanks2 } nb = List.range nb := by
        unfold sortedIndices
        simp only
        conv => rhs; rw [← List.map_id (List.range nb)]
        apply List.map_congr_left
        intro i hi
        rw [if_pos (List.mem_range.1 hi)]
        rfl
      refine ⟨by rw [hid], ?_, ?_⟩
      · intro hnan k hk
        rw [if_pos (by omega), if_pos hk]
        exact hT hnan rfl k hk
      · intro hinv
        obtain ⟨_, hr2⟩ := resize_size st fresh1 fresh2 nb hnb hinv.1
        exact ⟨hr2, fun hc => absurd hc hv⟩
  · rw [if_neg hv]
    have hv2 : INVALID_RANKS (resize st fresh1 fresh2 nb).mCurrentSize = 0 := not_not.1 hv
    obtain ⟨hres, hsize⟩ := resize_valid st fresh1 fresh2 nb hv2
    rw [hres] at hv2 ⊢
    have hperm0 := hst hv2 hsize
    have hm : ∀ i, i < nb → st.mRanks1 i < nb := by
      intro i hi
      apply List.mem_range.1
      apply hperm0.mem_iff.1
      exact List.mem_map.2 ⟨i, List.mem_range.2 hi, rfl⟩
    have hinv0 : PassInv input nb 0 st := passInv_zero input nb _ (fun _ => hperm0)
    have hH := histOK_coherence input st.mRanks1 nb (input (st.mRanks1 0))
    have hD := coherence_false_distinct input st.mRanks1 nb hm
    have hT := coherence_true_adjacent input st.mRanks1 nb hm
    rcases hcl : coherenceLoop input st.mRanks1 nb 0 (input (st.mRanks1 0)) (fun _ => 0)
      with ⟨b, k, h⟩
    rw [hcl] at hH hD hT
    cases b
    · simp only at hH ⊢
      obtain ⟨hvalid, hperm, hpw⟩ := radixPasses_spec input nb _ _ (le_of_lt hnb30) hH hw hinv0 (hD rfl)
      refine ⟨hperm, hkey _ hvalid hpw hperm, ?_⟩
      intro hinv
      obtain ⟨hs1, hs2⟩ := radixPasses_size input nb
        (finishHistograms input (nb - k) k h) st
      refine ⟨hs2 hinv.1, ?_⟩
      intro _
      rw [hs1, hsize]
      exact hperm
    · simp only
      refine ⟨hperm0, ?_, fun hinv => hinv⟩
      intro hnan k hk
      exact hT hnan rfl k hk

/-! ### Arrays of `2^30` entries and more -/

theorem update_noZero (dst : Nat → Nat) (a v : Nat) (hd : ∀ p, dst p ≠ 0) (hv : v ≠ 0) :
    ∀ p, Function.update dst a v p ≠ 0 := by
  intro p
  by_cases h : p = a
  · rw [h, Function.update_same]; exact hv
  · rw [Function.update_noteq h]; exact hd p

theorem scatter_noZero (digit src : Nat → Nat) :
    ∀ (rem k : Nat) (link dst : Nat → Nat), (∀ p, dst p ≠ 0) → (∀ i, k ≤ i → src i ≠ 0) →
      ∀ p, scatter digit src rem k link dst p ≠ 0 := by
  intro rem
  induction rem with
  | zero => intro k link dst hd _; exact hd
  | succ rem ih =>
    intro k link dst hd hs
    rw [scatter]
    exact ih (k + 1) _ _ (update_noZero dst _ _ hd (hs k (le_refl _)))
      (fun i hi => hs i (by omega))

theorem scatterSigned_noZero (radix src : Nat → Nat) :
    ∀ (rem k : Nat) (link dst : Nat → Nat), (∀ p, dst p ≠ 0) → (∀ i, k ≤ i → src i ≠ 0) →
      ∀ p, scatterSigned radix src rem k link dst p ≠ 0 := by
  intro rem
  induction rem with
  | zero => intro k link dst hd _; exact hd
  | succ rem ih =>
    intro k link dst hd hs
    rw [scatterSigned]
    split
    · exact ih (k + 1) _ _ (update_noZero dst _ _ hd (hs k (le_refl _)))
        (fun i hi => hs i (by omega))
    · exact ih (k + 1) _ _ (update_noZero dst _ _ hd (hs k (le_refl _)))
        (fun i hi => hs i (by omega))

theorem radixPass_noZero (input : Nat → Nat) (nb : Nat) (h : Nat → Nat) (j : Nat)
    (st : RadixState) (hz : NoZero st) : NoZero (radixPass input nb h j st) := by
  obtain ⟨hv, h1, h2⟩ := hz
  unfold radixPass
  split
  · exact ⟨hv, h1, h2⟩
  · refine ⟨INVALID_RANKS_validated _, ?_, h1⟩
    rw [currentRanks_of_valid st hv]
    exact scatter_noZero _ _ nb 0 _ _ h2 (fun i _ => h1 i)

theorem radixPassSigned_noZero (input : Nat → Nat) (nb : Nat) (h : Nat → Nat)
    (st : RadixState) (hz : NoZero st) : NoZero (radixPassSigned input nb h st) := by
  obtain ⟨hv, h1, h2⟩ := hz
  unfold radixPassSigned
  split
  · split
    · refine ⟨INVALID_RANKS_validated _, ?_, h1⟩
      intro p
      simp only
      rw [currentRanks_of_valid st hv]
      split
      · exact h1 _
      · exact h2 _
    · exact ⟨hv, h1, h2⟩
  · refine ⟨INVALID_RANKS_validated _, ?_, h1⟩
    rw [currentRanks_of_valid st hv]
    exact scatterSigned_noZero _ _ nb 0 _ _ h2 (fun i _ => h1 i)

theorem scatter_succ (digit src : Nat → Nat) (rem k : Nat) (link dst : Nat → Nat) :
    scatter digit src (rem + 1) k link dst =
      scatter digit src rem (k + 1)
        (Function.update link (digit (src k)) (link (digit (src k)) + 1))
        (Function.update dst (link (digit (src k))) (src k)) := rfl

/-- The first pass on `wrapInput` with `2^30 + 2` entries: the histograms count
two words only, the slot of the index `0` is overwritten by the index `2`, and
no entry of the array written holds `0`. -/
theorem wrap_first_pass :
    NoZero (radixPass wrapInput (2 ^ 30 + 2)
      (countWord (countWord (fun _ => 0) (wrapInput 0)) (wrapInput 1)) 0
      { mCurrentSize := INVALIDATE_RANKS (2 ^ 30 + 2)
        mRanks1 := fun _ => 5, mRanks2 := fun _ => 5 }) := by
  have hinvalid : INVALID_RANKS (INVALIDATE_RANKS (2 ^ 30 + 2)) ≠ 0 :=
    INVALID_RANKS_INVALIDATE _
  unfold radixPass
  rw [if_neg (by decide)]
  refine ⟨?_, ?_, ?_⟩
  · exact INVALID_RANKS_validated (INVALIDATE_RANKS (2 ^ 30 + 2))
  swap
  · intro p; show (5 : Nat) ≠ 0; decide
  simp only
  rw [currentRanks_of_invalid _ hinvalid]
  have hsplit : (2 ^ 30 + 2 : Nat) = (2 ^ 30 - 1) + 1 + 1 + 1 := by norm_num
  rw [hsplit, scatter_succ, scatter_succ, scatter_succ]
  apply scatter_noZero
  · intro p
    simp only [id]
    have e0 : linkPositive (fun b => countWord (countWord (fun _ => 0) (wrapInput 0))
        (wrapInput 1) (0 * 256 + b)) 0
        (byteOf (wrapInput (wordIndex 0)) 0) = 1 := by decide
    have e1 : byteOf (wrapInput (wordIndex 1)) 0 = 1 := by decide
    have e2 : byteOf (wrapInput (wordIndex 2)) 0 = 1 := by decide
    have e3 : byteOf (wrapInput (wordIndex 0)) 0 = 2 := by decide
    have e4 : linkPositive (fun b => countWord (countWord (fun _ => 0) (wrapInput 0))
        (wrapInput 1) (0 * 256 + b)) 0 1 = 0 := by decide
    rw [e0, e1, e2, e3]
    simp only [Function.update_apply, e4]
    by_cases hp1 : p = 1
    · simp [hp1]
    · by_cases hp0 : p = 0
      · simp [hp0]
      · simp [hp0, hp1]
  · intro i hi
    simp only [id]
    omega

theorem wrap_run :
    RadixSort radixInit (fun _ => 5) (fun _ => 5) wrapInput (2 ^ 30 + 2) =
      radixPasses wrapInput (2 ^ 30 + 2)
        (countWord (countWord (fun _ => 0) (wrapInput 0)) (wrapInput 1))
        { mCurrentSize := INVALIDATE_RANKS (2 ^ 30 + 2)
          mRanks1 := fun _ => 5, mRanks2 := fun _ => 5 } := by
  rfl

theorem wrap_noZero :
    NoZero (RadixSort radixInit (fun _ => 5) (fun _ => 5) wrapInput (2 ^ 30 + 2)) := by
  rw [wrap_run]
  unfold radixPasses
  exact radixPassSigned_noZero _ _ _ _
    (radixPass_noZero _ _ _ 2 _ (radixPass_noZero _ _ _ 1 _ wrap_first_pass))

/-! ## Radix sort: the claims -/

/-- C3 (as amended): `RadixSort` sorts arrays of fewer than `2^30` entries. For
every `nb` with `1 <= nb < 2^30`, every input array of `nb` 32-bit words none of
which is a NaN, and every prior state of the sorter in which the ranks are
invalid, or valid for another size, or valid for `nb` with `mRanks1` a
permutation of `0..nb-1`, the returned index array `r` satisfies
`input[r[k]] <= input[r[k+1]]` for all `k < nb-1`. -/
theorem RadixSort_sorts (st : RadixState) (fresh1 fresh2 : Nat → Nat) (input : Nat → Nat)
    (nb : Nat) (hnb : 1 ≤ nb) (hnb30 : nb < 2 ^ 30) (hw : ∀ i, i < nb → input i < 2 ^ 32)
    (hnan : ∀ i, i < nb → isNaN (input i) = false)
    (hst : INVALID_RANKS st.mCurrentSize = 0 → CURRENT_SIZE st.mCurrentSize = nb →
      ((List.range nb).map st.mRanks1).Perm (List.range nb)) :
    ∀ k, k + 1 < nb →
      fltLe (input ((RadixSort st fresh1 fresh2 input nb).mRanks1 k))
        (input ((RadixSort st fresh1 fresh2 input nb).mRanks1 (k + 1))) = true :=
  (RadixSort_result st fresh1 fresh2 input nb hnb30 hw hst).2.1 hnan

/-- C3, witness: the values `3.0, -1.0, 2.0` sorted from the initial state. -/
theorem RadixSort_sorts_witness :
    (∀ i, i < 3 → arrayOf [0x40400000, 0xBF800000, 0x40000000] i < 2 ^ 32) ∧
    (∀ i, i < 3 → isNaN (arrayOf [0x40400000, 0xBF800000, 0x40000000] i) = false) ∧
    ∀ k, k + 1 < 3 →
      fltLe (arrayOf [0x40400000, 0xBF800000, 0x40000000]
          ((RadixSort radixInit (fun _ => 0) (fun _ => 0)
            (arrayOf [0x40400000, 0xBF800000, 0x40000000]) 3).mRanks1 k))
        (arrayOf [0x40400000, 0xBF800000, 0x40000000]
          ((RadixSort radixInit (fun _ => 0) (fun _ => 0)
            (arrayOf [0x40400000, 0xBF800000, 0x40000000]) 3).mRanks1 (k + 1))) = true :=
  ⟨by decide, by decide,
   RadixSort_sorts radixInit (fun _ => 0) (fun _ => 0)
    (arrayOf [0x40400000, 0xBF800000, 0x40000000]) 3 (by decide) (by decide) (by decide)
    (by decide) (by decide)⟩

/-- C3, counterexample to the claim as stated: for `nb = 2^30` the 32-bit product
`nb*4` is `0`, so `pe == p`, neither coherence loop runs, `AlreadySorted` stays
true and the identity is returned from the initial state, although the input
starts with `2.0, 1.0`: `input[r[0]] <= input[r[1]]` is false. Every word of the
input is a 32-bit word and none is a NaN. -/
theorem RadixSort_unsorted_at_two_pow_30 :
    (∀ i, i < 2 ^ 30 → descendingInput i < 2 ^ 32 ∧ isNaN (descendingInput i) = false) ∧
    INVALID_RANKS radixInit.mCurrentSize ≠ 0 ∧
    (RadixSort radixInit (fun _ => 0) (fun _ => 0) descendingInput (2 ^ 30)).mRanks1 0 = 0 ∧
    (RadixSort radixInit (fun _ => 0) (fun _ => 0) descendingInput (2 ^ 30)).mRanks1 1 = 1 ∧
    fltLe (descendingInput
        ((RadixSort radixInit (fun _ => 0) (fun _ => 0) descendingInput (2 ^ 30)).mRanks1 0))
      (descendingInput
        ((RadixSort radixInit (fun _ => 0) (fun _ => 0) descendingInput (2 ^ 30)).mRanks1 1))
      = false := by
  refine ⟨?_, by decide, by decide, by decide, by decide⟩
  intro i _
  unfold descendingInput
  by_cases h : i = 0
  · rw [if_pos h]; decide
  · rw [if_neg h]; decide

/-- C4 (as amended): `RadixSort` returns a permutation for fewer than `2^30`
entries. For every `nb` with `1 <= nb < 2^30`, every input of 32-bit words and
every state of the sorter that satisfies `RadixInv` (the initial state does), the
first `nb` entries of the returned array contain each index `0..nb-1` exactly
once, whichever of the fast paths, performed passes, skipped passes and the
reversal branch is taken, and the state left behind satisfies `RadixInv` again. -/
theorem RadixSort_returns_permutation (st : RadixState) (fresh1 fresh2 : Nat → Nat)
    (input : Nat → Nat) (nb : Nat) (hnb : 1 ≤ nb) (hnb30 : nb < 2 ^ 30)
    (hw : ∀ i, i < nb → input i < 2 ^ 32) (hinv : RadixInv st) :
    (sortedIndices (RadixSort st fresh1 fresh2 input nb) nb).Perm (List.range nb) ∧
    RadixInv (RadixSort st fresh1 fresh2 input nb) := by
  have h := RadixSort_result st fresh1 fresh2 input nb hnb30 hw
    (fun hv hs => by have := hinv.2 hv; rw [hs] at this; exact this)
  exact ⟨h.1, h.2.2 hinv⟩

/-- C4, witness: a state with valid ranks `2,0,1` and a new input. -/
theorem RadixSort_returns_permutation_witness :
    RadixInv { mCurrentSize := 3, mRanks1 := arrayOf [2, 0, 1], mRanks2 := fun _ => 0 } ∧
    (sortedIndices (RadixSort
        { mCurrentSize := 3, mRanks1 := arrayOf [2, 0, 1], mRanks2 := fun _ => 0 }
        (fun _ => 0) (fun _ => 0) (arrayOf [0x40400000, 0xBF800000, 0x7FC00000]) 3)
      3).Perm (List.range 3) :=
  ⟨by unfold RadixInv; decide,
   (RadixSort_returns_permutation
    { mCurrentSize := 3, mRanks1 := arrayOf [2, 0, 1], mRanks2 := fun _ => 0 }
    (fun _ => 0) (fun _ => 0) (arrayOf [0x40400000, 0xBF800000, 0x7FC00000]) 3
    (by decide) (by decide) (by decide) (by unfold RadixInv; decide)).1⟩

/-- C4, counterexample to the claim as stated: for `nb = 2^30 + 2`, from the
initial state of the sorter (which is reachable and satisfies `RadixInv`), with
fresh arrays filled with `5` and the input words `2, 1, 1, 1, ...`, the array
returned by `RadixSort` does not contain the index `0`, so its first `nb` entries
are not a permutation of `0..nb-1`. The byte offsets `nb*4` and `id<<2` are
computed in `uint32`: the histograms count two words only, and the first pass
stores the index `0` at offset `1`, where the index `2` overwrites it. -/
theorem RadixSort_not_permutation_past_two_pow_30 :
    1 ≤ 2 ^ 30 + 2 ∧ (∀ i, i < 2 ^ 30 + 2 → wrapInput i < 2 ^ 32) ∧ RadixInv radixInit ∧
    (∀ k, (RadixSort radixInit (fun _ => 5) (fun _ => 5) wrapInput (2 ^ 30 + 2)).mRanks1 k
      ≠ 0) ∧
    ¬ (sortedIndices (RadixSort radixInit (fun _ => 5) (fun _ => 5) wrapInput (2 ^ 30 + 2))
        (2 ^ 30 + 2)).Perm (List.range (2 ^ 30 + 2)) := by
  refine ⟨by decide, ?_, ?_, wrap_noZero.2.1, ?_⟩
  · intro i _; unfold wrapInput
    by_cases h : i = 0
    · rw [if_pos h]; decide
    · rw [if_neg h]; decide
  · unfold RadixInv; decide
  · intro hperm
    have h0 : 0 ∈ sortedIndices (RadixSort radixInit (fun _ => 5) (fun _ => 5) wrapInput
        (2 ^ 30 + 2)) (2 ^ 30 + 2) :=
      hperm.symm.subset (List.mem_range.mpr (by decide))
    unfold sortedIndices at h0
    obtain ⟨k, _, hk⟩ := List.mem_map.mp h0
    exact wrap_noZero.2.1 k hk

/-- C5: the coherence fast path. If the ranks are valid for the same size `nb`
and the new input, read through the previous permutation, is non-decreasing,
`RadixSort` leaves the sorter as it is and so returns the previous permutation
unchanged; if the ranks are invalid and the input is non-decreasing in natural
order, it returns the identity permutation. -/
theorem RadixSort_coherence_fast_path (st : RadixState) (fresh1 fresh2 : Nat → Nat)
    (input : Nat → Nat) (nb : Nat) :
    (INVALID_RANKS st.mCurrentSize = 0 → CURRENT_SIZE st.mCurrentSize = nb →
      (∀ k, k + 1 < nb →
        fltLe (input (st.mRanks1 k)) (input (st.mRanks1 (k + 1))) = true) →
      RadixSort st fresh1 fresh2 input nb = st) ∧
    (INVALID_RANKS st.mCurrentSize ≠ 0 →
      (∀ k, k + 1 < nb → fltLe (input k) (input (k + 1)) = true) →
      ∀ i, i < nb → (RadixSort st fresh1 fresh2 input nb).mRanks1 i = i) := by
  have hle := wordCount_le nb
  constructor
  · intro hv hs hsorted
    have hres : resize st fresh1 fresh2 nb = st := by
      unfold resize
      rw [if_neg (not_not.2 hs.symm)]
    have hc := coherence_true_of_adjacent input st.mRanks1 (wordCount nb)
      (fun k hk => hsorted k (by omega))
    unfold RadixSort
    simp only
    rw [hres, if_neg (not_not.2 hv)]
    rcases hcl : coherenceLoop input st.mRanks1 (wordCount nb) 0 (input (st.mRanks1 0))
      (fun _ => 0) with ⟨b, k, h⟩
    rw [hcl] at hc
    simp only at hc
    subst hc
    rfl
  · intro hv hsorted i hi
    have hv2 := resize_invalid st fresh1 fresh2 nb hv
    have hc := coherence_true_of_adjacent input id (wordCount nb)
      (fun k hk => hsorted k (by omega))
    simp only [id] at hc
    unfold RadixSort
    simp only
    rw [if_pos hv2]
    rcases hcl : coherenceLoop input id (wordCount nb) 0 (input 0) (fun _ => 0)
      with ⟨b, k, h⟩
    rw [hcl] at hc
    simp only at hc
    subst hc
    simp only
    rw [if_pos hi]

/-- C5, witness: the values `2.0, 3.0, 1.0` are ascending through the valid ranks
`2,0,1`, and `1.0, 2.0` are ascending in natural order for the initial state. -/
theorem RadixSort_coherence_fast_path_witness :
    RadixSort { mCurrentSize := 3, mRanks1 := arrayOf [2, 0, 1], mRanks2 := fun _ => 0 }
        (fun _ => 0) (fun _ => 0) (arrayOf [0x40000000, 0x40400000, 0x3F800000]) 3
      = { mCurrentSize := 3, mRanks1 := arrayOf [2, 0, 1], mRanks2 := fun _ => 0 } ∧
    ∀ i, i < 2 → (RadixSort radixInit (fun _ => 0) (fun _ => 0)
      (arrayOf [0x3F800000, 0x40000000]) 2).mRanks1 i = i :=
  ⟨(RadixSort_coherence_fast_path
      { mCurrentSize := 3, mRanks1 := arrayOf [2, 0, 1], mRanks2 := fun _ => 0 }
      (fun _ => 0) (fun _ => 0) (arrayOf [0x40000000, 0x40400000, 0x3F800000]) 3).1
      (by decide) (by decide)
      (by intro k hk; have hk2 : k < 2 := by omega
          interval_cases k <;> decide),
   (RadixSort_coherence_fast_path radixInit (fun _ => 0) (fun _ => 0)
      (arrayOf [0x3F800000, 0x40000000]) 2).2
      (by decide)
      (by intro k hk; have hk2 : k < 1 := by omega
          interval_cases k; decide)⟩

set_option maxRecDepth 100000 in
/-- A run of the sorter from its initial state on the values `3.0, -1.0`: the
last pass is performed and places the negative value first. -/
theorem RadixSort_run_example :
    sortedIndices (RadixSort radixInit (fun _ => 0) (fun _ => 0)
      (arrayOf [0x40400000, 0xBF800000]) 2) 2 = [1, 0] := by
  decide

/-! ## Lemmas on the space -/

theorem or_and_left_flag (x d a : Nat) : (x ||| (d ||| a)) &&& d = d := by
  apply Nat.eq_of_testBit_eq
  intro i
  simp only [Nat.testBit_and, Nat.testBit_or]
  cases x.testBit i <;> cases d.testBit i <;> cases a.testBit i <;> rfl

theorem or_and_right_flag (x d a : Nat) : (x ||| (d ||| a)) &&& a = a := by
  apply Nat.eq_of_testBit_eq
  intro i
  simp only [Nat.testBit_and, Nat.testBit_or]
  cases x.testBit i <;> cases d.testBit i <;> cases a.testBit i <;> rfl

theorem getD_of_getElem? (l : List Nat) (k g : Nat) (h : l[k]? = some g) :
    k < l.length ∧ l.getD k 0 = g := by
  have hk : k < l.length := by
    by_contra hc
    rw [List.getElem?_eq_none (by omega)] at h
    cases h
  refine ⟨hk, ?_⟩
  rw [List.getD_eq_getElem?_getD, h]
  rfl

theorem getElem?_of_lt_getD (l : List Nat) (k : Nat) (hk : k < l.length) :
    l[k]? = some (l.getD k 0) := by
  rw [List.getD_eq_getElem?_getD, List.getElem?_eq_getElem hk]
  rfl

/-- Entries whose stored index is their position are pairwise different. -/
theorem nodup_of_index (l : List Nat) (idx : Nat → Int)
    (h : ∀ k, k < l.length → idx (l.getD k 0) = (k : Int)) : l.Nodup := by
  rw [List.nodup_iff_getElem?_ne_getElem?]
  intro i j hij hj hc
  have hi : i < l.length := by omega
  have e1 := getElem?_of_lt_getD l i hi
  have e2 := getElem?_of_lt_getD l j hj
  rw [e1, e2] at hc
  have hc2 : l.getD i 0 = l.getD j 0 := Option.some.inj hc
  have h1 := h i hi
  have h2 := h j hj
  rw [hc2, h2] at h1
  have : (j : Int) = (i : Int) := h1
  omega

theorem swapLast_length (l : List Nat) (k v : Nat) (hk : k < l.length) :
    ((l.set k v).take (l.length - 1)).length = l.length - 1 := by
  rw [List.length_take, List.length_set]
  omega

theorem swapLast_getElem? (l : List Nat) (k v i : Nat) (hk : k < l.length)
    (hi : i < l.length - 1) :
    ((l.set k v).take (l.length - 1))[i]? = if i = k then some v else l[i]? := by
  rw [List.getElem?_take_of_lt hi, List.getElem?_set]
  by_cases h : k = i
  · subst h
    simp [hk]
  · rw [if_neg h, if_neg (fun hc => h hc.symm)]

theorem swapLast_not_mem (l : List Nat) (k g : Nat) (hnd : l.Nodup) (hg : l[k]? = some g) :
    g ∉ (l.set k (l.getD (l.length - 1) 0)).take (l.length - 1) := by
  obtain ⟨hk, _⟩ := getD_of_getElem? l k g hg
  intro hmem
  obtain ⟨i, hi, hget⟩ := List.mem_iff_getElem.1 hmem
  rw [swapLast_length l k _ hk] at hi
  have hget2 : ((l.set k (l.getD (l.length - 1) 0)).take (l.length - 1))[i]? = some g := by
    rw [List.getElem?_eq_getElem, hget]
  rw [swapLast_getElem? l k _ i hk hi] at hget2
  by_cases hik : i = k
  · rw [if_pos hik] at hget2
    have hlast : l[l.length - 1]? = some g := by
      rw [getElem?_of_lt_getD l (l.length - 1) (by omega)]
      exact hget2
    have := List.getElem?_inj hk hnd (hg.trans hlast.symm)
    omega
  · rw [if_neg hik] at hget2
    have := List.getElem?_inj hk hnd (hg.trans hget2.symm)
    omega

/-! ## The space: the claims -/

/-- C6: the pair filter. For two geometries whose AABBs are valid,
`collideGeomsNoAABBs` invokes the call-back exactly once, with
`(data, g1, g2)`, when it is not the case that both share the same non-null
body, and `g1.category & g2.collide` or `g2.category & g1.collide` is non-zero,
and both `g1.AABBTest(g2)` and `g2.AABBTest(g1)` are non-zero; otherwise it does
not invoke it. -/
theorem collideGeomsNoAABBs_filter {α δ : Type} (GEOM_AABB_BAD : Nat)
    (heap : Nat → dxGeom α) (AABBTest : Nat → Nat → (Nat → α) → Int) (g1 g2 : Nat)
    (data : δ) (h1 : (heap g1).gflags &&& GEOM_AABB_BAD = 0)
    (h2 : (heap g2).gflags &&& GEOM_AABB_BAD = 0) :
    collideGeomsNoAABBs GEOM_AABB_BAD heap AABBTest g1 g2 data =
      .ok (if ¬ ((heap g1).body = (heap g2).body ∧ (heap g1).body ≠ 0) ∧
          ((heap g1).category_bits &&& (heap g2).collide_bits ≠ 0 ∨
            (heap g2).category_bits &&& (heap g1).collide_bits ≠ 0) ∧
          AABBTest g1 g2 (heap g2).aabb ≠ 0 ∧ AABBTest g2 g1 (heap g1).aabb ≠ 0
        then [(data, g1, g2)] else []) := by
  unfold collideGeomsNoAABBs
  rw [if_neg (not_not.2 h1), if_neg (not_not.2 h2)]
  by_cases hb : (heap g1).body = (heap g2).body ∧ (heap g1).body ≠ 0
  · rw [if_pos hb, if_neg (fun h => h.1 hb)]
  · rw [if_neg hb]
    by_cases hc : (heap g1).category_bits &&& (heap g2).collide_bits ≠ 0 ∨
        (heap g2).category_bits &&& (heap g1).collide_bits ≠ 0
    · rw [if_neg (not_not.2 hc)]
      by_cases ht1 : AABBTest g1 g2 (heap g2).aabb = 0
      · rw [if_pos ht1, if_neg (fun h => h.2.2.1 ht1)]
      · rw [if_neg ht1]
        by_cases ht2 : AABBTest g2 g1 (heap g1).aabb = 0
        · rw [if_pos ht2, if_neg (fun h => h.2.2.2 ht2)]
        · rw [if_neg ht2, if_pos ⟨hb, hc, ht1, ht2⟩]
    · rw [if_pos hc, if_neg (fun h => hc h.2.1)]

/-- C6, witness: two geometries on different bodies whose category and collide
bits meet, with the default `AABBTest` that returns 1. -/
theorem collideGeomsNoAABBs_filter_witness :
    collideGeomsNoAABBs 4 (fun g => if g = 1 then freeGeom 16 7 1 2 else freeGeom 16 8 2 4)
        (fun _ _ _ => 1) 1 2 "data" = .ok [("data", 1, 2)] :=
  (collideGeomsNoAABBs_filter 4
    (fun g => if g = 1 then freeGeom 16 7 1 2 else freeGeom 16 8 2 4)
    (fun _ _ _ => 1) 1 2 "data" (by decide) (by decide)).trans rfl

/-- C7 (as amended): the postcondition of `add`. For every unlocked space and
every geometry `g` that is in no space and whose `next` link is null, `add(g)`
returns normally; afterwards the dirty list is the old dirty list with `g`
appended, the clean list is unchanged, the stored dirty index of `g` is the old
size of the dirty list and its clean index is the invalid marker, the parent
space of `g` is this space, `g` has the flags `GEOM_DIRTY` and `GEOM_AABB_BAD`
set, and the count is one greater. -/
theorem add_postcondition {α : Type} (GEOM_DIRTY GEOM_AABB_BAD : Nat) (s : dxSAPSpace α)
    (g : Nat) (hlock : s.lock_count = 0) (hg : g ≠ 0)
    (hfree : (s.heap g).parent_space = 0) (hnext : (s.heap g).next = 0) :
    ∃ s2, add GEOM_DIRTY GEOM_AABB_BAD s g = .ok s2 ∧
      s2.DirtyList = s.DirtyList ++ [g] ∧
      s2.GeomList = s.GeomList ∧
      (s2.heap g).next = (s.DirtyList.length : Int) ∧
      (s2.heap g).tome = GEOM_INVALID_IDX ∧
      (s2.heap g).parent_space = s.self ∧
      (s2.heap g).gflags &&& GEOM_DIRTY = GEOM_DIRTY ∧
      (s2.heap g).gflags &&& GEOM_AABB_BAD = GEOM_AABB_BAD ∧
      s2.count = s.count + 1 := by
  unfold add
  rw [if_neg (not_not.2 hlock), if_neg hg, if_neg (not_not.2 ⟨hfree, hnext⟩)]
  refine ⟨_, rfl, rfl, rfl, ?_, ?_, ?_, ?_, ?_, rfl⟩
  · simp [dGeomMoved]
  · simp [dGeomMoved]
  · simp [dGeomMoved]
  · simp only [dGeomMoved, Function.update_same]
    exact or_and_left_flag _ _ _
  · simp only [dGeomMoved, Function.update_same]
    exact or_and_right_flag _ _ _

/-- C7, witness: the free geometry `6` added to the demonstration space. -/
theorem add_postcondition_witness :
    ∃ s2, add 1 4 demoSpace 6 = .ok s2 ∧
      s2.DirtyList = demoSpace.DirtyList ++ [6] ∧
      s2.GeomList = demoSpace.GeomList ∧
      (s2.heap 6).next = (demoSpace.DirtyList.length : Int) ∧
      (s2.heap 6).tome = GEOM_INVALID_IDX ∧
      (s2.heap 6).parent_space = demoSpace.self ∧
      (s2.heap 6).gflags &&& 1 = 1 ∧
      (s2.heap 6).gflags &&& 4 = 4 ∧
      s2.count = demoSpace.count + 1 :=
  add_postcondition 1 4 demoSpace 6 (by decide) (by decide) (by decide) (by decide)

/-- C7, counterexample to the claim as stated: removing the geometry `1` from the
well-formed, unlocked demonstration space succeeds and leaves a well-formed,
unlocked space in which `1` is in no space (its parent space is null), but its
`next` link holds the invalid index `-1`, and `add` fails its assertion "geom is
already in a space" without changing the space. -/
theorem add_fails_on_removed_geometry :
    WellFormed demoSpace ∧ demoSpace.lock_count = 0 ∧
    ∃ s1, remove 1 4 demoSpace 1 = .ok s1 ∧ WellFormed s1 ∧ s1.lock_count = 0 ∧
      (s1.heap 1).parent_space = 0 ∧ (s1.heap 1).next = -1 ∧
      add 1 4 s1 1 = .failed "geom is already in a space" s1 :=
  ⟨by decide, by decide, _, rfl, by decide, by decide, by decide, by decide, rfl⟩

/-- C8: `add` rejects a member. For every geometry `g` that already belongs to a
space (its parent space is not null), `add(g)` fails an assertion, and the space
with both lists, the count and the stored indices of `g` is as before. -/
theorem add_rejects_member {α : Type} (GEOM_DIRTY GEOM_AABB_BAD : Nat) (s : dxSAPSpace α)
    (g : Nat) (hmember : (s.heap g).parent_space ≠ 0) :
    ∃ msg, add GEOM_DIRTY GEOM_AABB_BAD s g = .failed msg s := by
  unfold add
  by_cases hlock : s.lock_count ≠ 0
  · exact ⟨_, by rw [if_pos hlock]⟩
  · rw [if_neg hlock]
    by_cases hg : g = 0
    · exact ⟨_, by rw [if_pos hg]⟩
    · rw [if_neg hg]
      exact ⟨_, by rw [if_pos (fun h => hmember h.1)]⟩

/-- C8, witness: the member `2` of the demonstration space. -/
theorem add_rejects_member_witness :
    ∃ msg, add 1 4 demoSpace 2 = .failed msg demoSpace :=
  add_rejects_member 1 4 demoSpace 2 (by decide)

/-- C9: `remove` is swap-with-last. For every well-formed unlocked space and
member `g` held at index `k` of one of the two lists, of size `n`, `remove(g)`
returns normally; afterwards that list has size `n-1`, its slot `k` (if
`k < n-1`) holds the former last element, whose stored index is now `k`, every
other slot and the other list are unchanged, `g` is in neither list, the parent
space of `g` is null and the count is one smaller. `remove(g)` fails an
assertion, leaving the space as it is, if the parent space of `g` is not this
space. -/
theorem remove_swap_with_last {α : Type} (GEOM_DIRTY GEOM_AABB_BAD : Nat)
    (s : dxSAPSpace α) (g k : Nat) (hwf : WellFormed s) (hlock : s.lock_count = 0) :
    (s.DirtyList[k]? = some g →
      ∃ s2, remove GEOM_DIRTY GEOM_AABB_BAD s g = .ok s2 ∧
        s2.DirtyList.length = s.DirtyList.length - 1 ∧
        (k < s.DirtyList.length - 1 →
          s2.DirtyList[k]? = some (s.DirtyList.getD (s.DirtyList.length - 1) 0) ∧
          (s2.heap (s.DirtyList.getD (s.DirtyList.length - 1) 0)).next = (k : Int)) ∧
        (∀ i, i < s.DirtyList.length - 1 → i ≠ k → s2.DirtyList[i]? = s.DirtyList[i]?) ∧
        s2.GeomList = s.GeomList ∧ g ∉ s2.DirtyList ∧ g ∉ s2.GeomList ∧
        (s2.heap g).parent_space = 0 ∧ s2.count = s.count - 1) ∧
    (s.GeomList[k]? = some g →
      ∃ s2, remove GEOM_DIRTY GEOM_AABB_BAD s g = .ok s2 ∧
        s2.GeomList.length = s.GeomList.length - 1 ∧
        (k < s.GeomList.length - 1 →
          s2.GeomList[k]? = some (s.GeomList.getD (s.GeomList.length - 1) 0) ∧
          (s2.heap (s.GeomList.getD (s.GeomList.length - 1) 0)).tome = (k : Int)) ∧
        (∀ i, i < s.GeomList.length - 1 → i ≠ k → s2.GeomList[i]? = s.GeomList[i]?) ∧
        s2.DirtyList = s.DirtyList ∧ g ∉ s2.DirtyList ∧ g ∉ s2.GeomList ∧
        (s2.heap g).parent_space = 0 ∧ s2.count = s.count - 1) ∧
    ((s.heap g).parent_space ≠ s.self →
      ∃ msg, remove GEOM_DIRTY GEOM_AABB_BAD s g = .failed msg s) := by
  obtain ⟨_, hdirty, hclean, _⟩ := hwf
  have hndD : s.DirtyList.Nodup :=
    nodup_of_index s.DirtyList (fun x => (s.heap x).next) (fun i hi => (hdirty i hi).2.2.1)
  have hndG : s.GeomList.Nodup :=
    nodup_of_index s.GeomList (fun x => (s.heap x).tome) (fun i hi => (hclean i hi).2.2.1)
  refine ⟨?_, ?_, ?_⟩
  · intro hk
    obtain ⟨hklt, hgd⟩ := getD_of_getElem? _ _ _ hk
    obtain ⟨hg0, hpar, hnext, htome⟩ := hdirty k hklt
    rw [hgd] at hg0 hpar hnext htome
    have hassert : ((s.heap g).next = GEOM_INVALID_IDX ∧ 0 ≤ (s.heap g).tome ∧
        (s.heap g).tome < (s.GeomList.length : Int)) ∨
        ((s.heap g).tome = GEOM_INVALID_IDX ∧ 0 ≤ (s.heap g).next ∧
        (s.heap g).next < (s.DirtyList.length : Int)) := by
      right
      rw [hnext]
      exact ⟨htome, by omega, by omega⟩
    have hne : (s.heap g).next ≠ GEOM_INVALID_IDX := by
      rw [hnext]; unfold GEOM_INVALID_IDX; omega
    have htoNat : (s.heap g).next.toNat = k := by rw [hnext]; simp
    unfold remove
    rw [if_neg (not_not.2 hlock), if_neg hg0, if_neg (not_not.2 hpar)]
    simp only
    rw [if_neg (not_not.2 hassert), if_pos hne, htoNat]
    refine ⟨_, rfl, ?_, ?_, ?_, rfl, ?_, ?_, ?_, rfl⟩
    · exact swapLast_length _ _ _ hklt
    · intro hk2
      have hlast_ne : s.DirtyList.getD (s.DirtyList.length - 1) 0 ≠ g := by
        intro hc
        have hl := getElem?_of_lt_getD s.DirtyList (s.DirtyList.length - 1) (by omega)
        rw [hc] at hl
        have := List.getElem?_inj hklt hndD (hk.trans hl.symm)
        omega
      refine ⟨?_, ?_⟩
      · show ((s.DirtyList.set k _).take (s.DirtyList.length - 1))[k]? = _
        rw [swapLast_getElem? _ _ _ _ hklt hk2, if_pos rfl]
      · simp only [dGeomMoved]
        rw [Function.update_noteq hlast_ne, Function.update_noteq hlast_ne,
          Function.update_same, hnext]
    · intro i hi hik
      show ((s.DirtyList.set k _).take (s.DirtyList.length - 1))[i]? = _
      rw [swapLast_getElem? _ _ _ _ hklt hi, if_neg hik]
    · exact swapLast_not_mem _ _ _ hndD hk
    · intro hmem
      obtain ⟨j, hj, hgj⟩ := List.mem_iff_getElem.1 hmem
      have hj2 : j < s.GeomList.length := hj
      obtain ⟨_, _, _, hn⟩ := hclean j hj2
      have e : s.GeomList.getD j 0 = g := by
        rw [List.getD_eq_getElem?_getD, List.getElem?_eq_getElem hj2]
        exact hgj
      rw [e, hnext] at hn
      unfold GEOM_INVALID_IDX at hn
      omega
    · simp [dGeomMoved]
  · intro hk
    obtain ⟨hklt, hgd⟩ := getD_of_getElem? _ _ _ hk
    obtain ⟨hg0, hpar, htome, hnext⟩ := hclean k hklt
    rw [hgd] at hg0 hpar hnext htome
    have hassert : ((s.heap g).next = GEOM_INVALID_IDX ∧ 0 ≤ (s.heap g).tome ∧
        (s.heap g).tome < (s.GeomList.length : Int)) ∨
        ((s.heap g).tome = GEOM_INVALID_IDX ∧ 0 ≤ (s.heap g).next ∧
        (s.heap g).next < (s.DirtyList.length : Int)) := by
      left
      rw [htome]
      exact ⟨hnext, by omega, by omega⟩
    have htoNat : (s.heap g).tome.toNat = k := by rw [htome]; simp
    unfold remove
    rw [if_neg (not_not.2 hlock), if_neg hg0, if_neg (not_not.2 hpar)]
    simp only
    rw [if_neg (not_not.2 hassert), if_neg (not_not.2 hnext), htoNat]
    refine ⟨_, rfl, ?_, ?_, ?_, rfl, ?_, ?_, ?_, rfl⟩
    · exact swapLast_length _ _ _ hklt
    · intro hk2
      have hlast_ne : s.GeomList.getD (s.GeomList.length - 1) 0 ≠ g := by
        intro hc
        have hl := getElem?_of_lt_getD s.GeomList (s.GeomList.length - 1) (by omega)
        rw [hc] at hl
        have := List.getElem?_inj hklt hndG (hk.trans hl.symm)
        omega
      refine ⟨?_, ?_⟩
      · show ((s.GeomList.set k _).take (s.GeomList.length - 1))[k]? = _
        rw [swapLast_getElem? _ _ _ _ hklt hk2, if_pos rfl]
      · simp only [dGeomMoved]
        rw [Function.update_noteq hlast_ne, Function.update_noteq hlast_ne,
          Function.update_same, htome]
    · intro i hi hik
      show ((s.GeomList.set k _).take (s.GeomList.length - 1))[i]? = _
      rw [swapLast_getElem? _ _ _ _ hklt hi, if_neg hik]
    · intro hmem
      obtain ⟨j, hj, hgj⟩ := List.mem_iff_getElem.1 hmem
      have hj2 : j < s.DirtyList.length := hj
      obtain ⟨_, _, _, ht⟩ := hdirty j hj2
      have e : s.DirtyList.getD j 0 = g := by
        rw [List.getD_eq_getElem?_getD, List.getElem?_eq_getElem hj2]
        exact hgj
      rw [e, htome] at ht
      unfold GEOM_INVALID_IDX at ht
      omega
    · exact swapLast_not_mem _ _ _ hndG hk
    · simp [dGeomMoved]
  · intro hpar
    unfold remove
    rw [if_neg (not_not.2 hlock)]
    by_cases hg : g = 0
    · exact ⟨_, by rw [if_pos hg]⟩
    · rw [if_neg hg]
      exact ⟨_, by rw [if_pos hpar]⟩

/-- C9, witness: the demonstration space, where the geometry `1` sits at index
`0` of the dirty list. -/
theorem remove_swap_with_last_witness :
    WellFormed demoSpace ∧ demoSpace.lock_count = 0 ∧
    ∃ s2, remove 1 4 demoSpace 1 = .ok s2 ∧
      s2.DirtyList.length = demoSpace.DirtyList.length - 1 ∧
      (0 < demoSpace.DirtyList.length - 1 →
        s2.DirtyList[0]? = some (demoSpace.DirtyList.getD (demoSpace.DirtyList.length - 1) 0) ∧
        (s2.heap (demoSpace.DirtyList.getD (demoSpace.DirtyList.length - 1) 0)).next
          = ((0 : Nat) : Int)) ∧
      (∀ i, i < demoSpace.DirtyList.length - 1 → i ≠ 0 →
        s2.DirtyList[i]? = demoSpace.DirtyList[i]?) ∧
      s2.GeomList = demoSpace.GeomList ∧ 1 ∉ s2.DirtyList ∧ 1 ∉ s2.GeomList ∧
      (s2.heap 1).parent_space = 0 ∧ s2.count = demoSpace.count - 1 :=
  ⟨by decide, by decide,
   (remove_swap_with_last 1 4 demoSpace 1 0 (by decide) (by decide)).1 (by decide)⟩

/-- C10 (as amended): add/remove symmetry. For every unlocked space and geometry
`g` that is in no space and whose `next` link is null, `add(g)` immediately
followed by `remove(g)` both return normally and bring the count and both lists
(their sizes and contents) back to their values before the `add`. -/
theorem add_remove_symmetry {α : Type} (GEOM_DIRTY GEOM_AABB_BAD : Nat) (s : dxSAPSpace α)
    (g : Nat) (hlock : s.lock_count = 0) (hg : g ≠ 0)
    (hfree : (s.heap g).parent_space = 0) (hnext : (s.heap g).next = 0) :
    ∃ s1 s2, add GEOM_DIRTY GEOM_AABB_BAD s g = .ok s1 ∧
      remove GEOM_DIRTY GEOM_AABB_BAD s1 g = .ok s2 ∧
      s2.count = s.count ∧ s2.DirtyList = s.DirtyList ∧ s2.GeomList = s.GeomList := by
  have hadd : add GEOM_DIRTY GEOM_AABB_BAD s g = .ok (dGeomMoved GEOM_DIRTY GEOM_AABB_BAD
      { s with
        heap := Function.update s.heap g
          { s.heap g with
            gflags := (s.heap g).gflags ||| (GEOM_DIRTY ||| GEOM_AABB_BAD)
            next := (s.DirtyList.length : Int)
            tome := GEOM_INVALID_IDX
            parent_space := s.self }
        DirtyList := s.DirtyList ++ [g]
        count := s.count + 1 }) := by
    unfold add
    rw [if_neg (not_not.2 hlock), if_neg hg, if_neg (not_not.2 ⟨hfree, hnext⟩)]
  have hrem : ∃ s2, remove GEOM_DIRTY GEOM_AABB_BAD (dGeomMoved GEOM_DIRTY GEOM_AABB_BAD
      { s with
        heap := Function.update s.heap g
          { s.heap g with
            gflags := (s.heap g).gflags ||| (GEOM_DIRTY ||| GEOM_AABB_BAD)
            next := (s.DirtyList.length : Int)
            tome := GEOM_INVALID_IDX
            parent_space := s.self }
        DirtyList := s.DirtyList ++ [g]
        count := s.count + 1 }) g = .ok s2 ∧
      s2.count = s.count ∧ s2.DirtyList = s.DirtyList ∧ s2.GeomList = s.GeomList := by
    unfold remove
    simp only [dGeomMoved, Function.update_same]
    have hassert : (((s.DirtyList.length : Int) = GEOM_INVALID_IDX ∧
        0 ≤ GEOM_INVALID_IDX ∧ GEOM_INVALID_IDX < (s.GeomList.length : Int)) ∨
        (True ∧ 0 ≤ (s.DirtyList.length : Int) ∧
        (s.DirtyList.length : Int) < ((s.DirtyList ++ [g]).length : Int))) := by
      right
      refine ⟨trivial, by omega, ?_⟩
      rw [List.length_append]
      simp
    have hne : (s.DirtyList.length : Int) ≠ GEOM_INVALID_IDX := by
      unfold GEOM_INVALID_IDX; omega
    rw [if_neg (not_not.2 hlock), if_neg hg, if_neg (not_not.2 rfl),
      if_neg (not_not.2 hassert), if_pos hne]
    refine ⟨_, rfl, ?_, ?_, rfl⟩
    · show s.count + 1 - 1 = s.count
      omega
    · show ((s.DirtyList ++ [g]).set (s.DirtyList.length : Int).toNat _).take
        ((s.DirtyList ++ [g]).length - 1) = s.DirtyList
      have e1 : ((s.DirtyList.length : Int)).toNat = s.DirtyList.length := by simp
      have e2 : (s.DirtyList ++ [g]).length - 1 = s.DirtyList.length := by simp
      rw [e1, e2, List.set_append_right _ _ (le_refl _), List.take_left']
      rfl
  obtain ⟨s2, h1, h2, h3, h4⟩ := hrem
  exact ⟨_, s2, hadd, h1, h2, h3, h4⟩

/-- C10, witness: the free geometry `6` added to and removed from the
demonstration space. -/
theorem add_remove_symmetry_witness :
    ∃ s1 s2, add 1 4 demoSpace 6 = .ok s1 ∧ remove 1 4 s1 6 = .ok s2 ∧
      s2.count = demoSpace.count ∧ s2.DirtyList = demoSpace.DirtyList ∧
      s2.GeomList = demoSpace.GeomList :=
  add_remove_symmetry 1 4 demoSpace 6 (by decide) (by decide) (by decide) (by decide)

/-- C10, counterexample to the claim as stated: the geometry `3`, once removed
from the demonstration space, is in no space (its parent space is null) and the
space left by the removal is well formed and unlocked, yet `add` fails on it, so
that `add` followed by `remove` does not take place. -/
theorem add_remove_fails_on_removed_geometry :
    ∃ s1, remove 1 4 demoSpace 3 = .ok s1 ∧ WellFormed s1 ∧ s1.lock_count = 0 ∧
      (s1.heap 3).parent_space = 0 ∧
      add 1 4 s1 3 = .failed "geom is already in a space" s1 :=
  ⟨_, rfl, by decide, by decide, by decide, rfl⟩

/-! ## The space: `dirty`, `cleanGeoms` and the collision passes -/

theorem mem_getElem?_of_mem (l : List Nat) (g : Nat) (h : g ∈ l) : ∃ k : Nat, l[k]? = some g := by
  obtain ⟨k, hk, hg⟩ := List.mem_iff_getElem.1 h
  refine ⟨k, ?_⟩
  rw [List.getElem?_eq_getElem hk, hg]

theorem update_tome_parent {α : Type} (h : Nat → dxGeom α) (a : Nat) (t : Int) (g : Nat) :
    (Function.update h a { h a with tome := t } g).parent_space = (h g).parent_space := by
  by_cases e : g = a
  · subst e
    rw [Function.update_same]
  · rw [Function.update_noteq e]

/-- `dirty` on a geometry of the space whose dirty index is set returns at once. -/
theorem dirty_of_dirty {α : Type} (s : dxSAPSpace α) (g : Nat) (hg0 : g ≠ 0)
    (hpar : (s.heap g).parent_space = s.self)
    (hnext : (s.heap g).next ≠ GEOM_INVALID_IDX) : dirty s g = .ok s := by
  unfold dirty
  rw [if_neg hg0, if_neg (not_not.2 hpar)]
  simp only
  rw [if_pos hnext]

/-- `dirty` on a geometry of the space held at index `j` of the clean list. -/
theorem dirty_of_clean {α : Type} (s : dxSAPSpace α) (g j : Nat) (hg0 : g ≠ 0)
    (hpar : (s.heap g).parent_space = s.self)
    (hnext : (s.heap g).next = GEOM_INVALID_IDX) (htome : (s.heap g).tome = (j : Int))
    (hj : j < s.GeomList.length) :
    dirty s g = .ok { s with
      GeomList := (s.GeomList.set j (s.GeomList.getD (s.GeomList.length - 1) 0)).take
        (s.GeomList.length - 1)
      DirtyList := s.DirtyList ++ [g]
      heap := Function.update
        (Function.update
          (Function.update s.heap (s.GeomList.getD (s.GeomList.length - 1) 0)
            { s.heap (s.GeomList.getD (s.GeomList.length - 1) 0) with tome := (j : Int) })
          g { (Function.update s.heap (s.GeomList.getD (s.GeomList.length - 1) 0)
            { s.heap (s.GeomList.getD (s.GeomList.length - 1) 0) with tome := (j : Int) }) g
              with tome := GEOM_INVALID_IDX })
        g { (Function.update s.heap (s.GeomList.getD (s.GeomList.length - 1) 0)
            { s.heap (s.GeomList.getD (s.GeomList.length - 1) 0) with tome := (j : Int) }) g
              with tome := GEOM_INVALID_IDX, next := (s.DirtyList.length : Int) } } := by
  have hassert : 0 ≤ (s.heap g).tome ∧ (s.heap g).tome < (s.GeomList.length : Int) := by
    rw [htome]
    exact ⟨by omega, by omega⟩
  have htoNat : (s.heap g).tome.toNat = j := by rw [htome]; simp
  unfold dirty
  rw [if_neg hg0, if_neg (not_not.2 hpar)]
  simp only
  rw [if_neg (not_not.2 hnext), if_neg (not_not.2 hassert), htoNat, htome]
  simp only [Function.update_same]

/-- C11: `dirty` is idempotent. For every well-formed space and member `g`:
if `g` is in the dirty list, `dirty(g)` returns with the state unchanged; if `g`
is in the clean list at index `k`, `dirty(g)` returns, the clean list has lost
`g` by swap-with-last (slot `k` holds the former last element, whose stored
index is now `k`, the other slots are unchanged), the dirty list is the old one
followed by `g`, the dirty index of `g` is the old size of the dirty list and
its clean index the invalid marker, and the count and the lock counter are
unchanged. In both cases a second `dirty(g)` returns the state of the first. -/
theorem dirty_idempotent {α : Type} (s : dxSAPSpace α) (g k : Nat) (hwf : WellFormed s) :
    (s.DirtyList[k]? = some g → dirty s g = .ok s) ∧
    (s.GeomList[k]? = some g →
      ∃ s2, dirty s g = .ok s2 ∧
        s2.GeomList.length = s.GeomList.length - 1 ∧
        (k < s.GeomList.length - 1 →
          s2.GeomList[k]? = some (s.GeomList.getD (s.GeomList.length - 1) 0) ∧
          (s2.heap (s.GeomList.getD (s.GeomList.length - 1) 0)).tome = (k : Int)) ∧
        (∀ i : Nat, i < s.GeomList.length - 1 → i ≠ k → s2.GeomList[i]? = s.GeomList[i]?) ∧
        g ∉ s2.GeomList ∧ s2.DirtyList = s.DirtyList ++ [g] ∧
        (s2.heap g).next = (s.DirtyList.length : Int) ∧
        (s2.heap g).tome = GEOM_INVALID_IDX ∧
        s2.count = s.count ∧ s2.lock_count = s.lock_count ∧
        dirty s2 g = .ok s2) ∧
    (g ∈ s.DirtyList ∨ g ∈ s.GeomList →
      ∃ s2, dirty s g = .ok s2 ∧ dirty s2 g = .ok s2 ∧ s2.count = s.count) := by
  obtain ⟨_, hdirty, hclean, _⟩ := hwf
  have hndG : s.GeomList.Nodup :=
    nodup_of_index s.GeomList (fun x => (s.heap x).tome) (fun i hi => (hclean i hi).2.2.1)
  have hD : ∀ j : Nat, s.DirtyList[j]? = some g → dirty s g = .ok s := by
    intro j hk
    obtain ⟨hklt, hgd⟩ := getD_of_getElem? _ _ _ hk
    obtain ⟨hg0, hpar, hnext, htome⟩ := hdirty j hklt
    rw [hgd] at hg0 hpar hnext htome
    have hne : (s.heap g).next ≠ GEOM_INVALID_IDX := by
      rw [hnext]; unfold GEOM_INVALID_IDX; omega
    exact dirty_of_dirty s g hg0 hpar hne
  have hG : ∀ j : Nat, s.GeomList[j]? = some g →
      ∃ s2, dirty s g = .ok s2 ∧
        s2.GeomList.length = s.GeomList.length - 1 ∧
        (j < s.GeomList.length - 1 →
          s2.GeomList[j]? = some (s.GeomList.getD (s.GeomList.length - 1) 0) ∧
          (s2.heap (s.GeomList.getD (s.GeomList.length - 1) 0)).tome = (j : Int)) ∧
        (∀ i : Nat, i < s.GeomList.length - 1 → i ≠ j → s2.GeomList[i]? = s.GeomList[i]?) ∧
        g ∉ s2.GeomList ∧ s2.DirtyList = s.DirtyList ++ [g] ∧
        (s2.heap g).next = (s.DirtyList.length : Int) ∧
        (s2.heap g).tome = GEOM_INVALID_IDX ∧
        s2.count = s.count ∧ s2.lock_count = s.lock_count ∧
        dirty s2 g = .ok s2 := by
    intro j hk
    obtain ⟨hklt, hgd⟩ := getD_of_getElem? _ _ _ hk
    obtain ⟨hg0, hpar, htome, hnext⟩ := hclean j hklt
    rw [hgd] at hg0 hpar hnext htome
    refine ⟨_, dirty_of_clean s g j hg0 hpar hnext htome hklt, ?_, ?_, ?_, ?_, rfl, ?_, ?_, rfl,
      rfl, ?_⟩
    · exact swapLast_length _ _ _ hklt
    · intro hk2
      have hlast_ne : s.GeomList.getD (s.GeomList.length - 1) 0 ≠ g := by
        intro hc
        have hl := getElem?_of_lt_getD s.GeomList (s.GeomList.length - 1) (by omega)
        rw [hc] at hl
        have := List.getElem?_inj hklt hndG (hk.trans hl.symm)
        omega
      refine ⟨?_, ?_⟩
      · show ((s.GeomList.set j _).take (s.GeomList.length - 1))[j]? = _
        rw [swapLast_getElem? _ _ _ _ hklt hk2, if_pos rfl]
      · simp only
        rw [Function.update_noteq hlast_ne, Function.update_noteq hlast_ne,
          Function.update_same]
    · intro i hi hik
      show ((s.GeomList.set j _).take (s.GeomList.length - 1))[i]? = _
      rw [swapLast_getElem? _ _ _ _ hklt hi, if_neg hik]
    · exact swapLast_not_mem _ _ _ hndG hk
    · simp
    · simp
    · have hne : ((s.DirtyList.length : Nat) : Int) ≠ GEOM_INVALID_IDX := by
        unfold GEOM_INVALID_IDX; omega
      apply dirty_of_dirty _ _ hg0
      · simp only [Function.update_same]
        rw [update_tome_parent]
        exact hpar
      · simp only [Function.update_same]
        exact hne
  refine ⟨hD k, hG k, ?_⟩
  rintro (hmem | hmem)
  · obtain ⟨j, hj⟩ := mem_getElem?_of_mem _ _ hmem
    exact ⟨s, hD j hj, hD j hj, rfl⟩
  · obtain ⟨j, hj⟩ := mem_getElem?_of_mem _ _ hmem
    obtain ⟨s2, h1, _, _, _, _, _, _, _, hc, _, h2⟩ := hG j hj
    exact ⟨s2, h1, h2, hc⟩

/-- C11, witness: the demonstration space, whose geometry `4` heads the clean
list. -/
theorem dirty_idempotent_witness :
    WellFormed demoSpace ∧ 4 ∈ demoSpace.GeomList ∧
    ∃ s2, dirty demoSpace 4 = .ok s2 ∧ dirty s2 4 = .ok s2 ∧ s2.count = demoSpace.count :=
  ⟨by decide, by decide,
   (dirty_idempotent demoSpace 4 0 (by decide)).2.2 (Or.inr (by decide))⟩

/-! ### The loop of `cleanGeoms` -/

theorem clearFlags_and_left (x d a : Nat) : clearFlags x (d ||| a) &&& d = 0 := by
  apply Nat.eq_of_testBit_eq
  intro i
  unfold clearFlags
  simp only [Nat.testBit_and, Nat.testBit_or, Nat.testBit_xor, Nat.zero_testBit]
  cases x.testBit i <;> cases d.testBit i <;> cases a.testBit i <;> rfl

theorem clearFlags_and_right (x d a : Nat) : clearFlags x (d ||| a) &&& a = 0 := by
  apply Nat.eq_of_testBit_eq
  intro i
  unfold clearFlags
  simp only [Nat.testBit_and, Nat.testBit_or, Nat.testBit_xor, Nat.zero_testBit]
  cases x.testBit i <;> cases d.testBit i <;> cases a.testBit i <;> rfl

section CleanLoop

variable {α : Type} (IS_SPACE : Nat → Bool)
  (cleanGeomsOf recomputeAABB : Nat → (Nat → dxGeom α) → (Nat → dxGeom α))
  (GEOM_DIRTY GEOM_AABB_BAD : Nat) (n : Nat)

theorem cleanGeom_heap_self (i g : Nat) (st : List Nat × (Nat → dxGeom α)) :
    (cleanGeom IS_SPACE cleanGeomsOf recomputeAABB GEOM_DIRTY GEOM_AABB_BAD n i g st).2 g =
      { (recomputeAABB g (if IS_SPACE g then cleanGeomsOf g st.2 else st.2)) g with
        gflags := clearFlags
          ((recomputeAABB g (if IS_SPACE g then cleanGeomsOf g st.2 else st.2)) g).gflags
          (GEOM_DIRTY ||| GEOM_AABB_BAD)
        next := GEOM_INVALID_IDX
        tome := ((n + i : Nat) : Int) } := by
  simp only [cleanGeom, Function.update_same]

theorem cleanGeom_heap_other (i g g2 : Nat) (st : List Nat × (Nat → dxGeom α))
    (hne : g2 ≠ g) :
    (cleanGeom IS_SPACE cleanGeomsOf recomputeAABB GEOM_DIRTY GEOM_AABB_BAD n i g st).2 g2 =
      (recomputeAABB g (if IS_SPACE g then cleanGeomsOf g st.2 else st.2)) g2 := by
  simp only [cleanGeom]
  rw [Function.update_noteq hne, Function.update_noteq hne, Function.update_noteq hne]

theorem cleanGeom_parent (self : Nat) (hR1 : RespectsSpace self cleanGeomsOf)
    (hR2 : RespectsSpace self recomputeAABB) (i g g2 : Nat)
    (st : List Nat × (Nat → dxGeom α)) :
    ((cleanGeom IS_SPACE cleanGeomsOf recomputeAABB GEOM_DIRTY GEOM_AABB_BAD n i g st).2
      g2).parent_space = (st.2 g2).parent_space := by
  have hvirt : ((recomputeAABB g (if IS_SPACE g then cleanGeomsOf g st.2 else st.2))
      g2).parent_space = (st.2 g2).parent_space := by
    rw [(hR2 g _ g2).1]
    split
    · exact (hR1 g _ g2).1
    · rfl
  by_cases hne : g2 = g
  · subst hne
    rw [cleanGeom_heap_self]
    exact hvirt
  · rw [cleanGeom_heap_other _ _ _ _ _ _ _ _ _ _ hne]
    exact hvirt

theorem cleanGeom_frame (self : Nat) (hR1 : RespectsSpace self cleanGeomsOf)
    (hR2 : RespectsSpace self recomputeAABB) (i g g2 : Nat)
    (st : List Nat × (Nat → dxGeom α)) (hp : (st.2 g2).parent_space = self)
    (hne : g2 ≠ g) :
    (cleanGeom IS_SPACE cleanGeomsOf recomputeAABB GEOM_DIRTY GEOM_AABB_BAD n i g st).2 g2 =
      st.2 g2 := by
  rw [cleanGeom_heap_other _ _ _ _ _ _ _ _ _ _ hne]
  by_cases hs : IS_SPACE g = true
  · rw [if_pos hs]
    have h1 := (hR1 g st.2 g2).2 hp
    have hp1 : ((cleanGeomsOf g st.2) g2).parent_space = self := by
      rw [(hR1 g st.2 g2).1]; exact hp
    rw [((hR2 g _ g2).2 hp1).2.2 hne]
    exact h1.2.2 hne
  · rw [if_neg hs]
    exact ((hR2 g _ g2).2 hp).2.2 hne

theorem cleanLoop_append (l1 l2 : List Nat) :
    ∀ (i : Nat) (st : List Nat × (Nat → dxGeom α)),
      cleanLoop IS_SPACE cleanGeomsOf recomputeAABB GEOM_DIRTY GEOM_AABB_BAD n (l1 ++ l2) i st =
        cleanLoop IS_SPACE cleanGeomsOf recomputeAABB GEOM_DIRTY GEOM_AABB_BAD n l2
          (i + l1.length)
          (cleanLoop IS_SPACE cleanGeomsOf recomputeAABB GEOM_DIRTY GEOM_AABB_BAD n l1 i st) := by
  induction l1 with
  | nil => intro i st; rfl
  | cons g l1 ih =>
    intro i st
    show cleanLoop _ _ _ _ _ n (l1 ++ l2) (i + 1) _ = _
    rw [ih]
    have e : i + 1 + l1.length = i + (g :: l1).length := by simp; omega
    rw [e]
    rfl

theorem cleanLoop_fst (rest : List Nat) :
    ∀ (i : Nat) (pre junk : List Nat) (h : Nat → dxGeom α), pre.length = n + i →
      junk.length = rest.length →
      (cleanLoop IS_SPACE cleanGeomsOf recomputeAABB GEOM_DIRTY GEOM_AABB_BAD n rest i
        (pre ++ junk, h)).1 = pre ++ rest := by
  induction rest with
  | nil =>
    intro i pre junk h _ hj
    have : junk = [] := List.length_eq_zero.1 hj
    subst this
    rfl
  | cons g rest ih =>
    intro i pre junk h hpre hj
    obtain ⟨x, junk2, rfl⟩ : ∃ x junk2, junk = x :: junk2 := by
      cases junk with
      | nil => simp at hj
      | cons x junk2 => exact ⟨x, junk2, rfl⟩
    show (cleanLoop _ _ _ _ _ n rest (i + 1) _).1 = _
    have e : (cleanGeom IS_SPACE cleanGeomsOf recomputeAABB GEOM_DIRTY GEOM_AABB_BAD n i g
        (pre ++ x :: junk2, h)) = ((pre ++ [g]) ++ junk2,
        (cleanGeom IS_SPACE cleanGeomsOf recomputeAABB GEOM_DIRTY GEOM_AABB_BAD n i g
          (pre ++ x :: junk2, h)).2) := by
      apply Prod.ext
      · show (pre ++ x :: junk2).set (n + i) g = _
        rw [← hpre, List.set_append_right _ _ (le_refl _)]
        simp
      · rfl
    rw [e, ih (i + 1) (pre ++ [g]) junk2 _ (by simp; omega) (by simpa using hj)]
    simp

theorem cleanLoop_parent (self : Nat) (hR1 : RespectsSpace self cleanGeomsOf)
    (hR2 : RespectsSpace self recomputeAABB) (rest : List Nat) :
    ∀ (i : Nat) (st : List Nat × (Nat → dxGeom α)) (g2 : Nat),
      ((cleanLoop IS_SPACE cleanGeomsOf recomputeAABB GEOM_DIRTY GEOM_AABB_BAD n rest i st).2
        g2).parent_space = (st.2 g2).parent_space := by
  induction rest with
  | nil => intro i st g2; rfl
  | cons g rest ih =>
    intro i st g2
    show ((cleanLoop _ _ _ _ _ n rest (i + 1) _).2 g2).parent_space = _
    rw [ih, cleanGeom_parent _ _ _ _ _ _ self hR1 hR2]

theorem cleanLoop_frame (self : Nat) (hR1 : RespectsSpace self cleanGeomsOf)
    (hR2 : RespectsSpace self recomputeAABB) (rest : List Nat) :
    ∀ (i : Nat) (st : List Nat × (Nat → dxGeom α)) (g2 : Nat),
      (st.2 g2).parent_space = self → g2 ∉ rest →
      (cleanLoop IS_SPACE cleanGeomsOf recomputeAABB GEOM_DIRTY GEOM_AABB_BAD n rest i st).2 g2
        = st.2 g2 := by
  induction rest with
  | nil => intro i st g2 _ _; rfl
  | cons g rest ih =>
    intro i st g2 hp hmem
    have hne : g2 ≠ g := fun hc => hmem (by rw [hc]; exact List.mem_cons_self _ _)
    have hnr : g2 ∉ rest := fun hc => hmem (List.mem_cons_of_mem _ hc)
    show (cleanLoop _ _ _ _ _ n rest (i + 1) _).2 g2 = _
    rw [ih (i + 1) _ g2 (by rw [cleanGeom_parent _ _ _ _ _ _ self hR1 hR2]; exact hp) hnr]
    exact cleanGeom_frame _ _ _ _ _ _ self hR1 hR2 i g g2 st hp hne

theorem cleanLoop_heap_at (self : Nat) (hR1 : RespectsSpace self cleanGeomsOf)
    (hR2 : RespectsSpace self recomputeAABB) (D : List Nat) (i g : Nat)
    (hi : D[i]? = some g) (hnd : D.Nodup) (st : List Nat × (Nat → dxGeom α))
    (hp : (st.2 g).parent_space = self) :
    (cleanLoop IS_SPACE cleanGeomsOf recomputeAABB GEOM_DIRTY GEOM_AABB_BAD n D 0 st).2 g =
      (cleanGeom IS_SPACE cleanGeomsOf recomputeAABB GEOM_DIRTY GEOM_AABB_BAD n i g
        (cleanLoop IS_SPACE cleanGeomsOf recomputeAABB GEOM_DIRTY GEOM_AABB_BAD n (D.take i) 0
          st)).2 g := by
  obtain ⟨hilt, _⟩ := getD_of_getElem? _ _ _ hi
  have hget : D[i] = g := by
    have := List.getElem?_eq_getElem hilt
    rw [hi] at this
    exact (Option.some.inj this).symm
  have hsplit : D = D.take i ++ g :: D.drop (i + 1) := by
    rw [← hget, ← List.drop_eq_getElem_cons hilt, List.take_append_drop]
  have hnotin : g ∉ D.drop (i + 1) := by
    intro hc
    rw [hsplit] at hnd
    have := (List.nodup_append.1 hnd).2.1
    exact (List.nodup_cons.1 this).1 hc
  have hlen : (0 + (List.take i D).length) = i := by
    rw [List.length_take]; omega
  conv_lhs => rw [hsplit]
  rw [cleanLoop_append, hlen]
  show (cleanLoop _ _ _ _ _ _ (D.drop (i + 1)) (i + 1) _).2 g = _
  rw [cleanLoop_frame _ _ _ _ _ _ self hR1 hR2 _ _ _ g ?_ hnotin]
  rw [cleanGeom_parent _ _ _ _ _ _ self hR1 hR2, cleanLoop_parent _ _ _ _ _ _ self hR1 hR2]
  exact hp

end CleanLoop

section CleanGeoms

variable {α : Type} (IS_SPACE : Nat → Bool)
  (cleanGeomsOf recomputeAABB : Nat → (Nat → dxGeom α) → (Nat → dxGeom α))
  (GEOM_DIRTY GEOM_AABB_BAD : Nat)

theorem cleanGeoms_of_empty (s : dxSAPSpace α) (h : s.DirtyList = []) :
    cleanGeoms IS_SPACE cleanGeomsOf recomputeAABB GEOM_DIRTY GEOM_AABB_BAD s = s := by
  unfold cleanGeoms
  simp [h]

theorem cleanGeoms_of_nonempty (s : dxSAPSpace α) (h : s.DirtyList ≠ []) :
    cleanGeoms IS_SPACE cleanGeomsOf recomputeAABB GEOM_DIRTY GEOM_AABB_BAD s =
      { s with
        GeomList := (cleanLoop IS_SPACE cleanGeomsOf recomputeAABB GEOM_DIRTY GEOM_AABB_BAD
          s.GeomList.length s.DirtyList 0
          (s.GeomList ++ List.replicate s.DirtyList.length 0, s.heap)).1
        heap := (cleanLoop IS_SPACE cleanGeomsOf recomputeAABB GEOM_DIRTY GEOM_AABB_BAD
          s.GeomList.length s.DirtyList 0
          (s.GeomList ++ List.replicate s.DirtyList.length 0, s.heap)).2
        DirtyList := []
        lock_count := s.lock_count + 1 - 1 } := by
  unfold cleanGeoms
  have : s.DirtyList.length ≠ 0 := fun hc => h (List.length_eq_zero.1 hc)
  simp only
  rw [if_neg this]

/-- What `cleanGeoms` does to a well-formed space when the virtual calls respect
the space. -/
theorem cleanGeoms_spec (s : dxSAPSpace α) (hwf : WellFormed s)
    (hR1 : RespectsSpace s.self cleanGeomsOf) (hR2 : RespectsSpace s.self recomputeAABB) :
    (cleanGeoms IS_SPACE cleanGeomsOf recomputeAABB GEOM_DIRTY GEOM_AABB_BAD s).self = s.self ∧
    (cleanGeoms IS_SPACE cleanGeomsOf recomputeAABB GEOM_DIRTY GEOM_AABB_BAD s).DirtyList = [] ∧
    (cleanGeoms IS_SPACE cleanGeomsOf recomputeAABB GEOM_DIRTY GEOM_AABB_BAD s).GeomList =
      s.GeomList ++ s.DirtyList ∧
    (cleanGeoms IS_SPACE cleanGeomsOf recomputeAABB GEOM_DIRTY GEOM_AABB_BAD s).count =
      s.count ∧
    (cleanGeoms IS_SPACE cleanGeomsOf recomputeAABB GEOM_DIRTY GEOM_AABB_BAD s).lock_count =
      s.lock_count ∧
    (cleanGeoms IS_SPACE cleanGeomsOf recomputeAABB GEOM_DIRTY GEOM_AABB_BAD s).gflags =
      s.gflags ∧
    (∀ g2, ((cleanGeoms IS_SPACE cleanGeomsOf recomputeAABB GEOM_DIRTY GEOM_AABB_BAD s).heap
      g2).parent_space = (s.heap g2).parent_space) ∧
    (∀ (i g : Nat), s.DirtyList[i]? = some g →
      (cleanGeoms IS_SPACE cleanGeomsOf recomputeAABB GEOM_DIRTY GEOM_AABB_BAD s).heap g =
        { (recomputeAABB g
            (if IS_SPACE g then
              cleanGeomsOf g (heapAtIndex IS_SPACE cleanGeomsOf recomputeAABB GEOM_DIRTY
                GEOM_AABB_BAD s i)
            else heapAtIndex IS_SPACE cleanGeomsOf recomputeAABB GEOM_DIRTY GEOM_AABB_BAD s i))
            g with
          gflags := clearFlags
            ((recomputeAABB g
              (if IS_SPACE g then
                cleanGeomsOf g (heapAtIndex IS_SPACE cleanGeomsOf recomputeAABB GEOM_DIRTY
                  GEOM_AABB_BAD s i)
              else heapAtIndex IS_SPACE cleanGeomsOf recomputeAABB GEOM_DIRTY GEOM_AABB_BAD s
                i)) g).gflags
            (GEOM_DIRTY ||| GEOM_AABB_BAD)
          next := GEOM_INVALID_IDX
          tome := ((s.GeomList.length + i : Nat) : Int) }) ∧
    (∀ g2, (s.heap g2).parent_space = s.self → g2 ∉ s.DirtyList →
      (cleanGeoms IS_SPACE cleanGeomsOf recomputeAABB GEOM_DIRTY GEOM_AABB_BAD s).heap g2 =
        s.heap g2) := by
  obtain ⟨_, hdirty, hclean, _⟩ := hwf
  by_cases hD : s.DirtyList = []
  · rw [cleanGeoms_of_empty _ _ _ _ _ s hD]
    refine ⟨rfl, hD, by rw [hD, List.append_nil], rfl, rfl, rfl, fun _ => rfl, ?_,
      fun _ _ _ => rfl⟩
    intro i g hi
    rw [hD] at hi
    simp at hi
  · rw [cleanGeoms_of_nonempty _ _ _ _ _ s hD]
    refine ⟨rfl, rfl, ?_, rfl, ?_, rfl, ?_, ?_, ?_⟩
    · show (cleanLoop _ _ _ _ _ _ _ _ _).1 = _
      exact cleanLoop_fst _ _ _ _ _ _ _ 0 _ _ _ (by simp) (by simp)
    · show s.lock_count + 1 - 1 = s.lock_count
      omega
    · intro g2
      show ((cleanLoop _ _ _ _ _ _ _ _ _).2 g2).parent_space = _
      rw [cleanLoop_parent _ _ _ _ _ _ s.self hR1 hR2]
    · intro i g hi
      obtain ⟨hilt, hgd⟩ := getD_of_getElem? _ _ _ hi
      have hndD : s.DirtyList.Nodup :=
        nodup_of_index s.DirtyList (fun x => (s.heap x).next)
          (fun k hk => (hdirty k hk).2.2.1)
      have hpar : (s.heap g).parent_space = s.self := by
        have := (hdirty i hilt).2.1
        rw [hgd] at this
        exact this
      show (cleanLoop _ _ _ _ _ _ s.DirtyList 0 _).2 g = _
      rw [cleanLoop_heap_at _ _ _ _ _ _ s.self hR1 hR2 _ i g hi hndD _ hpar,
        cleanGeom_heap_self]
      rfl
    · intro g2 hp hnot
      show (cleanLoop _ _ _ _ _ _ _ _ _).2 g2 = _
      rw [cleanLoop_frame _ _ _ _ _ _ s.self hR1 hR2 _ _ _ g2 hp hnot]

end CleanGeoms

/-- The entries of the dirty list are not in the clean list. -/
theorem dirty_not_mem_clean {α : Type} (s : dxSAPSpace α) (hwf : WellFormed s) (g : Nat)
    (hg : g ∈ s.DirtyList) : g ∉ s.GeomList := by
  obtain ⟨_, hdirty, hclean, _⟩ := hwf
  intro hc
  obtain ⟨i, hi⟩ := mem_getElem?_of_mem _ _ hg
  obtain ⟨j, hj⟩ := mem_getElem?_of_mem _ _ hc
  obtain ⟨hilt, hgi⟩ := getD_of_getElem? _ _ _ hi
  obtain ⟨hjlt, hgj⟩ := getD_of_getElem? _ _ _ hj
  have h1 := (hdirty i hilt).2.2.2
  have h2 := (hclean j hjlt).2.2.1
  rw [hgi] at h1
  rw [hgj, h1] at h2
  unfold GEOM_INVALID_IDX at h2
  omega

/-- `cleanGeoms` keeps a well-formed space well formed. -/
theorem cleanGeoms_wellFormed {α : Type} (IS_SPACE : Nat → Bool)
    (cleanGeomsOf recomputeAABB : Nat → (Nat → dxGeom α) → (Nat → dxGeom α))
    (GEOM_DIRTY GEOM_AABB_BAD : Nat) (s : dxSAPSpace α) (hwf : WellFormed s)
    (hR1 : RespectsSpace s.self cleanGeomsOf) (hR2 : RespectsSpace s.self recomputeAABB) :
    WellFormed (cleanGeoms IS_SPACE cleanGeomsOf recomputeAABB GEOM_DIRTY GEOM_AABB_BAD s) := by
  obtain ⟨hself, hdl, hgl, hcount, _, _, hpar, hmoved, hkept⟩ :=
    cleanGeoms_spec IS_SPACE cleanGeomsOf recomputeAABB GEOM_DIRTY GEOM_AABB_BAD s hwf hR1 hR2
  have hwf2 := hwf
  obtain ⟨h0, hdirty, hclean, hc⟩ := hwf
  refine ⟨by rw [hself]; exact h0, ?_, ?_, ?_⟩
  · intro k hk
    rw [hdl] at hk
    simp at hk
  · intro k hk
    rw [hgl] at hk ⊢
    rw [hself]
    by_cases hkn : k < s.GeomList.length
    · have e : (s.GeomList ++ s.DirtyList).getD k 0 = s.GeomList.getD k 0 := by
        rw [List.getD_eq_getElem?_getD, List.getD_eq_getElem?_getD,
          List.getElem?_append_left hkn]
      rw [e]
      obtain ⟨c1, c2, c3, c4⟩ := hclean k hkn
      have hnot : s.GeomList.getD k 0 ∉ s.DirtyList := by
        intro hmem
        have hin : s.GeomList.getD k 0 ∈ s.GeomList := by
          have := getElem?_of_lt_getD s.GeomList k hkn
          exact List.getElem?_mem this
        exact dirty_not_mem_clean s hwf2 _ hmem hin
      rw [hkept _ c2 hnot]
      exact ⟨c1, c2, c3, c4⟩
    · have hk2 : k - s.GeomList.length < s.DirtyList.length := by
        rw [List.length_append] at hk
        omega
      have e : (s.GeomList ++ s.DirtyList).getD k 0 =
          s.DirtyList.getD (k - s.GeomList.length) 0 := by
        rw [List.getD_eq_getElem?_getD, List.getD_eq_getElem?_getD,
          List.getElem?_append_right (by omega)]
      rw [e]
      obtain ⟨c1, c2, _, _⟩ := hdirty _ hk2
      have hrec := hmoved _ _ (getElem?_of_lt_getD s.DirtyList _ hk2)
      refine ⟨c1, by rw [hpar]; exact c2, ?_, ?_⟩
      · rw [hrec]
        show ((s.GeomList.length + (k - s.GeomList.length) : Nat) : Int) = (k : Int)
        congr 1
        omega
      · rw [hrec]
  · rw [hcount, hdl, hgl, hc, List.length_append]
    push_cast
    simp only [List.length_nil]
    omega

/-! ### Invariants of a collision pass -/

section PassInvariant

variable {α δ : Type} (callback : δ → Nat → Nat → dxSAPSpace α → Outcome (dxSAPSpace α))
  (J JF : Pass α δ → Prop)

theorem post_bind (o : Outcome (Pass α δ)) (f : Pass α δ → Outcome (Pass α δ))
    (ho : Outcome.Post J JF o) (hf : ∀ p, J p → Outcome.Post J JF (f p)) :
    Outcome.Post J JF (o.bind f) := by
  cases o with
  | ok p => exact hf p ho
  | failed msg p => exact ho

theorem runCalls_post (hJF : ∀ p, J p → JF p) (hstep : StepKeeps callback J JF)
    (calls : List (δ × Nat × Nat)) :
    ∀ p, J p → Outcome.Post J JF (runCalls callback calls p) := by
  induction calls with
  | nil => intro p hp; exact hp
  | cons c rest ih =>
    intro p hp
    obtain ⟨d, g1, g2⟩ := c
    unfold runCalls
    obtain ⟨h1, h2⟩ := hstep p d g1 g2 hp
    cases hcb : callback d g1 g2 p.space with
    | ok s2 => exact ih _ (h1 s2 hcb)
    | failed msg s2 => exact h2 msg s2 hcb

theorem collidePair_post (hJF : ∀ p, J p → JF p) (hstep : StepKeeps callback J JF)
    (GEOM_AABB_BAD : Nat) (AABBTest : Nat → Nat → (Nat → α) → Int) (data : δ)
    (g1 g2 : Nat) (p : Pass α δ) (hp : J p) :
    Outcome.Post J JF (collidePair GEOM_AABB_BAD AABBTest callback data g1 g2 p) := by
  unfold collidePair
  cases collideGeomsNoAABBs GEOM_AABB_BAD p.space.heap AABBTest g1 g2 data with
  | ok calls => exact runCalls_post callback J JF hJF hstep calls p hp
  | failed msg x => exact hJF p hp

theorem collideOverlapping_post (hJF : ∀ p, J p → JF p) (hstep : StepKeeps callback J JF)
    (GEOM_AABB_BAD : Nat) (AABBTest : Nat → Nat → (Nat → α) → Int) (data : δ)
    (TmpGeomList : List Nat) (pairs : List Pair) :
    ∀ p, J p → Outcome.Post J JF
      (collideOverlapping GEOM_AABB_BAD AABBTest callback data TmpGeomList pairs p) := by
  induction pairs with
  | nil => intro p hp; exact hp
  | cons pair rest ih =>
    intro p hp
    unfold collideOverlapping
    cases h0 : TmpGeomList[pair.id0]? with
    | none => exact hJF p hp
    | some a =>
      cases h1 : TmpGeomList[pair.id1]? with
      | none => exact hJF p hp
      | some b =>
        exact post_bind J JF _ _
          (collidePair_post callback J JF hJF hstep GEOM_AABB_BAD AABBTest data a b p hp) ih

theorem collideWith_post (hJF : ∀ p, J p → JF p) (hstep : StepKeeps callback J JF)
    (GEOM_AABB_BAD : Nat) (AABBTest : Nat → Nat → (Nat → α) → Int) (data : δ)
    (g1 : Nat) (l : List Nat) :
    ∀ p, J p → Outcome.Post J JF
      (collideWith GEOM_AABB_BAD AABBTest callback data g1 l p) := by
  induction l with
  | nil => intro p hp; exact hp
  | cons g2 rest ih =>
    intro p hp
    unfold collideWith
    exact post_bind J JF _ _
      (collidePair_post callback J JF hJF hstep GEOM_AABB_BAD AABBTest data g1 g2 p hp) ih

theorem collideInfinite_post (hJF : ∀ p, J p → JF p) (hstep : StepKeeps callback J JF)
    (GEOM_AABB_BAD : Nat) (AABBTest : Nat → Nat → (Nat → α) → Int) (data : δ)
    (TmpGeomList : List Nat) (l : List Nat) :
    ∀ p, J p → Outcome.Post J JF
      (collideInfinite GEOM_AABB_BAD AABBTest callback data TmpGeomList l p) := by
  induction l with
  | nil => intro p hp; exact hp
  | cons g1 rest ih =>
    intro p hp
    unfold collideInfinite
    refine post_bind J JF _ _ (post_bind J JF _ _ ?_ ?_) ih
    · exact collideWith_post callback J JF hJF hstep GEOM_AABB_BAD AABBTest data g1 rest p hp
    · exact collideWith_post callback J JF hJF hstep GEOM_AABB_BAD AABBTest data g1 TmpGeomList

theorem collide2Loop_post (hJF : ∀ p, J p → JF p) (hstep : StepKeeps callback J JF)
    (GEOM_ENABLED : Nat)
    (collideAABBs : (Nat → dxGeom α) → Nat → Nat → δ → Outcome (List (δ × Nat × Nat)))
    (data : δ) (geom : Nat) (rem : Nat) :
    ∀ i p, J p → Outcome.Post J JF
      (collide2Loop GEOM_ENABLED collideAABBs callback data geom rem i p) := by
  induction rem with
  | zero => intro i p hp; exact hp
  | succ rem ih =>
    intro i p hp
    unfold collide2Loop
    cases hg : p.space.GeomList[i]? with
    | none => exact hJF p hp
    | some g =>
      simp only
      split
      · cases collideAABBs p.space.heap g geom data with
        | ok calls =>
          exact post_bind J JF _ _ (runCalls_post callback J JF hJF hstep calls p hp) (ih _)
        | failed msg x => exact hJF p hp
      · exact ih _ p hp

end PassInvariant

section WholePass

variable {α δ : Type} (callback : δ → Nat → Nat → dxSAPSpace α → Outcome (dxSAPSpace α))
  (J JF Q : Pass α δ → Prop)

theorem post_bind_unlock (o : Outcome (Pass α δ)) (ho : Outcome.Post J JF o)
    (hQ : ∀ p, J p →
      Q { p with space := { p.space with lock_count := p.space.lock_count - 1 } }) :
    Outcome.Post Q JF (o.bind unlock) := by
  cases o with
  | ok p => exact hQ p ho
  | failed msg p => exact ho

/-- A pass invariant `J` that holds after the cleaning step of `collide` and that
every step keeps gives the postcondition of `collide`. -/
theorem collide_post [LinearOrder α] (toFloat : α → α) (ODE_INFINITY4 : α)
    (RadixSort : List α → List Nat) (ax0idx ax1idx ax2idx : Nat) (IS_SPACE : Nat → Bool)
    (cleanGeomsOf recomputeAABB : Nat → (Nat → dxGeom α) → (Nat → dxGeom α))
    (GEOM_DIRTY GEOM_AABB_BAD GEOM_ENABLED : Nat) (dInfinity : α)
    (AABBTest : Nat → Nat → (Nat → α) → Int) (data : δ) (s : dxSAPSpace α)
    (h0 : J { space := cleanGeoms IS_SPACE cleanGeomsOf recomputeAABB GEOM_DIRTY
                GEOM_AABB_BAD { s with lock_count := s.lock_count + 1 }, calls := [] })
    (hJF : ∀ p, J p → JF p) (hstep : StepKeeps callback J JF)
    (hQ : ∀ p, J p →
      Q { p with space := { p.space with lock_count := p.space.lock_count - 1 } }) :
    Outcome.Post Q JF
      (collide toFloat ODE_INFINITY4 RadixSort ax0idx ax1idx ax2idx IS_SPACE cleanGeomsOf
        recomputeAABB GEOM_DIRTY GEOM_AABB_BAD GEOM_ENABLED dInfinity AABBTest
        (some callback) data s) := by
  unfold collide
  simp only
  split
  · exact hJF _ h0
  · unfold collideCleaned
    simp only
    split
    · exact hJF _ h0
    · refine post_bind_unlock J JF Q _ (post_bind J JF _ _ ?_ ?_) hQ
      · exact collideOverlapping_post callback J JF hJF hstep _ _ _ _ _ _ h0
      · exact collideInfinite_post callback J JF hJF hstep _ _ _ _ _

/-- The same for `collide2`. -/
theorem collide2_post (IS_SPACE : Nat → Bool)
    (cleanGeomsOf recomputeAABB : Nat → (Nat → dxGeom α) → (Nat → dxGeom α))
    (GEOM_DIRTY GEOM_AABB_BAD GEOM_ENABLED : Nat)
    (collideAABBs : (Nat → dxGeom α) → Nat → Nat → δ → Outcome (List (δ × Nat × Nat)))
    (data : δ) (geom : Nat) (hgeom : geom ≠ 0) (s : dxSAPSpace α)
    (h0 : J { space :=
                { cleanGeoms IS_SPACE cleanGeomsOf recomputeAABB GEOM_DIRTY GEOM_AABB_BAD
                    { s with lock_count := s.lock_count + 1 } with
                  heap := recomputeAABB geom
                    (cleanGeoms IS_SPACE cleanGeomsOf recomputeAABB GEOM_DIRTY GEOM_AABB_BAD
                      { s with lock_count := s.lock_count + 1 }).heap },
              calls := [] })
    (hJF : ∀ p, J p → JF p) (hstep : StepKeeps callback J JF)
    (hQ : ∀ p, J p →
      Q { p with space := { p.space with lock_count := p.space.lock_count - 1 } }) :
    Outcome.Post Q JF
      (collide2 IS_SPACE cleanGeomsOf recomputeAABB GEOM_DIRTY GEOM_AABB_BAD GEOM_ENABLED
        collideAABBs (some callback) data geom s) := by
  unfold collide2
  simp only
  rw [if_neg hgeom]
  exact post_bind_unlock J JF Q _
    (collide2Loop_post callback J JF hJF hstep _ _ _ _ _ _ _ h0) hQ

end WholePass

/-- `cleanGeoms` cleans the dirty geometries of a well-formed space. -/
theorem cleanGeoms_converged {α : Type} (IS_SPACE : Nat → Bool)
    (cleanGeomsOf recomputeAABB : Nat → (Nat → dxGeom α) → (Nat → dxGeom α))
    (GEOM_DIRTY GEOM_AABB_BAD : Nat) (s : dxSAPSpace α) (hwf : WellFormed s)
    (hR1 : RespectsSpace s.self cleanGeomsOf) (hR2 : RespectsSpace s.self recomputeAABB) :
    Converged IS_SPACE cleanGeomsOf recomputeAABB GEOM_DIRTY GEOM_AABB_BAD s
      (cleanGeoms IS_SPACE cleanGeomsOf recomputeAABB GEOM_DIRTY GEOM_AABB_BAD s) := by
  obtain ⟨_, hdl, hgl, hcount, _, _, _, hmoved, _⟩ :=
    cleanGeoms_spec IS_SPACE cleanGeomsOf recomputeAABB GEOM_DIRTY GEOM_AABB_BAD s hwf hR1 hR2
  refine ⟨hdl, hgl, hcount, ?_⟩
  intro i g hi
  rw [hmoved i g hi, hgl]
  refine ⟨?_, rfl, clearFlags_and_left _ _ _, clearFlags_and_right _ _ _, rfl, rfl⟩
  rw [List.getElem?_append_right (by omega)]
  simpa using hi

/-- `Converged` speaks of the lists and the heap of the first state only. -/
theorem converged_of_locked {α : Type} (IS_SPACE : Nat → Bool)
    (cleanGeomsOf recomputeAABB : Nat → (Nat → dxGeom α) → (Nat → dxGeom α))
    (GEOM_DIRTY GEOM_AABB_BAD : Nat) (s s2 : dxSAPSpace α) (c : Int)
    (h : Converged IS_SPACE cleanGeomsOf recomputeAABB GEOM_DIRTY GEOM_AABB_BAD
      { s with lock_count := c } s2) :
    Converged IS_SPACE cleanGeomsOf recomputeAABB GEOM_DIRTY GEOM_AABB_BAD s s2 := h

/-! ### Passes that return -/

theorem collideGeomsNoAABBs_ok {α δ : Type} (GEOM_AABB_BAD : Nat) (heap : Nat → dxGeom α)
    (AABBTest : Nat → Nat → (Nat → α) → Int) (g1 g2 : Nat) (data : δ)
    (h1 : (heap g1).gflags &&& GEOM_AABB_BAD = 0)
    (h2 : (heap g2).gflags &&& GEOM_AABB_BAD = 0) :
    ∃ calls, collideGeomsNoAABBs GEOM_AABB_BAD heap AABBTest g1 g2 data = .ok calls := by
  unfold collideGeomsNoAABBs
  rw [if_neg (not_not.2 h1), if_neg (not_not.2 h2)]
  split
  · exact ⟨_, rfl⟩
  · split
    · exact ⟨_, rfl⟩
    · split
      · exact ⟨_, rfl⟩
      · split
        · exact ⟨_, rfl⟩
        · exact ⟨_, rfl⟩

theorem separate_subset {α : Type} [DecidableEq α] (heap : Nat → dxGeom α)
    (GEOM_ENABLED : Nat) (dInfinity : α) (axis0max : Nat) (l : List Nat) :
    ∀ (acc : List Nat × List Nat) (g : Nat),
      g ∈ (separate heap GEOM_ENABLED dInfinity axis0max l acc).1 ∨
        g ∈ (separate heap GEOM_ENABLED dInfinity axis0max l acc).2 →
      g ∈ l ∨ g ∈ acc.1 ∨ g ∈ acc.2 := by
  induction l with
  | nil => intro acc g h; exact Or.inr h
  | cons x rest ih =>
    intro acc g h
    unfold separate at h
    split at h
    · rcases ih _ _ h with h1 | h1
      · exact Or.inl (List.mem_cons_of_mem _ h1)
      · exact Or.inr h1
    · split at h
      · rcases ih _ _ h with h1 | h1 | h1
        · exact Or.inl (List.mem_cons_of_mem _ h1)
        · exact Or.inr (Or.inl h1)
        · rcases List.mem_append.1 h1 with h2 | h2
          · exact Or.inr (Or.inr h2)
          · rw [List.mem_singleton.1 h2]
            exact Or.inl (List.mem_cons_self _ _)
      · rcases ih _ _ h with h1 | h1 | h1
        · exact Or.inl (List.mem_cons_of_mem _ h1)
        · rcases List.mem_append.1 h1 with h2 | h2
          · exact Or.inr (Or.inl h2)
          · rw [List.mem_singleton.1 h2]
            exact Or.inl (List.mem_cons_self _ _)
        · exact Or.inr (Or.inr h1)

section PassReturns

variable {α δ : Type} (callback : δ → Nat → Nat → dxSAPSpace α → Outcome (dxSAPSpace α))
  (GEOM_AABB_BAD : Nat)
  (AABBTest : Nat → Nat → (Nat → α) → Int) (data : δ)

theorem bind_ok (o : Outcome (Pass α δ)) (f : Pass α δ → Outcome (Pass α δ))
    (H : Nat → dxGeom α) (ho : ∃ p, o = .ok p ∧ p.space.heap = H)
    (hf : ∀ p, p.space.heap = H → ∃ p2, f p = .ok p2 ∧ p2.space.heap = H) :
    ∃ p2, o.bind f = .ok p2 ∧ p2.space.heap = H := by
  obtain ⟨p, rfl, hp⟩ := ho
  exact hf p hp

theorem runCalls_ok (hcb : LeavesGeometries callback) (H : Nat → dxGeom α) (calls : List (δ × Nat × Nat)) :
    ∀ p : Pass α δ, p.space.heap = H →
      ∃ p2, runCalls callback calls p = .ok p2 ∧ p2.space.heap = H := by
  induction calls with
  | nil => intro p hp; exact ⟨p, rfl, hp⟩
  | cons c rest ih =>
    intro p hp
    obtain ⟨d, g1, g2⟩ := c
    obtain ⟨st2, h1, _, _, _, h5⟩ := hcb d g1 g2 p.space
    unfold runCalls
    rw [h1]
    exact ih _ (by rw [← hp]; exact h5)

theorem collidePair_ok (hcb : LeavesGeometries callback) (H : Nat → dxGeom α) (g1 g2 : Nat)
    (h1 : (H g1).gflags &&& GEOM_AABB_BAD = 0) (h2 : (H g2).gflags &&& GEOM_AABB_BAD = 0)
    (p : Pass α δ) (hp : p.space.heap = H) :
    ∃ p2, collidePair GEOM_AABB_BAD AABBTest callback data g1 g2 p = .ok p2 ∧
      p2.space.heap = H := by
  unfold collidePair
  rw [hp]
  obtain ⟨calls, hc⟩ := collideGeomsNoAABBs_ok GEOM_AABB_BAD H AABBTest g1 g2 data h1 h2
  rw [hc]
  exact runCalls_ok callback hcb H calls p hp

theorem collideWith_ok (hcb : LeavesGeometries callback) (H : Nat → dxGeom α) (g1 : Nat)
    (h1 : (H g1).gflags &&& GEOM_AABB_BAD = 0) (l : List Nat)
    (hl : ∀ g ∈ l, (H g).gflags &&& GEOM_AABB_BAD = 0) :
    ∀ p : Pass α δ, p.space.heap = H →
      ∃ p2, collideWith GEOM_AABB_BAD AABBTest callback data g1 l p = .ok p2 ∧
        p2.space.heap = H := by
  induction l with
  | nil => intro p hp; exact ⟨p, rfl, hp⟩
  | cons g2 rest ih =>
    intro p hp
    unfold collideWith
    exact bind_ok _ _ H
      (collidePair_ok callback GEOM_AABB_BAD AABBTest data hcb H g1 g2 h1
        (hl g2 (List.mem_cons_self _ _)) p hp)
      (ih (fun g hg => hl g (List.mem_cons_of_mem _ hg)))

theorem collideOverlapping_ok (hcb : LeavesGeometries callback) (H : Nat → dxGeom α) (TmpGeomList : List Nat)
    (hT : ∀ g ∈ TmpGeomList, (H g).gflags &&& GEOM_AABB_BAD = 0) (pairs : List Pair)
    (hpairs : ∀ pair ∈ pairs, pair.id0 < TmpGeomList.length ∧ pair.id1 < TmpGeomList.length) :
    ∀ p : Pass α δ, p.space.heap = H →
      ∃ p2, collideOverlapping GEOM_AABB_BAD AABBTest callback data TmpGeomList pairs p =
        .ok p2 ∧ p2.space.heap = H := by
  induction pairs with
  | nil => intro p hp; exact ⟨p, rfl, hp⟩
  | cons pair rest ih =>
    intro p hp
    obtain ⟨b0, b1⟩ := hpairs pair (List.mem_cons_self _ _)
    unfold collideOverlapping
    rw [List.getElem?_eq_getElem b0, List.getElem?_eq_getElem b1]
    exact bind_ok _ _ H
      (collidePair_ok callback GEOM_AABB_BAD AABBTest data hcb H _ _
        (hT _ (List.getElem_mem _)) (hT _ (List.getElem_mem _)) p hp)
      (ih (fun q hq => hpairs q (List.mem_cons_of_mem _ hq)))

theorem collideInfinite_ok (hcb : LeavesGeometries callback) (H : Nat → dxGeom α) (TmpGeomList : List Nat)
    (hT : ∀ g ∈ TmpGeomList, (H g).gflags &&& GEOM_AABB_BAD = 0) (l : List Nat)
    (hl : ∀ g ∈ l, (H g).gflags &&& GEOM_AABB_BAD = 0) :
    ∀ p : Pass α δ, p.space.heap = H →
      ∃ p2, collideInfinite GEOM_AABB_BAD AABBTest callback data TmpGeomList l p = .ok p2 ∧
        p2.space.heap = H := by
  induction l with
  | nil => intro p hp; exact ⟨p, rfl, hp⟩
  | cons g1 rest ih =>
    intro p hp
    have h1 := hl g1 (List.mem_cons_self _ _)
    have hrest : ∀ g ∈ rest, (H g).gflags &&& GEOM_AABB_BAD = 0 :=
      fun g hg => hl g (List.mem_cons_of_mem _ hg)
    unfold collideInfinite
    refine bind_ok _ _ H (bind_ok _ _ H ?_ ?_) (ih hrest)
    · exact collideWith_ok callback GEOM_AABB_BAD AABBTest data hcb H g1 h1 rest hrest p hp
    · exact collideWith_ok callback GEOM_AABB_BAD AABBTest data hcb H g1 h1 TmpGeomList hT

end PassReturns

/-- After `cleanGeoms` no geometry of the clean list has its AABB marked bad,
provided that none of the old clean list had. -/
theorem cleanGeoms_flags {α : Type} (IS_SPACE : Nat → Bool)
    (cleanGeomsOf recomputeAABB : Nat → (Nat → dxGeom α) → (Nat → dxGeom α))
    (GEOM_DIRTY GEOM_AABB_BAD : Nat) (s : dxSAPSpace α) (hwf : WellFormed s)
    (hR1 : RespectsSpace s.self cleanGeomsOf) (hR2 : RespectsSpace s.self recomputeAABB)
    (hflags : ∀ g ∈ s.GeomList, (s.heap g).gflags &&& GEOM_AABB_BAD = 0) :
    ∀ g ∈ (cleanGeoms IS_SPACE cleanGeomsOf recomputeAABB GEOM_DIRTY GEOM_AABB_BAD s).GeomList,
      ((cleanGeoms IS_SPACE cleanGeomsOf recomputeAABB GEOM_DIRTY GEOM_AABB_BAD s).heap
        g).gflags &&& GEOM_AABB_BAD = 0 := by
  obtain ⟨_, _, hgl, _, _, _, _, hmoved, hkept⟩ :=
    cleanGeoms_spec IS_SPACE cleanGeomsOf recomputeAABB GEOM_DIRTY GEOM_AABB_BAD s hwf hR1 hR2
  intro g hg
  rw [hgl] at hg
  rcases List.mem_append.1 hg with h | h
  · have hnot : g ∉ s.DirtyList := fun hc => dirty_not_mem_clean s hwf g hc h
    obtain ⟨j, hj⟩ := mem_getElem?_of_mem _ _ h
    obtain ⟨hjlt, hgj⟩ := getD_of_getElem? _ _ _ hj
    have hpar := (hwf.2.2.1 j hjlt).2.1
    rw [hgj] at hpar
    rw [hkept g hpar hnot]
    exact hflags g h
  · obtain ⟨i, hi⟩ := mem_getElem?_of_mem _ _ h
    rw [hmoved i g hi]
    exact clearFlags_and_right _ _ _

/-- `collide` returns normally on a well-formed space whose clean geometries have
valid AABBs, when the call-back leaves the geometries alone and the box pruning
of the finite geometries returns pairs of positions of `TmpGeomList`. -/
theorem collide_ok {α δ : Type} [LinearOrder α] (toFloat : α → α) (ODE_INFINITY4 : α)
    (RadixSort : List α → List Nat) (ax0idx ax1idx ax2idx : Nat) (IS_SPACE : Nat → Bool)
    (cleanGeomsOf recomputeAABB : Nat → (Nat → dxGeom α) → (Nat → dxGeom α))
    (GEOM_DIRTY GEOM_AABB_BAD GEOM_ENABLED : Nat) (dInfinity : α)
    (AABBTest : Nat → Nat → (Nat → α) → Int)
    (callback : δ → Nat → Nat → dxSAPSpace α → Outcome (dxSAPSpace α)) (data : δ)
    (s : dxSAPSpace α) (hwf : WellFormed s)
    (hR1 : RespectsSpace s.self cleanGeomsOf) (hR2 : RespectsSpace s.self recomputeAABB)
    (hcb : LeavesGeometries callback)
    (hflags : ∀ g ∈ s.GeomList, (s.heap g).gflags &&& GEOM_AABB_BAD = 0)
    (hprune : ∃ pairs,
      BoxPruning toFloat ODE_INFINITY4 RadixSort ax0idx ax1idx ax2idx
        ((separate
            (cleanGeoms IS_SPACE cleanGeomsOf recomputeAABB GEOM_DIRTY GEOM_AABB_BAD
              { s with lock_count := s.lock_count + 1 }).heap
            GEOM_ENABLED dInfinity (ax0idx + 1)
            (cleanGeoms IS_SPACE cleanGeomsOf recomputeAABB GEOM_DIRTY GEOM_AABB_BAD
              { s with lock_count := s.lock_count + 1 }).GeomList ([], [])).1.map
          (cleanGeoms IS_SPACE cleanGeomsOf recomputeAABB GEOM_DIRTY GEOM_AABB_BAD
            { s with lock_count := s.lock_count + 1 }).heap) = some pairs ∧
      ∀ pair ∈ pairs,
        pair.id0 < (separate
            (cleanGeoms IS_SPACE cleanGeomsOf recomputeAABB GEOM_DIRTY GEOM_AABB_BAD
              { s with lock_count := s.lock_count + 1 }).heap
            GEOM_ENABLED dInfinity (ax0idx + 1)
            (cleanGeoms IS_SPACE cleanGeomsOf recomputeAABB GEOM_DIRTY GEOM_AABB_BAD
              { s with lock_count := s.lock_count + 1 }).GeomList ([], [])).1.length ∧
        pair.id1 < (separate
            (cleanGeoms IS_SPACE cleanGeomsOf recomputeAABB GEOM_DIRTY GEOM_AABB_BAD
              { s with lock_count := s.lock_count + 1 }).heap
            GEOM_ENABLED dInfinity (ax0idx + 1)
            (cleanGeoms IS_SPACE cleanGeomsOf recomputeAABB GEOM_DIRTY GEOM_AABB_BAD
              { s with lock_count := s.lock_count + 1 }).GeomList ([], [])).1.length) :
    ∃ p, collide toFloat ODE_INFINITY4 RadixSort ax0idx ax1idx ax2idx IS_SPACE cleanGeomsOf
        recomputeAABB GEOM_DIRTY GEOM_AABB_BAD GEOM_ENABLED dInfinity AABBTest
        (some callback) data s = .ok p := by
  unfold collide collideCleaned
  simp only
  have hwf1 : WellFormed { s with lock_count := s.lock_count + 1 } := hwf
  have hwf2 := cleanGeoms_wellFormed IS_SPACE cleanGeomsOf recomputeAABB GEOM_DIRTY
    GEOM_AABB_BAD _ hwf1 hR1 hR2
  have hfl := cleanGeoms_flags IS_SPACE cleanGeomsOf recomputeAABB GEOM_DIRTY
    GEOM_AABB_BAD _ hwf1 hR1 hR2 hflags
  have hdl := (cleanGeoms_spec IS_SPACE cleanGeomsOf recomputeAABB GEOM_DIRTY
    GEOM_AABB_BAD _ hwf1 hR1 hR2).2.1
  generalize cleanGeoms IS_SPACE cleanGeomsOf recomputeAABB GEOM_DIRTY GEOM_AABB_BAD
    { s with lock_count := s.lock_count + 1 } = S2 at hwf2 hfl hdl hprune ⊢
  have hcount : ((S2.GeomList.length : Nat) : Int) = S2.count := by
    rw [hwf2.2.2.2, hdl]
    simp
  have hsub := separate_subset S2.heap GEOM_ENABLED dInfinity (ax0idx + 1) S2.GeomList ([], [])
  have hT : ∀ g ∈ (separate S2.heap GEOM_ENABLED dInfinity (ax0idx + 1) S2.GeomList
      ([], [])).1, (S2.heap g).gflags &&& GEOM_AABB_BAD = 0 := by
    intro g hg
    rcases hsub g (Or.inl hg) with h | h | h
    · exact hfl g h
    · simp at h
    · simp at h
  have hI : ∀ g ∈ (separate S2.heap GEOM_ENABLED dInfinity (ax0idx + 1) S2.GeomList
      ([], [])).2, (S2.heap g).gflags &&& GEOM_AABB_BAD = 0 := by
    intro g hg
    rcases hsub g (Or.inr hg) with h | h | h
    · exact hfl g h
    · simp at h
    · simp at h
  obtain ⟨pairs, hbp, hpairs⟩ := hprune
  have hloops : ∀ prs : List Pair,
      (∀ pair ∈ prs, pair.id0 < (separate S2.heap GEOM_ENABLED dInfinity (ax0idx + 1)
          S2.GeomList ([], [])).1.length ∧
        pair.id1 < (separate S2.heap GEOM_ENABLED dInfinity (ax0idx + 1)
          S2.GeomList ([], [])).1.length) →
      ∃ p, ((collideOverlapping GEOM_AABB_BAD AABBTest callback data
          (separate S2.heap GEOM_ENABLED dInfinity (ax0idx + 1) S2.GeomList ([], [])).1 prs
          { space := S2, calls := [] }).bind
        (collideInfinite GEOM_AABB_BAD AABBTest callback data
          (separate S2.heap GEOM_ENABLED dInfinity (ax0idx + 1) S2.GeomList ([], [])).1
          (separate S2.heap GEOM_ENABLED dInfinity (ax0idx + 1) S2.GeomList ([], [])).2)).bind
        unlock = .ok p := by
    intro prs hprs
    obtain ⟨p2, hp2, _⟩ := bind_ok _ _ S2.heap
      (collideOverlapping_ok callback GEOM_AABB_BAD AABBTest data hcb S2.heap _ hT prs hprs
        { space := S2, calls := [] } rfl)
      (collideInfinite_ok callback GEOM_AABB_BAD AABBTest data hcb S2.heap _ hT _ hI)
    rw [hp2]
    exact ⟨_, rfl⟩
  rw [if_neg (not_not.2 hcount)]
  by_cases hlen : 0 < (separate S2.heap GEOM_ENABLED dInfinity (ax0idx + 1) S2.GeomList
      ([], [])).1.length
  · rw [if_pos hlen, hbp]
    exact hloops pairs hpairs
  · rw [if_neg hlen]
    exact hloops [] (fun _ h => by simp at h)

theorem converged_congr {α : Type} (IS_SPACE : Nat → Bool)
    (cleanGeomsOf recomputeAABB : Nat → (Nat → dxGeom α) → (Nat → dxGeom α))
    (GEOM_DIRTY GEOM_AABB_BAD : Nat) (s a b : dxSAPSpace α)
    (h : Converged IS_SPACE cleanGeomsOf recomputeAABB GEOM_DIRTY GEOM_AABB_BAD s a)
    (h1 : b.DirtyList = a.DirtyList) (h2 : b.GeomList = a.GeomList) (h3 : b.count = a.count)
    (h4 : b.heap = a.heap) :
    Converged IS_SPACE cleanGeomsOf recomputeAABB GEOM_DIRTY GEOM_AABB_BAD s b := by
  unfold Converged at h ⊢
  rw [h1, h2, h3, h4]
  exact h

/-- When the call-back leaves the geometries alone, the lists, the count and the
heap at the end of `collide`, however it ends, are those left by its cleaning
step. -/
theorem collide_state {α δ : Type} [LinearOrder α] (toFloat : α → α) (ODE_INFINITY4 : α)
    (RadixSort : List α → List Nat) (ax0idx ax1idx ax2idx : Nat) (IS_SPACE : Nat → Bool)
    (cleanGeomsOf recomputeAABB : Nat → (Nat → dxGeom α) → (Nat → dxGeom α))
    (GEOM_DIRTY GEOM_AABB_BAD GEOM_ENABLED : Nat) (dInfinity : α)
    (AABBTest : Nat → Nat → (Nat → α) → Int)
    (callback : δ → Nat → Nat → dxSAPSpace α → Outcome (dxSAPSpace α)) (data : δ)
    (s : dxSAPSpace α) (hcb : LeavesGeometries callback) :
    Outcome.Post
      (fun p => p.space.DirtyList = (cleanGeoms IS_SPACE cleanGeomsOf recomputeAABB GEOM_DIRTY
          GEOM_AABB_BAD { s with lock_count := s.lock_count + 1 }).DirtyList ∧
        p.space.GeomList = (cleanGeoms IS_SPACE cleanGeomsOf recomputeAABB GEOM_DIRTY
          GEOM_AABB_BAD { s with lock_count := s.lock_count + 1 }).GeomList ∧
        p.space.count = (cleanGeoms IS_SPACE cleanGeomsOf recomputeAABB GEOM_DIRTY
          GEOM_AABB_BAD { s with lock_count := s.lock_count + 1 }).count ∧
        p.space.heap = (cleanGeoms IS_SPACE cleanGeomsOf recomputeAABB GEOM_DIRTY
          GEOM_AABB_BAD { s with lock_count := s.lock_count + 1 }).heap)
      (fun p => p.space.DirtyList = (cleanGeoms IS_SPACE cleanGeomsOf recomputeAABB GEOM_DIRTY
          GEOM_AABB_BAD { s with lock_count := s.lock_count + 1 }).DirtyList ∧
        p.space.GeomList = (cleanGeoms IS_SPACE cleanGeomsOf recomputeAABB GEOM_DIRTY
          GEOM_AABB_BAD { s with lock_count := s.lock_count + 1 }).GeomList ∧
        p.space.count = (cleanGeoms IS_SPACE cleanGeomsOf recomputeAABB GEOM_DIRTY
          GEOM_AABB_BAD { s with lock_count := s.lock_count + 1 }).count ∧
        p.space.heap = (cleanGeoms IS_SPACE cleanGeomsOf recomputeAABB GEOM_DIRTY
          GEOM_AABB_BAD { s with lock_count := s.lock_count + 1 }).heap)
      (collide toFloat ODE_INFINITY4 RadixSort ax0idx ax1idx ax2idx IS_SPACE cleanGeomsOf
        recomputeAABB GEOM_DIRTY GEOM_AABB_BAD GEOM_ENABLED dInfinity AABBTest
        (some callback) data s) := by
  refine collide_post callback _ _ _ toFloat ODE_INFINITY4 RadixSort ax0idx ax1idx ax2idx
    IS_SPACE cleanGeomsOf recomputeAABB GEOM_DIRTY GEOM_AABB_BAD GEOM_ENABLED dInfinity
    AABBTest data s ⟨rfl, rfl, rfl, rfl⟩ (fun _ h => h) ?_ (fun _ h => h)
  intro p d g1 g2 hp
  obtain ⟨st2, h1, h2, h3, h4, h5⟩ := hcb d g1 g2 p.space
  refine ⟨?_, ?_⟩
  · intro s2 hs2
    rw [h1] at hs2
    cases hs2
    exact ⟨h2.trans hp.1, h3.trans hp.2.1, h4.trans hp.2.2.1, h5.trans hp.2.2.2⟩
  · intro msg s2 hs2
    rw [h1] at hs2
    cases hs2

theorem post_state {σ : Type} (J : σ → Prop) (o : Outcome σ) (h : Outcome.Post J J o) :
    J o.state := by
  cases o with
  | ok p => exact h
  | failed msg p => exact h

/-- C12: dirty/clean convergence. For every well-formed space, when the virtual
calls made on a geometry respect the space, after `cleanGeoms` the dirty list is
empty, the clean list is the old clean list followed by the old dirty list in
order, the count is unchanged, and every moved geometry has the AABB that
`recomputeAABB` gave it, its `GEOM_DIRTY` and `GEOM_AABB_BAD` flags clear, its
clean index equal to its new position and its dirty index invalid. The same
holds of the state in which `collide` ends when the call-back leaves the
geometries alone; and `collide` then returns normally if the clean geometries
had valid AABBs and the box pruning returns pairs of positions of
`TmpGeomList`. -/
theorem dirty_clean_convergence {α : Type} [LinearOrder α] (IS_SPACE : Nat → Bool)
    (cleanGeomsOf recomputeAABB : Nat → (Nat → dxGeom α) → (Nat → dxGeom α))
    (GEOM_DIRTY GEOM_AABB_BAD : Nat) (s : dxSAPSpace α) (hwf : WellFormed s)
    (hR1 : RespectsSpace s.self cleanGeomsOf) (hR2 : RespectsSpace s.self recomputeAABB) :
    Converged IS_SPACE cleanGeomsOf recomputeAABB GEOM_DIRTY GEOM_AABB_BAD s
      (cleanGeoms IS_SPACE cleanGeomsOf recomputeAABB GEOM_DIRTY GEOM_AABB_BAD s) ∧
    ∀ (δ : Type) (toFloat : α → α) (ODE_INFINITY4 : α) (RadixSort : List α → List Nat)
      (ax0idx ax1idx ax2idx GEOM_ENABLED : Nat) (dInfinity : α)
      (AABBTest : Nat → Nat → (Nat → α) → Int)
      (callback : δ → Nat → Nat → dxSAPSpace α → Outcome (dxSAPSpace α)) (data : δ),
      LeavesGeometries callback →
      Converged IS_SPACE cleanGeomsOf recomputeAABB GEOM_DIRTY GEOM_AABB_BAD s
        (collide toFloat ODE_INFINITY4 RadixSort ax0idx ax1idx ax2idx IS_SPACE cleanGeomsOf
          recomputeAABB GEOM_DIRTY GEOM_AABB_BAD GEOM_ENABLED dInfinity AABBTest
          (some callback) data s).state.space ∧
      ((∀ g ∈ s.GeomList, (s.heap g).gflags &&& GEOM_AABB_BAD = 0) →
        (∃ pairs,
          BoxPruning toFloat ODE_INFINITY4 RadixSort ax0idx ax1idx ax2idx
            ((separate
                (cleanGeoms IS_SPACE cleanGeomsOf recomputeAABB GEOM_DIRTY GEOM_AABB_BAD
                  { s with lock_count := s.lock_count + 1 }).heap
                GEOM_ENABLED dInfinity (ax0idx + 1)
                (cleanGeoms IS_SPACE cleanGeomsOf recomputeAABB GEOM_DIRTY GEOM_AABB_BAD
                  { s with lock_count := s.lock_count + 1 }).GeomList ([], [])).1.map
              (cleanGeoms IS_SPACE cleanGeomsOf recomputeAABB GEOM_DIRTY GEOM_AABB_BAD
                { s with lock_count := s.lock_count + 1 }).heap) = some pairs ∧
          ∀ pair ∈ pairs,
            pair.id0 < (separate
                (cleanGeoms IS_SPACE cleanGeomsOf recomputeAABB GEOM_DIRTY GEOM_AABB_BAD
                  { s with lock_count := s.lock_count + 1 }).heap
                GEOM_ENABLED dInfinity (ax0idx + 1)
                (cleanGeoms IS_SPACE cleanGeomsOf recomputeAABB GEOM_DIRTY GEOM_AABB_BAD
                  { s with lock_count := s.lock_count + 1 }).GeomList ([], [])).1.length ∧
            pair.id1 < (separate
                (cleanGeoms IS_SPACE cleanGeomsOf recomputeAABB GEOM_DIRTY GEOM_AABB_BAD
                  { s with lock_count := s.lock_count + 1 }).heap
                GEOM_ENABLED dInfinity (ax0idx + 1)
                (cleanGeoms IS_SPACE cleanGeomsOf recomputeAABB GEOM_DIRTY GEOM_AABB_BAD
                  { s with lock_count := s.lock_count + 1 }).GeomList ([], [])).1.length) →
        ∃ p, collide toFloat ODE_INFINITY4 RadixSort ax0idx ax1idx ax2idx IS_SPACE
          cleanGeomsOf recomputeAABB GEOM_DIRTY GEOM_AABB_BAD GEOM_ENABLED dInfinity AABBTest
          (some callback) data s = .ok p) := by
  refine ⟨cleanGeoms_converged IS_SPACE cleanGeomsOf recomputeAABB GEOM_DIRTY GEOM_AABB_BAD
    s hwf hR1 hR2, ?_⟩
  intro δ toFloat ODE_INFINITY4 RadixSort ax0idx ax1idx ax2idx GEOM_ENABLED dInfinity AABBTest
    callback data hcb
  refine ⟨?_, ?_⟩
  · have hwf1 : WellFormed { s with lock_count := s.lock_count + 1 } := hwf
    have hconv := converged_of_locked _ _ _ _ _ s _ _
      (cleanGeoms_converged IS_SPACE cleanGeomsOf recomputeAABB GEOM_DIRTY GEOM_AABB_BAD
        { s with lock_count := s.lock_count + 1 } hwf1 hR1 hR2)
    obtain ⟨h1, h2, h3, h4⟩ := post_state _ _
      (collide_state toFloat ODE_INFINITY4 RadixSort ax0idx ax1idx ax2idx IS_SPACE
        cleanGeomsOf recomputeAABB GEOM_DIRTY GEOM_AABB_BAD GEOM_ENABLED dInfinity AABBTest
        callback data s hcb)
    exact converged_congr _ _ _ _ _ s _ _ hconv h1 h2 h3 h4
  · intro hflags hprune
    exact collide_ok toFloat ODE_INFINITY4 RadixSort ax0idx ax1idx ax2idx IS_SPACE
      cleanGeomsOf recomputeAABB GEOM_DIRTY GEOM_AABB_BAD GEOM_ENABLED dInfinity AABBTest
      callback data s hwf hR1 hR2 hcb hflags hprune

/-- C12, witness: the cleaning step and a whole pass on the space with two dirty
cubes, with a call-back that does nothing. The pass returns. -/
theorem dirty_clean_convergence_witness :
    WellFormed liveSpace ∧
    Converged (fun _ => false) (fun _ h => h) (fun _ h => h) 1 4 liveSpace
      (cleanGeoms (fun _ => false) (fun _ h => h) (fun _ h => h) 1 4 liveSpace) ∧
    Converged (fun _ => false) (fun _ h => h) (fun _ h => h) 1 4 liveSpace
      (livePass (fun _ _ _ st => .ok st)).state.space ∧
    ∃ p, livePass (fun _ _ _ st => .ok st) = .ok p := by
  have h := dirty_clean_convergence (fun _ => false) (fun _ h => h) (fun _ h => h) 1 4
    liveSpace (by decide) (fun _ _ _ => ⟨rfl, fun _ => ⟨rfl, rfl, fun _ => rfl⟩⟩)
    (fun _ _ _ => ⟨rfl, fun _ => ⟨rfl, rfl, fun _ => rfl⟩⟩)
  have h2 := h.2 Nat (fun x => x) 1000000 (fun _ => [1, 2, 0, 3]) 0 2 4 16 2000000
    (fun _ _ _ => 1) (fun _ _ _ st => .ok st) 7 (fun _ _ _ st => ⟨st, rfl, rfl, rfl, rfl, rfl⟩)
  exact ⟨by decide, h.1, h2.1, h2.2 (by decide) ⟨[⟨1, 2⟩], by decide, by decide⟩⟩

/-! ### The lock counter -/

theorem cleanGeoms_lock_count {α : Type} (IS_SPACE : Nat → Bool)
    (cleanGeomsOf recomputeAABB : Nat → (Nat → dxGeom α) → (Nat → dxGeom α))
    (GEOM_DIRTY GEOM_AABB_BAD : Nat) (s : dxSAPSpace α) :
    (cleanGeoms IS_SPACE cleanGeomsOf recomputeAABB GEOM_DIRTY GEOM_AABB_BAD s).lock_count =
      s.lock_count := by
  by_cases hD : s.DirtyList = []
  · rw [cleanGeoms_of_empty _ _ _ _ _ s hD]
  · rw [cleanGeoms_of_nonempty _ _ _ _ _ s hD]
    show s.lock_count + 1 - 1 = s.lock_count
    omega

theorem add_locked {α : Type} (GEOM_DIRTY GEOM_AABB_BAD : Nat) (s : dxSAPSpace α) (g : Nat)
    (h : 1 ≤ s.lock_count) :
    add GEOM_DIRTY GEOM_AABB_BAD s g = .failed "invalid operation for locked space" s := by
  unfold add
  rw [if_pos (by omega)]

theorem remove_locked {α : Type} (GEOM_DIRTY GEOM_AABB_BAD : Nat) (s : dxSAPSpace α)
    (g : Nat) (h : 1 ≤ s.lock_count) :
    remove GEOM_DIRTY GEOM_AABB_BAD s g = .failed "invalid operation for locked space" s := by
  unfold remove
  rw [if_pos (by omega)]

/-- A call-back that keeps the lock counter keeps a pass locked. -/
theorem stepKeeps_locked {α δ : Type}
    (callback : δ → Nat → Nat → dxSAPSpace α → Outcome (dxSAPSpace α))
    (hcb : KeepsLock callback) :
    StepKeeps callback
      (fun p => 1 ≤ p.space.lock_count ∧ ∀ c ∈ p.calls, 1 ≤ c.2.2.2.lock_count)
      (fun p => ∀ c ∈ p.calls, 1 ≤ c.2.2.2.lock_count) := by
  intro p d g1 g2 hp
  have hlog : ∀ c ∈ p.calls ++ [(d, g1, g2, p.space)], 1 ≤ c.2.2.2.lock_count := by
    intro c hc
    rcases List.mem_append.1 hc with h | h
    · exact hp.2 c h
    · rw [List.mem_singleton.1 h]
      exact hp.1
  refine ⟨?_, ?_⟩
  · intro s2 hs2
    refine ⟨?_, hlog⟩
    show 1 ≤ s2.lock_count
    rw [hcb d g1 g2 p.space s2 hs2]
    exact hp.1
  · intro msg s2 _
    exact hlog

theorem post_state2 {σ : Type} (J JF : σ → Prop) (hJ : ∀ p, J p → JF p) (o : Outcome σ)
    (h : Outcome.Post J JF o) : JF o.state := by
  cases o with
  | ok p => exact hJ p h
  | failed msg p => exact h

/-- C13: the reentrancy guard. For every state of the space whose lock counter is
not negative and every call-back that keeps the lock counter, the lock counter
is at least 1 at every invocation of the call-back made by `collide` or by
`collide2`, whether the pass returns or fails, so `add` and `remove`, called on
the space in the state that the invocation finds, fail and leave the space, with
both lists and the count, as it is. -/
theorem reentrancy_guard {α δ : Type} [LinearOrder α] (toFloat : α → α)
    (ODE_INFINITY4 : α) (RadixSort : List α → List Nat) (ax0idx ax1idx ax2idx : Nat)
    (IS_SPACE : Nat → Bool)
    (cleanGeomsOf recomputeAABB : Nat → (Nat → dxGeom α) → (Nat → dxGeom α))
    (GEOM_DIRTY GEOM_AABB_BAD GEOM_ENABLED : Nat) (dInfinity : α)
    (AABBTest : Nat → Nat → (Nat → α) → Int)
    (collideAABBs : (Nat → dxGeom α) → Nat → Nat → δ → Outcome (List (δ × Nat × Nat)))
    (callback : δ → Nat → Nat → dxSAPSpace α → Outcome (dxSAPSpace α)) (data : δ)
    (geom : Nat) (s : dxSAPSpace α) (hlock : 0 ≤ s.lock_count) (hcb : KeepsLock callback) :
    (∀ c ∈ (collide toFloat ODE_INFINITY4 RadixSort ax0idx ax1idx ax2idx IS_SPACE
          cleanGeomsOf recomputeAABB GEOM_DIRTY GEOM_AABB_BAD GEOM_ENABLED dInfinity AABBTest
          (some callback) data s).state.calls,
      1 ≤ c.2.2.2.lock_count ∧
      ∀ g, (∃ msg, add GEOM_DIRTY GEOM_AABB_BAD c.2.2.2 g = .failed msg c.2.2.2) ∧
        ∃ msg, remove GEOM_DIRTY GEOM_AABB_BAD c.2.2.2 g = .failed msg c.2.2.2) ∧
    (∀ c ∈ (collide2 IS_SPACE cleanGeomsOf recomputeAABB GEOM_DIRTY GEOM_AABB_BAD
          GEOM_ENABLED collideAABBs (some callback) data geom s).state.calls,
      1 ≤ c.2.2.2.lock_count ∧
      ∀ g, (∃ msg, add GEOM_DIRTY GEOM_AABB_BAD c.2.2.2 g = .failed msg c.2.2.2) ∧
        ∃ msg, remove GEOM_DIRTY GEOM_AABB_BAD c.2.2.2 g = .failed msg c.2.2.2) := by
  have hfail : ∀ st : dxSAPSpace α, 1 ≤ st.lock_count →
      1 ≤ st.lock_count ∧
      ∀ g, (∃ msg, add GEOM_DIRTY GEOM_AABB_BAD st g = .failed msg st) ∧
        ∃ msg, remove GEOM_DIRTY GEOM_AABB_BAD st g = .failed msg st :=
    fun st h => ⟨h, fun g => ⟨⟨_, add_locked GEOM_DIRTY GEOM_AABB_BAD st g h⟩,
      ⟨_, remove_locked GEOM_DIRTY GEOM_AABB_BAD st g h⟩⟩⟩
  have h1 : 1 ≤ (cleanGeoms IS_SPACE cleanGeomsOf recomputeAABB GEOM_DIRTY GEOM_AABB_BAD
      { s with lock_count := s.lock_count + 1 }).lock_count := by
    rw [cleanGeoms_lock_count]
    show 1 ≤ s.lock_count + 1
    omega
  refine ⟨?_, ?_⟩
  · intro c hc
    apply hfail
    have hpost := collide_post callback
      (fun p : Pass α δ => 1 ≤ p.space.lock_count ∧ ∀ c ∈ p.calls, 1 ≤ c.2.2.2.lock_count)
      (fun p : Pass α δ => ∀ c ∈ p.calls, 1 ≤ c.2.2.2.lock_count)
      (fun p : Pass α δ => ∀ c ∈ p.calls, 1 ≤ c.2.2.2.lock_count)
      toFloat ODE_INFINITY4 RadixSort ax0idx
      ax1idx ax2idx IS_SPACE cleanGeomsOf recomputeAABB GEOM_DIRTY GEOM_AABB_BAD GEOM_ENABLED
      dInfinity AABBTest data s ⟨h1, fun _ h => by simp at h⟩
      (fun _ h => h.2) (stepKeeps_locked callback hcb) (fun _ h => h.2)
    exact post_state _ _ hpost c hc
  · intro c hc
    apply hfail
    by_cases hgeom : geom = 0
    · have : collide2 IS_SPACE cleanGeomsOf recomputeAABB GEOM_DIRTY GEOM_AABB_BAD
          GEOM_ENABLED collideAABBs (some callback) data geom s =
          .failed "Bad argument(s)" { space := s, calls := [] } := by
        unfold collide2
        simp only
        rw [if_pos hgeom]
      rw [this] at hc
      simp [Outcome.state] at hc
    · have hpost := collide2_post callback
        (fun p : Pass α δ => 1 ≤ p.space.lock_count ∧ ∀ c ∈ p.calls, 1 ≤ c.2.2.2.lock_count)
        (fun p : Pass α δ => ∀ c ∈ p.calls, 1 ≤ c.2.2.2.lock_count)
        (fun p : Pass α δ => ∀ c ∈ p.calls, 1 ≤ c.2.2.2.lock_count)
        IS_SPACE cleanGeomsOf recomputeAABB
        GEOM_DIRTY GEOM_AABB_BAD GEOM_ENABLED collideAABBs data geom hgeom s
        ⟨h1, fun _ h => by simp at h⟩
        (fun _ h => h.2) (stepKeeps_locked callback hcb) (fun _ h => h.2)
      exact post_state _ _ hpost c hc

theorem add_lock_count {α : Type} (GEOM_DIRTY GEOM_AABB_BAD : Nat) (s s2 : dxSAPSpace α)
    (g : Nat) (h : add GEOM_DIRTY GEOM_AABB_BAD s g = .ok s2) :
    s2.lock_count = s.lock_count := by
  unfold add at h
  split at h
  · cases h
  · split at h
    · cases h
    · split at h
      · cases h
      · cases h
        rfl

/-- C13, witness: a pass over the space with two overlapping cubes whose
call-back tries to add the geometry `6`. The call-back is invoked once, with a
lock counter of 1, and the `add` fails. -/
theorem reentrancy_guard_witness :
    0 ≤ liveSpace.lock_count ∧
    (livePass (fun _ _ _ st => add 1 4 st 6)).state.calls.length = 1 ∧
    (∀ c ∈ (livePass (fun _ _ _ st => add 1 4 st 6)).state.calls,
      1 ≤ c.2.2.2.lock_count ∧
      ∀ g, (∃ msg, add 1 4 c.2.2.2 g = .failed msg c.2.2.2) ∧
        ∃ msg, remove 1 4 c.2.2.2 g = .failed msg c.2.2.2) :=
  ⟨by decide, by decide,
   (reentrancy_guard (fun x => x) 1000000 (fun _ => [1, 2, 0, 3]) 0 2 4 (fun _ => false)
    (fun _ h => h) (fun _ h => h) 1 4 16 2000000 (fun _ _ _ => 1)
    (fun _ _ _ _ => .ok []) (fun _ _ _ st => add 1 4 st 6) 7 0 liveSpace (by decide)
    (fun _ _ _ st st2 h => add_lock_count 1 4 st st2 6 h)).1⟩

/-! ### The membership invariant -/

theorem getD_mem_of_lt (l : List Nat) (k : Nat) (hk : k < l.length) : l.getD k 0 ∈ l :=
  List.getElem?_mem (getElem?_of_lt_getD l k hk)

theorem getD_inj_of_nodup (l : List Nat) (hnd : l.Nodup) (i j : Nat) (hi : i < l.length)
    (hj : j < l.length) (h : l.getD i 0 = l.getD j 0) : i = j := by
  have e1 := getElem?_of_lt_getD l i hi
  have e2 := getElem?_of_lt_getD l j hj
  rw [h] at e1
  exact List.getElem?_inj hi hnd (e1.trans e2.symm)

/-- The entries of a list after the swap-with-last removal of slot `k`. -/
theorem swapLast_entry (l : List Nat) (k : Nat) (hk : k < l.length) (hnd : l.Nodup) (i : Nat)
    (hi : i < l.length - 1) :
    ((l.set k (l.getD (l.length - 1) 0)).take (l.length - 1)).getD i 0 ≠ l.getD k 0 ∧
    ((i = k ∧ ((l.set k (l.getD (l.length - 1) 0)).take (l.length - 1)).getD i 0 =
        l.getD (l.length - 1) 0) ∨
     (i ≠ k ∧ ((l.set k (l.getD (l.length - 1) 0)).take (l.length - 1)).getD i 0 =
        l.getD i 0 ∧ l.getD i 0 ≠ l.getD (l.length - 1) 0)) := by
  have hval : ((l.set k (l.getD (l.length - 1) 0)).take (l.length - 1)).getD i 0 =
      if i = k then l.getD (l.length - 1) 0 else l.getD i 0 := by
    rw [List.getD_eq_getElem?_getD, swapLast_getElem? l k _ i hk hi]
    by_cases h : i = k
    · rw [if_pos h, if_pos h]; rfl
    · rw [if_neg h, if_neg h, List.getD_eq_getElem?_getD]
  rw [hval]
  by_cases h : i = k
  · rw [if_pos h]
    refine ⟨?_, Or.inl ⟨h, rfl⟩⟩
    intro hc
    have := getD_inj_of_nodup l hnd _ _ (by omega) hk hc
    omega
  · rw [if_neg h]
    refine ⟨?_, Or.inr ⟨h, rfl, ?_⟩⟩
    · intro hc
      exact h (getD_inj_of_nodup l hnd _ _ (by omega) hk hc)
    · intro hc
      have := getD_inj_of_nodup l hnd _ _ (by omega) (by omega) hc
      omega

theorem swapLast_mem (l : List Nat) (k x : Nat) (hk : k < l.length) (hx : x ∈ l)
    (hne : x ≠ l.getD k 0) :
    x ∈ (l.set k (l.getD (l.length - 1) 0)).take (l.length - 1) := by
  obtain ⟨i, hi⟩ := mem_getElem?_of_mem _ _ hx
  obtain ⟨hilt, hxi⟩ := getD_of_getElem? _ _ _ hi
  by_cases hlast : i = l.length - 1
  · have hk2 : k < l.length - 1 := by
      rcases Nat.lt_or_ge k (l.length - 1) with h | h
      · exact h
      · exfalso
        apply hne
        have : k = i := by omega
        rw [this, hxi]
    apply List.getElem?_mem
    rw [swapLast_getElem? l k _ k hk hk2, if_pos rfl, ← hxi, hlast]
  · have hi2 : i < l.length - 1 := by omega
    have hik : i ≠ k := by
      intro hc
      apply hne
      rw [← hc, hxi]
    apply List.getElem?_mem
    rw [swapLast_getElem? l k _ i hk hi2, if_neg hik]
    exact hi

theorem mem_of_mem_swapLast (l : List Nat) (k v x : Nat)
    (hv : l ≠ [] → v ∈ l)
    (hx : x ∈ (l.set k v).take (l.length - 1)) : x ∈ l := by
  have h1 := List.mem_of_mem_take hx
  rcases List.mem_or_eq_of_mem_set h1 with h | h
  · exact h
  · rw [h]
    apply hv
    intro hc
    rw [hc] at hx
    simp at hx

/-- A geometry that is in a list of a well-formed space has the space as its
parent and is not null. -/
theorem parent_of_mem {α : Type} (s : dxSAPSpace α) (hwf : WellFormed s) (g : Nat)
    (hg : g ∈ s.DirtyList ∨ g ∈ s.GeomList) :
    g ≠ 0 ∧ (s.heap g).parent_space = s.self := by
  obtain ⟨_, hdirty, hclean, _⟩ := hwf
  rcases hg with h | h
  · obtain ⟨i, hi⟩ := mem_getElem?_of_mem _ _ h
    obtain ⟨hilt, hgi⟩ := getD_of_getElem? _ _ _ hi
    have := hdirty i hilt
    rw [hgi] at this
    exact ⟨this.1, this.2.1⟩
  · obtain ⟨i, hi⟩ := mem_getElem?_of_mem _ _ h
    obtain ⟨hilt, hgi⟩ := getD_of_getElem? _ _ _ hi
    have := hclean i hilt
    rw [hgi] at this
    exact ⟨this.1, this.2.1⟩

theorem add_eq_ok {α : Type} (GEOM_DIRTY GEOM_AABB_BAD : Nat) (s s2 : dxSAPSpace α) (g : Nat)
    (h : add GEOM_DIRTY GEOM_AABB_BAD s g = .ok s2) :
    g ≠ 0 ∧ (s.heap g).parent_space = 0 ∧
    s2 = dGeomMoved GEOM_DIRTY GEOM_AABB_BAD
      { s with
        heap := Function.update s.heap g
          { s.heap g with
            gflags := (s.heap g).gflags ||| (GEOM_DIRTY ||| GEOM_AABB_BAD)
            next := (s.DirtyList.length : Int)
            tome := GEOM_INVALID_IDX
            parent_space := s.self }
        DirtyList := s.DirtyList ++ [g]
        count := s.count + 1 } := by
  unfold add at h
  split at h
  · cases h
  · split at h
    · cases h
    · rename_i hg
      split at h
      · cases h
      · rename_i hfree
        cases h
        exact ⟨hg, (not_not.1 hfree).1, rfl⟩

/-- A successful `add` keeps the membership invariant. -/
theorem add_membership {α : Type} (GEOM_DIRTY GEOM_AABB_BAD : Nat) (s s2 : dxSAPSpace α)
    (g : Nat) (hinv : Membership s) (h : add GEOM_DIRTY GEOM_AABB_BAD s g = .ok s2) :
    Membership s2 := by
  obtain ⟨hg0, hfree, rfl⟩ := add_eq_ok GEOM_DIRTY GEOM_AABB_BAD s s2 g h
  obtain ⟨hwf, hall⟩ := hinv
  have hwf' := hwf
  obtain ⟨hself, hdirty, hclean, hcount⟩ := hwf
  have hnotin : ∀ x, x ∈ s.DirtyList ∨ x ∈ s.GeomList → x ≠ g := by
    intro x hx hc
    have := (parent_of_mem s hwf' x hx).2
    rw [hc, hfree] at this
    exact hself this.symm
  refine ⟨⟨hself, ?_, ?_, ?_⟩, ?_⟩
  · intro k hk
    simp only [dGeomMoved, List.length_append, List.length_singleton] at hk ⊢
    by_cases hkm : k < s.DirtyList.length
    · have e : (s.DirtyList ++ [g]).getD k 0 = s.DirtyList.getD k 0 := by
        rw [List.getD_eq_getElem?_getD, List.getD_eq_getElem?_getD,
          List.getElem?_append_left hkm]
      rw [e, Function.update_noteq (hnotin _ (Or.inl (getD_mem_of_lt _ _ hkm)))]
      exact hdirty k hkm
    · have hk2 : k = s.DirtyList.length := by omega
      have e : (s.DirtyList ++ [g]).getD k 0 = g := by
        rw [List.getD_eq_getElem?_getD, List.getElem?_append_right (by omega), hk2]
        simp
      rw [e, Function.update_same, hk2]
      exact ⟨hg0, rfl, rfl, rfl⟩
  · intro k hk
    simp only [dGeomMoved] at hk ⊢
    rw [Function.update_noteq (hnotin _ (Or.inr (getD_mem_of_lt _ _ hk)))]
    exact hclean k hk
  · simp only [dGeomMoved, List.length_append, List.length_singleton]
    rw [hcount]
    push_cast
    omega
  · intro x hx
    simp only [dGeomMoved] at hx ⊢
    by_cases hxg : x = g
    · left
      rw [hxg]
      simp
    · rw [Function.update_noteq hxg] at hx
      rcases hall x hx with h1 | h1
      · left
        exact List.mem_append_left _ h1
      · right
        exact h1

theorem wellFormed_iff {α : Type} (s : dxSAPSpace α) :
    WellFormed s ↔ s.self ≠ 0 ∧ DirtyOK s.self s.heap s.DirtyList ∧
      CleanOK s.self s.heap s.GeomList ∧
      s.count = (s.DirtyList.length : Int) + (s.GeomList.length : Int) := Iff.rfl

theorem dirtyOK_frame {α : Type} (self : Nat) (h h2 : Nat → dxGeom α) (l : List Nat)
    (hok : DirtyOK self h l) (hfr : ∀ x ∈ l, h2 x = h x) : DirtyOK self h2 l := by
  intro k hk
  rw [hfr _ (getD_mem_of_lt l k hk)]
  exact hok k hk

theorem cleanOK_frame {α : Type} (self : Nat) (h h2 : Nat → dxGeom α) (l : List Nat)
    (hok : CleanOK self h l) (hfr : ∀ x ∈ l, h2 x = h x) : CleanOK self h2 l := by
  intro k hk
  rw [hfr _ (getD_mem_of_lt l k hk)]
  exact hok k hk

theorem dirtyOK_nodup {α : Type} (self : Nat) (h : Nat → dxGeom α) (l : List Nat)
    (hok : DirtyOK self h l) : l.Nodup :=
  nodup_of_index l (fun x => (h x).next) (fun k hk => (hok k hk).2.2.1)

theorem cleanOK_nodup {α : Type} (self : Nat) (h : Nat → dxGeom α) (l : List Nat)
    (hok : CleanOK self h l) : l.Nodup :=
  nodup_of_index l (fun x => (h x).tome) (fun k hk => (hok k hk).2.2.1)

/-- The swap-with-last removal of the entry at index `k` of a dirty list, with
the dirty index of the moved geometry set to `k`. -/
theorem dirtyOK_swap {α : Type} (self : Nat) (h h2 : Nat → dxGeom α) (l : List Nat)
    (k : Nat) (hk : k < l.length) (hok : DirtyOK self h l)
    (hfr : ∀ x, x ≠ l.getD k 0 →
      h2 x = Function.update h (l.getD (l.length - 1) 0)
        { h (l.getD (l.length - 1) 0) with next := (k : Int) } x) :
    DirtyOK self h2 ((l.set k (l.getD (l.length - 1) 0)).take (l.length - 1)) := by
  have hnd := dirtyOK_nodup self h l hok
  intro i hi
  rw [swapLast_length l k _ hk] at hi
  obtain ⟨hne, hcase⟩ := swapLast_entry l k hk hnd i hi
  rw [hfr _ hne]
  rcases hcase with ⟨hik, he⟩ | ⟨hik, he, hnl⟩
  · rw [he, Function.update_same]
    obtain ⟨c1, c2, _, c4⟩ := hok (l.length - 1) (by omega)
    exact ⟨c1, c2, by rw [hik], c4⟩
  · rw [he, Function.update_noteq hnl]
    exact hok i (by omega)

/-- The same for a clean list and the clean index. -/
theorem cleanOK_swap {α : Type} (self : Nat) (h h2 : Nat → dxGeom α) (l : List Nat)
    (k : Nat) (hk : k < l.length) (hok : CleanOK self h l)
    (hfr : ∀ x, x ≠ l.getD k 0 →
      h2 x = Function.update h (l.getD (l.length - 1) 0)
        { h (l.getD (l.length - 1) 0) with tome := (k : Int) } x) :
    CleanOK self h2 ((l.set k (l.getD (l.length - 1) 0)).take (l.length - 1)) := by
  have hnd := cleanOK_nodup self h l hok
  intro i hi
  rw [swapLast_length l k _ hk] at hi
  obtain ⟨hne, hcase⟩ := swapLast_entry l k hk hnd i hi
  rw [hfr _ hne]
  rcases hcase with ⟨hik, he⟩ | ⟨hik, he, hnl⟩
  · rw [he, Function.update_same]
    obtain ⟨c1, c2, _, c4⟩ := hok (l.length - 1) (by omega)
    exact ⟨c1, c2, by rw [hik], c4⟩
  · rw [he, Function.update_noteq hnl]
    exact hok i (by omega)

/-- Appending a geometry whose record says so to a dirty list. -/
theorem dirtyOK_snoc {α : Type} (self : Nat) (h h2 : Nat → dxGeom α) (l : List Nat) (g : Nat)
    (hok : DirtyOK self h l) (hfr : ∀ x ∈ l, h2 x = h x) (hg0 : g ≠ 0)
    (hp : (h2 g).parent_space = self) (hn : (h2 g).next = (l.length : Int))
    (ht : (h2 g).tome = GEOM_INVALID_IDX) : DirtyOK self h2 (l ++ [g]) := by
  intro k hk
  rw [List.length_append, List.length_singleton] at hk
  by_cases hkm : k < l.length
  · have e : (l ++ [g]).getD k 0 = l.getD k 0 := by
      rw [List.getD_eq_getElem?_getD, List.getD_eq_getElem?_getD,
        List.getElem?_append_left hkm]
    rw [e, hfr _ (getD_mem_of_lt l k hkm)]
    exact hok k hkm
  · have hk2 : k = l.length := by omega
    have e : (l ++ [g]).getD k 0 = g := by
      rw [List.getD_eq_getElem?_getD, List.getElem?_append_right (by omega), hk2]
      simp
    rw [e, hk2]
    exact ⟨hg0, hp, hn, ht⟩

theorem update_next_parent {α : Type} (h : Nat → dxGeom α) (a : Nat) (t : Int) (g : Nat) :
    (Function.update h a { h a with next := t } g).parent_space = (h g).parent_space := by
  by_cases e : g = a
  · subst e
    rw [Function.update_same]
  · rw [Function.update_noteq e]

/-- `remove` on a geometry of the space held at index `k` of the dirty list. -/
theorem remove_of_dirty {α : Type} (GEOM_DIRTY GEOM_AABB_BAD : Nat) (s : dxSAPSpace α)
    (g k : Nat) (hlock : s.lock_count = 0) (hg0 : g ≠ 0)
    (hpar : (s.heap g).parent_space = s.self) (hnext : (s.heap g).next = (k : Int))
    (htome : (s.heap g).tome = GEOM_INVALID_IDX) (hk : k < s.DirtyList.length) :
    remove GEOM_DIRTY GEOM_AABB_BAD s g = .ok (dGeomMoved GEOM_DIRTY GEOM_AABB_BAD
      { s with
        DirtyList := (s.DirtyList.set k (s.DirtyList.getD (s.DirtyList.length - 1) 0)).take
          (s.DirtyList.length - 1)
        count := s.count - 1
        heap := Function.update
          (Function.update
            (Function.update s.heap (s.DirtyList.getD (s.DirtyList.length - 1) 0)
              { s.heap (s.DirtyList.getD (s.DirtyList.length - 1) 0) with next := (k : Int) })
            g { (Function.update s.heap (s.DirtyList.getD (s.DirtyList.length - 1) 0)
              { s.heap (s.DirtyList.getD (s.DirtyList.length - 1) 0) with
                next := (k : Int) }) g with next := GEOM_INVALID_IDX })
          g { (Function.update s.heap (s.DirtyList.getD (s.DirtyList.length - 1) 0)
              { s.heap (s.DirtyList.getD (s.DirtyList.length - 1) 0) with
                next := (k : Int) }) g with
              next := GEOM_INVALID_IDX, parent_space := 0 } }) := by
  have hassert : ((s.heap g).next = GEOM_INVALID_IDX ∧ 0 ≤ (s.heap g).tome ∧
      (s.heap g).tome < (s.GeomList.length : Int)) ∨
      ((s.heap g).tome = GEOM_INVALID_IDX ∧ 0 ≤ (s.heap g).next ∧
      (s.heap g).next < (s.DirtyList.length : Int)) := by
    right
    rw [hnext]
    exact ⟨htome, by omega, by omega⟩
  have hne : (s.heap g).next ≠ GEOM_INVALID_IDX := by
    rw [hnext]; unfold GEOM_INVALID_IDX; omega
  have htoNat : (s.heap g).next.toNat = k := by rw [hnext]; simp
  unfold remove
  rw [if_neg (not_not.2 hlock), if_neg hg0, if_neg (not_not.2 hpar)]
  simp only
  rw [if_neg (not_not.2 hassert), if_pos hne, htoNat, hnext]
  simp only [Function.update_same]

/-- `remove` on a geometry of the space held at index `k` of the clean list. -/
theorem remove_of_clean {α : Type} (GEOM_DIRTY GEOM_AABB_BAD : Nat) (s : dxSAPSpace α)
    (g k : Nat) (hlock : s.lock_count = 0) (hg0 : g ≠ 0)
    (hpar : (s.heap g).parent_space = s.self) (hnext : (s.heap g).next = GEOM_INVALID_IDX)
    (htome : (s.heap g).tome = (k : Int)) (hk : k < s.GeomList.length) :
    remove GEOM_DIRTY GEOM_AABB_BAD s g = .ok (dGeomMoved GEOM_DIRTY GEOM_AABB_BAD
      { s with
        GeomList := (s.GeomList.set k (s.GeomList.getD (s.GeomList.length - 1) 0)).take
          (s.GeomList.length - 1)
        count := s.count - 1
        heap := Function.update
          (Function.update
            (Function.update s.heap (s.GeomList.getD (s.GeomList.length - 1) 0)
              { s.heap (s.GeomList.getD (s.GeomList.length - 1) 0) with tome := (k : Int) })
            g { (Function.update s.heap (s.GeomList.getD (s.GeomList.length - 1) 0)
              { s.heap (s.GeomList.getD (s.GeomList.length - 1) 0) with
                tome := (k : Int) }) g with tome := GEOM_INVALID_IDX })
          g { (Function.update s.heap (s.GeomList.getD (s.GeomList.length - 1) 0)
              { s.heap (s.GeomList.getD (s.GeomList.length - 1) 0) with
                tome := (k : Int) }) g with
              tome := GEOM_INVALID_IDX, parent_space := 0 } }) := by
  have hassert : ((s.heap g).next = GEOM_INVALID_IDX ∧ 0 ≤ (s.heap g).tome ∧
      (s.heap g).tome < (s.GeomList.length : Int)) ∨
      ((s.heap g).tome = GEOM_INVALID_IDX ∧ 0 ≤ (s.heap g).next ∧
      (s.heap g).next < (s.DirtyList.length : Int)) := by
    left
    rw [htome]
    exact ⟨hnext, by omega, by omega⟩
  have htoNat : (s.heap g).tome.toNat = k := by rw [htome]; simp
  unfold remove
  rw [if_neg (not_not.2 hlock), if_neg hg0, if_neg (not_not.2 hpar)]
  simp only
  rw [if_neg (not_not.2 hassert), if_neg (not_not.2 hnext), htoNat, htome]
  simp only [Function.update_same]

/-- The facts that the first assertions of a successful `remove` establish. -/
theorem remove_eq_ok {α : Type} (GEOM_DIRTY GEOM_AABB_BAD : Nat) (s s2 : dxSAPSpace α)
    (g : Nat) (h : remove GEOM_DIRTY GEOM_AABB_BAD s g = .ok s2) :
    s.lock_count = 0 ∧ g ≠ 0 ∧ (s.heap g).parent_space = s.self := by
  unfold remove at h
  split at h
  · cases h
  · rename_i h1
    split at h
    · cases h
    · rename_i h2
      split at h
      · cases h
      · rename_i h3
        exact ⟨not_not.1 h1, h2, not_not.1 h3⟩

/-- The facts that the first assertion of a successful `dirty` establishes. -/
theorem dirty_eq_ok {α : Type} (s s2 : dxSAPSpace α) (g : Nat) (h : dirty s g = .ok s2) :
    g ≠ 0 ∧ (s.heap g).parent_space = s.self := by
  unfold dirty at h
  split at h
  · cases h
  · rename_i h2
    split at h
    · cases h
    · rename_i h3
      exact ⟨h2, not_not.1 h3⟩

/-- Where a geometry of the space is held, under the membership invariant. -/
theorem member_cases {α : Type} (s : dxSAPSpace α) (hinv : Membership s) (g : Nat)
    (hpar : (s.heap g).parent_space = s.self) :
    (∃ k, k < s.DirtyList.length ∧ s.DirtyList.getD k 0 = g ∧ g ≠ 0 ∧
      (s.heap g).next = (k : Int) ∧ (s.heap g).tome = GEOM_INVALID_IDX) ∨
    (∃ k, k < s.GeomList.length ∧ s.GeomList.getD k 0 = g ∧ g ≠ 0 ∧
      (s.heap g).tome = (k : Int) ∧ (s.heap g).next = GEOM_INVALID_IDX) := by
  obtain ⟨⟨_, hdirty, hclean, _⟩, hall⟩ := hinv
  rcases hall g hpar with h | h
  · left
    obtain ⟨k, hk⟩ := mem_getElem?_of_mem _ _ h
    obtain ⟨hklt, hgk⟩ := getD_of_getElem? _ _ _ hk
    have := hdirty k hklt
    rw [hgk] at this
    exact ⟨k, hklt, hgk, this.1, this.2.2.1, this.2.2.2⟩
  · right
    obtain ⟨k, hk⟩ := mem_getElem?_of_mem _ _ h
    obtain ⟨hklt, hgk⟩ := getD_of_getElem? _ _ _ hk
    have := hclean k hklt
    rw [hgk] at this
    exact ⟨k, hklt, hgk, this.1, this.2.2.1, this.2.2.2⟩

/-- A successful `remove` keeps the membership invariant. -/
theorem remove_membership {α : Type} (GEOM_DIRTY GEOM_AABB_BAD : Nat) (s s2 : dxSAPSpace α)
    (g : Nat) (hinv : Membership s) (h : remove GEOM_DIRTY GEOM_AABB_BAD s g = .ok s2) :
    Membership s2 := by
  obtain ⟨hlock, hg0, hpar⟩ := remove_eq_ok GEOM_DIRTY GEOM_AABB_BAD s s2 g h
  have hinv' := hinv
  obtain ⟨hwf, hall⟩ := hinv
  have hwf' := hwf
  obtain ⟨hself, hdirty, hclean, hcount⟩ := hwf
  rcases member_cases s hinv' g hpar with ⟨k, hk, hgk, _, hnext, htome⟩ |
      ⟨k, hk, hgk, _, htome, hnext⟩
  · rw [remove_of_dirty GEOM_DIRTY GEOM_AABB_BAD s g k hlock hg0 hpar hnext htome hk] at h
    cases h
    have hgD : g ∈ s.DirtyList := by rw [← hgk]; exact getD_mem_of_lt _ _ hk
    have hlastD : s.DirtyList.getD (s.DirtyList.length - 1) 0 ∈ s.DirtyList :=
      getD_mem_of_lt _ _ (by omega)
    refine ⟨⟨hself, ?_, ?_, ?_⟩, ?_⟩
    · apply dirtyOK_swap s.self s.heap _ s.DirtyList k hk hdirty
      intro x hx
      rw [hgk] at hx
      simp only [dGeomMoved]
      rw [Function.update_noteq hx, Function.update_noteq hx]
    · apply cleanOK_frame s.self s.heap _ s.GeomList hclean
      intro x hx
      have hxg : x ≠ g := fun hc => dirty_not_mem_clean s hwf' g hgD (hc ▸ hx)
      have hxl : x ≠ s.DirtyList.getD (s.DirtyList.length - 1) 0 :=
        fun hc => dirty_not_mem_clean s hwf' _ hlastD (hc ▸ hx)
      simp only [dGeomMoved]
      rw [Function.update_noteq hxg, Function.update_noteq hxg, Function.update_noteq hxl]
    · simp only [dGeomMoved]
      rw [swapLast_length _ _ _ hk, hcount]
      omega
    · intro x hx
      simp only [dGeomMoved] at hx ⊢
      have hxg : x ≠ g := by
        intro hc
        rw [hc, Function.update_same] at hx
        exact hself hx.symm
      rw [Function.update_noteq hxg, Function.update_noteq hxg, update_next_parent] at hx
      rcases hall x hx with h1 | h1
      · left
        exact swapLast_mem _ _ _ hk h1 (by rw [hgk]; exact hxg)
      · right
        exact h1
  · rw [remove_of_clean GEOM_DIRTY GEOM_AABB_BAD s g k hlock hg0 hpar hnext htome hk] at h
    cases h
    have hgG : g ∈ s.GeomList := by rw [← hgk]; exact getD_mem_of_lt _ _ hk
    have hlastG : s.GeomList.getD (s.GeomList.length - 1) 0 ∈ s.GeomList :=
      getD_mem_of_lt _ _ (by omega)
    refine ⟨⟨hself, ?_, ?_, ?_⟩, ?_⟩
    · apply dirtyOK_frame s.self s.heap _ s.DirtyList hdirty
      intro x hx
      have hxg : x ≠ g := fun hc => dirty_not_mem_clean s hwf' x hx (hc ▸ hgG)
      have hxl : x ≠ s.GeomList.getD (s.GeomList.length - 1) 0 :=
        fun hc => dirty_not_mem_clean s hwf' x hx (hc ▸ hlastG)
      simp only [dGeomMoved]
      rw [Function.update_noteq hxg, Function.update_noteq hxg, Function.update_noteq hxl]
    · apply cleanOK_swap s.self s.heap _ s.GeomList k hk hclean
      intro x hx
      rw [hgk] at hx
      simp only [dGeomMoved]
      rw [Function.update_noteq hx, Function.update_noteq hx]
    · simp only [dGeomMoved]
      rw [swapLast_length _ _ _ hk, hcount]
      omega
    · intro x hx
      simp only [dGeomMoved] at hx ⊢
      have hxg : x ≠ g := by
        intro hc
        rw [hc, Function.update_same] at hx
        exact hself hx.symm
      rw [Function.update_noteq hxg, Function.update_noteq hxg, update_tome_parent] at hx
      rcases hall x hx with h1 | h1
      · left
        exact h1
      · right
        exact swapLast_mem _ _ _ hk h1 (by rw [hgk]; exact hxg)

/-- A successful `dirty` keeps the membership invariant. -/
theorem dirty_membership {α : Type} (s s2 : dxSAPSpace α) (g : Nat) (hinv : Membership s)
    (h : dirty s g = .ok s2) : Membership s2 := by
  obtain ⟨hg0, hpar⟩ := dirty_eq_ok s s2 g h
  have hinv' := hinv
  obtain ⟨hwf, hall⟩ := hinv
  have hwf' := hwf
  obtain ⟨hself, hdirty, hclean, hcount⟩ := hwf
  rcases member_cases s hinv' g hpar with ⟨k, hk, hgk, _, hnext, htome⟩ |
      ⟨k, hk, hgk, _, htome, hnext⟩
  · have hne : (s.heap g).next ≠ GEOM_INVALID_IDX := by
      rw [hnext]; unfold GEOM_INVALID_IDX; omega
    rw [dirty_of_dirty s g hg0 hpar hne] at h
    cases h
    exact hinv'
  · rw [dirty_of_clean s g k hg0 hpar hnext htome hk] at h
    cases h
    have hgG : g ∈ s.GeomList := by rw [← hgk]; exact getD_mem_of_lt _ _ hk
    have hlastG : s.GeomList.getD (s.GeomList.length - 1) 0 ∈ s.GeomList :=
      getD_mem_of_lt _ _ (by omega)
    refine ⟨⟨hself, ?_, ?_, ?_⟩, ?_⟩
    · apply dirtyOK_snoc s.self s.heap _ s.DirtyList g hdirty ?_ hg0
      · simp only [Function.update_same]
        rw [update_tome_parent]
        exact hpar
      · simp only [Function.update_same]
      · simp only [Function.update_same]
      · intro x hx
        have hxg : x ≠ g := fun hc => dirty_not_mem_clean s hwf' x hx (hc ▸ hgG)
        have hxl : x ≠ s.GeomList.getD (s.GeomList.length - 1) 0 :=
          fun hc => dirty_not_mem_clean s hwf' x hx (hc ▸ hlastG)
        simp only
        rw [Function.update_noteq hxg, Function.update_noteq hxg, Function.update_noteq hxl]
    · apply cleanOK_swap s.self s.heap _ s.GeomList k hk hclean
      intro x hx
      rw [hgk] at hx
      simp only
      rw [Function.update_noteq hx, Function.update_noteq hx]
    · simp only [List.length_append, List.length_singleton]
      rw [swapLast_length _ _ _ hk, hcount]
      push_cast
      omega
    · intro x hx
      simp only at hx ⊢
      by_cases hxg : x = g
      · left
        rw [hxg]
        simp
      · rw [Function.update_noteq hxg, Function.update_noteq hxg, update_tome_parent] at hx
        rcases hall x hx with h1 | h1
        · left
          exact List.mem_append_left _ h1
        · right
          exact swapLast_mem _ _ _ hk h1 (by rw [hgk]; exact hxg)

/-- `cleanGeoms` keeps the membership invariant when the virtual calls respect
the space. -/
theorem cleanGeoms_membership {α : Type} (IS_SPACE : Nat → Bool)
    (cleanGeomsOf recomputeAABB : Nat → (Nat → dxGeom α) → (Nat → dxGeom α))
    (GEOM_DIRTY GEOM_AABB_BAD : Nat) (s : dxSAPSpace α) (hinv : Membership s)
    (hR1 : RespectsSpace s.self cleanGeomsOf) (hR2 : RespectsSpace s.self recomputeAABB) :
    Membership (cleanGeoms IS_SPACE cleanGeomsOf recomputeAABB GEOM_DIRTY GEOM_AABB_BAD s) := by
  obtain ⟨hwf, hall⟩ := hinv
  refine ⟨cleanGeoms_wellFormed IS_SPACE cleanGeomsOf recomputeAABB GEOM_DIRTY GEOM_AABB_BAD
    s hwf hR1 hR2, ?_⟩
  obtain ⟨hself, _, hgl, _, _, _, hpar, _, _⟩ :=
    cleanGeoms_spec IS_SPACE cleanGeomsOf recomputeAABB GEOM_DIRTY GEOM_AABB_BAD s hwf hR1 hR2
  intro x hx
  rw [hpar, hself] at hx
  right
  rw [hgl]
  rcases hall x hx with h | h
  · exact List.mem_append_right _ h
  · exact List.mem_append_left _ h

/-- C14: the membership invariant. `Membership` says that the lists hold
geometries of the space with the stored index of their list equal to their
position and the other index invalid, that the count is the sum of the two
sizes, and that every geometry whose parent is the space is in a list. It holds
of every empty space (no list entry, count zero, no geometry with the space as
parent). Under it every geometry of the space is in exactly one of the two lists
and no geometry occurs twice; every successful `add`, `remove` and `dirty`, and
`cleanGeoms` when the virtual calls respect the space, lead to a state that
satisfies it again; `remove` and `dirty` do not fail with "geom indices messed
up"; and in `collide` the assertion on the counts passes, so that `collide` is
the rest of its body run on the cleaned space. -/
theorem membership_invariant {α : Type} [LinearOrder α] (GEOM_DIRTY GEOM_AABB_BAD : Nat)
    (IS_SPACE : Nat → Bool)
    (cleanGeomsOf recomputeAABB : Nat → (Nat → dxGeom α) → (Nat → dxGeom α))
    (s : dxSAPSpace α) (g : Nat) (hinv : Membership s) :
    (∀ e : dxSAPSpace α, e.self ≠ 0 → e.DirtyList = [] → e.GeomList = [] → e.count = 0 →
      (∀ x, (e.heap x).parent_space ≠ e.self) → Membership e) ∧
    (∀ x, (s.heap x).parent_space = s.self →
      (x ∈ s.DirtyList ∧ x ∉ s.GeomList) ∨ (x ∈ s.GeomList ∧ x ∉ s.DirtyList)) ∧
    (s.DirtyList ++ s.GeomList).Nodup ∧
    (∀ s2, add GEOM_DIRTY GEOM_AABB_BAD s g = .ok s2 → Membership s2) ∧
    (∀ s2, remove GEOM_DIRTY GEOM_AABB_BAD s g = .ok s2 → Membership s2) ∧
    (∀ s2, dirty s g = .ok s2 → Membership s2) ∧
    (∀ msg st, remove GEOM_DIRTY GEOM_AABB_BAD s g = .failed msg st →
      msg ≠ "geom indices messed up") ∧
    (∀ msg st, dirty s g = .failed msg st → msg ≠ "geom indices messed up") ∧
    (RespectsSpace s.self cleanGeomsOf → RespectsSpace s.self recomputeAABB →
      Membership (cleanGeoms IS_SPACE cleanGeomsOf recomputeAABB GEOM_DIRTY GEOM_AABB_BAD s) ∧
      ∀ (δ : Type) (toFloat : α → α) (ODE_INFINITY4 : α) (RadixSort : List α → List Nat)
        (ax0idx ax1idx ax2idx GEOM_ENABLED : Nat) (dInfinity : α)
        (AABBTest : Nat → Nat → (Nat → α) → Int)
        (callback : δ → Nat → Nat → dxSAPSpace α → Outcome (dxSAPSpace α)) (data : δ),
        collide toFloat ODE_INFINITY4 RadixSort ax0idx ax1idx ax2idx IS_SPACE cleanGeomsOf
          recomputeAABB GEOM_DIRTY GEOM_AABB_BAD GEOM_ENABLED dInfinity AABBTest
          (some callback) data s =
        collideCleaned toFloat ODE_INFINITY4 RadixSort ax0idx ax1idx ax2idx GEOM_AABB_BAD
          GEOM_ENABLED dInfinity AABBTest callback data
          (cleanGeoms IS_SPACE cleanGeomsOf recomputeAABB GEOM_DIRTY GEOM_AABB_BAD
            { s with lock_count := s.lock_count + 1 })) := by
  have hinv' := hinv
  obtain ⟨hwf, hall⟩ := hinv
  have hwf' := hwf
  obtain ⟨hself, hdirty, hclean, hcount⟩ := hwf
  refine ⟨?_, ?_, ?_, ?_, ?_, ?_, ?_, ?_, ?_⟩
  · intro e he hD hG hc hno
    refine ⟨⟨he, ?_, ?_, ?_⟩, ?_⟩
    · intro k hk
      rw [hD] at hk
      simp at hk
    · intro k hk
      rw [hG] at hk
      simp at hk
    · rw [hc, hD, hG]
      simp
    · intro x hx
      exact absurd hx (hno x)
  · intro x hx
    rcases hall x hx with h | h
    · exact Or.inl ⟨h, dirty_not_mem_clean s hwf' x h⟩
    · exact Or.inr ⟨h, fun hc => dirty_not_mem_clean s hwf' x hc h⟩
  · rw [List.nodup_append]
    exact ⟨dirtyOK_nodup s.self s.heap _ hdirty, cleanOK_nodup s.self s.heap _ hclean,
      fun x hx hc => dirty_not_mem_clean s hwf' x hx hc⟩
  · exact fun s2 h => add_membership GEOM_DIRTY GEOM_AABB_BAD s s2 g hinv' h
  · exact fun s2 h => remove_membership GEOM_DIRTY GEOM_AABB_BAD s s2 g hinv' h
  · exact fun s2 h => dirty_membership s s2 g hinv' h
  · intro msg st h
    by_cases hlock : s.lock_count = 0
    · by_cases hg0 : g = 0
      · unfold remove at h
        rw [if_neg (not_not.2 hlock), if_pos hg0] at h
        cases h
        decide
      · by_cases hpar : (s.heap g).parent_space = s.self
        · rcases member_cases s hinv' g hpar with ⟨k, hk, _, _, hnext, htome⟩ |
              ⟨k, hk, _, _, htome, hnext⟩
          · rw [remove_of_dirty GEOM_DIRTY GEOM_AABB_BAD s g k hlock hg0 hpar hnext htome
              hk] at h
            cases h
          · rw [remove_of_clean GEOM_DIRTY GEOM_AABB_BAD s g k hlock hg0 hpar hnext htome
              hk] at h
            cases h
        · unfold remove at h
          rw [if_neg (not_not.2 hlock), if_neg hg0, if_pos hpar] at h
          cases h
          decide
    · unfold remove at h
      rw [if_pos hlock] at h
      cases h
      decide
  · intro msg st h
    by_cases hg0 : g = 0
    · unfold dirty at h
      rw [if_pos hg0] at h
      cases h
      decide
    · by_cases hpar : (s.heap g).parent_space = s.self
      · rcases member_cases s hinv' g hpar with ⟨k, hk, _, _, hnext, htome⟩ |
            ⟨k, hk, _, _, htome, hnext⟩
        · have hne : (s.heap g).next ≠ GEOM_INVALID_IDX := by
            rw [hnext]; unfold GEOM_INVALID_IDX; omega
          rw [dirty_of_dirty s g hg0 hpar hne] at h
          cases h
        · rw [dirty_of_clean s g k hg0 hpar hnext htome hk] at h
          cases h
      · unfold dirty at h
        rw [if_neg hg0, if_pos hpar] at h
        cases h
        decide
  · intro hR1 hR2
    refine ⟨cleanGeoms_membership IS_SPACE cleanGeomsOf recomputeAABB GEOM_DIRTY
      GEOM_AABB_BAD s hinv' hR1 hR2, ?_⟩
    intro δ toFloat ODE_INFINITY4 RadixSort ax0idx ax1idx ax2idx GEOM_ENABLED dInfinity
      AABBTest callback data
    have hwf1 : WellFormed { s with lock_count := s.lock_count + 1 } := hwf'
    have hwf2 := cleanGeoms_wellFormed IS_SPACE cleanGeomsOf recomputeAABB GEOM_DIRTY
      GEOM_AABB_BAD _ hwf1 hR1 hR2
    have hdl := (cleanGeoms_spec IS_SPACE cleanGeomsOf recomputeAABB GEOM_DIRTY
      GEOM_AABB_BAD _ hwf1 hR1 hR2).2.1
    have hc2 : (((cleanGeoms IS_SPACE cleanGeomsOf recomputeAABB GEOM_DIRTY GEOM_AABB_BAD
        { s with lock_count := s.lock_count + 1 }).GeomList.length : Nat) : Int) =
        (cleanGeoms IS_SPACE cleanGeomsOf recomputeAABB GEOM_DIRTY GEOM_AABB_BAD
          { s with lock_count := s.lock_count + 1 }).count := by
      rw [hwf2.2.2.2, hdl]
      simp
    unfold collide
    simp only
    rw [if_neg (not_not.2 hc2)]

theorem liveSpace_membership : Membership liveSpace := by
  refine ⟨by decide, ?_⟩
  intro g hg
  by_cases h1 : g = 1
  · subst h1; decide
  · by_cases h2 : g = 2
    · subst h2; decide
    · by_cases h3 : g = 3
      · subst h3; decide
      · exfalso
        have e : liveSpace.heap g = freeGeom 0 0 0 0 := by
          unfold liveSpace
          simp only
        rw [e] at hg
        revert hg
        decide

/-- C14, witness: the space with two dirty cubes and a clean one satisfies the
invariant, and so does the state after `dirty` of the clean cube `3`. -/
theorem membership_invariant_witness :
    Membership liveSpace ∧ ∃ s2, dirty liveSpace 3 = .ok s2 ∧ Membership s2 :=
  ⟨liveSpace_membership,
   ⟨_, rfl, (membership_invariant 1 4 (fun _ => false) (fun _ h => h) (fun _ h => h)
      liveSpace 3 liveSpace_membership).2.2.2.2.2.1 _ rfl⟩⟩

/-! ## Lemmas on the convex colliders -/

/-- The test that ends the loop of `dCollideConvexPlane`: the contacts are full
and both signs have been found. -/
theorem break_iff (contacts maxc : Nat) (le ge : Bool) (hle : contacts ≤ maxc)
    (hm : maxc &&& BOTH_SIGNS = 0) :
    ((contacts ^^^ maxc) ||| signBits le ge = BOTH_SIGNS) ↔
      (contacts = maxc ∧ le = true ∧ ge = true) := by
  have hsb : signBits le ge = BOTH_SIGNS ↔ (le = true ∧ ge = true) := by
    cases le <;> cases ge <;> decide
  constructor
  · intro h
    have hx : ∀ i, (contacts ^^^ maxc).testBit i = true → BOTH_SIGNS.testBit i = true := by
      intro i hi
      rw [← h, Nat.testBit_or, hi]
      rfl
    have hcm : contacts = maxc := by
      by_contra hne
      have hx0 : contacts ^^^ maxc ≠ 0 := fun hc => hne (Nat.xor_eq_zero.1 hc)
      obtain ⟨i, hi, hhigh⟩ := Nat.exists_most_significant_bit hx0
      have hB := hx i hi
      have hmi : maxc.testBit i = false := by
        have := congrArg (fun z => z.testBit i) hm
        simp only [Nat.testBit_and, Nat.zero_testBit, hB, Bool.and_true] at this
        exact this
      have hci : contacts.testBit i = true := by
        rw [Nat.testBit_xor, hmi] at hi
        simpa using hi
      have hlt : maxc < contacts := by
        apply Nat.lt_of_testBit i hmi hci
        intro j hj
        have := hhigh j hj
        rw [Nat.testBit_xor] at this
        cases h1 : contacts.testBit j <;> cases h2 : maxc.testBit j <;> simp_all
      omega
    refine ⟨hcm, hsb.1 ?_⟩
    rw [hcm, Nat.xor_self, Nat.zero_or] at h
    exact h
  · rintro ⟨h1, h2, h3⟩
    rw [h1, Nat.xor_self, Nat.zero_or]
    exact hsb.2 ⟨h2, h3⟩

theorem signBits_or (le ge : Bool) (le2 ge2 : Bool) :
    signBits le ge ||| signBits le2 ge2 = signBits (le || le2) (ge || ge2) := by
  cases le <;> cases ge <;> cases le2 <;> cases ge2 <;> decide

theorem signBits_eq_both (le ge : Bool) :
    signBits le ge = BOTH_SIGNS ↔ (le = true ∧ ge = true) := by
  cases le <;> cases ge <;> decide

theorem and_mask_both (flags NUMC_MASK : Nat) (h : BOTH_SIGNS &&& NUMC_MASK = 0) :
    (flags &&& NUMC_MASK) &&& BOTH_SIGNS = 0 := by
  apply Nat.eq_of_testBit_eq
  intro i
  have := congrArg (fun z => z.testBit i) h
  simp only [Nat.testBit_and, Nat.zero_testBit] at this ⊢
  cases h1 : flags.testBit i <;> cases h2 : NUMC_MASK.testBit i <;>
    cases h3 : BOTH_SIGNS.testBit i <;> simp_all

section ConvexPlaneLemmas

variable {α : Type} [LinearOrderedField α] (Convex : dxConvex α) (Plane : dxPlane α)
  (o1 o2 maxc : Nat)

theorem distance2sign_eq (d : α) :
    (if d ≤ 0 then (if d ≠ 0 then LTEQ_ZERO else BOTH_SIGNS) else GTEQ_ZERO) =
      signBits (decide (d ≤ 0)) (decide (0 ≤ d)) := by
  rcases lt_trichotomy d 0 with h | h | h
  · have h1 : d ≤ 0 := le_of_lt h
    have h2 : d ≠ 0 := ne_of_lt h
    have h3 : ¬ 0 ≤ d := not_le.2 h
    rw [if_pos h1, if_pos h2, decide_eq_true h1, decide_eq_false h3]
    decide
  · subst h
    simp only [le_refl, if_true, ne_eq, not_true_eq_false, if_false, decide_True]
    decide
  · have h1 : ¬ d ≤ 0 := not_le.2 h
    have h3 : 0 ≤ d := le_of_lt h
    rw [if_neg h1, decide_eq_false h1, decide_eq_true h3]
    decide

/-- One iteration of the loop of `dCollideConvexPlane`. -/
theorem convexPlaneLoop_step (rem i c : Nat) (le ge : Bool) (A : Nat → dContactGeom α)
    (hc : c ≤ maxc) (hm : maxc &&& BOTH_SIGNS = 0) :
    convexPlaneLoop Convex Plane o1 o2 maxc (rem + 1) i (c, signBits le ge, A) =
      if (if planeDistance Convex Plane i ≤ 0 ∧ c ≠ maxc then c + 1 else c) = maxc ∧
          (le || decide (planeDistance Convex Plane i ≤ 0)) = true ∧
          (ge || decide (0 ≤ planeDistance Convex Plane i)) = true then
        (if planeDistance Convex Plane i ≤ 0 ∧ c ≠ maxc then c + 1 else c,
          signBits (le || decide (planeDistance Convex Plane i ≤ 0))
            (ge || decide (0 ≤ planeDistance Convex Plane i)),
          if planeDistance Convex Plane i ≤ 0 ∧ c ≠ maxc then
            Function.update A c (planeContact Convex Plane o1 o2 (A c) i)
          else A)
      else
        convexPlaneLoop Convex Plane o1 o2 maxc rem (i + 1)
          (if planeDistance Convex Plane i ≤ 0 ∧ c ≠ maxc then c + 1 else c,
            signBits (le || decide (planeDistance Convex Plane i ≤ 0))
              (ge || decide (0 ≤ planeDistance Convex Plane i)),
            if planeDistance Convex Plane i ≤ 0 ∧ c ≠ maxc then
              Function.update A c (planeContact Convex Plane o1 o2 (A c) i)
            else A) := by
  unfold planeContact planeDistance
  have hc2 : (if dVector3Dot Plane.p (worldPoint Convex (i * 3)) - Plane.p 3 ≤ 0 ∧ c ≠ maxc then c + 1 else c) ≤ maxc := by
    split
    · rename_i h
      have := h.2
      omega
    · exact hc
  have hbr := break_iff (if dVector3Dot Plane.p (worldPoint Convex (i * 3)) - Plane.p 3 ≤ 0 ∧ c ≠ maxc then c + 1 else c)
    maxc (le || decide (dVector3Dot Plane.p (worldPoint Convex (i * 3)) - Plane.p 3 ≤ 0))
    (ge || decide (0 ≤ dVector3Dot Plane.p (worldPoint Convex (i * 3)) - Plane.p 3)) hc2 hm
  rw [convexPlaneLoop]
  rw [distance2sign_eq, signBits_or]
  change (if (((if dVector3Dot Plane.p (worldPoint Convex (i * 3)) - Plane.p 3 ≤ 0 ∧ c ≠ maxc then
        (c + 1, Function.update A c ({ normal := dVector3Copy Plane.p (A c).normal, pos := dVector3Copy (worldPoint Convex (i * 3)) (A c).pos, depth := -(dVector3Dot Plane.p (worldPoint Convex (i * 3)) - Plane.p 3), g1 := o1, g2 := o2 }))
      else (c, A)).1 ^^^ maxc) ||| _) = BOTH_SIGNS then _ else _) = _
  by_cases hw : dVector3Dot Plane.p (worldPoint Convex (i * 3)) - Plane.p 3 ≤ 0 ∧ c ≠ maxc
  · simp only [if_pos hw] at hbr ⊢
    by_cases hb : c + 1 = maxc ∧ (le || decide (dVector3Dot Plane.p (worldPoint Convex (i * 3)) - Plane.p 3 ≤ 0)) = true ∧
        (ge || decide (0 ≤ dVector3Dot Plane.p (worldPoint Convex (i * 3)) - Plane.p 3)) = true
    · rw [if_pos (hbr.2 hb), if_pos hb]
    · rw [if_neg (fun h => hb (hbr.1 h)), if_neg hb]
  · simp only [if_neg hw] at hbr ⊢
    by_cases hb : c = maxc ∧ (le || decide (dVector3Dot Plane.p (worldPoint Convex (i * 3)) - Plane.p 3 ≤ 0)) = true ∧
        (ge || decide (0 ≤ dVector3Dot Plane.p (worldPoint Convex (i * 3)) - Plane.p 3)) = true
    · rw [if_pos (hbr.2 hb), if_pos hb]
    · rw [if_neg (fun h => hb (hbr.1 h)), if_neg hb]

end ConvexPlaneLemmas

theorem ex_range_succ (P : Nat → Prop) (i rem : Nat) :
    (∃ k, i ≤ k ∧ k < i + (rem + 1) ∧ P k) ↔
      (P i ∨ ∃ k, i + 1 ≤ k ∧ k < i + 1 + rem ∧ P k) := by
  constructor
  · rintro ⟨k, h1, h2, h3⟩
    by_cases hk : k = i
    · left
      rw [← hk]
      exact h3
    · right
      exact ⟨k, by omega, by omega, h3⟩
  · rintro (h | ⟨k, h1, h2, h3⟩)
    · exact ⟨i, le_refl _, by omega, h⟩
    · exact ⟨k, by omega, by omega, h3⟩

section ConvexPlaneSpecLemmas

variable {α : Type} [LinearOrderedField α] (Convex : dxConvex α) (Plane : dxPlane α)
  (o1 o2 maxc : Nat)

theorem touching_succ (i rem : Nat) :
    touching Convex Plane i (rem + 1) =
      if planeDistance Convex Plane i ≤ 0 then i :: touching Convex Plane (i + 1) rem
      else touching Convex Plane (i + 1) rem := by
  unfold touching
  rw [List.range'_succ, List.filter_cons]
  by_cases h : planeDistance Convex Plane i ≤ 0
  · simp [h]
  · simp [h]

/-- The count and the signs that the loop of `dCollideConvexPlane` ends with. -/
theorem convexPlaneLoop_count (hm : maxc &&& BOTH_SIGNS = 0) (rem : Nat) :
    ∀ (i c : Nat) (le ge : Bool) (A : Nat → dContactGeom α), c ≤ maxc →
      (convexPlaneLoop Convex Plane o1 o2 maxc rem i (c, signBits le ge, A)).1 =
        min maxc (c + (touching Convex Plane i rem).length) ∧
      ((convexPlaneLoop Convex Plane o1 o2 maxc rem i (c, signBits le ge, A)).2.1 =
          BOTH_SIGNS ↔
        ((le = true ∨ ∃ k, i ≤ k ∧ k < i + rem ∧ planeDistance Convex Plane k ≤ 0) ∧
         (ge = true ∨ ∃ k, i ≤ k ∧ k < i + rem ∧ 0 ≤ planeDistance Convex Plane k))) := by
  induction rem with
  | zero =>
    intro i c le ge A hc
    refine ⟨?_, ?_⟩
    · show c = min maxc (c + (touching Convex Plane i 0).length)
      have : touching Convex Plane i 0 = [] := rfl
      rw [this]
      simp only [List.length_nil, Nat.add_zero]
      exact (Nat.min_eq_right hc).symm
    · show signBits le ge = BOTH_SIGNS ↔ _
      rw [signBits_eq_both]
      constructor
      · rintro ⟨h1, h2⟩
        exact ⟨Or.inl h1, Or.inl h2⟩
      · rintro ⟨h1 | ⟨k, _, _, _⟩, h2 | ⟨k2, _, _, _⟩⟩ <;> first | exact ⟨h1, h2⟩ | omega
  | succ rem ih =>
    intro i c le ge A hc
    rw [convexPlaneLoop_step Convex Plane o1 o2 maxc rem i c le ge A hc hm, touching_succ,
      ex_range_succ, ex_range_succ]
    have hc2 : (if planeDistance Convex Plane i ≤ 0 ∧ c ≠ maxc then c + 1 else c) ≤ maxc := by
      split
      · rename_i h
        have := h.2
        omega
      · exact hc
    obtain ⟨ih1, ih2⟩ := ih (i + 1)
      (if planeDistance Convex Plane i ≤ 0 ∧ c ≠ maxc then c + 1 else c)
      (le || decide (planeDistance Convex Plane i ≤ 0))
      (ge || decide (0 ≤ planeDistance Convex Plane i))
      (if planeDistance Convex Plane i ≤ 0 ∧ c ≠ maxc then
        Function.update A c (planeContact Convex Plane o1 o2 (A c) i) else A) hc2
    by_cases hb : (if planeDistance Convex Plane i ≤ 0 ∧ c ≠ maxc then c + 1 else c) = maxc ∧
        (le || decide (planeDistance Convex Plane i ≤ 0)) = true ∧
        (ge || decide (0 ≤ planeDistance Convex Plane i)) = true
    · rw [if_pos hb]
      refine ⟨?_, ?_⟩
      · show (if planeDistance Convex Plane i ≤ 0 ∧ c ≠ maxc then c + 1 else c) = _
        rw [hb.1]
        symm
        apply Nat.min_eq_left
        have h1 := hb.1
        by_cases hw : planeDistance Convex Plane i ≤ 0 ∧ c ≠ maxc
        · rw [if_pos hw] at h1
          rw [if_pos hw.1, List.length_cons]
          omega
        · rw [if_neg hw] at h1
          omega
      · show signBits _ _ = BOTH_SIGNS ↔ _
        rw [signBits_eq_both]
        have h2 := hb.2.1
        have h3 := hb.2.2
        simp only [Bool.or_eq_true, decide_eq_true_eq] at h2 h3 ⊢
        constructor
        · intro _
          refine ⟨?_, ?_⟩
          · rcases h2 with h | h
            · exact Or.inl h
            · exact Or.inr (Or.inl h)
          · rcases h3 with h | h
            · exact Or.inl h
            · exact Or.inr (Or.inl h)
        · intro _
          exact ⟨h2, h3⟩
    · rw [if_neg hb]
      refine ⟨?_, ?_⟩
      · rw [ih1]
        by_cases hd : planeDistance Convex Plane i ≤ 0
        · rw [if_pos hd, List.length_cons]
          by_cases hcm : c = maxc
          · rw [if_neg (fun h => h.2 hcm), hcm]
            rw [Nat.min_eq_left (by omega), Nat.min_eq_left (by omega)]
          · rw [if_pos ⟨hd, hcm⟩]
            congr 1
            omega
        · rw [if_neg hd, if_neg (fun h => hd h.1)]
      · rw [ih2]
        simp only [Bool.or_eq_true, decide_eq_true_eq]
        constructor
        · rintro ⟨h1, h2⟩
          refine ⟨?_, ?_⟩
          · rcases h1 with (h | h) | h
            · exact Or.inl h
            · exact Or.inr (Or.inl h)
            · exact Or.inr (Or.inr h)
          · rcases h2 with (h | h) | h
            · exact Or.inl h
            · exact Or.inr (Or.inl h)
            · exact Or.inr (Or.inr h)
        · rintro ⟨h1, h2⟩
          refine ⟨?_, ?_⟩
          · rcases h1 with h | h | h
            · exact Or.inl (Or.inl h)
            · exact Or.inl (Or.inr h)
            · exact Or.inr h
          · rcases h2 with h | h | h
            · exact Or.inl (Or.inl h)
            · exact Or.inl (Or.inr h)
            · exact Or.inr h

end ConvexPlaneSpecLemmas

section ConvexPlaneContactLemmas

variable {α : Type} [LinearOrderedField α] (Convex : dxConvex α) (Plane : dxPlane α)
  (o1 o2 maxc : Nat)

/-- The contact array that the loop of `dCollideConvexPlane` ends with. -/
theorem convexPlaneLoop_contact (hm : maxc &&& BOTH_SIGNS = 0) (rem : Nat) :
    ∀ (i c : Nat) (le ge : Bool) (A : Nat → dContactGeom α), c ≤ maxc → ∀ k,
      (convexPlaneLoop Convex Plane o1 o2 maxc rem i (c, signBits le ge, A)).2.2 k =
        if c ≤ k ∧
            k < (convexPlaneLoop Convex Plane o1 o2 maxc rem i (c, signBits le ge, A)).1 then
          planeContact Convex Plane o1 o2 (A k)
            ((touching Convex Plane i rem).getD (k - c) 0)
        else A k := by
  induction rem with
  | zero =>
    intro i c le ge A hc k
    show A k = if c ≤ k ∧ k < c then _ else A k
    rw [if_neg (by omega)]
  | succ rem ih =>
    intro i c le ge A hc k
    have hcount := (convexPlaneLoop_count Convex Plane o1 o2 maxc hm (rem + 1) i c le ge A
      hc).1
    rw [hcount]
    rw [convexPlaneLoop_step Convex Plane o1 o2 maxc rem i c le ge A hc hm] at hcount ⊢
    rw [touching_succ] at hcount ⊢
    have hc2 : (if planeDistance Convex Plane i ≤ 0 ∧ c ≠ maxc then c + 1 else c) ≤ maxc := by
      split
      · rename_i h
        have := h.2
        omega
      · exact hc
    have ih' := ih (i + 1)
      (if planeDistance Convex Plane i ≤ 0 ∧ c ≠ maxc then c + 1 else c)
      (le || decide (planeDistance Convex Plane i ≤ 0))
      (ge || decide (0 ≤ planeDistance Convex Plane i))
      (if planeDistance Convex Plane i ≤ 0 ∧ c ≠ maxc then
        Function.update A c (planeContact Convex Plane o1 o2 (A c) i) else A) hc2 k
    have ihc := (convexPlaneLoop_count Convex Plane o1 o2 maxc hm rem (i + 1)
      (if planeDistance Convex Plane i ≤ 0 ∧ c ≠ maxc then c + 1 else c)
      (le || decide (planeDistance Convex Plane i ≤ 0))
      (ge || decide (0 ≤ planeDistance Convex Plane i))
      (if planeDistance Convex Plane i ≤ 0 ∧ c ≠ maxc then
        Function.update A c (planeContact Convex Plane o1 o2 (A c) i) else A) hc2).1
    by_cases hd : planeDistance Convex Plane i ≤ 0
    · by_cases hcm : c = maxc
      · -- the contacts are full already
        have hw : ¬ (planeDistance Convex Plane i ≤ 0 ∧ c ≠ maxc) := fun h => h.2 hcm
        simp only [if_neg hw, if_pos hd] at hcount ih' ihc ⊢
        have hmin : min maxc (c + (i :: touching Convex Plane (i + 1) rem).length) = c := by
          rw [hcm]
          exact Nat.min_eq_left (by omega)
        rw [hmin, if_neg (show ¬ (c ≤ k ∧ k < c) from by omega)]
        split
        · rfl
        · rw [ih', ihc]
          have hmin2 : min maxc (c + (touching Convex Plane (i + 1) rem).length) = c := by
            rw [hcm]
            exact Nat.min_eq_left (by omega)
          rw [hmin2, if_neg (show ¬ (c ≤ k ∧ k < c) from by omega)]
      · have hw : planeDistance Convex Plane i ≤ 0 ∧ c ≠ maxc := ⟨hd, hcm⟩
        simp only [if_pos hw, if_pos hd] at hcount ih' ihc ⊢
        have hlen : c + (i :: touching Convex Plane (i + 1) rem).length =
            c + 1 + (touching Convex Plane (i + 1) rem).length := by
          rw [List.length_cons]
          omega
        have hge : c + 1 ≤ min maxc (c + (i :: touching Convex Plane (i + 1) rem).length) := by
          rw [hlen]
          exact Nat.le_min.2 ⟨by omega, by omega⟩
        by_cases hkc : k = c
        · subst hkc
          rw [if_pos (show k ≤ k ∧
            k < min maxc (k + (i :: touching Convex Plane (i + 1) rem).length) from
            ⟨le_refl _, by omega⟩), Nat.sub_self]
          have hval : (Function.update A k (planeContact Convex Plane o1 o2 (A k) i)) k =
              planeContact Convex Plane o1 o2 (A k)
                ((i :: touching Convex Plane (i + 1) rem).getD 0 0) := by
            rw [Function.update_same]
            rfl
          split
          · exact hval
          · rw [ih', if_neg (show ¬ (k + 1 ≤ k ∧ _) from by omega)]
            exact hval
        · have hupd : (Function.update A c (planeContact Convex Plane o1 o2 (A c) i)) k =
              A k := Function.update_noteq hkc _ _
          have hfin : (if c + 1 ≤ k ∧
                k < min maxc (c + 1 + (touching Convex Plane (i + 1) rem).length) then
              planeContact Convex Plane o1 o2 (A k)
                ((touching Convex Plane (i + 1) rem).getD (k - (c + 1)) 0)
              else A k) =
              if c ≤ k ∧ k < min maxc (c + (i :: touching Convex Plane (i + 1) rem).length)
              then planeContact Convex Plane o1 o2 (A k)
                ((i :: touching Convex Plane (i + 1) rem).getD (k - c) 0)
              else A k := by
            rw [hlen]
            by_cases hk : c + 1 ≤ k ∧
                k < min maxc (c + 1 + (touching Convex Plane (i + 1) rem).length)
            · rw [if_pos hk, if_pos ⟨by omega, hk.2⟩]
              have : k - c = (k - (c + 1)) + 1 := by omega
              rw [this]
              rfl
            · rw [if_neg hk, if_neg (fun h => hk ⟨by omega, h.2⟩)]
          split
          · rename_i hb
            show (Function.update A c (planeContact Convex Plane o1 o2 (A c) i)) k = _
            rw [hupd, ← hfin, if_neg]
            intro hk
            rw [if_pos hb] at hcount
            have h1 : c + 1 = min maxc
                (c + (i :: touching Convex Plane (i + 1) rem).length) := hcount
            rw [hlen] at h1
            omega
          · rw [ih', ihc, hupd]
            exact hfin
    · have hw : ¬ (planeDistance Convex Plane i ≤ 0 ∧ c ≠ maxc) := fun h => hd h.1
      simp only [if_neg hw, if_neg hd] at hcount ih' ihc ⊢
      split
      · rename_i hb
        rw [if_pos hb] at hcount
        have h1 : c = min maxc (c + (touching Convex Plane (i + 1) rem).length) := hcount
        rw [← h1, if_neg (show ¬ (c ≤ k ∧ k < c) from by omega)]
      · rw [ih', ihc]

end ConvexPlaneContactLemmas

/-- What `dCollideConvexPlane` returns and writes when its assertions hold. -/
theorem dCollideConvexPlane_spec {α : Type} [LinearOrderedField α] (NUMC_MASK : Nat)
    (Convex : dxConvex α) (Plane : dxPlane α) (o1 o2 flags : Nat)
    (contact : Nat → dContactGeom α) (h1 : 1 ≤ flags &&& NUMC_MASK)
    (h2 : BOTH_SIGNS &&& NUMC_MASK = 0) :
    ∃ c, dCollideConvexPlane NUMC_MASK Convex Plane o1 o2 flags contact = .ok c ∧
      (((∃ k, k < Convex.pointcount ∧ planeDistance Convex Plane k ≤ 0) ∧
        (∃ k, k < Convex.pointcount ∧ 0 ≤ planeDistance Convex Plane k)) →
        c.count = min (flags &&& NUMC_MASK)
          (touching Convex Plane 0 Convex.pointcount).length) ∧
      (¬ ((∃ k, k < Convex.pointcount ∧ planeDistance Convex Plane k ≤ 0) ∧
        (∃ k, k < Convex.pointcount ∧ 0 ≤ planeDistance Convex Plane k)) → c.count = 0) ∧
      ∀ k, c.contact k =
        if k < min (flags &&& NUMC_MASK) (touching Convex Plane 0 Convex.pointcount).length
        then planeContact Convex Plane o1 o2 (contact k)
          ((touching Convex Plane 0 Convex.pointcount).getD k 0)
        else contact k := by
  have hm := and_mask_both flags NUMC_MASK h2
  have h0 : (0 : Nat) = signBits false false := by decide
  obtain ⟨hcount, hsign⟩ := convexPlaneLoop_count Convex Plane o1 o2 (flags &&& NUMC_MASK) hm
    Convex.pointcount 0 0 false false contact (Nat.zero_le _)
  have hcontact := convexPlaneLoop_contact Convex Plane o1 o2 (flags &&& NUMC_MASK) hm
    Convex.pointcount 0 0 false false contact (Nat.zero_le _)
  rw [← h0] at hcount hsign hcontact
  rw [Nat.zero_add] at hcount
  have hboth : (convexPlaneLoop Convex Plane o1 o2 (flags &&& NUMC_MASK) Convex.pointcount 0
      (0, 0, contact)).2.1 = BOTH_SIGNS ↔
      ((∃ k, k < Convex.pointcount ∧ planeDistance Convex Plane k ≤ 0) ∧
        (∃ k, k < Convex.pointcount ∧ 0 ≤ planeDistance Convex Plane k)) := by
    rw [hsign]
    simp only [Bool.false_eq_true, false_or, Nat.zero_le, true_and, Nat.zero_add]
  have hcon : ∀ k, (convexPlaneLoop Convex Plane o1 o2 (flags &&& NUMC_MASK)
      Convex.pointcount 0 (0, 0, contact)).2.2 k =
      if k < min (flags &&& NUMC_MASK) (touching Convex Plane 0 Convex.pointcount).length
      then planeContact Convex Plane o1 o2 (contact k)
        ((touching Convex Plane 0 Convex.pointcount).getD k 0)
      else contact k := by
    intro k
    rw [hcontact k, hcount]
    simp only [Nat.zero_le, true_and, Nat.sub_zero]
  unfold dCollideConvexPlane
  rw [if_neg (not_not.2 h1), if_neg (not_not.2 h2)]
  simp only
  by_cases hb : (convexPlaneLoop Convex Plane o1 o2 (flags &&& NUMC_MASK) Convex.pointcount 0
      (0, 0, contact)).2.1 = BOTH_SIGNS
  · rw [if_pos hb]
    exact ⟨_, rfl, fun _ => hcount, fun h => absurd (hboth.1 hb) h, hcon⟩
  · rw [if_neg hb]
    exact ⟨_, rfl, fun h => absurd (hboth.2 h) hb, fun _ => rfl, hcon⟩

/-! ### The cube scenarios -/

/-- Signed distance to a plane with normal `(0,0,1)` of a vertex of a convex
placed at the origin with the identity rotation. -/
theorem planeDistance_zPlane (Convex : dxConvex ℚ) (Plane : dxPlane ℚ) (k : Nat)
    (hR : Convex.final_posr.R = identityR) (hpos : ∀ j, Convex.final_posr.pos j = 0)
    (h0 : Plane.p 0 = 0) (h1 : Plane.p 1 = 0) (h2 : Plane.p 2 = 1) :
    planeDistance Convex Plane k = Convex.points (k * 3 + 2) - Plane.p 3 := by
  unfold planeDistance dVector3Dot worldPoint dVector3Add dMULTIPLY0_331 setVec3 dDOT offset
  rw [hR, h0, h1, h2]
  simp [identityR, hpos]

theorem vertexList_cubeConvex (h : ℚ) (pos : Nat → ℚ) (edges : List (Nat × Nat)) :
    vertexList (cubeConvex h pos edges) = cubeCorners h := by
  unfold vertexList cubeConvex cubeCorners cubePoints
  simp [List.range_succ]

/-- The last coordinate of a vertex of a convex whose vertices are the corners of
the cube of half-extent `h`. -/
theorem corner_z (Convex : dxConvex ℚ) (h : ℚ)
    (hv : (vertexList Convex).Perm (cubeCorners h)) (k : Nat) (hk : k < Convex.pointcount) :
    Convex.points (k * 3 + 2) = -h ∨ Convex.points (k * 3 + 2) = h := by
  have hmem : (Convex.points (k * 3), Convex.points (k * 3 + 1), Convex.points (k * 3 + 2)) ∈
      vertexList Convex := by
    unfold vertexList
    exact List.mem_map.2 ⟨k, List.mem_range.2 hk, rfl⟩
  have := hv.subset hmem
  unfold cubeCorners at this
  simp only [List.mem_cons, Prod.mk.injEq, List.mem_singleton, List.not_mem_nil,
    or_false] at this
  rcases this with h1 | h1 | h1 | h1 | h1 | h1 | h1 | h1
  · exact Or.inl h1.2.2
  · exact Or.inl h1.2.2
  · exact Or.inl h1.2.2
  · exact Or.inl h1.2.2
  · exact Or.inr h1.2.2
  · exact Or.inr h1.2.2
  · exact Or.inr h1.2.2
  · exact Or.inr h1.2.2

/-- The number of vertices at or below a plane `z = d` with `-h <= d < h`. -/
theorem touching_cube_length (Convex : dxConvex ℚ) (Plane : dxPlane ℚ) (h : ℚ)
    (hR : Convex.final_posr.R = identityR) (hpos : ∀ j, Convex.final_posr.pos j = 0)
    (h0 : Plane.p 0 = 0) (h1 : Plane.p 1 = 0) (h2 : Plane.p 2 = 1)
    (hv : (vertexList Convex).Perm (cubeCorners h)) (hd1 : -h ≤ Plane.p 3)
    (hd2 : Plane.p 3 < h) :
    (touching Convex Plane 0 Convex.pointcount).length = 4 := by
  have e1 : touching Convex Plane 0 Convex.pointcount =
      (List.range Convex.pointcount).filter
        (fun k => decide (Convex.points (k * 3 + 2) - Plane.p 3 ≤ 0)) := by
    unfold touching
    rw [← List.range_eq_range']
    apply List.filter_congr
    intro k _
    rw [planeDistance_zPlane Convex Plane k hR hpos h0 h1 h2]
  have e2 : ((List.range Convex.pointcount).filter
      (fun k => decide (Convex.points (k * 3 + 2) - Plane.p 3 ≤ 0))).length =
      (vertexList Convex).countP (fun t => decide (t.2.2 - Plane.p 3 ≤ 0)) := by
    unfold vertexList
    rw [List.countP_map, List.countP_eq_length_filter]
    rfl
  rw [e1, e2, hv.countP_eq]
  unfold cubeCorners
  have hp : ¬ (h ≤ Plane.p 3) := not_le.2 hd2
  simp [List.countP_cons, hd1, hp]

theorem mem_touching {α : Type} [LinearOrderedField α] (Convex : dxConvex α)
    (Plane : dxPlane α) (n v : Nat) :
    v ∈ touching Convex Plane 0 n ↔ v < n ∧ planeDistance Convex Plane v ≤ 0 := by
  unfold touching
  rw [List.mem_filter, List.mem_range']
  simp only [decide_eq_true_eq]
  constructor
  · rintro ⟨⟨i, hi, rfl⟩, h⟩
    refine ⟨by omega, ?_⟩
    simpa using h
  · rintro ⟨h1, h2⟩
    exact ⟨⟨v, h1, by omega⟩, h2⟩

/-- A cube of half-extent `h` at the origin, in any order of its vertices, against
a plane `z = d` with `-h <= d < h`: four contacts, one for each vertex of the
lower face, of depth `h + d`. -/
theorem cube_plane_contacts (NUMC_MASK : Nat) (Convex : dxConvex ℚ) (Plane : dxPlane ℚ)
    (o1 o2 flags : Nat) (contact : Nat → dContactGeom ℚ) (h : ℚ)
    (hmask : BOTH_SIGNS &&& NUMC_MASK = 0) (hmaxc : 4 ≤ flags &&& NUMC_MASK)
    (hR : Convex.final_posr.R = identityR) (hpos : ∀ j, Convex.final_posr.pos j = 0)
    (h0 : Plane.p 0 = 0) (h1 : Plane.p 1 = 0) (h2 : Plane.p 2 = 1)
    (hv : (vertexList Convex).Perm (cubeCorners h)) (hd1 : -h ≤ Plane.p 3)
    (hd2 : Plane.p 3 < h) :
    ∃ c, dCollideConvexPlane NUMC_MASK Convex Plane o1 o2 flags contact = .ok c ∧
      c.count = 4 ∧
      ∀ k, k < 4 →
        (c.contact k).depth = h + Plane.p 3 ∧ (c.contact k).normal 0 = 0 ∧
        (c.contact k).normal 1 = 0 ∧ (c.contact k).normal 2 = 1 ∧
        (c.contact k).g1 = o1 ∧ (c.contact k).g2 = o2 := by
  have hlen := touching_cube_length Convex Plane h hR hpos h0 h1 h2 hv hd1 hd2
  have hpc : Convex.pointcount = 8 := by
    have := hv.length_eq
    unfold vertexList cubeCorners at this
    simpa using this
  have hdist := fun k => planeDistance_zPlane Convex Plane k hR hpos h0 h1 h2
  obtain ⟨c, hc, hboth, _, hcon⟩ := dCollideConvexPlane_spec NUMC_MASK Convex Plane o1 o2
    flags contact (by omega) hmask
  have hmin : min (flags &&& NUMC_MASK) (touching Convex Plane 0 Convex.pointcount).length
      = 4 := by
    rw [hlen]
    exact Nat.min_eq_right hmaxc
  have hle : ∃ k, k < Convex.pointcount ∧ planeDistance Convex Plane k ≤ 0 := by
    have hne : touching Convex Plane 0 Convex.pointcount ≠ [] := by
      intro hc0
      rw [hc0] at hlen
      simp at hlen
    obtain ⟨v, hv2⟩ := List.exists_mem_of_ne_nil _ hne
    exact ⟨v, (mem_touching Convex Plane _ v).1 hv2⟩
  have hge : ∃ k, k < Convex.pointcount ∧ 0 ≤ planeDistance Convex Plane k := by
    by_contra hno
    have hall : ∀ k, k < Convex.pointcount → planeDistance Convex Plane k ≤ 0 := by
      intro k hk
      by_contra hk2
      exact hno ⟨k, hk, le_of_lt (not_le.1 hk2)⟩
    have : touching Convex Plane 0 Convex.pointcount = List.range' 0 Convex.pointcount := by
      unfold touching
      rw [List.filter_eq_self]
      intro k hk
      rw [List.mem_range'] at hk
      obtain ⟨i, hi, rfl⟩ := hk
      simpa using hall (0 + 1 * i) (by omega)
    rw [this, List.length_range', hpc] at hlen
    omega
  refine ⟨c, hc, ?_, ?_⟩
  · rw [hboth ⟨hle, hge⟩, hmin]
  · intro k hk
    rw [hcon k, hmin, if_pos hk]
    have hmem : (touching Convex Plane 0 Convex.pointcount).getD k 0 ∈
        touching Convex Plane 0 Convex.pointcount := by
      apply List.getElem?_mem
      rw [List.getD_eq_getElem?_getD, List.getElem?_eq_getElem (by omega)]
      rfl
    obtain ⟨hlt, hd⟩ := (mem_touching Convex Plane _ _).1 hmem
    rw [hdist] at hd
    have hz : Convex.points ((touching Convex Plane 0 Convex.pointcount).getD k 0 * 3 + 2)
        = -h := by
      rcases corner_z Convex h hv _ hlt with hz | hz
      · exact hz
      · rw [hz] at hd
        linarith
    refine ⟨?_, ?_, ?_, ?_, rfl, rfl⟩
    · show -planeDistance Convex Plane _ = _
      rw [hdist, hz]
      ring
    · simp [planeContact, dVector3Copy, setVec3, h0]
    · simp [planeContact, dVector3Copy, setVec3, h1]
    · simp [planeContact, dVector3Copy, setVec3, h2]

/-! ### The sphere whose centre is behind every face -/

section SphereInside

variable {α : Type} [LinearOrderedField α] (dSqrt : α → α) (Sphere : dxSphere α)
  (Convex : dxConvex α) (o1 o2 : Nat) (old : dContactGeom α) (dInfinity : α)

theorem dFabs_nonneg (x : α) : 0 ≤ dFabs x := by
  unfold dFabs
  split
  · rename_i h
    exact le_of_lt (neg_pos.2 h)
  · rename_i h
    exact not_lt.1 h

/-- While no face has the centre in front of it, the loop of
`dCollideSphereConvex` only tracks the closest face. -/
theorem sphereConvexLoop_inside (cp0 : Nat) (rem : Nat) :
    ∀ (i : Nat) (cd : α) (cp : Nat) (pPoly : Nat),
      (∀ j, i ≤ j → j < i + rem → sphereDistance Sphere Convex j ≤ 0) →
      (∀ j, j < i → cd ≤ dFabs (sphereDistance Sphere Convex j)) →
      ((cp = cp0 ∧ cd = dInfinity) ∨
        ∃ c, c < i ∧ cp = c ∧ cd = dFabs (sphereDistance Sphere Convex c)) →
      ∃ cd2 cp2,
        sphereConvexLoop dSqrt Sphere Convex o1 o2 old rem i (cd, cp, true, pPoly) =
          .done cd2 cp2 true ∧
        (∀ j, j < i + rem → cd2 ≤ dFabs (sphereDistance Sphere Convex j)) ∧
        ((cp2 = cp0 ∧ cd2 = dInfinity) ∨
          ∃ c, c < i + rem ∧ cp2 = c ∧
            cd2 = dFabs (sphereDistance Sphere Convex c)) := by
  induction rem with
  | zero =>
    intro i cd cp pPoly _ hmin hcp
    exact ⟨cd, cp, rfl, hmin, hcp⟩
  | succ rem ih =>
    intro i cd cp pPoly hall hmin hcp
    have hd : ¬ (0 < dVector3Dot (rotatedPlane Convex i) (offsetpos Sphere Convex) -
        rotatedPlane Convex i 3) := not_lt.2 (hall i (le_refl _) (by omega))
    have hall2 : ∀ j, i + 1 ≤ j → j < i + 1 + rem → sphereDistance Sphere Convex j ≤ 0 :=
      fun j h1 h2 => hall j (by omega) (by omega)
    rw [sphereConvexLoop]
    simp only
    rw [if_neg hd]
    by_cases hlt : dFabs (sphereDistance Sphere Convex i) < cd
    · have hc : True ∧ dFabs (dVector3Dot (rotatedPlane Convex i)
          (offsetpos Sphere Convex) - rotatedPlane Convex i 3) < cd := ⟨trivial, hlt⟩
      rw [if_pos hc]
      obtain ⟨cd2, cp2, h1, h2, h3⟩ := ih (i + 1)
        (dFabs (sphereDistance Sphere Convex i)) i
        (pPoly + (Convex.polygons pPoly + 1)) hall2
        (by
          intro j hj
          by_cases hji : j = i
          · rw [hji]
          · exact le_of_lt (lt_of_lt_of_le hlt (hmin j (by omega))))
        (Or.inr ⟨i, by omega, rfl, rfl⟩)
      refine ⟨cd2, cp2, h1, ?_, ?_⟩
      · intro j hj
        exact h2 j (by omega)
      · rcases h3 with h | ⟨c, hc1, hc2, hc3⟩
        · exact Or.inl h
        · exact Or.inr ⟨c, by omega, hc2, hc3⟩
    · have hc : ¬ (True ∧ dFabs (dVector3Dot (rotatedPlane Convex i)
          (offsetpos Sphere Convex) - rotatedPlane Convex i 3) < cd) := fun h => hlt h.2
      rw [if_neg hc]
      obtain ⟨cd2, cp2, h1, h2, h3⟩ := ih (i + 1) cd cp
        (pPoly + (Convex.polygons pPoly + 1)) hall2
        (by
          intro j hj
          by_cases hji : j = i
          · rw [hji]
            exact not_lt.1 hlt
          · exact hmin j (by omega))
        (by
          rcases hcp with h | ⟨c, hc1, hc2, hc3⟩
          · exact Or.inl h
          · exact Or.inr ⟨c, by omega, hc2, hc3⟩)
      refine ⟨cd2, cp2, h1, ?_, ?_⟩
      · intro j hj
        exact h2 j (by omega)
      · rcases h3 with h | ⟨c, hc1, hc2, hc3⟩
        · exact Or.inl h
        · exact Or.inr ⟨c, by omega, hc2, hc3⟩

/-- `dCollideSphereConvex` for a sphere whose centre is in front of no face. -/
theorem dCollideSphereConvex_inside (NUMC_MASK flags closestplane : Nat)
    (contact : Nat → dContactGeom α) (h1 : 1 ≤ flags &&& NUMC_MASK)
    (hall : ∀ j, j < Convex.planecount → sphereDistance Sphere Convex j ≤ 0)
    (hfin : ∃ j, j < Convex.planecount ∧
      dFabs (sphereDistance Sphere Convex j) < dInfinity) :
    ∃ cp, cp < Convex.planecount ∧
      (∀ j, j < Convex.planecount →
        dFabs (sphereDistance Sphere Convex cp) ≤ dFabs (sphereDistance Sphere Convex j)) ∧
      dCollideSphereConvex NUMC_MASK dInfinity dSqrt closestplane Sphere Convex o1 o2 flags
          contact =
        .ok { count := 1
              contact := Function.update contact 0
                { normal := dMULTIPLY0_331 (contact 0).normal Convex.final_posr.R
                    (offset Convex.planes (cp * 4))
                  pos := setVec3 (contact 0).pos (Sphere.final_posr.pos 0)
                    (Sphere.final_posr.pos 1) (Sphere.final_posr.pos 2)
                  depth := dFabs (sphereDistance Sphere Convex cp) + Sphere.radius
                  g1 := o1
                  g2 := o2 } } := by
  obtain ⟨cd2, cp2, hrun, hmin, hcp⟩ := sphereConvexLoop_inside dSqrt Sphere Convex o1 o2
    (contact 0) dInfinity closestplane Convex.planecount 0 dInfinity closestplane 0
    (fun j _ hj => hall j (by omega)) (fun j hj => by omega) (Or.inl ⟨rfl, rfl⟩)
  rw [Nat.zero_add] at hmin hcp
  rcases hcp with ⟨_, hinf⟩ | ⟨c, hc1, hc2, hc3⟩
  · exfalso
    obtain ⟨j, hj, hlt⟩ := hfin
    have := hmin j hj
    rw [hinf] at this
    exact absurd hlt (not_lt.2 this)
  · refine ⟨c, hc1, ?_, ?_⟩
    · intro j hj
      rw [← hc3]
      exact hmin j hj
    · unfold dCollideSphereConvex
      rw [if_neg (not_not.2 h1), hrun, hc2, hc3]
      simp only [if_true]

end SphereInside

theorem planeList_cubeConvex (h : ℚ) (pos : Nat → ℚ) (edges : List (Nat × Nat)) :
    planeList (cubeConvex h pos edges) = cubeFaces h := by
  simp [planeList, cubeConvex, cubeFaces, cubePlanes, List.range_succ]

theorem sphereDistance_identity (Sphere : dxSphere ℚ) (Convex : dxConvex ℚ) (i : Nat)
    (hR : Convex.final_posr.R = identityR) :
    sphereDistance Sphere Convex i =
      Convex.planes (i * 4) * (Sphere.final_posr.pos 0 - Convex.final_posr.pos 0) +
      Convex.planes (i * 4 + 1) * (Sphere.final_posr.pos 1 - Convex.final_posr.pos 1) +
      Convex.planes (i * 4 + 2) * (Sphere.final_posr.pos 2 - Convex.final_posr.pos 2) -
      Convex.planes (i * 4 + 3) := by
  simp [sphereDistance, rotatedPlane, offsetpos, dVector3Dot, dMULTIPLY0_331, dDOT, setVec3,
    offset, hR, identityR, Function.update_apply]

theorem rotated_normal_identity (old : Nat → ℚ) (Convex : dxConvex ℚ) (i : Nat)
    (hR : Convex.final_posr.R = identityR) :
    dMULTIPLY0_331 old Convex.final_posr.R (offset Convex.planes (i * 4)) 0 =
        Convex.planes (i * 4) ∧
      dMULTIPLY0_331 old Convex.final_posr.R (offset Convex.planes (i * 4)) 1 =
        Convex.planes (i * 4 + 1) ∧
      dMULTIPLY0_331 old Convex.final_posr.R (offset Convex.planes (i * 4)) 2 =
        Convex.planes (i * 4 + 2) := by
  simp [dMULTIPLY0_331, dDOT, setVec3, offset, hR, identityR, Function.update_apply]

theorem mem_planeList {α : Type} (cvx : dxConvex α) (i : Nat) (hi : i < cvx.planecount) :
    (cvx.planes (i * 4), cvx.planes (i * 4 + 1), cvx.planes (i * 4 + 2),
      cvx.planes (i * 4 + 3)) ∈ planeList cvx :=
  List.mem_map.2 ⟨i, List.mem_range.2 hi, rfl⟩

theorem planeList_mem {α : Type} (cvx : dxConvex α) (q : α × α × α × α)
    (hq : q ∈ planeList cvx) :
    ∃ i, i < cvx.planecount ∧
      q = (cvx.planes (i * 4), cvx.planes (i * 4 + 1), cvx.planes (i * 4 + 2),
        cvx.planes (i * 4 + 3)) := by
  obtain ⟨i, hi, h⟩ := List.mem_map.1 hq
  exact ⟨i, List.mem_range.1 hi, h.symm⟩

/-- The sphere of radius `r` whose centre is on the `+z` face of the cube of
half-extent `h`: `dCollideSphereConvex` takes the centre for inside and pushes
the sphere out through that face by its whole radius. -/
theorem sphere_on_cube_face (NUMC_MASK : Nat) (dInfinity : ℚ) (dSqrt : ℚ → ℚ)
    (closestplane : Nat) (Sphere : dxSphere ℚ) (Convex : dxConvex ℚ) (o1 o2 flags : Nat)
    (contact : Nat → dContactGeom ℚ) (h : ℚ) (hh : 0 < h)
    (hmaxc : 1 ≤ flags &&& NUMC_MASK) (hinf : 0 < dInfinity)
    (hR : Convex.final_posr.R = identityR) (hpos : ∀ j, Convex.final_posr.pos j = 0)
    (hf : (planeList Convex).Perm (cubeFaces h))
    (hx : Sphere.final_posr.pos 0 = 0) (hy : Sphere.final_posr.pos 1 = 0)
    (hz : Sphere.final_posr.pos 2 = h) :
    ∃ c, dCollideSphereConvex NUMC_MASK dInfinity dSqrt closestplane Sphere Convex o1 o2 flags
        contact =
        .ok c ∧
      c.count = 1 ∧ (c.contact 0).depth = Sphere.radius ∧
      (c.contact 0).normal 0 = 0 ∧ (c.contact 0).normal 1 = 0 ∧ (c.contact 0).normal 2 = 1 ∧
      (c.contact 0).pos 0 = 0 ∧ (c.contact 0).pos 1 = 0 ∧ (c.contact 0).pos 2 = h ∧
      ∀ k, 1 ≤ k → c.contact k = contact k := by
  have hdist : ∀ i, sphereDistance Sphere Convex i =
      Convex.planes (i * 4 + 2) * h - Convex.planes (i * 4 + 3) := by
    intro i
    rw [sphereDistance_identity Sphere Convex i hR, hx, hy, hz, hpos 0, hpos 1, hpos 2]
    ring
  have hface : ∀ i, i < Convex.planecount →
      (Convex.planes (i * 4), Convex.planes (i * 4 + 1), Convex.planes (i * 4 + 2),
        Convex.planes (i * 4 + 3)) ∈ cubeFaces h :=
    fun i hi => hf.subset (mem_planeList Convex i hi)
  have hall : ∀ j, j < Convex.planecount → sphereDistance Sphere Convex j ≤ 0 := by
    intro j hj
    have := hface j hj
    rw [hdist]
    simp only [cubeFaces, List.mem_cons, Prod.mk.injEq, List.mem_singleton, List.mem_nil_iff,
      or_false] at this
    rcases this with h1 | h1 | h1 | h1 | h1 | h1 <;>
      obtain ⟨_, _, h2, h3⟩ := h1 <;> rw [h2, h3] <;> linarith
  obtain ⟨top, htop, htopq⟩ := planeList_mem Convex (0, 0, 1, h)
    (hf.symm.subset (by simp [cubeFaces]))
  simp only [Prod.mk.injEq] at htopq
  have htopd : sphereDistance Sphere Convex top = 0 := by
    rw [hdist, ← htopq.2.2.1, ← htopq.2.2.2]
    ring
  obtain ⟨cp, hcp, hmin, hrun⟩ := dCollideSphereConvex_inside dSqrt Sphere Convex o1 o2
    dInfinity NUMC_MASK flags closestplane contact hmaxc hall
    ⟨top, htop, by rw [htopd]; simpa [dFabs] using hinf⟩
  have hcp0 : dFabs (sphereDistance Sphere Convex cp) = 0 := by
    have h1 := hmin top htop
    rw [htopd] at h1
    have h2 : dFabs (0 : ℚ) = 0 := by simp [dFabs]
    rw [h2] at h1
    exact le_antisymm h1 (dFabs_nonneg _)
  have hcpd : sphereDistance Sphere Convex cp = 0 := by
    have := hall cp hcp
    unfold dFabs at hcp0
    split at hcp0
    · linarith
    · exact hcp0
  have hcpq := hface cp hcp
  rw [hdist] at hcpd
  have hn := rotated_normal_identity (contact 0).normal Convex cp hR
  have hnormal : Convex.planes (cp * 4) = 0 ∧ Convex.planes (cp * 4 + 1) = 0 ∧
      Convex.planes (cp * 4 + 2) = 1 := by
    simp only [cubeFaces, List.mem_cons, Prod.mk.injEq, List.mem_singleton, List.mem_nil_iff,
      or_false] at hcpq
    rcases hcpq with h1 | h1 | h1 | h1 | h1 | h1 <;>
      obtain ⟨h0, h1, h2, h3⟩ := h1 <;> rw [h2, h3] at hcpd
    · exfalso; linarith
    · exfalso; linarith
    · exfalso; linarith
    · exfalso; linarith
    · exact ⟨h0, h1, h2⟩
    · exfalso; linarith
  refine ⟨_, hrun, rfl, ?_, ?_, ?_, ?_, ?_, ?_, ?_, ?_⟩
  · simp only [Function.update_same]
    rw [hcp0, zero_add]
  · simp only [Function.update_same]
    rw [hn.1, hnormal.1]
  · simp only [Function.update_same]
    rw [hn.2.1, hnormal.2.1]
  · simp only [Function.update_same]
    rw [hn.2.2, hnormal.2.2]
  · simp [setVec3, hx]
  · simp [setVec3, hy]
  · simp [setVec3, hz]
  · intro k hk
    exact Function.update_noteq (by omega) _ _

/-! ### Separating axes -/

section SATLemmas

variable {α : Type} [LinearOrderedField α]

theorem dDOT_intervalPoint (cvx : dxConvex α) (i : Nat) (a : Nat → α) :
    dDOT (intervalPoint cvx i) a = dDOT (worldPoint cvx (i * 3)) a := by
  simp only [dDOT, intervalPoint, worldPoint, dVector3Add, setVec3]
  simp
  ring

/-- The loop of `ComputeInterval` keeps the least and the greatest value so far. -/
theorem ComputeIntervalLoop_spec (cvx : dxConvex α) (axis : Nat → α) (rem : Nat) :
    ∀ (i : Nat) (mn mx : α),
      (∀ v, v < i → mn ≤ dDOT (intervalPoint cvx v) axis - axis 3 ∧
        dDOT (intervalPoint cvx v) axis - axis 3 ≤ mx) →
      (∃ v, v < i ∧ mn = dDOT (intervalPoint cvx v) axis - axis 3) →
      (∃ v, v < i ∧ mx = dDOT (intervalPoint cvx v) axis - axis 3) →
      (∀ v, v < i + rem →
        (ComputeIntervalLoop cvx axis rem i (mn, mx)).1 ≤
            dDOT (intervalPoint cvx v) axis - axis 3 ∧
          dDOT (intervalPoint cvx v) axis - axis 3 ≤
            (ComputeIntervalLoop cvx axis rem i (mn, mx)).2) ∧
      (∃ v, v < i + rem ∧ (ComputeIntervalLoop cvx axis rem i (mn, mx)).1 =
        dDOT (intervalPoint cvx v) axis - axis 3) ∧
      (∃ v, v < i + rem ∧ (ComputeIntervalLoop cvx axis rem i (mn, mx)).2 =
        dDOT (intervalPoint cvx v) axis - axis 3) := by
  induction rem with
  | zero =>
    intro i mn mx hb hmn hmx
    exact ⟨hb, hmn, hmx⟩
  | succ rem ih =>
    intro i mn mx hb hmn hmx
    obtain ⟨v0, hv0, hmn0⟩ := hmn
    obtain ⟨v1, hv1, hmx1⟩ := hmx
    have hle : mn ≤ mx := le_trans (hb v0 hv0).1 (hb v0 hv0).2
    have hidx : i + (rem + 1) = i + 1 + rem := by omega
    rw [ComputeIntervalLoop, hidx]
    by_cases h1 : dDOT (intervalPoint cvx i) axis - axis 3 < mn
    · rw [if_pos h1]
      apply ih
      · intro v hv
        by_cases hvi : v = i
        · rw [hvi]
          exact ⟨le_refl _, le_of_lt (lt_of_lt_of_le h1 hle)⟩
        · exact ⟨le_trans (le_of_lt h1) (hb v (by omega)).1, (hb v (by omega)).2⟩
      · exact ⟨i, by omega, rfl⟩
      · exact ⟨v1, by omega, hmx1⟩
    · rw [if_neg h1]
      by_cases h2 : mx < dDOT (intervalPoint cvx i) axis - axis 3
      · rw [if_pos h2]
        apply ih
        · intro v hv
          by_cases hvi : v = i
          · rw [hvi]
            exact ⟨not_lt.1 h1, le_refl _⟩
          · exact ⟨(hb v (by omega)).1, le_trans (hb v (by omega)).2 (le_of_lt h2)⟩
        · exact ⟨v0, by omega, hmn0⟩
        · exact ⟨i, by omega, rfl⟩
      · rw [if_neg h2]
        apply ih
        · intro v hv
          by_cases hvi : v = i
          · rw [hvi]
            exact ⟨not_lt.1 h1, not_lt.1 h2⟩
          · exact hb v (by omega)
        · exact ⟨v0, by omega, hmn0⟩
        · exact ⟨v1, by omega, hmx1⟩

/-- `ComputeInterval` returns the least and the greatest projection of the
vertices, for a shape with at least one vertex. -/
theorem ComputeInterval_spec (cvx : dxConvex α) (axis : Nat → α) (hp : 1 ≤ cvx.pointcount) :
    (∀ v, v < cvx.pointcount →
      (ComputeInterval cvx axis).1 ≤ dDOT (worldPoint cvx (v * 3)) axis - axis 3 ∧
        dDOT (worldPoint cvx (v * 3)) axis - axis 3 ≤ (ComputeInterval cvx axis).2) ∧
    (∃ v, v < cvx.pointcount ∧
      (ComputeInterval cvx axis).1 = dDOT (worldPoint cvx (v * 3)) axis - axis 3) ∧
    (∃ v, v < cvx.pointcount ∧
      (ComputeInterval cvx axis).2 = dDOT (worldPoint cvx (v * 3)) axis - axis 3) := by
  have h := ComputeIntervalLoop_spec cvx axis (cvx.pointcount - 1) 1
    (dDOT (intervalPoint cvx 0) axis - axis 3) (dDOT (intervalPoint cvx 0) axis - axis 3)
    (by
      intro v hv
      have : v = 0 := by omega
      rw [this]
      exact ⟨le_refl _, le_refl _⟩)
    ⟨0, by omega, rfl⟩ ⟨0, by omega, rfl⟩
  have hidx : 1 + (cvx.pointcount - 1) = cvx.pointcount := by omega
  rw [hidx] at h
  unfold ComputeInterval
  simp only [dDOT_intervalPoint] at h ⊢
  exact h

/-- Disjoint projections on `a` show as disjoint intervals on every axis that is
a positive multiple of `a` on its three components. -/
theorem intervals_disjoint (cvx1 cvx2 : dxConvex α) (a plane : Nat → α) (c : α)
    (hp1 : 1 ≤ cvx1.pointcount) (hp2 : 1 ≤ cvx2.pointcount) (hc : 0 < c)
    (hplane : ∀ k, k < 3 → plane k = c * a k) (hsep : Separated cvx1 cvx2 a) :
    (ComputeInterval cvx2 plane).2 < (ComputeInterval cvx1 plane).1 ∨
      (ComputeInterval cvx1 plane).2 < (ComputeInterval cvx2 plane).1 := by
  obtain ⟨_, ⟨a1, ha1, hmin1⟩, ⟨b1, hb1, hmax1⟩⟩ := ComputeInterval_spec cvx1 plane hp1
  obtain ⟨_, ⟨a2, ha2, hmin2⟩, ⟨b2, hb2, hmax2⟩⟩ := ComputeInterval_spec cvx2 plane hp2
  have hdot : ∀ p : Nat → α, dDOT p plane = c * dDOT p a := by
    intro p
    simp only [dDOT, hplane 0 (by decide), hplane 1 (by decide), hplane 2 (by decide)]
    ring
  rw [hmin1, hmax1, hmin2, hmax2]
  simp only [hdot]
  rcases hsep with h | h
  · right
    have := mul_lt_mul_of_pos_left (h b1 a2 hb1 ha2) hc
    linarith
  · left
    have := mul_lt_mul_of_pos_left (h a1 b2 ha1 hb2) hc
    linarith

theorem separated_symm (cvx1 cvx2 : dxConvex α) (a : Nat → α)
    (h : Separated cvx1 cvx2 a) : Separated cvx2 cvx1 a := by
  rcases h with h | h
  · exact Or.inr (fun v1 v2 h1 h2 => h v2 v1 h2 h1)
  · exact Or.inl (fun v1 v2 h1 h2 => h v2 v1 h2 h1)

theorem separated_ne_zero (cvx1 cvx2 : dxConvex α) (a : Nat → α)
    (hp1 : 1 ≤ cvx1.pointcount) (hp2 : 1 ≤ cvx2.pointcount)
    (h : Separated cvx1 cvx2 a) : a 0 ≠ 0 ∨ a 1 ≠ 0 ∨ a 2 ≠ 0 := by
  by_contra hz
  push_neg at hz
  obtain ⟨h0, h1, h2⟩ := hz
  rcases h with h | h
  · have := h 0 0 hp1 hp2
    simp [dDOT, h0, h1, h2] at this
  · have := h 0 0 hp1 hp2
    simp [dDOT, h0, h1, h2] at this

/-- The intervals on the plane that `CheckSATConvexFaces` builds for a face whose
world-space normal separates the shapes are disjoint. -/
theorem facePlane_disjoint (dNormalize3 : (Nat → α) → (Nat → α)) (cvx1 cvx2 : dxConvex α)
    (i : Nat) (hnorm : Normalises dNormalize3)
    (hp1 : 1 ≤ cvx1.pointcount) (hp2 : 1 ≤ cvx2.pointcount)
    (hsep : Separated cvx1 cvx2 (worldNormal cvx1 i)) :
    (ComputeInterval cvx2 (facePlane dNormalize3 cvx1 i)).2 <
        (ComputeInterval cvx1 (facePlane dNormalize3 cvx1 i)).1 ∨
      (ComputeInterval cvx1 (facePlane dNormalize3 cvx1 i)).2 <
        (ComputeInterval cvx2 (facePlane dNormalize3 cvx1 i)).1 := by
  obtain ⟨c, hc, hk⟩ := hnorm (worldNormal cvx1 i)
    (separated_ne_zero cvx1 cvx2 _ hp1 hp2 hsep)
  refine intervals_disjoint cvx1 cvx2 (worldNormal cvx1 i) _ c hp1 hp2 hc ?_ hsep
  intro k hk3
  unfold facePlane
  rw [Function.update_noteq (by omega)]
  exact hk k hk3

/-- The loop of `CheckSATConvexFaces` returns `false` when a face that it still
has to visit gives disjoint intervals. -/
theorem CheckSATConvexFacesLoop_false (dNormalize3 : (Nat → α) → (Nat → α))
    (cvx1 cvx2 : dxConvex α) (rem : Nat) :
    ∀ (i : Nat) (st : SATState α),
      (∃ j, i ≤ j ∧ j < i + rem ∧
        ((ComputeInterval cvx2 (facePlane dNormalize3 cvx1 j)).2 <
            (ComputeInterval cvx1 (facePlane dNormalize3 cvx1 j)).1 ∨
          (ComputeInterval cvx1 (facePlane dNormalize3 cvx1 j)).2 <
            (ComputeInterval cvx2 (facePlane dNormalize3 cvx1 j)).1)) →
      (CheckSATConvexFacesLoop dNormalize3 cvx1 cvx2 rem i st).1 = false := by
  induction rem with
  | zero =>
    intro i st ⟨j, h1, h2, _⟩
    omega
  | succ rem ih =>
    intro i st ⟨j, h1, h2, hj⟩
    rw [CheckSATConvexFacesLoop]
    simp only
    split
    · rfl
    · rename_i hno
      have hji : j ≠ i := by
        intro h
        rw [h] at hj
        exact hno hj
      split
      · exact ih (i + 1) _ ⟨j, by omega, by omega, hj⟩
      · exact ih (i + 1) _ ⟨j, by omega, by omega, hj⟩

theorem CheckSATConvexFaces_false (dNormalize3 : (Nat → α) → (Nat → α))
    (cvx1 cvx2 : dxConvex α) (st : SATState α) (hnorm : Normalises dNormalize3)
    (hp1 : 1 ≤ cvx1.pointcount) (hp2 : 1 ≤ cvx2.pointcount)
    (hsep : ∃ i, i < cvx1.planecount ∧ Separated cvx1 cvx2 (worldNormal cvx1 i)) :
    (CheckSATConvexFaces dNormalize3 cvx1 cvx2 st).1 = false := by
  obtain ⟨i, hi, hs⟩ := hsep
  exact CheckSATConvexFacesLoop_false dNormalize3 cvx1 cvx2 cvx1.planecount 0 st
    ⟨i, Nat.zero_le _, by omega, facePlane_disjoint dNormalize3 cvx1 cvx2 i hnorm hp1 hp2 hs⟩

theorem CheckSATConvexEdgesInner_false (cvx1 cvx2 : dxConvex α) (e1 : Nat → α)
    (js : List (Nat × Nat)) :
    (∃ j, j ∈ js ∧
      ((ComputeInterval cvx2 (edgePlane e1 (edgeVector cvx2 j))).2 <
          (ComputeInterval cvx1 (edgePlane e1 (edgeVector cvx2 j))).1 ∨
        (ComputeInterval cvx1 (edgePlane e1 (edgeVector cvx2 j))).2 <
          (ComputeInterval cvx2 (edgePlane e1 (edgeVector cvx2 j))).1)) →
      CheckSATConvexEdgesInner cvx1 cvx2 e1 js = false := by
  induction js with
  | nil =>
    intro ⟨j, hj, _⟩
    exact absurd hj (List.not_mem_nil j)
  | cons x xs ih =>
    intro ⟨j, hj, hsep⟩
    rw [CheckSATConvexEdgesInner]
    split
    · rfl
    · rename_i hno
      rcases List.mem_cons.1 hj with h | h
      · rw [h] at hsep
        exact absurd hsep hno
      · exact ih ⟨j, h, hsep⟩

theorem CheckSATConvexEdgesOuter_false (cvx1 cvx2 : dxConvex α) (is : List (Nat × Nat)) :
    (∃ i, i ∈ is ∧ CheckSATConvexEdgesInner cvx1 cvx2 (edgeVector cvx1 i) cvx2.edges = false) →
      CheckSATConvexEdgesOuter cvx1 cvx2 is = false := by
  induction is with
  | nil =>
    intro ⟨i, hi, _⟩
    exact absurd hi (List.not_mem_nil i)
  | cons x xs ih =>
    intro ⟨i, hi, hin⟩
    rw [CheckSATConvexEdgesOuter]
    split
    · rename_i hyes
      rcases List.mem_cons.1 hi with h | h
      · rw [h] at hin
        rw [hin] at hyes
        exact absurd hyes (by decide)
      · exact ih ⟨i, h, hin⟩
    · rfl

theorem CheckSATConvexEdges_false (cvx1 cvx2 : dxConvex α)
    (hp1 : 1 ≤ cvx1.pointcount) (hp2 : 1 ≤ cvx2.pointcount)
    (hsep : ∃ e1 e2, e1 ∈ cvx1.edges ∧ e2 ∈ cvx2.edges ∧
      Separated cvx1 cvx2 (dCROSS (fun _ => 0) (edgeVector cvx1 e1) (edgeVector cvx2 e2))) :
    CheckSATConvexEdges cvx1 cvx2 = false := by
  obtain ⟨e1, e2, h1, h2, hs⟩ := hsep
  refine CheckSATConvexEdgesOuter_false cvx1 cvx2 cvx1.edges ⟨e1, h1, ?_⟩
  refine CheckSATConvexEdgesInner_false cvx1 cvx2 _ cvx2.edges ⟨e2, h2, ?_⟩
  refine intervals_disjoint cvx1 cvx2 _ _ 1 hp1 hp2 one_pos ?_ hs
  intro k hk
  unfold edgePlane
  rw [Function.update_noteq (by omega), one_mul]

end SATLemmas

theorem cubePoints_cases (h : ℚ) (k : Nat) : cubePoints h k = -h ∨ cubePoints h k = h := by
  unfold cubePoints
  split
  · exact Or.inl rfl
  · exact Or.inr rfl

/-- The projection of a vertex of a cube on the world-space normal of its first
face, `(1,0,0)`. -/
theorem cube_dot_x (h : ℚ) (pos pos2 : Nat → ℚ) (edges edges2 : List (Nat × Nat)) (v : Nat) :
    dDOT (worldPoint (cubeConvex h pos edges) (v * 3))
        (worldNormal (cubeConvex h pos2 edges2) 0) =
      pos 0 + cubePoints h (v * 3) := by
  simp [dDOT, worldPoint, worldNormal, cubeConvex, dVector3Add, dMULTIPLY0_331, setVec3, offset,
    identityR, cubePlanes]

/-! ### The contact cap -/

section ContactCap

variable {α : Type} [LinearOrderedField α]

/-- `dCollideSphereConvex` returns 0 or 1 and writes at most the record at index
`0`. -/
theorem dCollideSphereConvex_cap (NUMC_MASK : Nat) (dInfinity : α) (dSqrt : α → α)
    (closestplane : Nat) (Sphere : dxSphere α) (Convex : dxConvex α) (o1 o2 flags : Nat)
    (contact : Nat → dContactGeom α) (h1 : 1 ≤ flags &&& NUMC_MASK) :
    ∃ c, dCollideSphereConvex NUMC_MASK dInfinity dSqrt closestplane Sphere Convex o1 o2 flags
        contact = .ok c ∧
      c.count ≤ 1 ∧ ∀ k, 1 ≤ k → c.contact k = contact k := by
  unfold dCollideSphereConvex
  rw [if_neg (not_not.2 h1)]
  split
  · exact ⟨_, rfl, le_refl _, fun k hk => Function.update_noteq (by omega) _ _⟩
  · split
    · exact ⟨_, rfl, le_refl _, fun k hk => Function.update_noteq (by omega) _ _⟩
    · exact ⟨_, rfl, Nat.zero_le _, fun k hk => rfl⟩

/-- `dCollideRayConvex` returns 0 or 1 and writes at most the record at index
`0`. -/
theorem dCollideRayConvex_cap (NUMC_MASK CONTACTS_UNIMPORTANT : Nat) (dInfinity dEpsilon : α)
    (dDOT13 : (Nat → α) → (Nat → α) → α) (ray : dxRay α) (convex : dxConvex α)
    (o1 o2 flags : Nat) (contact : Nat → dContactGeom α) (h1 : 1 ≤ flags &&& NUMC_MASK) :
    ∃ c, dCollideRayConvex NUMC_MASK CONTACTS_UNIMPORTANT dInfinity dEpsilon dDOT13 ray convex
        o1 o2 flags contact = .ok c ∧
      c.count ≤ 1 ∧ ∀ k, 1 ≤ k → c.contact k = contact k := by
  unfold dCollideRayConvex
  rw [if_neg (not_not.2 h1)]
  have hle : ∀ (p : Prop) [Decidable p], (if p then 1 else 0 : Nat) ≤ 1 := by
    intro p _
    split <;> omega
  exact ⟨_, rfl, hle _, fun k hk => Function.update_noteq (by omega) _ _⟩

/-- The loop of `TestConvexIntersection` over the vertices of the face stops at
`maxc` contacts and writes below `maxc` only. -/
theorem faceContactLoop_cap (g1 : dxConvex α) (pPoly : Nat → Nat) (maxc : Nat) (rem : Nat) :
    ∀ (i contacts : Nat) (contact : Nat → dContactGeom α), contacts < maxc →
      (faceContactLoop g1 pPoly maxc rem i (contacts, contact)).count ≤ maxc ∧
      ∀ k, maxc ≤ k →
        (faceContactLoop g1 pPoly maxc rem i (contacts, contact)).contact k = contact k := by
  induction rem with
  | zero =>
    intro i contacts contact h
    exact ⟨le_of_lt h, fun k _ => rfl⟩
  | succ rem ih =>
    intro i contacts contact h
    rw [faceContactLoop]
    simp only
    split
    · rename_i heq
      refine ⟨le_of_eq heq, ?_⟩
      intro k hk
      exact Function.update_noteq (by omega) _ _
    · rename_i hne
      obtain ⟨h1, h2⟩ := ih (i + 1) (contacts + 1) (Function.update contact contacts
        { contact contacts with
          pos := dVector3Add g1.final_posr.pos
            (dMULTIPLY0_331 (contact contacts).pos g1.final_posr.R
              (offset g1.points (pPoly (i + 1) * 3)))
            (dMULTIPLY0_331 (contact contacts).pos g1.final_posr.R
              (offset g1.points (pPoly (i + 1) * 3))) }) (by omega)
      refine ⟨h1, ?_⟩
      intro k hk
      rw [h2 k hk]
      exact Function.update_noteq (by omega) _ _

/-- `dCollideConvexConvex` returns at most `maxc` and writes below `maxc` only. -/
theorem dCollideConvexConvex_cap (NUMC_MASK : Nat) (dInfinity : α)
    (dNormalize3 : (Nat → α) → (Nat → α)) (Convex1 Convex2 : dxConvex α) (flags : Nat)
    (contact : Nat → dContactGeom α) (h1 : 1 ≤ flags &&& NUMC_MASK) :
    ∃ c, dCollideConvexConvex NUMC_MASK dInfinity dNormalize3 Convex1 Convex2 flags contact =
        .ok c ∧
      c.count ≤ flags &&& NUMC_MASK ∧ ∀ k, flags &&& NUMC_MASK ≤ k → c.contact k = contact k := by
  unfold dCollideConvexConvex
  rw [if_neg (not_not.2 h1)]
  unfold TestConvexIntersection
  simp only
  rw [if_neg (show ¬ (flags &&& NUMC_MASK = 0) from by omega)]
  split
  · exact ⟨_, rfl, Nat.zero_le _, fun k _ => rfl⟩
  · split
    · exact ⟨_, rfl, Nat.zero_le _, fun k _ => rfl⟩
    · split
      · exact ⟨_, rfl, Nat.zero_le _, fun k _ => rfl⟩
      · split
        · exact ⟨_, rfl, Nat.zero_le _, fun k _ => rfl⟩
        · rename_i g1 hg1
          obtain ⟨h2, h3⟩ := faceContactLoop_cap g1 (offset g1.polygons
            (skipPolygons g1.polygons (CheckSATConvexFaces dNormalize3 Convex2 Convex1
              (CheckSATConvexFaces dNormalize3 Convex1 Convex2
                { min_depth := dInfinity, side_index := -1, g1 := none, g2 := none }).2).2.side_index.toNat
              0)) (flags &&& NUMC_MASK) (g1.polygons (skipPolygons g1.polygons
                (CheckSATConvexFaces dNormalize3 Convex2 Convex1
                  (CheckSATConvexFaces dNormalize3 Convex1 Convex2
                    { min_depth := dInfinity, side_index := -1, g1 := none, g2 := none }).2).2.side_index.toNat
                0)) 0 0 contact (by omega)
          exact ⟨_, rfl, h2, h3⟩

/-- `dCollideConvexPlane` returns at most `maxc` and writes below `maxc` only. -/
theorem dCollideConvexPlane_cap (NUMC_MASK : Nat) (Convex : dxConvex α) (Plane : dxPlane α)
    (o1 o2 flags : Nat) (contact : Nat → dContactGeom α) (h1 : 1 ≤ flags &&& NUMC_MASK)
    (h2 : BOTH_SIGNS &&& NUMC_MASK = 0) :
    ∃ c, dCollideConvexPlane NUMC_MASK Convex Plane o1 o2 flags contact = .ok c ∧
      c.count ≤ flags &&& NUMC_MASK ∧ ∀ k, flags &&& NUMC_MASK ≤ k → c.contact k = contact k := by
  obtain ⟨c, hc, hboth, hnot, hcon⟩ := dCollideConvexPlane_spec NUMC_MASK Convex Plane o1 o2
    flags contact h1 h2
  refine ⟨c, hc, ?_, ?_⟩
  · by_cases hb : (∃ k, k < Convex.pointcount ∧ planeDistance Convex Plane k ≤ 0) ∧
        (∃ k, k < Convex.pointcount ∧ 0 ≤ planeDistance Convex Plane k)
    · rw [hboth hb]
      exact Nat.min_le_left _ _
    · rw [hnot hb]
      exact Nat.zero_le _
  · intro k hk
    rw [hcon k, if_neg]
    intro hlt
    have := Nat.min_le_left (flags &&& NUMC_MASK)
      (touching Convex Plane 0 Convex.pointcount).length
    omega

end ContactCap

/-! ## The convex colliders: the claims -/

/-- C15: the contact cap. For every input with `maxc = flags & NUMC_MASK >= 1`
(and a `NUMC_MASK` that has no bit in common with `BOTH_SIGNS`, which
`dCollideConvexPlane` asserts), each of `dCollideConvexPlane`,
`dCollideSphereConvex`, `dCollideConvexConvex` and `dCollideRayConvex` returns,
the value returned is at most `maxc`, and every contact record at an index
`>= maxc` is left as it was. -/
theorem contact_cap {α : Type} [LinearOrderedField α] (NUMC_MASK CONTACTS_UNIMPORTANT : Nat)
    (dInfinity dEpsilon : α) (dSqrt : α → α) (dNormalize3 : (Nat → α) → (Nat → α))
    (dDOT13 : (Nat → α) → (Nat → α) → α) (closestplane : Nat)
    (Convex Convex2 : dxConvex α) (Plane : dxPlane α) (Sphere : dxSphere α) (ray : dxRay α)
    (o1 o2 flags : Nat) (contact : Nat → dContactGeom α)
    (hmaxc : 1 ≤ flags &&& NUMC_MASK) (hmask : BOTH_SIGNS &&& NUMC_MASK = 0) :
    (∃ c, dCollideConvexPlane NUMC_MASK Convex Plane o1 o2 flags contact = .ok c ∧
      c.count ≤ flags &&& NUMC_MASK ∧
      ∀ k, flags &&& NUMC_MASK ≤ k → c.contact k = contact k) ∧
    (∃ c, dCollideSphereConvex NUMC_MASK dInfinity dSqrt closestplane Sphere Convex o1 o2 flags
        contact = .ok c ∧
      c.count ≤ flags &&& NUMC_MASK ∧
      ∀ k, flags &&& NUMC_MASK ≤ k → c.contact k = contact k) ∧
    (∃ c, dCollideConvexConvex NUMC_MASK dInfinity dNormalize3 Convex Convex2 flags contact =
        .ok c ∧
      c.count ≤ flags &&& NUMC_MASK ∧
      ∀ k, flags &&& NUMC_MASK ≤ k → c.contact k = contact k) ∧
    (∃ c, dCollideRayConvex NUMC_MASK CONTACTS_UNIMPORTANT dInfinity dEpsilon dDOT13 ray Convex
        o1 o2 flags contact = .ok c ∧
      c.count ≤ flags &&& NUMC_MASK ∧
      ∀ k, flags &&& NUMC_MASK ≤ k → c.contact k = contact k) := by
  refine ⟨dCollideConvexPlane_cap NUMC_MASK Convex Plane o1 o2 flags contact hmaxc hmask, ?_,
    dCollideConvexConvex_cap NUMC_MASK dInfinity dNormalize3 Convex Convex2 flags contact hmaxc,
    ?_⟩
  · obtain ⟨c, hc, h1, h2⟩ := dCollideSphereConvex_cap NUMC_MASK dInfinity dSqrt closestplane
      Sphere Convex o1 o2 flags contact hmaxc
    exact ⟨c, hc, le_trans h1 hmaxc, fun k hk => h2 k (le_trans hmaxc hk)⟩
  · obtain ⟨c, hc, h1, h2⟩ := dCollideRayConvex_cap NUMC_MASK CONTACTS_UNIMPORTANT dInfinity
      dEpsilon dDOT13 ray Convex o1 o2 flags contact hmaxc
    exact ⟨c, hc, le_trans h1 hmaxc, fun k hk => h2 k (le_trans hmaxc hk)⟩

/-- C15, witness: the unit cube at the origin against the plane `z = 0.4`, the
sphere of radius 1 at `(0,0,0.5)`, a second unit cube at `(3,0,0)` and the ray of
length 5 from `(0,0,2)`, with `NUMC_MASK = 0xffff` and `flags = 2`. -/
theorem contact_cap_witness :
    (∃ c, dCollideConvexPlane 0xffff (cubeConvex (1 / 2) (fun _ => 0) []) (zPlane (2 / 5)) 1 2 2
        noContacts = .ok c ∧
      c.count ≤ 2 &&& 0xffff ∧ ∀ k, 2 &&& 0xffff ≤ k → c.contact k = noContacts k) ∧
    (∃ c, dCollideSphereConvex 0xffff 1000000 (fun x => x) 0 (sphereAt 0 0 (1 / 2) 1)
        (cubeConvex (1 / 2) (fun _ => 0) []) 1 2 2 noContacts = .ok c ∧
      c.count ≤ 2 &&& 0xffff ∧ ∀ k, 2 &&& 0xffff ≤ k → c.contact k = noContacts k) ∧
    (∃ c, dCollideConvexConvex 0xffff 1000000 (fun v => v) (cubeConvex (1 / 2) (fun _ => 0) [])
        (cubeConvex (1 / 2) (fun k => if k = 0 then 3 else 0) []) 2 noContacts = .ok c ∧
      c.count ≤ 2 &&& 0xffff ∧ ∀ k, 2 &&& 0xffff ≤ k → c.contact k = noContacts k) ∧
    (∃ c, dCollideRayConvex 0xffff 0x80000000 1000000 (1 / 1000000)
        (fun a b => a 0 * b 0 + a 1 * b 3 + a 2 * b 6) (rayAt 0 0 2 5)
        (cubeConvex (1 / 2) (fun _ => 0) []) 1 2 2 noContacts = .ok c ∧
      c.count ≤ 2 &&& 0xffff ∧ ∀ k, 2 &&& 0xffff ≤ k → c.contact k = noContacts k) :=
  contact_cap 0xffff 0x80000000 1000000 (1 / 1000000) (fun x => x) (fun v => v)
    (fun a b => a 0 * b 0 + a 1 * b 3 + a 2 * b 6) 0 (cubeConvex (1 / 2) (fun _ => 0) [])
    (cubeConvex (1 / 2) (fun k => if k = 0 then 3 else 0) []) (zPlane (2 / 5))
    (sphereAt 0 0 (1 / 2) 1) (rayAt 0 0 2 5) 1 2 2 noContacts (by decide) (by decide)

/-- C16 (as amended): the convex-plane scenario. For a unit cube (its 8 vertices,
in any order, at the corners with coordinates `+-0.5`) centred at the origin
with the identity rotation, the plane with normal `(0,0,1)` and offset `0.4`,
and `maxc >= 4`, `dCollideConvexPlane` reports exactly 4 contacts, each with
depth `0.9` (the four lower vertices lie `0.9` below the plane) and normal
`(0,0,1)`. -/
theorem convex_plane_cube_scenario (NUMC_MASK : Nat) (Convex : dxConvex ℚ)
    (o1 o2 flags : Nat) (contact : Nat → dContactGeom ℚ)
    (hmask : BOTH_SIGNS &&& NUMC_MASK = 0) (hmaxc : 4 ≤ flags &&& NUMC_MASK)
    (hR : Convex.final_posr.R = identityR) (hpos : ∀ j, Convex.final_posr.pos j = 0)
    (hv : (vertexList Convex).Perm (cubeCorners (1 / 2))) :
    ∃ c, dCollideConvexPlane NUMC_MASK Convex (zPlane (2 / 5)) o1 o2 flags contact = .ok c ∧
      c.count = 4 ∧
      ∀ k, k < 4 →
        (c.contact k).depth = 9 / 10 ∧ (c.contact k).normal 0 = 0 ∧
        (c.contact k).normal 1 = 0 ∧ (c.contact k).normal 2 = 1 := by
  obtain ⟨c, hc, hcount, hall⟩ := cube_plane_contacts NUMC_MASK Convex (zPlane (2 / 5)) o1 o2
    flags contact (1 / 2) hmask hmaxc hR hpos rfl rfl rfl hv
    (by simp only [zPlane]; norm_num) (by simp only [zPlane]; norm_num)
  refine ⟨c, hc, hcount, ?_⟩
  intro k hk
  obtain ⟨h1, h2, h3, h4, _, _⟩ := hall k hk
  refine ⟨?_, h2, h3, h4⟩
  rw [h1]
  simp only [zPlane]
  norm_num

/-- C16, witness: the cube with its vertices in binary order, `NUMC_MASK = 0xffff`
and `flags = 4`. -/
theorem convex_plane_cube_scenario_witness :
    ∃ c, dCollideConvexPlane 0xffff (cubeConvex (1 / 2) (fun _ => 0) []) (zPlane (2 / 5)) 1 2 4
        noContacts = .ok c ∧
      c.count = 4 ∧
      ∀ k, k < 4 →
        (c.contact k).depth = 9 / 10 ∧ (c.contact k).normal 0 = 0 ∧
        (c.contact k).normal 1 = 0 ∧ (c.contact k).normal 2 = 1 :=
  convex_plane_cube_scenario 0xffff (cubeConvex (1 / 2) (fun _ => 0) []) 1 2 4 noContacts
    (by decide) (by decide) rfl (fun _ => rfl)
    (by rw [vertexList_cubeConvex])

/-- C16, counterexample to the claim as stated: for the unit cube at the origin,
the plane with normal `(0,0,1)` and offset `0.4` and `maxc = 4`, the contact at
index `0` has depth `0.9`, not `0.1`. -/
theorem convex_plane_cube_depth_is_nine_tenths :
    ∃ c, dCollideConvexPlane 0xffff (cubeConvex (1 / 2) (fun _ => 0) []) (zPlane (2 / 5)) 1 2 4
        noContacts = .ok c ∧
      c.count = 4 ∧ (c.contact 0).depth = 9 / 10 ∧ (c.contact 0).depth ≠ 1 / 10 := by
  obtain ⟨c, hc, hcount, hall⟩ := cube_plane_contacts 0xffff
    (cubeConvex (1 / 2) (fun _ => 0) []) (zPlane (2 / 5)) 1 2 4 noContacts (1 / 2)
    (by decide) (by decide) rfl (fun _ => rfl) rfl rfl rfl
    (by rw [vertexList_cubeConvex])
    (by simp only [zPlane]; norm_num) (by simp only [zPlane]; norm_num)
  have hd : (c.contact 0).depth = 9 / 10 := by
    rw [(hall 0 (by decide)).1]
    simp only [zPlane]
    norm_num
  refine ⟨c, hc, hcount, hd, ?_⟩
  rw [hd]
  norm_num

/-- C17 (as amended): the convex-plane sign rule. For every convex and plane,
`dCollideConvexPlane` returns a non-zero count only if at least one vertex has
signed distance `<= 0` and at least one has signed distance `>= 0` (a vertex on
the plane counts for both sides), and then it does return a non-zero count; if
all signed distances are strictly negative, or all strictly positive, it returns
0. -/
theorem convex_plane_sign_rule {α : Type} [LinearOrderedField α] (NUMC_MASK : Nat)
    (Convex : dxConvex α) (Plane : dxPlane α) (o1 o2 flags : Nat)
    (contact : Nat → dContactGeom α) (h1 : 1 ≤ flags &&& NUMC_MASK)
    (h2 : BOTH_SIGNS &&& NUMC_MASK = 0) :
    ∃ c, dCollideConvexPlane NUMC_MASK Convex Plane o1 o2 flags contact = .ok c ∧
      (c.count ≠ 0 ↔
        ((∃ k, k < Convex.pointcount ∧ planeDistance Convex Plane k ≤ 0) ∧
         (∃ k, k < Convex.pointcount ∧ 0 ≤ planeDistance Convex Plane k))) ∧
      ((∀ k, k < Convex.pointcount → planeDistance Convex Plane k < 0) → c.count = 0) ∧
      ((∀ k, k < Convex.pointcount → 0 < planeDistance Convex Plane k) → c.count = 0) := by
  obtain ⟨c, hc, hboth, hnot, _⟩ := dCollideConvexPlane_spec NUMC_MASK Convex Plane o1 o2
    flags contact h1 h2
  refine ⟨c, hc, ?_, ?_, ?_⟩
  · constructor
    · intro hne
      by_contra hno
      exact hne (hnot hno)
    · intro hb
      rw [hboth hb]
      obtain ⟨⟨k, hk, hd⟩, _⟩ := hb
      have hmem := (mem_touching Convex Plane Convex.pointcount k).2 ⟨hk, hd⟩
      have hpos : 0 < (touching Convex Plane 0 Convex.pointcount).length :=
        List.length_pos_of_mem hmem
      have : 1 ≤ min (flags &&& NUMC_MASK) (touching Convex Plane 0 Convex.pointcount).length :=
        Nat.le_min.2 ⟨h1, hpos⟩
      omega
  · intro hall
    apply hnot
    rintro ⟨_, ⟨k, hk, hd⟩⟩
    exact absurd (hall k hk) (not_lt.2 hd)
  · intro hall
    apply hnot
    rintro ⟨⟨k, hk, hd⟩, _⟩
    exact absurd (hall k hk) (not_lt.2 hd)

/-- C17, witness: the unit cube cut by the plane `z = 0.4`. -/
theorem convex_plane_sign_rule_witness :
    1 ≤ 4 &&& 0xffff ∧ BOTH_SIGNS &&& 0xffff = 0 ∧
    ∃ c, dCollideConvexPlane 0xffff (cubeConvex (1 / 2) (fun _ => 0) []) (zPlane (2 / 5)) 1 2 4
        noContacts = .ok c ∧
      (c.count ≠ 0 ↔
        ((∃ k, k < 8 ∧
            planeDistance (cubeConvex (1 / 2) (fun _ => 0) []) (zPlane (2 / 5)) k ≤ 0) ∧
         (∃ k, k < 8 ∧
            0 ≤ planeDistance (cubeConvex (1 / 2) (fun _ => 0) []) (zPlane (2 / 5)) k))) :=
  ⟨by decide, by decide,
   (convex_plane_sign_rule 0xffff (cubeConvex (1 / 2) (fun _ => 0) []) (zPlane (2 / 5)) 1 2 4
     noContacts (by decide) (by decide)).imp (fun _ h => ⟨h.1, h.2.1⟩)⟩

/-- C17, counterexample to the claim as stated: the unit cube resting on the
plane `z = -0.5`. `dCollideConvexPlane` returns 4 although no vertex lies
strictly on the negative side of the plane. -/
theorem convex_plane_contact_without_negative_vertex :
    ∃ c, dCollideConvexPlane 0xffff (cubeConvex (1 / 2) (fun _ => 0) []) (zPlane (-1 / 2)) 1 2
        4 noContacts = .ok c ∧
      c.count = 4 ∧
      ∀ k, k < 8 →
        ¬ planeDistance (cubeConvex (1 / 2) (fun _ => 0) []) (zPlane (-1 / 2)) k < 0 := by
  obtain ⟨c, hc, hcount, _⟩ := cube_plane_contacts 0xffff
    (cubeConvex (1 / 2) (fun _ => 0) []) (zPlane (-1 / 2)) 1 2 4 noContacts (1 / 2)
    (by decide) (by decide) rfl (fun _ => rfl) rfl rfl rfl
    (by rw [vertexList_cubeConvex])
    (by simp only [zPlane]; norm_num) (by simp only [zPlane]; norm_num)
  refine ⟨c, hc, hcount, ?_⟩
  intro k hk
  rw [planeDistance_zPlane _ _ k rfl (fun _ => rfl) rfl rfl rfl]
  have hz := corner_z (cubeConvex (1 / 2) (fun _ => 0) []) (1 / 2)
    (by rw [vertexList_cubeConvex]) k hk
  have hp : (zPlane (-1 / 2)).p 3 = -1 / 2 := rfl
  rw [hp]
  rcases hz with hz | hz
  · rw [hz]; norm_num
  · rw [hz]; norm_num

/-- C18 (as amended): the sphere-convex scenario. For a sphere of radius 1
centred at `(0,0,0.5)` and a convex cube of half-extent `0.5` (its 6 faces in
any order) centred at the origin with the identity rotation, `maxc >= 1` and
`dInfinity > 0`, `dCollideSphereConvex` reports exactly 1 contact with normal
`(0,0,1)` and depth `1`: the centre lies on the top face, at distance `0`, which
the routine takes for inside, so that the depth is that distance plus the
radius. The position of the contact is the sphere centre. -/
theorem sphere_convex_face_scenario (NUMC_MASK : Nat) (dInfinity : ℚ) (dSqrt : ℚ → ℚ)
    (closestplane : Nat) (Sphere : dxSphere ℚ) (Convex : dxConvex ℚ) (o1 o2 flags : Nat)
    (contact : Nat → dContactGeom ℚ)
    (hmaxc : 1 ≤ flags &&& NUMC_MASK) (hinf : 0 < dInfinity)
    (hR : Convex.final_posr.R = identityR) (hpos : ∀ j, Convex.final_posr.pos j = 0)
    (hf : (planeList Convex).Perm (cubeFaces (1 / 2)))
    (hx : Sphere.final_posr.pos 0 = 0) (hy : Sphere.final_posr.pos 1 = 0)
    (hz : Sphere.final_posr.pos 2 = 1 / 2) (hr : Sphere.radius = 1) :
    ∃ c, dCollideSphereConvex NUMC_MASK dInfinity dSqrt closestplane Sphere Convex o1 o2 flags
        contact =
        .ok c ∧
      c.count = 1 ∧ (c.contact 0).depth = 1 ∧
      (c.contact 0).normal 0 = 0 ∧ (c.contact 0).normal 1 = 0 ∧ (c.contact 0).normal 2 = 1 ∧
      (c.contact 0).pos 0 = 0 ∧ (c.contact 0).pos 1 = 0 ∧ (c.contact 0).pos 2 = 1 / 2 := by
  obtain ⟨c, hc, h1, h2, h3, h4, h5, h6, h7, h8, _⟩ := sphere_on_cube_face NUMC_MASK dInfinity
    dSqrt closestplane Sphere Convex o1 o2 flags contact (1 / 2) (by norm_num) hmaxc hinf hR hpos hf hx hy hz
  exact ⟨c, hc, h1, by rw [h2, hr], h3, h4, h5, h6, h7, h8⟩

/-- C18, witness: the cube with its faces in the order `+x, -x, +y, -y, +z, -z`,
`NUMC_MASK = 0xffff`, `flags = 1` and `dInfinity = 1000000`. -/
theorem sphere_convex_face_scenario_witness :
    ∃ c, dCollideSphereConvex 0xffff 1000000 (fun x => x) 0 (sphereAt 0 0 (1 / 2) 1)
        (cubeConvex (1 / 2) (fun _ => 0) []) 1 2 1 noContacts = .ok c ∧
      c.count = 1 ∧ (c.contact 0).depth = 1 ∧
      (c.contact 0).normal 0 = 0 ∧ (c.contact 0).normal 1 = 0 ∧ (c.contact 0).normal 2 = 1 ∧
      (c.contact 0).pos 0 = 0 ∧ (c.contact 0).pos 1 = 0 ∧ (c.contact 0).pos 2 = 1 / 2 :=
  sphere_convex_face_scenario 0xffff 1000000 (fun x => x) 0 (sphereAt 0 0 (1 / 2) 1)
    (cubeConvex (1 / 2) (fun _ => 0) []) 1 2 1 noContacts (by decide) (by norm_num) rfl
    (fun _ => rfl) (by rw [planeList_cubeConvex]) rfl rfl rfl rfl

/-- C18, counterexample to the claim as stated: for the sphere of radius 1 centred
at `(0,0,0.5)` and the cube of half-extent `0.5` at the origin, the one contact
that `dCollideSphereConvex` reports has depth `1`, not `0`. -/
theorem sphere_convex_face_depth_is_one :
    ∃ c, dCollideSphereConvex 0xffff 1000000 (fun x => x) 0 (sphereAt 0 0 (1 / 2) 1)
        (cubeConvex (1 / 2) (fun _ => 0) []) 1 2 1 noContacts = .ok c ∧
      c.count = 1 ∧ (c.contact 0).depth = 1 ∧ (c.contact 0).depth ≠ 0 := by
  obtain ⟨c, hc, h1, h2, _⟩ := sphere_on_cube_face 0xffff 1000000 (fun x => x) 0
    (sphereAt 0 0 (1 / 2) 1) (cubeConvex (1 / 2) (fun _ => 0) []) 1 2 1 noContacts (1 / 2)
    (by norm_num) (by decide) (by norm_num) rfl (fun _ => rfl)
    (by rw [planeList_cubeConvex]) rfl rfl rfl
  have hd : (c.contact 0).depth = 1 := by rw [h2]; rfl
  refine ⟨c, hc, h1, hd, ?_⟩
  rw [hd]
  norm_num

/-- C19: the sphere centre inside the hull. For every convex with at least one
face and every sphere whose centre is strictly behind every face (with
`maxc >= 1`, and `dInfinity` above the distances), `dCollideSphereConvex`
returns exactly 1 contact: its normal is the rotated normal of a face `f` whose
absolute centre-to-plane distance is the smallest among all faces, its depth is
that smallest distance plus the radius, and its position is the sphere centre. -/
theorem sphere_inside_hull {α : Type} [LinearOrderedField α] (NUMC_MASK : Nat)
    (dInfinity : α) (dSqrt : α → α) (closestplane : Nat) (Sphere : dxSphere α) (Convex : dxConvex α)
    (o1 o2 flags : Nat) (contact : Nat → dContactGeom α)
    (hmaxc : 1 ≤ flags &&& NUMC_MASK) (hfaces : 1 ≤ Convex.planecount)
    (hinside : ∀ j, j < Convex.planecount → sphereDistance Sphere Convex j < 0)
    (hfin : ∀ j, j < Convex.planecount →
      dFabs (sphereDistance Sphere Convex j) < dInfinity) :
    ∃ c f, dCollideSphereConvex NUMC_MASK dInfinity dSqrt closestplane Sphere Convex o1 o2 flags
        contact =
        .ok c ∧
      c.count = 1 ∧ f < Convex.planecount ∧
      (∀ j, j < Convex.planecount →
        dFabs (sphereDistance Sphere Convex f) ≤ dFabs (sphereDistance Sphere Convex j)) ∧
      (∀ k, k < 3 → (c.contact 0).normal k = rotatedPlane Convex f k) ∧
      (c.contact 0).depth = dFabs (sphereDistance Sphere Convex f) + Sphere.radius ∧
      (∀ k, k < 3 → (c.contact 0).pos k = Sphere.final_posr.pos k) := by
  obtain ⟨cp, hcp, hmin, hrun⟩ := dCollideSphereConvex_inside dSqrt Sphere Convex o1 o2
    dInfinity NUMC_MASK flags closestplane contact hmaxc (fun j hj => le_of_lt (hinside j hj))
    ⟨0, hfaces, hfin 0 hfaces⟩
  refine ⟨_, cp, hrun, rfl, hcp, hmin, ?_, ?_, ?_⟩
  · intro k hk
    simp only [Function.update_same, rotatedPlane]
    rw [Function.update_noteq (by omega)]
    interval_cases k <;> simp [dMULTIPLY0_331, setVec3]
  · simp only [Function.update_same]
  · intro k hk
    simp only [Function.update_same]
    interval_cases k <;> simp [setVec3]

/-- C19, witness: the sphere of radius 1 centred at `(0,0,0.25)` inside the cube
of half-extent `0.5` at the origin. -/
theorem sphere_inside_hull_witness :
    ∃ c f, dCollideSphereConvex 0xffff 1000000 (fun x => x) 0 (sphereAt 0 0 (1 / 4) 1)
        (cubeConvex (1 / 2) (fun _ => 0) []) 1 2 1 noContacts = .ok c ∧
      c.count = 1 ∧ f < (cubeConvex (1 / 2) (fun _ => 0) []).planecount ∧
      (∀ j, j < (cubeConvex (1 / 2) (fun _ => 0) []).planecount →
        dFabs (sphereDistance (sphereAt 0 0 (1 / 4) 1) (cubeConvex (1 / 2) (fun _ => 0) []) f) ≤
          dFabs (sphereDistance (sphereAt 0 0 (1 / 4) 1)
            (cubeConvex (1 / 2) (fun _ => 0) []) j)) ∧
      (∀ k, k < 3 →
        (c.contact 0).normal k = rotatedPlane (cubeConvex (1 / 2) (fun _ => 0) []) f k) ∧
      (c.contact 0).depth =
        dFabs (sphereDistance (sphereAt 0 0 (1 / 4) 1) (cubeConvex (1 / 2) (fun _ => 0) []) f) +
          (sphereAt 0 0 (1 / 4) 1).radius ∧
      (∀ k, k < 3 → (c.contact 0).pos k = (sphereAt 0 0 (1 / 4) 1).final_posr.pos k) :=
  sphere_inside_hull 0xffff 1000000 (fun x => x) 0 (sphereAt 0 0 (1 / 4) 1)
    (cubeConvex (1 / 2) (fun _ => 0) []) 1 2 1 noContacts (by decide) (by decide)
    (by
      intro j hj
      rw [sphereDistance_identity _ _ _ rfl]
      have hj6 : j < 6 := hj
      interval_cases j <;> simp [cubeConvex, cubePlanes, sphereAt] <;> norm_num)
    (by
      intro j hj
      rw [sphereDistance_identity _ _ _ rfl]
      have hj6 : j < 6 := hj
      interval_cases j <;> simp [cubeConvex, cubePlanes, sphereAt, dFabs] <;> norm_num)

/-- C20: a separating axis means no contact. For every two convex shapes (each
with at least one vertex, `maxc >= 1`, and `dNormalize3` scaling a vector that
is not zero by a positive factor), if the projections of their world-space
vertex sets are disjoint along the world-space normal of a face of either
shape, or along the cross product of an edge vector of the first with an edge
vector of the second, then `dCollideConvexConvex` returns 0 and leaves the
contact array as it was. -/
theorem separating_axis_no_contact {α : Type} [LinearOrderedField α] (NUMC_MASK : Nat)
    (dInfinity : α)
    (dNormalize3 : (Nat → α) → (Nat → α)) (Convex1 Convex2 : dxConvex α) (flags : Nat)
    (contact : Nat → dContactGeom α) (hmaxc : 1 ≤ flags &&& NUMC_MASK)
    (hnorm : Normalises dNormalize3)
    (hp1 : 1 ≤ Convex1.pointcount) (hp2 : 1 ≤ Convex2.pointcount)
    (hsep : (∃ i, i < Convex1.planecount ∧ Separated Convex1 Convex2 (worldNormal Convex1 i)) ∨
      (∃ i, i < Convex2.planecount ∧ Separated Convex1 Convex2 (worldNormal Convex2 i)) ∨
      (∃ e1 e2, e1 ∈ Convex1.edges ∧ e2 ∈ Convex2.edges ∧
        Separated Convex1 Convex2
          (dCROSS (fun _ => 0) (edgeVector Convex1 e1) (edgeVector Convex2 e2)))) :
    dCollideConvexConvex NUMC_MASK dInfinity dNormalize3 Convex1 Convex2 flags contact =
      .ok { count := 0, contact := contact } := by
  unfold dCollideConvexConvex
  rw [if_neg (not_not.2 hmaxc)]
  unfold TestConvexIntersection
  simp only
  rw [if_neg (show ¬ (flags &&& NUMC_MASK = 0) from by omega)]
  split
  · rfl
  · rename_i hr1
    split
    · rfl
    · rename_i hr2
      split
      · rfl
      · rename_i hr3
        exfalso
        rcases hsep with h | h | h
        · exact hr1 (CheckSATConvexFaces_false dNormalize3 Convex1 Convex2 _ hnorm hp1 hp2 h)
        · obtain ⟨i, hi, hs⟩ := h
          exact hr2 (CheckSATConvexFaces_false dNormalize3 Convex2 Convex1 _ hnorm hp2 hp1
            ⟨i, hi, separated_symm _ _ _ hs⟩)
        · exact hr3 (CheckSATConvexEdges_false Convex1 Convex2 hp1 hp2 h)

/-- C20, witness: two unit cubes, one at the origin and one at `(3,0,0)`, which
the normal `(1,0,0)` of the first face of the first cube separates; `dNormalize3`
is the identity, which is right for the unit normals of the cubes. -/
theorem separating_axis_no_contact_witness :
    dCollideConvexConvex 0xffff (1000000 : ℚ) (fun v => v) (cubeConvex (1 / 2) (fun _ => 0) [])
        (cubeConvex (1 / 2) (fun k => if k = 0 then 3 else 0) []) 4 noContacts =
      .ok { count := 0, contact := noContacts } :=
  separating_axis_no_contact 0xffff 1000000 (fun v => v) (cubeConvex (1 / 2) (fun _ => 0) [])
    (cubeConvex (1 / 2) (fun k => if k = 0 then 3 else 0) []) 4 noContacts (by decide)
    (fun v _ => ⟨1, one_pos, fun k _ => (one_mul (v k)).symm⟩) (by decide) (by decide)
    (Or.inl ⟨0, by decide, Or.inl (fun v1 v2 _ _ => by
      rw [cube_dot_x, cube_dot_x]
      rcases cubePoints_cases (1 / 2) (v1 * 3) with h1 | h1 <;>
        rcases cubePoints_cases (1 / 2) (v2 * 3) with h2 | h2 <;>
        rw [h1, h2] <;> norm_num)⟩)

/-! ## The space: the geometries that a pass calls back on -/

theorem mem_separate_fst {α : Type} [DecidableEq α] (heap : Nat → dxGeom α)
    (GEOM_ENABLED : Nat) (dInfinity : α) (axis0max : Nat) (l : List Nat) :
    ∀ (acc : List Nat × List Nat) (g : Nat),
      g ∈ (separate heap GEOM_ENABLED dInfinity axis0max l acc).1 ↔
        g ∈ acc.1 ∨ (g ∈ l ∧ (heap g).gflags &&& GEOM_ENABLED ≠ 0 ∧
          (heap g).aabb axis0max ≠ dInfinity) := by
  induction l with
  | nil => intro acc g; simp [separate]
  | cons x rest ih =>
    intro acc g
    unfold separate
    split
    · rename_i hdis
      rw [ih]
      constructor
      · rintro (h | ⟨h1, h2⟩)
        · exact Or.inl h
        · exact Or.inr ⟨List.mem_cons_of_mem _ h1, h2⟩
      · rintro (h | ⟨h1, h2, h3⟩)
        · exact Or.inl h
        · rcases List.mem_cons.1 h1 with h4 | h4
          · rw [h4] at h2
            exact absurd hdis h2
          · exact Or.inr ⟨h4, h2, h3⟩
    · rename_i hen
      split
      · rename_i hinf
        rw [ih]
        constructor
        · rintro (h | ⟨h1, h2⟩)
          · exact Or.inl h
          · exact Or.inr ⟨List.mem_cons_of_mem _ h1, h2⟩
        · rintro (h | ⟨h1, h2, h3⟩)
          · exact Or.inl h
          · rcases List.mem_cons.1 h1 with h4 | h4
            · rw [h4] at h3
              exact absurd hinf h3
            · exact Or.inr ⟨h4, h2, h3⟩
      · rename_i hfin
        rw [ih]
        constructor
        · rintro (h | ⟨h1, h2⟩)
          · rcases List.mem_append.1 h with h3 | h3
            · exact Or.inl h3
            · rw [List.mem_singleton.1 h3]
              exact Or.inr ⟨List.mem_cons_self _ _, hen, hfin⟩
          · exact Or.inr ⟨List.mem_cons_of_mem _ h1, h2⟩
        · rintro (h | ⟨h1, h2, h3⟩)
          · exact Or.inl (List.mem_append_left _ h)
          · rcases List.mem_cons.1 h1 with h4 | h4
            · rw [h4]
              exact Or.inl (List.mem_append_right _ (List.mem_singleton.2 rfl))
            · exact Or.inr ⟨h4, h2, h3⟩

theorem mem_separate_snd {α : Type} [DecidableEq α] (heap : Nat → dxGeom α)
    (GEOM_ENABLED : Nat) (dInfinity : α) (axis0max : Nat) (l : List Nat) :
    ∀ (acc : List Nat × List Nat) (g : Nat),
      g ∈ (separate heap GEOM_ENABLED dInfinity axis0max l acc).2 ↔
        g ∈ acc.2 ∨ (g ∈ l ∧ (heap g).gflags &&& GEOM_ENABLED ≠ 0 ∧
          (heap g).aabb axis0max = dInfinity) := by
  induction l with
  | nil => intro acc g; simp [separate]
  | cons x rest ih =>
    intro acc g
    unfold separate
    split
    · rename_i hdis
      rw [ih]
      constructor
      · rintro (h | ⟨h1, h2⟩)
        · exact Or.inl h
        · exact Or.inr ⟨List.mem_cons_of_mem _ h1, h2⟩
      · rintro (h | ⟨h1, h2, h3⟩)
        · exact Or.inl h
        · rcases List.mem_cons.1 h1 with h4 | h4
          · rw [h4] at h2
            exact absurd hdis h2
          · exact Or.inr ⟨h4, h2, h3⟩
    · rename_i hen
      split
      · rename_i hinf
        rw [ih]
        constructor
        · rintro (h | ⟨h1, h2⟩)
          · rcases List.mem_append.1 h with h3 | h3
            · exact Or.inl h3
            · rw [List.mem_singleton.1 h3]
              exact Or.inr ⟨List.mem_cons_self _ _, hen, hinf⟩
          · exact Or.inr ⟨List.mem_cons_of_mem _ h1, h2⟩
        · rintro (h | ⟨h1, h2, h3⟩)
          · exact Or.inl (List.mem_append_left _ h)
          · rcases List.mem_cons.1 h1 with h4 | h4
            · rw [h4]
              exact Or.inl (List.mem_append_right _ (List.mem_singleton.2 rfl))
            · exact Or.inr ⟨h4, h2, h3⟩
      · rename_i hfin
        rw [ih]
        constructor
        · rintro (h | ⟨h1, h2⟩)
          · exact Or.inl h
          · exact Or.inr ⟨List.mem_cons_of_mem _ h1, h2⟩
        · rintro (h | ⟨h1, h2, h3⟩)
          · exact Or.inl h
          · rcases List.mem_cons.1 h1 with h4 | h4
            · rw [h4] at h3
              exact absurd h3 hfin
            · exact Or.inr ⟨h4, h2, h3⟩

section CallsAmongLemmas

variable {α δ : Type} (callback : δ → Nat → Nat → dxSAPSpace α → Outcome (dxSAPSpace α))
  (P : Nat → Prop) (GEOM_AABB_BAD : Nat) (AABBTest : Nat → Nat → (Nat → α) → Int) (data : δ)

theorem runCalls_among (calls : List (δ × Nat × Nat))
    (hcalls : ∀ c ∈ calls, P c.2.1 ∧ P c.2.2) :
    ∀ p : Pass α δ, CallsAmong P p →
      Outcome.Post (CallsAmong P) (CallsAmong P) (runCalls callback calls p) := by
  induction calls with
  | nil => intro p hp; exact hp
  | cons c rest ih =>
    intro p hp
    obtain ⟨d, g1, g2⟩ := c
    have hc := hcalls (d, g1, g2) (List.mem_cons_self _ _)
    have hnew : ∀ s2 : dxSAPSpace α,
        CallsAmong P { space := s2, calls := p.calls ++ [(d, g1, g2, p.space)] } := by
      intro s2 c hcm
      rcases List.mem_append.1 hcm with h | h
      · exact hp c h
      · rw [List.mem_singleton.1 h]
        exact hc
    unfold runCalls
    cases hcb : callback d g1 g2 p.space with
    | ok s2 =>
      exact ih (fun c hcm => hcalls c (List.mem_cons_of_mem _ hcm)) _ (hnew s2)
    | failed msg s2 => exact hnew s2

theorem collidePair_among (g1 g2 : Nat) (h1 : P g1) (h2 : P g2) (p : Pass α δ)
    (hp : CallsAmong P p) :
    Outcome.Post (CallsAmong P) (CallsAmong P)
      (collidePair GEOM_AABB_BAD AABBTest callback data g1 g2 p) := by
  unfold collidePair
  cases hf : collideGeomsNoAABBs GEOM_AABB_BAD p.space.heap AABBTest g1 g2 data with
  | failed msg x => exact hp
  | ok calls =>
    refine runCalls_among callback P calls ?_ p hp
    intro c hc
    unfold collideGeomsNoAABBs at hf
    split at hf
    · cases hf
    · split at hf
      · cases hf
      · split at hf
        · cases hf; simp at hc
        · split at hf
          · cases hf; simp at hc
          · split at hf
            · cases hf; simp at hc
            · split at hf
              · cases hf; simp at hc
              · cases hf
                rw [List.mem_singleton.1 hc]
                exact ⟨h1, h2⟩

theorem collideOverlapping_among (TmpGeomList : List Nat) (hP : ∀ g ∈ TmpGeomList, P g)
    (pairs : List Pair) :
    ∀ p : Pass α δ, CallsAmong P p →
      Outcome.Post (CallsAmong P) (CallsAmong P)
        (collideOverlapping GEOM_AABB_BAD AABBTest callback data TmpGeomList pairs p) := by
  induction pairs with
  | nil => intro p hp; exact hp
  | cons pair rest ih =>
    intro p hp
    unfold collideOverlapping
    cases h0 : TmpGeomList[pair.id0]? with
    | none => exact hp
    | some a =>
      cases h1 : TmpGeomList[pair.id1]? with
      | none => exact hp
      | some b =>
        exact post_bind _ _ _ _
          (collidePair_among callback P GEOM_AABB_BAD AABBTest data a b
            (hP a (List.getElem?_mem h0)) (hP b (List.getElem?_mem h1)) p hp) ih

theorem collideWith_among (g1 : Nat) (h1 : P g1) (l : List Nat) (hl : ∀ g ∈ l, P g) :
    ∀ p : Pass α δ, CallsAmong P p →
      Outcome.Post (CallsAmong P) (CallsAmong P)
        (collideWith GEOM_AABB_BAD AABBTest callback data g1 l p) := by
  induction l with
  | nil => intro p hp; exact hp
  | cons g2 rest ih =>
    intro p hp
    unfold collideWith
    exact post_bind _ _ _ _
      (collidePair_among callback P GEOM_AABB_BAD AABBTest data g1 g2 h1
        (hl g2 (List.mem_cons_self _ _)) p hp)
      (ih (fun g hg => hl g (List.mem_cons_of_mem _ hg)))

theorem collideInfinite_among (TmpGeomList : List Nat) (hP : ∀ g ∈ TmpGeomList, P g)
    (l : List Nat) (hl : ∀ g ∈ l, P g) :
    ∀ p : Pass α δ, CallsAmong P p →
      Outcome.Post (CallsAmong P) (CallsAmong P)
        (collideInfinite GEOM_AABB_BAD AABBTest callback data TmpGeomList l p) := by
  induction l with
  | nil => intro p hp; exact hp
  | cons g1 rest ih =>
    intro p hp
    unfold collideInfinite
    have h1 := hl g1 (List.mem_cons_self _ _)
    have hrest : ∀ g ∈ rest, P g := fun g hg => hl g (List.mem_cons_of_mem _ hg)
    refine post_bind _ _ _ _ (post_bind _ _ _ _ ?_ ?_) (ih hrest)
    · exact collideWith_among callback P GEOM_AABB_BAD AABBTest data g1 h1 rest hrest p hp
    · exact collideWith_among callback P GEOM_AABB_BAD AABBTest data g1 h1 TmpGeomList hP

/-- The call-back is invoked by `collide` only on geometries that the separation
loop has put into `TmpGeomList` or `TmpInfGeomList`. -/
theorem collide_among [LinearOrder α] (toFloat : α → α) (ODE_INFINITY4 : α)
    (RadixSort : List α → List Nat) (ax0idx ax1idx ax2idx : Nat) (IS_SPACE : Nat → Bool)
    (cleanGeomsOf recomputeAABB : Nat → (Nat → dxGeom α) → (Nat → dxGeom α))
    (GEOM_DIRTY GEOM_ENABLED : Nat) (dInfinity : α) (s : dxSAPSpace α)
    (hP : ∀ g, g ∈ (separate (cleanGeoms IS_SPACE cleanGeomsOf recomputeAABB GEOM_DIRTY
            GEOM_AABB_BAD { s with lock_count := s.lock_count + 1 }).heap GEOM_ENABLED dInfinity
            (ax0idx + 1) (cleanGeoms IS_SPACE cleanGeomsOf recomputeAABB GEOM_DIRTY
            GEOM_AABB_BAD { s with lock_count := s.lock_count + 1 }).GeomList ([], [])).1 ∨
          g ∈ (separate (cleanGeoms IS_SPACE cleanGeomsOf recomputeAABB GEOM_DIRTY
            GEOM_AABB_BAD { s with lock_count := s.lock_count + 1 }).heap GEOM_ENABLED dInfinity
            (ax0idx + 1) (cleanGeoms IS_SPACE cleanGeomsOf recomputeAABB GEOM_DIRTY
            GEOM_AABB_BAD { s with lock_count := s.lock_count + 1 }).GeomList ([], [])).2 →
        P g) :
    CallsAmong P
      (collide toFloat ODE_INFINITY4 RadixSort ax0idx ax1idx ax2idx IS_SPACE cleanGeomsOf
        recomputeAABB GEOM_DIRTY GEOM_AABB_BAD GEOM_ENABLED dInfinity AABBTest
        (some callback) data s).state := by
  have hnil : ∀ sp : dxSAPSpace α, CallsAmong P ({ space := sp, calls := [] } : Pass α δ) :=
    fun sp c hc => absurd hc (List.not_mem_nil c)
  apply post_state
  unfold collide
  simp only
  split
  · exact hnil _
  · unfold collideCleaned
    simp only
    split
    · exact hnil _
    · refine post_bind_unlock (CallsAmong P) (CallsAmong P) (CallsAmong P) _
        (post_bind _ _ _ _ ?_ ?_) (fun p hp => hp)
      · exact collideOverlapping_among callback P GEOM_AABB_BAD AABBTest data _
          (fun g hg => hP g (Or.inl hg)) _ _ (hnil _)
      · exact collideInfinite_among callback P GEOM_AABB_BAD AABBTest data _
          (fun g hg => hP g (Or.inl hg)) _ (fun g hg => hP g (Or.inr hg))

end CallsAmongLemmas

/-! ## The space: the claims on the partition of a pass -/

/-- C27 (as amended): disabled geometries never collide. For every state of the
space and every call-back, both geometries of every invocation of the call-back
made by `collide`, whether the pass returns or fails, have the flag
`GEOM_ENABLED` set in the state that `cleanGeoms` leaves, on which the separation
loop reads it once, whatever their AABBs are; and when the call-back leaves that
flag of every geometry alone, they have it set in the state that the invocation
finds. -/
theorem disabled_never_collide {α δ : Type} [LinearOrder α] (toFloat : α → α)
    (ODE_INFINITY4 : α) (RadixSort : List α → List Nat) (ax0idx ax1idx ax2idx : Nat)
    (IS_SPACE : Nat → Bool)
    (cleanGeomsOf recomputeAABB : Nat → (Nat → dxGeom α) → (Nat → dxGeom α))
    (GEOM_DIRTY GEOM_AABB_BAD GEOM_ENABLED : Nat) (dInfinity : α)
    (AABBTest : Nat → Nat → (Nat → α) → Int)
    (callback : δ → Nat → Nat → dxSAPSpace α → Outcome (dxSAPSpace α)) (data : δ)
    (s : dxSAPSpace α) :
    (∀ c ∈ (collide toFloat ODE_INFINITY4 RadixSort ax0idx ax1idx ax2idx IS_SPACE
          cleanGeomsOf recomputeAABB GEOM_DIRTY GEOM_AABB_BAD GEOM_ENABLED dInfinity AABBTest
          (some callback) data s).state.calls,
      ((cleanGeoms IS_SPACE cleanGeomsOf recomputeAABB GEOM_DIRTY GEOM_AABB_BAD
          { s with lock_count := s.lock_count + 1 }).heap c.2.1).gflags &&& GEOM_ENABLED ≠ 0 ∧
      ((cleanGeoms IS_SPACE cleanGeomsOf recomputeAABB GEOM_DIRTY GEOM_AABB_BAD
          { s with lock_count := s.lock_count + 1 }).heap c.2.2.1).gflags &&& GEOM_ENABLED
        ≠ 0) ∧
    (KeepsEnabled GEOM_ENABLED callback →
      ∀ c ∈ (collide toFloat ODE_INFINITY4 RadixSort ax0idx ax1idx ax2idx IS_SPACE
          cleanGeomsOf recomputeAABB GEOM_DIRTY GEOM_AABB_BAD GEOM_ENABLED dInfinity AABBTest
          (some callback) data s).state.calls,
        (c.2.2.2.heap c.2.1).gflags &&& GEOM_ENABLED ≠ 0 ∧
        (c.2.2.2.heap c.2.2.1).gflags &&& GEOM_ENABLED ≠ 0) := by
  have hfirst := collide_among callback
    (fun g => ((cleanGeoms IS_SPACE cleanGeomsOf recomputeAABB GEOM_DIRTY GEOM_AABB_BAD
      { s with lock_count := s.lock_count + 1 }).heap g).gflags &&& GEOM_ENABLED ≠ 0)
    GEOM_AABB_BAD AABBTest data toFloat ODE_INFINITY4 RadixSort ax0idx ax1idx ax2idx IS_SPACE
    cleanGeomsOf recomputeAABB GEOM_DIRTY GEOM_ENABLED dInfinity s
    (by
      intro g hg
      rcases hg with h | h
      · rcases (mem_separate_fst _ _ _ _ _ _ g).1 h with h1 | h1
        · exact absurd h1 (List.not_mem_nil g)
        · exact h1.2.1
      · rcases (mem_separate_snd _ _ _ _ _ _ g).1 h with h1 | h1
        · exact absurd h1 (List.not_mem_nil g)
        · exact h1.2.1)
  refine ⟨hfirst, ?_⟩
  intro hkeep c hc
  have hpost := collide_post callback
    (fun p : Pass α δ =>
      (∀ g, (p.space.heap g).gflags &&& GEOM_ENABLED =
        ((cleanGeoms IS_SPACE cleanGeomsOf recomputeAABB GEOM_DIRTY GEOM_AABB_BAD
          { s with lock_count := s.lock_count + 1 }).heap g).gflags &&& GEOM_ENABLED) ∧
      ∀ c ∈ p.calls, ∀ g, (c.2.2.2.heap g).gflags &&& GEOM_ENABLED =
        ((cleanGeoms IS_SPACE cleanGeomsOf recomputeAABB GEOM_DIRTY GEOM_AABB_BAD
          { s with lock_count := s.lock_count + 1 }).heap g).gflags &&& GEOM_ENABLED)
    (fun p : Pass α δ =>
      ∀ c ∈ p.calls, ∀ g, (c.2.2.2.heap g).gflags &&& GEOM_ENABLED =
        ((cleanGeoms IS_SPACE cleanGeomsOf recomputeAABB GEOM_DIRTY GEOM_AABB_BAD
          { s with lock_count := s.lock_count + 1 }).heap g).gflags &&& GEOM_ENABLED)
    (fun p : Pass α δ =>
      ∀ c ∈ p.calls, ∀ g, (c.2.2.2.heap g).gflags &&& GEOM_ENABLED =
        ((cleanGeoms IS_SPACE cleanGeomsOf recomputeAABB GEOM_DIRTY GEOM_AABB_BAD
          { s with lock_count := s.lock_count + 1 }).heap g).gflags &&& GEOM_ENABLED)
    toFloat ODE_INFINITY4 RadixSort ax0idx ax1idx ax2idx IS_SPACE cleanGeomsOf recomputeAABB
    GEOM_DIRTY GEOM_AABB_BAD GEOM_ENABLED dInfinity AABBTest data s
    ⟨fun _ => rfl, fun _ h => absurd h (List.not_mem_nil _)⟩
    (fun _ h => h.2)
    (by
      intro p d g1 g2 hJ
      have hlog : ∀ c ∈ p.calls ++ [(d, g1, g2, p.space)], ∀ g,
          (c.2.2.2.heap g).gflags &&& GEOM_ENABLED =
            ((cleanGeoms IS_SPACE cleanGeomsOf recomputeAABB GEOM_DIRTY GEOM_AABB_BAD
              { s with lock_count := s.lock_count + 1 }).heap g).gflags &&& GEOM_ENABLED := by
        intro c hcm g
        rcases List.mem_append.1 hcm with h | h
        · exact hJ.2 c h g
        · rw [List.mem_singleton.1 h]
          exact hJ.1 g
      refine ⟨?_, ?_⟩
      · intro s2 hs2
        refine ⟨?_, hlog⟩
        intro g
        have := hkeep d g1 g2 p.space g
        rw [hs2] at this
        rw [← hJ.1 g]
        exact this
      · intro msg s2 hs2
        exact hlog)
    (fun _ h => h.2)
  have hflag := post_state _ _ hpost c hc
  have h1 := hfirst c hc
  exact ⟨by rw [hflag c.2.1]; exact h1.1, by rw [hflag c.2.2.1]; exact h1.2⟩

/-- C27, witness: the pass over `pausedSpace`, whose cube `2` is disabled, with a
call-back that returns the space as it finds it. The call-back is invoked once,
on the infinite geometry `3` and the cube `1`. -/
theorem disabled_never_collide_witness :
    KeepsEnabled 16
      (fun (_ _ _ : Nat) (st : dxSAPSpace Int) => (Outcome.ok st : Outcome (dxSAPSpace Int))) ∧
    2 ∈ pausedSpace.GeomList ∧ (pausedSpace.heap 2).gflags &&& 16 = 0 ∧
    (collide (fun x => x) 1000000 (fun _ => [0, 1]) 0 2 4 (fun _ => false)
        (fun _ h => h) (fun _ h => h) 1 4 16 2000000 (fun _ _ _ => 1)
        (some (fun (_ _ _ : Nat) (st : dxSAPSpace Int) =>
          (Outcome.ok st : Outcome (dxSAPSpace Int)))) 7 pausedSpace).state.calls.map
      (fun c => (c.2.1, c.2.2.1)) = [(3, 1)] ∧
    ∀ c ∈ (collide (fun x => x) 1000000 (fun _ => [0, 1]) 0 2 4 (fun _ => false)
        (fun _ h => h) (fun _ h => h) 1 4 16 2000000 (fun _ _ _ => 1)
        (some (fun (_ _ _ : Nat) (st : dxSAPSpace Int) =>
          (Outcome.ok st : Outcome (dxSAPSpace Int)))) 7 pausedSpace).state.calls,
      (c.2.2.2.heap c.2.1).gflags &&& 16 ≠ 0 ∧ (c.2.2.2.heap c.2.2.1).gflags &&& 16 ≠ 0 :=
  ⟨fun _ _ _ _ _ => rfl, by decide, by decide, by decide,
   (disabled_never_collide (fun x => x) 1000000 (fun _ => [0, 1]) 0 2 4 (fun _ => false)
    (fun _ h => h) (fun _ h => h) 1 4 16 2000000 (fun _ _ _ => 1) (fun _ _ _ st => .ok st) 7
    pausedSpace).2 (fun _ _ _ _ _ => rfl)⟩

/-- C27, counterexample to the claim as stated: the pass over `mixedSpace`, whose
three geometries are enabled, with the call-back that disables the cube `1`. The
flag is read once, before the first invocation; the call-back is invoked on
`(1,2)`, where it clears the flag of `1`, and then on `(3,1)`, with the cube `1`
whose flag is clear at that moment, and on `(3,2)`. The list gives the two
geometries of every invocation and their flags `GEOM_ENABLED` in the state that
the invocation finds. -/
theorem callback_invoked_with_disabled_geometry :
    (∃ p, collide (fun x => x) 1000000 (fun _ => [0, 1, 2]) 0 2 4 (fun _ => false)
        (fun _ h => h) (fun _ h => h) 1 4 16 2000000 (fun _ _ _ => 1)
        (some (disablingCallback 1)) 7 mixedSpace = .ok p) ∧
    (collide (fun x => x) 1000000 (fun _ => [0, 1, 2]) 0 2 4 (fun _ => false)
        (fun _ h => h) (fun _ h => h) 1 4 16 2000000 (fun _ _ _ => 1)
        (some (disablingCallback 1)) 7 mixedSpace).state.calls.map
      (fun c => (c.2.1, c.2.2.1, (c.2.2.2.heap c.2.1).gflags &&& 16,
        (c.2.2.2.heap c.2.2.1).gflags &&& 16)) =
      [(1, 2, 16, 16), (3, 1, 16, 0), (3, 2, 16, 16)] :=
  ⟨⟨_, rfl⟩, by decide⟩

/-- C28 (as amended): the finite/infinite partition. In `collide` every enabled
member of the clean list is placed in exactly one of the two temporary lists,
and it is placed in the finite one (`TmpGeomList`, the one given to box pruning)
if and only if the maximum of its AABB on the primary sort axis is not
`dInfinity`; the minimum is not looked at. A disabled geometry and a geometry
that is not in the clean list are in neither. -/
theorem finite_infinite_partition {α : Type} [DecidableEq α] (heap : Nat → dxGeom α)
    (GEOM_ENABLED : Nat) (dInfinity : α) (ax0idx : Nat) (GeomList : List Nat) (g : Nat) :
    (g ∈ GeomList → (heap g).gflags &&& GEOM_ENABLED ≠ 0 →
      ((g ∈ (separate heap GEOM_ENABLED dInfinity (ax0idx + 1) GeomList ([], [])).1 ∧
          g ∉ (separate heap GEOM_ENABLED dInfinity (ax0idx + 1) GeomList ([], [])).2) ∨
        (g ∉ (separate heap GEOM_ENABLED dInfinity (ax0idx + 1) GeomList ([], [])).1 ∧
          g ∈ (separate heap GEOM_ENABLED dInfinity (ax0idx + 1) GeomList ([], [])).2)) ∧
      (g ∈ (separate heap GEOM_ENABLED dInfinity (ax0idx + 1) GeomList ([], [])).1 ↔
        (heap g).aabb (ax0idx + 1) ≠ dInfinity)) ∧
    (g ∈ (separate heap GEOM_ENABLED dInfinity (ax0idx + 1) GeomList ([], [])).1 ∨
        g ∈ (separate heap GEOM_ENABLED dInfinity (ax0idx + 1) GeomList ([], [])).2 →
      g ∈ GeomList ∧ (heap g).gflags &&& GEOM_ENABLED ≠ 0) := by
  have h1 := mem_separate_fst heap GEOM_ENABLED dInfinity (ax0idx + 1) GeomList ([], []) g
  have h2 := mem_separate_snd heap GEOM_ENABLED dInfinity (ax0idx + 1) GeomList ([], []) g
  simp only [List.not_mem_nil, false_or] at h1 h2
  refine ⟨?_, ?_⟩
  · intro hm hen
    rw [h1, h2]
    by_cases hinf : (heap g).aabb (ax0idx + 1) = dInfinity
    · exact ⟨Or.inr ⟨fun h => h.2.2 hinf, hm, hen, hinf⟩,
        ⟨fun h => h.2.2, fun h => absurd hinf h⟩⟩
    · exact ⟨Or.inl ⟨⟨hm, hen, hinf⟩, fun h => hinf h.2.2⟩,
        ⟨fun h => h.2.2, fun h => ⟨hm, hen, h⟩⟩⟩
  · rw [h1, h2]
    rintro (h | h)
    · exact ⟨h.1, h.2.1⟩
    · exact ⟨h.1, h.2.1⟩

/-- C28, witness: the clean cube `3` of `liveSpace`, whose maximum on the first
axis is `11`. -/
theorem finite_infinite_partition_witness :
    ((3 ∈ (separate liveSpace.heap 16 2000000 (0 + 1) [3] ([], [])).1 ∧
        3 ∉ (separate liveSpace.heap 16 2000000 (0 + 1) [3] ([], [])).2) ∨
      (3 ∉ (separate liveSpace.heap 16 2000000 (0 + 1) [3] ([], [])).1 ∧
        3 ∈ (separate liveSpace.heap 16 2000000 (0 + 1) [3] ([], [])).2)) ∧
    (3 ∈ (separate liveSpace.heap 16 2000000 (0 + 1) [3] ([], [])).1 ↔
      (liveSpace.heap 3).aabb (0 + 1) ≠ 2000000) :=
  (finite_infinite_partition liveSpace.heap 16 2000000 0 [3] 3).1 (by decide) (by decide)

/-- C28, counterexample to the claim as stated: with `dInfinity = 2000000`, the
enabled geometry `halfSpaceGeom`, whose AABB on the primary axis goes from
`-dInfinity` to `5`, is placed in the finite list although its minimum is not
finite. -/
theorem unbounded_minimum_in_finite_set :
    halfSpaceGeom.gflags &&& 16 ≠ 0 ∧ halfSpaceGeom.aabb 0 = -2000000 ∧
    separate (fun _ => halfSpaceGeom) 16 (2000000 : Int) (0 + 1) [1] ([], []) = ([1], []) := by
  decide

/-! ## Box pruning: touching boxes -/

/-- `BoxPruning` returns, and reports every pair of boxes whose closed intervals
intersect on the three sort axes, when the cast to `float` leaves the keys
unchanged. -/
theorem BoxPruning_complete {α : Type} [LinearOrder α] (toFloat : α → α) (ODE_INFINITY4 : α)
    (RadixSort : List α → List Nat) (ax0idx ax1idx ax2idx : Nat)
    (geoms : List (dxGeom α))
    (hax : ax0idx + 1 < 6 ∧ ax1idx + 1 < 6 ∧ ax2idx + 1 < 6)
    (hfin : ∀ g ∈ geoms, g.aabb ax0idx < ODE_INFINITY4 ∧ g.aabb (ax0idx + 1) < ODE_INFINITY4)
    (hexact : ∀ g ∈ geoms, toFloat (g.aabb ax0idx) = g.aabb ax0idx)
    (hperm : (RadixSort (buildPoslist toFloat ODE_INFINITY4 ax0idx geoms)).Perm
      (List.range (geoms.length + 1)))
    (hasc : SortsAscending (buildPoslist toFloat ODE_INFINITY4 ax0idx geoms)
      (RadixSort (buildPoslist toFloat ODE_INFINITY4 ax0idx geoms))) :
    ∃ pairs, BoxPruning toFloat ODE_INFINITY4 RadixSort ax0idx ax1idx ax2idx geoms
        = some pairs ∧
      ∀ i j gi gj, geoms[i]? = some gi → geoms[j]? = some gj → i ≠ j →
        overlapOn ax0idx gi gj → overlapOn ax1idx gi gj → overlapOn ax2idx gi gj →
        (⟨i, j⟩ : Pair) ∈ pairs ∨ (⟨j, i⟩ : Pair) ∈ pairs := by
  have hsentpos := buildPoslist_getElem?_length toFloat ODE_INFINITY4 ax0idx geoms
  have hnodup : (RadixSort (buildPoslist toFloat ODE_INFINITY4 ax0idx geoms)).Nodup :=
    hperm.nodup_iff.2 (List.nodup_range _)
  have hmemS : ∀ x, x ∈ RadixSort (buildPoslist toFloat ODE_INFINITY4 ax0idx geoms) ↔
      x < geoms.length + 1 := by
    intro x
    rw [hperm.mem_iff, List.mem_range]
  have hlookup : ∀ x, x < geoms.length → ∃ g, geoms[x]? = some g ∧ g ∈ geoms := by
    intro x hx
    exact ⟨geoms[x], List.getElem?_eq_getElem hx, List.getElem_mem hx⟩
  obtain ⟨pairs, hpairs, hmem⟩ := pruneLoop_complete
    (buildPoslist toFloat ODE_INFINITY4 ax0idx geoms) geoms ax0idx ax1idx ax2idx
    geoms.length ODE_INFINITY4 hsentpos
    (RadixSort (buildPoslist toFloat ODE_INFINITY4 ax0idx geoms)) [] hasc hnodup
    (fun _ => (hmemS _).2 (Nat.lt_succ_self _))
    (by
      intro x hx hxs
      have hxlt : x < geoms.length := by
        have := (hmemS x).1 hx
        omega
      obtain ⟨g, hg, hgm⟩ := hlookup x hxlt
      refine ⟨g, hg, (hfin g hgm).2, toFloat (g.aabb ax0idx),
        buildPoslist_getElem?_lt toFloat ODE_INFINITY4 ax0idx geoms x g hg, ?_⟩
      rw [hexact g hgm]
      exact (hfin g hgm).1)
  have hlen : (RadixSort (buildPoslist toFloat ODE_INFINITY4 ax0idx geoms)).length
      = geoms.length + 1 := by
    rw [hperm.length_eq, List.length_range]
  refine ⟨pairs, ?_, ?_⟩
  · unfold BoxPruning
    simp only [List.nil_append, List.length_nil, hlen] at hpairs
    exact hpairs
  · intro i j gi gj hgi hgj hij h0 h1 h2
    have hilt : i < geoms.length := by
      rcases Nat.lt_or_ge i geoms.length with h | h
      · exact h
      · rw [List.getElem?_eq_none h] at hgi; cases hgi
    have hjlt : j < geoms.length := by
      rcases Nat.lt_or_ge j geoms.length with h | h
      · exact h
      · rw [List.getElem?_eq_none h] at hgj; cases hgj
    have hgim : gi ∈ geoms := List.getElem?_mem hgi
    have hgjm : gj ∈ geoms := List.getElem?_mem hgj
    refine hmem i ((hmemS i).2 (by omega)) j ((hmemS j).2 (by omega)) hij gi gj
      (toFloat (gi.aabb ax0idx)) (toFloat (gj.aabb ax0idx)) hgi hgj
      (buildPoslist_getElem?_lt toFloat ODE_INFINITY4 ax0idx geoms i gi hgi)
      (buildPoslist_getElem?_lt toFloat ODE_INFINITY4 ax0idx geoms j gj hgj) ?_ ?_ h1 h2
    · rw [hexact gj hgjm]; exact h0.2
    · rw [hexact gi hgim]; exact h0.1

theorem overlapOn_of_touchOn {α : Type} [LinearOrder α] (axidx : Nat) (g h : dxGeom α)
    (ht : TouchOn axidx g h) : overlapOn axidx g h := by
  obtain ⟨⟨hg, hh⟩, h1 | h1⟩ := ht
  · exact ⟨by rw [h1] at hg; exact le_trans hg hh, le_of_eq h1.symm⟩
  · exact ⟨le_of_eq h1.symm, by rw [h1] at hh; exact le_trans hh hg⟩

/-- C30 (as amended): touching boxes are reported when the cast to `float` leaves
every primary-axis minimum unchanged. For boxes whose primary-axis coordinates
lie below the sentinel and a sorter that returns a permutation of `0..n` listing
`poslist` in ascending order, `BoxPruning` returns a pair list, and for every
two distinct boxes `i`, `j` whose closed intervals touch on one of the three sort
axes (the maximum of one is the minimum of the other, zero-width boxes included)
and intersect on the two others, the list contains `(i,j)` or `(j,i)`. -/
theorem touching_boxes_reported {α : Type} [LinearOrder α] (toFloat : α → α)
    (ODE_INFINITY4 : α) (RadixSort : List α → List Nat) (ax0idx ax1idx ax2idx : Nat)
    (geoms : List (dxGeom α))
    (hax : ax0idx + 1 < 6 ∧ ax1idx + 1 < 6 ∧ ax2idx + 1 < 6)
    (hfin : ∀ g ∈ geoms, g.aabb ax0idx < ODE_INFINITY4 ∧ g.aabb (ax0idx + 1) < ODE_INFINITY4)
    (hexact : ∀ g ∈ geoms, toFloat (g.aabb ax0idx) = g.aabb ax0idx)
    (hperm : (RadixSort (buildPoslist toFloat ODE_INFINITY4 ax0idx geoms)).Perm
      (List.range (geoms.length + 1)))
    (hasc : SortsAscending (buildPoslist toFloat ODE_INFINITY4 ax0idx geoms)
      (RadixSort (buildPoslist toFloat ODE_INFINITY4 ax0idx geoms))) :
    ∃ pairs, BoxPruning toFloat ODE_INFINITY4 RadixSort ax0idx ax1idx ax2idx geoms
        = some pairs ∧
      ∀ i j gi gj, geoms[i]? = some gi → geoms[j]? = some gj → i ≠ j →
        ((TouchOn ax0idx gi gj ∧ overlapOn ax1idx gi gj ∧ overlapOn ax2idx gi gj) ∨
          (overlapOn ax0idx gi gj ∧ TouchOn ax1idx gi gj ∧ overlapOn ax2idx gi gj) ∨
          (overlapOn ax0idx gi gj ∧ overlapOn ax1idx gi gj ∧ TouchOn ax2idx gi gj)) →
        (⟨i, j⟩ : Pair) ∈ pairs ∨ (⟨j, i⟩ : Pair) ∈ pairs := by
  obtain ⟨pairs, hp, hall⟩ := BoxPruning_complete toFloat ODE_INFINITY4 RadixSort ax0idx ax1idx
    ax2idx geoms hax hfin hexact hperm hasc
  refine ⟨pairs, hp, ?_⟩
  intro i j gi gj hgi hgj hij ht
  rcases ht with ⟨h0, h1, h2⟩ | ⟨h0, h1, h2⟩ | ⟨h0, h1, h2⟩
  · exact hall i j gi gj hgi hgj hij (overlapOn_of_touchOn _ _ _ h0) h1 h2
  · exact hall i j gi gj hgi hgj hij h0 (overlapOn_of_touchOn _ _ _ h1) h2
  · exact hall i j gi gj hgi hgj hij h0 h1 (overlapOn_of_touchOn _ _ _ h2)

/-- C30, witness: a cube and a zero-width box that touches it on the primary
axis, in a single-precision build (the cast is the identity), index array
`0,1,2`. -/
theorem touching_boxes_reported_witness :
    TouchOn 0 (mkBoxT 0 7 0 7 0 7) (mkBoxT 7 7 1 2 3 4) ∧
    (∃ pairs, BoxPruning id (⊤ : WithTop Int) (fun _ => [0, 1, 2]) 0 2 4
        [mkBoxT 0 7 0 7 0 7, mkBoxT 7 7 1 2 3 4] = some pairs ∧
      ∀ i j gi gj, [mkBoxT 0 7 0 7 0 7, mkBoxT 7 7 1 2 3 4][i]? = some gi →
        [mkBoxT 0 7 0 7 0 7, mkBoxT 7 7 1 2 3 4][j]? = some gj → i ≠ j →
        ((TouchOn 0 gi gj ∧ overlapOn 2 gi gj ∧ overlapOn 4 gi gj) ∨
          (overlapOn 0 gi gj ∧ TouchOn 2 gi gj ∧ overlapOn 4 gi gj) ∨
          (overlapOn 0 gi gj ∧ overlapOn 2 gi gj ∧ TouchOn 4 gi gj)) →
        (⟨i, j⟩ : Pair) ∈ pairs ∨ (⟨j, i⟩ : Pair) ∈ pairs) :=
  ⟨by decide,
   touching_boxes_reported id (⊤ : WithTop Int) (fun _ => [0, 1, 2]) 0 2 4
    [mkBoxT 0 7 0 7 0 7, mkBoxT 7 7 1 2 3 4] (by decide) (by decide) (by decide)
    (by decide) (by decide)⟩

/-- C30, counterexample to the claim as stated: with double-precision boxes
`A = [0,16777223]x[0,5]x[0,5]` and `B = [16777223,16777300]x[1,2]x[3,4]`, which
touch on the primary axis and overlap on the two others, the key of `B` is
`(float)16777223 = 16777224 > max_A`; the index array `0,1,2` is a permutation
that lists the keys in ascending order, and `BoxPruning` reports no pair. -/
theorem BoxPruning_drops_touching_pair_under_rounding :
    ([0, 1, 2] : List Nat).Perm (List.range 3) ∧
    SortsAscending (buildPoslist (WithTop.map roundSingle) ⊤ 0
      [mkBoxT 0 16777223 0 5 0 5, mkBoxT 16777223 16777300 1 2 3 4]) [0, 1, 2] ∧
    TouchOn 0 (mkBoxT 0 16777223 0 5 0 5) (mkBoxT 16777223 16777300 1 2 3 4) ∧
    overlapOn 2 (mkBoxT 0 16777223 0 5 0 5) (mkBoxT 16777223 16777300 1 2 3 4) ∧
    overlapOn 4 (mkBoxT 0 16777223 0 5 0 5) (mkBoxT 16777223 16777300 1 2 3 4) ∧
    BoxPruning (WithTop.map roundSingle) (⊤ : WithTop Int) (fun _ => [0, 1, 2]) 0 2 4
      [mkBoxT 0 16777223 0 5 0 5, mkBoxT 16777223 16777300 1 2 3 4] = some [] := by
  decide

/-! ## The convex shape: bounding box and edge set -/

section ConvexAABBLemmas

variable {α : Type} [LinearOrderedField α]

theorem dMIN_le_left {β : Type} [LinearOrder β] (a b : β) : dMIN a b ≤ a := by
  unfold dMIN
  split
  · rename_i h; exact le_of_lt h
  · exact le_refl _

theorem dMIN_le_right {β : Type} [LinearOrder β] (a b : β) : dMIN a b ≤ b := by
  unfold dMIN
  split
  · exact le_refl _
  · rename_i h; exact not_lt.1 h

theorem dMIN_cases {β : Type} [LinearOrder β] (a b : β) : dMIN a b = a ∨ dMIN a b = b := by
  unfold dMIN
  split
  · exact Or.inr rfl
  · exact Or.inl rfl

theorem le_dMAX_left {β : Type} [LinearOrder β] (a b : β) : a ≤ dMAX a b := by
  unfold dMAX
  split
  · exact le_refl _
  · rename_i h; exact not_lt.1 h

theorem le_dMAX_right {β : Type} [LinearOrder β] (a b : β) : b ≤ dMAX a b := by
  unfold dMAX
  split
  · rename_i h; exact le_of_lt h
  · exact le_refl _

theorem dMAX_cases {β : Type} [LinearOrder β] (a b : β) : dMAX a b = a ∨ dMAX a b = b := by
  unfold dMAX
  split
  · exact Or.inl rfl
  · exact Or.inr rfl

/-- One pass of the loop body of `computeAABB` on the vertex `v`: the six entries
after it. -/
theorem computeAABBLoop_succ (cvx : dxConvex α) (rem v : Nat) (aabb : Nat → α) :
    ∃ aabb2 : Nat → α,
      computeAABBLoop cvx (rem + 1) (v * 3) aabb = computeAABBLoop cvx rem ((v + 1) * 3) aabb2 ∧
      ∀ k, k < 3 → aabb2 (2 * k) = dMIN (aabb (2 * k)) (worldCoord cvx v k) ∧
        aabb2 (2 * k + 1) = dMAX (aabb (2 * k + 1)) (worldCoord cvx v k) := by
  have hidx : v * 3 + 3 = (v + 1) * 3 := by ring
  rw [computeAABBLoop, hidx]
  refine ⟨_, rfl, ?_⟩
  intro k hk
  interval_cases k <;> simp [Function.update_apply, worldCoord]

/-- The loop of `computeAABB` keeps, on every axis, the least and the greatest
coordinate of the vertices seen so far. -/
theorem computeAABBLoop_spec (cvx : dxConvex α) (rem : Nat) :
    ∀ (v : Nat) (aabb : Nat → α),
      (∀ k, k < 3 →
        (∀ u, u < v → aabb (2 * k) ≤ worldCoord cvx u k ∧
          worldCoord cvx u k ≤ aabb (2 * k + 1)) ∧
        (∃ u, u < v ∧ aabb (2 * k) = worldCoord cvx u k) ∧
        (∃ u, u < v ∧ aabb (2 * k + 1) = worldCoord cvx u k)) →
      ∀ k, k < 3 →
        (∀ u, u < v + rem →
          computeAABBLoop cvx rem (v * 3) aabb (2 * k) ≤ worldCoord cvx u k ∧
          worldCoord cvx u k ≤ computeAABBLoop cvx rem (v * 3) aabb (2 * k + 1)) ∧
        (∃ u, u < v + rem ∧
          computeAABBLoop cvx rem (v * 3) aabb (2 * k) = worldCoord cvx u k) ∧
        (∃ u, u < v + rem ∧
          computeAABBLoop cvx rem (v * 3) aabb (2 * k + 1) = worldCoord cvx u k) := by
  induction rem with
  | zero =>
    intro v aabb h k hk
    exact h k hk
  | succ rem ih =>
    intro v aabb h k hk
    obtain ⟨aabb2, hrun, hval⟩ := computeAABBLoop_succ cvx rem v aabb
    have hidx : v + (rem + 1) = v + 1 + rem := by omega
    rw [hrun, hidx]
    refine ih (v + 1) aabb2 ?_ k hk
    intro k2 hk2
    obtain ⟨hb, ⟨u0, hu0, hmin⟩, ⟨u1, hu1, hmax⟩⟩ := h k2 hk2
    obtain ⟨e0, e1⟩ := hval k2 hk2
    rw [e0, e1]
    refine ⟨?_, ?_, ?_⟩
    · intro u hu
      by_cases huv : u = v
      · rw [huv]
        exact ⟨dMIN_le_right _ _, le_dMAX_right _ _⟩
      · exact ⟨le_trans (dMIN_le_left _ _) (hb u (by omega)).1,
          le_trans (hb u (by omega)).2 (le_dMAX_left _ _)⟩
    · rcases dMIN_cases (aabb (2 * k2)) (worldCoord cvx v k2) with hc | hc
      · exact ⟨u0, by omega, by rw [hc]; exact hmin⟩
      · exact ⟨v, by omega, hc⟩
    · rcases dMAX_cases (aabb (2 * k2 + 1)) (worldCoord cvx v k2) with hc | hc
      · exact ⟨u1, by omega, by rw [hc]; exact hmax⟩
      · exact ⟨v, by omega, hc⟩

end ConvexAABBLemmas

section ConvexEdgesLemmas

theorem mem_setInsert (e a : Nat × Nat) (l : List (Nat × Nat)) :
    a ∈ setInsert e l ↔ a = e ∨ a ∈ l := by
  induction l with
  | nil => simp [setInsert]
  | cons x xs ih =>
    unfold setInsert
    split
    · rename_i h
      rw [h]
      constructor
      · exact fun hm => Or.inr hm
      · rintro (hm | hm)
        · rw [hm]; exact List.mem_cons_self _ _
        · exact hm
    · split
      · exact List.mem_cons
      · rw [List.mem_cons, ih, List.mem_cons]
        constructor
        · rintro (h | h | h)
          · exact Or.inr (Or.inl h)
          · exact Or.inl h
          · exact Or.inr (Or.inr h)
        · rintro (h | h | h)
          · exact Or.inr (Or.inl h)
          · exact Or.inl h
          · exact Or.inr (Or.inr h)

/-- `setInsert` keeps the set in strictly ascending order. -/
theorem setInsert_sorted (e : Nat × Nat) (l : List (Nat × Nat))
    (h : l.Pairwise (fun a b => a.1 < b.1 ∨ (a.1 = b.1 ∧ a.2 < b.2))) :
    (setInsert e l).Pairwise (fun a b => a.1 < b.1 ∨ (a.1 = b.1 ∧ a.2 < b.2)) := by
  induction l with
  | nil => simp [setInsert]
  | cons x xs ih =>
    obtain ⟨hx, hxs⟩ := List.pairwise_cons.1 h
    unfold setInsert
    split
    · exact h
    · rename_i hne
      split
      · rename_i hlt
        refine List.pairwise_cons.2 ⟨?_, h⟩
        intro y hy
        rcases List.mem_cons.1 hy with h1 | h1
        · rw [h1]; exact hlt
        · have := hx y h1
          omega
      · rename_i hnlt
        refine List.pairwise_cons.2 ⟨?_, ih hxs⟩
        intro y hy
        rcases (mem_setInsert e y xs).1 hy with h1 | h1
        · rw [h1]
          have hne2 : ¬ (e.1 = x.1 ∧ e.2 = x.2) := fun hc => hne (Prod.ext hc.1 hc.2)
          omega
        · exact hx y h1

theorem sorted_nodup (l : List (Nat × Nat))
    (h : l.Pairwise (fun a b => a.1 < b.1 ∨ (a.1 = b.1 ∧ a.2 < b.2))) : l.Nodup := by
  refine List.Pairwise.imp ?_ h
  intro a b hlt heq
  rw [heq] at hlt
  omega

theorem dMIN_eq_min (a b : Nat) : dMIN a b = min a b := by
  unfold dMIN
  split <;> omega

theorem dMAX_eq_max (a b : Nat) : dMAX a b = max a b := by
  unfold dMAX
  split <;> omega

theorem fillPolygonEdges_mem (polygons : Nat → Nat) (p : Nat) (e : Nat × Nat) (rem : Nat) :
    ∀ (j : Nat) (edges : List (Nat × Nat)),
      e ∈ fillPolygonEdges polygons p rem j edges ↔
        e ∈ edges ∨ ∃ i, j ≤ i ∧ i < j + rem ∧ e = polygonEdge polygons p i := by
  induction rem with
  | zero =>
    intro j edges
    constructor
    · exact fun h => Or.inl h
    · rintro (h | ⟨i, h1, h2, _⟩)
      · exact h
      · omega
  | succ rem ih =>
    intro j edges
    rw [fillPolygonEdges, ih, mem_setInsert]
    have hedge : (dMIN (offset polygons (p + 1) j)
        (offset polygons (p + 1) ((j + 1) % polygons p)),
        dMAX (offset polygons (p + 1) j)
          (offset polygons (p + 1) ((j + 1) % polygons p))) = polygonEdge polygons p j := by
      rw [dMIN_eq_min, dMAX_eq_max]
      rfl
    rw [hedge]
    constructor
    · rintro ((h | h) | ⟨i, h1, h2, h3⟩)
      · exact Or.inr ⟨j, le_refl _, by omega, h⟩
      · exact Or.inl h
      · exact Or.inr ⟨i, by omega, by omega, h3⟩
    · rintro (h | ⟨i, h1, h2, h3⟩)
      · exact Or.inl (Or.inr h)
      · by_cases hij : i = j
        · rw [hij] at h3
          exact Or.inl (Or.inl h3)
        · exact Or.inr ⟨i, by omega, by omega, h3⟩

theorem fillPolygonEdges_sorted (polygons : Nat → Nat) (p : Nat) (rem : Nat) :
    ∀ (j : Nat) (edges : List (Nat × Nat)),
      edges.Pairwise (fun a b => a.1 < b.1 ∨ (a.1 = b.1 ∧ a.2 < b.2)) →
      (fillPolygonEdges polygons p rem j edges).Pairwise
        (fun a b => a.1 < b.1 ∨ (a.1 = b.1 ∧ a.2 < b.2)) := by
  induction rem with
  | zero => intro j edges h; exact h
  | succ rem ih =>
    intro j edges h
    rw [fillPolygonEdges]
    exact ih _ _ (setInsert_sorted _ _ h)

theorem FillEdgesLoop_mem (polygons : Nat → Nat) (e : Nat × Nat) (rem : Nat) :
    ∀ (p : Nat) (edges : List (Nat × Nat)),
      e ∈ FillEdgesLoop polygons rem p edges ↔
        e ∈ edges ∨ ∃ q, q < rem ∧ ∃ j, j < polygons (skipPolygons polygons q p) ∧
          e = polygonEdge polygons (skipPolygons polygons q p) j := by
  induction rem with
  | zero =>
    intro p edges
    constructor
    · exact fun h => Or.inl h
    · rintro (h | ⟨q, h1, _⟩)
      · exact h
      · omega
  | succ rem ih =>
    intro p edges
    rw [FillEdgesLoop, ih, fillPolygonEdges_mem]
    constructor
    · rintro ((h | ⟨i, _, h2, h3⟩) | ⟨q, h1, j, h2, h3⟩)
      · exact Or.inl h
      · exact Or.inr ⟨0, Nat.succ_pos _, i, by simpa [skipPolygons] using h2, h3⟩
      · exact Or.inr ⟨q + 1, by omega, j, h2, h3⟩
    · rintro (h | ⟨q, h1, j, h2, h3⟩)
      · exact Or.inl (Or.inl h)
      · cases q with
        | zero => exact Or.inl (Or.inr ⟨j, Nat.zero_le _, by simpa [skipPolygons] using h2, h3⟩)
        | succ q => exact Or.inr ⟨q, by omega, j, h2, h3⟩

theorem FillEdgesLoop_sorted (polygons : Nat → Nat) (rem : Nat) :
    ∀ (p : Nat) (edges : List (Nat × Nat)),
      edges.Pairwise (fun a b => a.1 < b.1 ∨ (a.1 = b.1 ∧ a.2 < b.2)) →
      (FillEdgesLoop polygons rem p edges).Pairwise
        (fun a b => a.1 < b.1 ∨ (a.1 = b.1 ∧ a.2 < b.2)) := by
  induction rem with
  | zero => intro p edges h; exact h
  | succ rem ih =>
    intro p edges h
    rw [FillEdgesLoop]
    exact ih _ _ (fillPolygonEdges_sorted _ _ _ _ _ h)

end ConvexEdgesLemmas

/-! ## The convex shape: the claims -/

/-- C29: the AABB of a convex is the tight bound of its vertices. For every
convex with `pointcount >= 1`, after `computeAABB` the entry `aabb[2k]` is the
least and `aabb[2k+1]` the greatest, over the vertices `v`, of coordinate `k` of
`R*v + pos` (a bound of all, attained by one); hence `aabb[2k] <= aabb[2k+1]`
and every world-space vertex lies inside the box. -/
theorem convex_aabb_tight {α : Type} [LinearOrderedField α] (cvx : dxConvex α)
    (aabb : Nat → α) (hp : 1 ≤ cvx.pointcount) (k : Nat) (hk : k < 3) :
    (∀ v, v < cvx.pointcount →
      computeAABB cvx aabb (2 * k) ≤ worldCoord cvx v k ∧
      worldCoord cvx v k ≤ computeAABB cvx aabb (2 * k + 1)) ∧
    (∃ v, v < cvx.pointcount ∧ computeAABB cvx aabb (2 * k) = worldCoord cvx v k) ∧
    (∃ v, v < cvx.pointcount ∧ computeAABB cvx aabb (2 * k + 1) = worldCoord cvx v k) ∧
    computeAABB cvx aabb (2 * k) ≤ computeAABB cvx aabb (2 * k + 1) := by
  have h := computeAABBLoop_spec cvx (cvx.pointcount - 1) 1
    (Function.update (Function.update (Function.update (Function.update (Function.update
      (Function.update aabb 0
        (dMULTIPLY0_331 (fun _ => 0) cvx.final_posr.R cvx.points 0 + cvx.final_posr.pos 0))
      1 (dMULTIPLY0_331 (fun _ => 0) cvx.final_posr.R cvx.points 0 + cvx.final_posr.pos 0))
      2 (dMULTIPLY0_331 (fun _ => 0) cvx.final_posr.R cvx.points 1 + cvx.final_posr.pos 1))
      3 (dMULTIPLY0_331 (fun _ => 0) cvx.final_posr.R cvx.points 1 + cvx.final_posr.pos 1))
      4 (dMULTIPLY0_331 (fun _ => 0) cvx.final_posr.R cvx.points 2 + cvx.final_posr.pos 2))
      5 (dMULTIPLY0_331 (fun _ => 0) cvx.final_posr.R cvx.points 2 + cvx.final_posr.pos 2))
    (by
      intro k2 hk2
      have hoff : offset cvx.points (0 * 3) = cvx.points := by
        funext j
        simp [offset]
      have hval : ∀ u, u < 1 → worldCoord cvx u k2 =
          dMULTIPLY0_331 (fun _ => 0) cvx.final_posr.R cvx.points k2 +
            cvx.final_posr.pos k2 := by
        intro u hu
        have hu0 : u = 0 := by omega
        rw [hu0, worldCoord, hoff]
      refine ⟨?_, ⟨0, Nat.one_pos, ?_⟩, ⟨0, Nat.one_pos, ?_⟩⟩
      · intro u hu
        rw [hval u hu]
        interval_cases k2 <;> simp [Function.update_apply]
      · rw [hval 0 Nat.one_pos]
        interval_cases k2 <;> simp [Function.update_apply]
      · rw [hval 0 Nat.one_pos]
        interval_cases k2 <;> simp [Function.update_apply])
    k hk
  have hidx : 1 + (cvx.pointcount - 1) = cvx.pointcount := by omega
  rw [hidx] at h
  obtain ⟨hb, hmin, hmax⟩ := h
  exact ⟨hb, hmin, hmax, le_trans (hb 0 hp).1 (hb 0 hp).2⟩

/-- C29, witness: the unit cube at `(3,0,0)`, on the first axis. -/
theorem convex_aabb_tight_witness :
    1 ≤ (cubeConvex (1 / 2) (fun k => if k = 0 then 3 else 0) []).pointcount ∧
    (∀ v, v < 8 →
      computeAABB (cubeConvex (1 / 2) (fun k => if k = 0 then 3 else 0) []) (fun _ => 0)
          (2 * 0) ≤
        worldCoord (cubeConvex (1 / 2) (fun k => if k = 0 then 3 else 0) []) v 0 ∧
      worldCoord (cubeConvex (1 / 2) (fun k => if k = 0 then 3 else 0) []) v 0 ≤
        computeAABB (cubeConvex (1 / 2) (fun k => if k = 0 then 3 else 0) []) (fun _ => 0)
          (2 * 0 + 1)) :=
  ⟨by decide,
   (convex_aabb_tight (cubeConvex (1 / 2) (fun k => if k = 0 then 3 else 0) []) (fun _ => 0)
    (by decide) 0 (by decide)).1⟩

/-- C25, the code at the failing input: a convex created as the cube with its
vertices in binary order and then given, by `dGeomSetConvex`, the same cube with
its vertices numbered around the faces. The edge set is still the one of the
first polygon buffer: the pair `(1,2)`, an edge of the new buffer, is missing,
and the pair `(0,2)`, a diagonal in the new buffer, is still there. -/
theorem dGeomSetConvex_keeps_old_edges :
    (dGeomSetConvex
        (dCreateConvex { pos := fun _ => 0, R := identityR } (cubePlanes (1 / 2)) 6
          (cubePoints (1 / 2)) 8 cubePolygons)
        (cubePlanes (1 / 2)) 6 (ringPoints (1 / 2)) 8 ringPolygons).edges =
      [(0, 1), (0, 2), (0, 4), (1, 3), (1, 5), (2, 3), (2, 6), (3, 7), (4, 5), (4, 6), (5, 7),
        (6, 7)] ∧
    IsPolygonEdge ringPolygons 6 (1, 2) ∧ ¬ IsPolygonEdge ringPolygons 6 (0, 2) := by
  refine ⟨by decide, by decide, by decide⟩

/-- C26: `FillEdges` builds the unique unordered edges. For every polygon buffer
of `planecount` polygons, the edge set of the convex that the constructor builds
holds exactly the pairs `(min(a,b), max(a,b))` of two cyclically consecutive
indices `a`, `b` of one of the polygons; every stored edge has its first index
at most its second, and no edge is stored twice. -/
theorem fill_edges_unique {α : Type} (final_posr : dxPosR α) (_planes : Nat → α)
    (_planecount : Nat) (_points : Nat → α) (_pointcount : Nat) (_polygons : Nat → Nat) :
    (∀ e, e ∈ (dCreateConvex final_posr _planes _planecount _points _pointcount
        _polygons).edges ↔ IsPolygonEdge _polygons _planecount e) ∧
    (∀ e, e ∈ (dCreateConvex final_posr _planes _planecount _points _pointcount
        _polygons).edges → e.1 ≤ e.2) ∧
    (dCreateConvex final_posr _planes _planecount _points _pointcount
        _polygons).edges.Nodup := by
  have hmem : ∀ e, e ∈ (dCreateConvex final_posr _planes _planecount _points _pointcount
      _polygons).edges ↔ IsPolygonEdge _polygons _planecount e := by
    intro e
    show e ∈ FillEdgesLoop _polygons _planecount 0 [] ↔ _
    rw [FillEdgesLoop_mem]
    simp only [List.not_mem_nil, false_or]
    rfl
  refine ⟨hmem, ?_, ?_⟩
  · intro e he
    obtain ⟨q, _, j, _, hej⟩ := (hmem e).1 he
    rw [hej]
    exact le_trans (min_le_left _ _) (le_max_left _ _)
  · exact sorted_nodup _ (FillEdgesLoop_sorted _ _ _ _ List.Pairwise.nil)

/-- C26, witness: the cube (6 quads) yields 12 edges. -/
theorem fill_edges_unique_witness :
    (dCreateConvex { pos := fun _ => 0, R := identityR } (cubePlanes (1 / 2)) 6
        (cubePoints (1 / 2)) 8 cubePolygons).edges.Nodup ∧
    (dCreateConvex { pos := fun _ => 0, R := identityR } (cubePlanes (1 / 2)) 6
        (cubePoints (1 / 2)) 8 cubePolygons).edges.length = 12 :=
  ⟨(fill_edges_unique { pos := fun _ => 0, R := identityR } (cubePlanes (1 / 2)) 6
      (cubePoints (1 / 2)) 8 cubePolygons).2.2, by decide⟩

/-! ## The ray collider -/

section RayLemmas

variable {α : Type} [LinearOrderedField α]

theorem rayStartLoop_outside (ray : dxRay α) (convex : dxConvex α) (rem : Nat) :
    ∀ i, (∃ j, i ≤ j ∧ j < i + rem ∧ 0 ≤ rayAlpha ray convex j) →
      rayStartLoop ray convex rem i = 1 := by
  induction rem with
  | zero =>
    intro i ⟨j, h1, h2, _⟩
    omega
  | succ rem ih =>
    intro i ⟨j, h1, h2, h3⟩
    rw [rayStartLoop]
    by_cases h : 0 ≤ rayAlpha ray convex i
    · exact if_pos h
    · have hji : j ≠ i := fun hc => h (hc ▸ h3)
      exact (if_neg h).trans (ih (i + 1) ⟨j, by omega, by omega, h3⟩)

theorem rayStartLoop_inside (ray : dxRay α) (convex : dxConvex α) (rem : Nat) :
    ∀ i, (∀ j, i ≤ j → j < i + rem → rayAlpha ray convex j < 0) →
      rayStartLoop ray convex rem i = 0 := by
  induction rem with
  | zero => intro i _; rfl
  | succ rem ih =>
    intro i h
    rw [rayStartLoop]
    have h0 : ¬ (0 ≤ rayAlpha ray convex i) := not_le.2 (h i (le_refl _) (by omega))
    exact (if_neg h0).trans (ih (i + 1) (fun j h1 h2 => h j (by omega) (by omega)))

theorem rayOtherPlanesLoop_zero (dEpsilon : α) (convex : dxConvex α) (plane pos : Nat → α)
    (i : Nat) (rem : Nat) :
    ∀ j0, (∀ j, j0 ≤ j → j < j0 + rem → j ≠ i →
        dDOT (offset convex.planes (j * 4)) pos - plane 3 ≤ dEpsilon) →
      rayOtherPlanesLoop dEpsilon convex plane pos i rem j0 = 0 := by
  induction rem with
  | zero => intro j0 _; rfl
  | succ rem ih =>
    intro j0 h
    have hrest := ih (j0 + 1) (fun j h1 h2 => h j (by omega) (by omega))
    rw [rayOtherPlanesLoop]
    by_cases hij : i = j0
    · rw [if_pos hij]
      exact hrest
    · rw [if_neg hij]
      have := h j0 (le_refl _) (by omega) (fun hc => hij hc.symm)
      simp only
      rw [if_neg (not_lt.2 this)]
      exact hrest

theorem rayOtherPlanesLoop_one (dEpsilon : α) (convex : dxConvex α) (plane pos : Nat → α)
    (i : Nat) (rem : Nat) :
    ∀ j0, (∃ j, j0 ≤ j ∧ j < j0 + rem ∧ j ≠ i ∧
        dEpsilon < dDOT (offset convex.planes (j * 4)) pos - plane 3) →
      rayOtherPlanesLoop dEpsilon convex plane pos i rem j0 = 1 := by
  induction rem with
  | zero =>
    intro j0 ⟨j, h1, h2, _⟩
    omega
  | succ rem ih =>
    intro j0 ⟨j, h1, h2, h3, h4⟩
    rw [rayOtherPlanesLoop]
    by_cases hij : i = j0
    · rw [if_pos hij]
      exact ih (j0 + 1) ⟨j, by omega, by omega, h3, h4⟩
    · rw [if_neg hij]
      simp only
      by_cases hb : dEpsilon < dDOT (offset convex.planes (j0 * 4)) pos - plane 3
      · rw [if_pos hb]
      · rw [if_neg hb]
        have hne : j ≠ j0 := fun hc => hb (hc ▸ h4)
        exact ih (j0 + 1) ⟨j, by omega, by omega, h3, h4⟩

/-- The second loop of `dCollideRayConvex` passes over the faces that fail its
test. -/
theorem rayHitLoop_skip (CONTACTS_UNIMPORTANT : Nat) (dEpsilon : α)
    (dDOT13 : (Nat → α) → (Nat → α) → α) (ray : dxRay α) (convex : dxConvex α)
    (flags : Nat) (nsign : α) (c : dContactGeom α) (a b : Nat) :
    ∀ i, (∀ j, i ≤ j → j < i + a →
        ¬ rayCandidate dEpsilon dDOT13 ray convex nsign c.depth j) →
      rayHitLoop CONTACTS_UNIMPORTANT dEpsilon dDOT13 ray convex flags nsign (a + b) i c =
        rayHitLoop CONTACTS_UNIMPORTANT dEpsilon dDOT13 ray convex flags nsign b (i + a) c := by
  induction a with
  | zero => intro i _; simp
  | succ a ih =>
    intro i h
    have h0 := h i (le_refl _) (by omega)
    have hidx : a + 1 + b = (a + b) + 1 := by omega
    have hidx2 : i + (a + 1) = i + 1 + a := by omega
    rw [hidx, hidx2, rayHitLoop]
    exact (if_neg h0).trans (ih (i + 1) (fun j h1 h2 => h j (by omega) (by omega)))

end RayLemmas

section RayStepLemmas

variable {α : Type} [LinearOrderedField α] (CONTACTS_UNIMPORTANT : Nat) (dEpsilon : α)
  (dDOT13 : (Nat → α) → (Nat → α) → α) (ray : dxRay α) (convex : dxConvex α)
  (flags : Nat) (nsign : α)

/-- A face that passes the test of the second loop and whose point passes the test
against the other planes is stored, and the loop goes on unless contacts are
unimportant. -/
theorem rayHitLoop_accept (rem i : Nat) (c : dContactGeom α)
    (hcand : rayCandidate dEpsilon dDOT13 ray convex nsign c.depth i)
    (hothers : rayOtherPlanesLoop dEpsilon convex (offset convex.planes (i * 4))
      (rayPoint ray c.pos (nsign * rayAlpha ray convex i)) i convex.planecount 0 = 0)
    (himportant : flags &&& CONTACTS_UNIMPORTANT = 0) :
    rayHitLoop CONTACTS_UNIMPORTANT dEpsilon dDOT13 ray convex flags nsign (rem + 1) i c =
      rayHitLoop CONTACTS_UNIMPORTANT dEpsilon dDOT13 ray convex flags nsign rem (i + 1)
        { c with
          pos := rayPoint ray c.pos (nsign * rayAlpha ray convex i)
          normal := setVec3 c.normal (nsign * offset convex.planes (i * 4) 0)
            (nsign * offset convex.planes (i * 4) 1) (nsign * offset convex.planes (i * 4) 2)
          depth := nsign * rayAlpha ray convex i } := by
  rw [rayHitLoop]
  refine (if_pos hcand).trans ?_
  refine (if_pos hothers).trans ?_
  refine (if_neg ?_).trans rfl
  intro h
  exact h.1 himportant

/-- A face that passes the test of the second loop but whose point fails the test
against the other planes leaves its point in the record and nothing else. -/
theorem rayHitLoop_reject (rem i : Nat) (c : dContactGeom α)
    (hcand : rayCandidate dEpsilon dDOT13 ray convex nsign c.depth i)
    (hothers : rayOtherPlanesLoop dEpsilon convex (offset convex.planes (i * 4))
      (rayPoint ray c.pos (nsign * rayAlpha ray convex i)) i convex.planecount 0 = 1) :
    rayHitLoop CONTACTS_UNIMPORTANT dEpsilon dDOT13 ray convex flags nsign (rem + 1) i c =
      rayHitLoop CONTACTS_UNIMPORTANT dEpsilon dDOT13 ray convex flags nsign rem (i + 1)
        { c with pos := rayPoint ray c.pos (nsign * rayAlpha ray convex i) } := by
  rw [rayHitLoop]
  refine (if_pos hcand).trans ?_
  refine (if_neg ?_).trans rfl
  intro h
  have h2 : (0 : Nat) = 1 := h.symm.trans hothers
  exact absurd h2 (by decide)

/-- With no face passing the test of the second loop, `dCollideRayConvex` returns
0 for a ray shorter than `dInfinity`. -/
theorem dCollideRayConvex_no_candidate (NUMC_MASK : Nat) (dInfinity : α) (o1 o2 : Nat)
    (contact : Nat → dContactGeom α) (hmaxc : 1 ≤ flags &&& NUMC_MASK)
    (hlen : ray.length < dInfinity)
    (hnone : ∀ j, j < convex.planecount →
      ¬ rayCandidate dEpsilon dDOT13 ray convex
        (if rayStartLoop ray convex convex.planecount 0 ≠ 0 then 1 else -1) dInfinity j) :
    dCollideRayConvex NUMC_MASK CONTACTS_UNIMPORTANT dInfinity dEpsilon dDOT13 ray convex o1 o2
        flags contact =
      .ok { count := 0
            contact := Function.update contact 0
              { contact 0 with g1 := o1, g2 := o2, depth := dInfinity } } := by
  unfold dCollideRayConvex
  rw [if_neg (not_not.2 hmaxc)]
  simp only
  have hskip := rayHitLoop_skip CONTACTS_UNIMPORTANT dEpsilon dDOT13 ray convex flags
    (if rayStartLoop ray convex convex.planecount 0 ≠ 0 then 1 else -1)
    { contact 0 with g1 := o1, g2 := o2, depth := dInfinity } convex.planecount 0 0
    (fun j _ hj => hnone j (by omega))
  rw [Nat.add_zero, Nat.zero_add] at hskip
  rw [hskip]
  simp only [rayHitLoop]
  rw [if_neg (not_le.2 hlen)]

end RayStepLemmas

/-! ### A ray along the `x` axis against a box -/

section XRayBox

variable (x y z len hx hy hz : ℚ) (pos : Nat → ℚ)

theorem rayAlpha_box (i : Nat) (hi : i < 6) :
    rayAlpha (rayAlongX x y z len) (boxConvex hx hy hz pos) i =
      ([x - hx, -x - hx, y - hy, -y - hy, z - hz, -z - hz] : List ℚ).getD i 0 := by
  interval_cases i <;>
    simp [rayAlpha, rayAlongX, boxConvex, dCreateConvex, FillEdges, boxPlanes, dDOT, offset]

theorem rayBeta_box (i : Nat) (hi : i < 6) :
    rayBeta dot13 (rayAlongX x y z len) (boxConvex hx hy hz pos) i =
      ([1, -1, 0, 0, 0, 0] : List ℚ).getD i 0 := by
  interval_cases i <;>
    simp [rayBeta, rayAlongX, boxConvex, dCreateConvex, FillEdges, boxPlanes, dot13, offset,
      cyclicR]

theorem box_plane_dot (p : Nat → ℚ) (j : Nat) (hj : j < 6) :
    dDOT (offset (boxConvex hx hy hz pos).planes (j * 4)) p =
      ([p 0, -p 0, p 1, -p 1, p 2, -p 2] : List ℚ).getD j 0 := by
  interval_cases j <;>
    simp [boxConvex, dCreateConvex, FillEdges, boxPlanes, dDOT, offset]

theorem box_plane_offset (j : Nat) (hj : j < 6) :
    offset (boxConvex hx hy hz pos).planes (j * 4) 3 =
      ([hx, hx, hy, hy, hz, hz] : List ℚ).getD j 0 := by
  interval_cases j <;> simp [boxConvex, dCreateConvex, FillEdges, boxPlanes, offset]

theorem rayPoint_alongX (old : Nat → ℚ) (alpha : ℚ) :
    rayPoint (rayAlongX x y z len) old alpha 0 = x + alpha ∧
    rayPoint (rayAlongX x y z len) old alpha 1 = y ∧
    rayPoint (rayAlongX x y z len) old alpha 2 = z := by
  simp [rayPoint, rayAlongX, setVec3, cyclicR]

/-- The faces of the box other than `-x` fail the test of the second loop for a
ray along `+x`, whatever the best depth is. -/
theorem xray_box_no_candidate (dEpsilon depth : ℚ) (heps : 0 ≤ dEpsilon) (j : Nat)
    (hj : j < 6) (hj1 : j ≠ 1) :
    ¬ rayCandidate dEpsilon dot13 (rayAlongX x y z len) (boxConvex hx hy hz pos) 1 depth j := by
  intro h
  have hb := h.1
  rw [rayBeta_box x y z len hx hy hz pos j hj, mul_one] at hb
  interval_cases j <;> simp at hb <;> first | omega | linarith

theorem xray_box_start (hfront : 0 ≤ -x - hx) :
    rayStartLoop (rayAlongX x y z len) (boxConvex hx hy hz pos)
      (boxConvex hx hy hz pos).planecount 0 = 1 := by
  refine rayStartLoop_outside _ _ _ 0 ⟨1, Nat.zero_le _, (by show 1 < 0 + 6; decide), ?_⟩
  rw [rayAlpha_box x y z len hx hy hz pos 1 (by decide)]
  simpa using hfront

end XRayBox


section XRayBoxRuns

variable (x y z len hx hy hz : ℚ) (pos : Nat → ℚ) (NUMC_MASK CONTACTS_UNIMPORTANT : Nat)
  (dInfinity dEpsilon : ℚ) (o1 o2 flags : Nat) (contact : Nat → dContactGeom ℚ)

/-- A ray along `+x` that starts in front of the `-x` face of a box and reaches
its plane at a point whose other coordinates are within `hx + dEpsilon` of the
centre: `dCollideRayConvex` reports that point, at the depth `-x - hx`. -/
theorem xray_box_hit (hmaxc : 1 ≤ flags &&& NUMC_MASK)
    (himportant : flags &&& CONTACTS_UNIMPORTANT = 0) (heps : 0 < dEpsilon)
    (heps1 : dEpsilon < 1) (hhx : 0 ≤ hx) (hfront : 0 ≤ -x - hx) (hreach : -x - hx ≤ len) (hlen : len < dInfinity)
    (hy1 : y - hx ≤ dEpsilon) (hy2 : -y - hx ≤ dEpsilon)
    (hz1 : z - hx ≤ dEpsilon) (hz2 : -z - hx ≤ dEpsilon) :
    ∃ c, dCollideRayConvex NUMC_MASK CONTACTS_UNIMPORTANT dInfinity dEpsilon dot13
        (rayAlongX x y z len) (boxConvex hx hy hz pos) o1 o2 flags contact = .ok c ∧
      c.count = 1 ∧ (c.contact 0).depth = -x - hx ∧ (c.contact 0).pos 0 = -hx ∧
      (c.contact 0).pos 1 = y ∧ (c.contact 0).pos 2 = z := by
  have hstart := xray_box_start x y z len hx hy hz pos hfront
  have ha1 : (1 : ℚ) * rayAlpha (rayAlongX x y z len) (boxConvex hx hy hz pos) 1 = -x - hx := by
    rw [rayAlpha_box x y z len hx hy hz pos 1 (by decide), one_mul]
    simp
  have hpt := rayPoint_alongX x y z len
  have hcand : rayCandidate dEpsilon dot13 (rayAlongX x y z len) (boxConvex hx hy hz pos) 1
      dInfinity 1 := by
    unfold rayCandidate
    rw [ha1, rayBeta_box x y z len hx hy hz pos 1 (by decide)]
    refine ⟨?_, hfront, hreach, lt_of_le_of_lt hreach hlen⟩
    simp only [List.getD_cons_succ, List.getD_cons_zero, mul_one]
    linarith
  have hothers : rayOtherPlanesLoop dEpsilon (boxConvex hx hy hz pos)
      (offset (boxConvex hx hy hz pos).planes (1 * 4))
      (rayPoint (rayAlongX x y z len) (contact 0).pos
        (1 * rayAlpha (rayAlongX x y z len) (boxConvex hx hy hz pos) 1)) 1
      (boxConvex hx hy hz pos).planecount 0 = 0 := by
    refine rayOtherPlanesLoop_zero _ _ _ _ _ _ 0 ?_
    intro j _ hj hj1
    have hj6 : j < 6 := by simpa using hj
    rw [box_plane_dot hx hy hz pos _ j hj6, box_plane_offset hx hy hz pos 1 (by decide), ha1,
      (hpt _ _).1, (hpt _ _).2.1, (hpt _ _).2.2]
    interval_cases j <;> simp <;> first | omega | linarith
  unfold dCollideRayConvex
  rw [if_neg (not_not.2 hmaxc)]
  simp only
  rw [hstart]
  simp only [ne_eq, one_ne_zero, not_false_eq_true, if_true]
  have h0 := rayHitLoop_skip CONTACTS_UNIMPORTANT dEpsilon dot13 (rayAlongX x y z len)
    (boxConvex hx hy hz pos) flags 1
    { contact 0 with g1 := o1, g2 := o2, depth := dInfinity } 1 5 0
    (fun j _ hj => xray_box_no_candidate x y z len hx hy hz pos dEpsilon _ (le_of_lt heps) j
      (by omega) (by omega))
  have h1 := rayHitLoop_accept CONTACTS_UNIMPORTANT dEpsilon dot13 (rayAlongX x y z len)
    (boxConvex hx hy hz pos) flags 1 4 1
    { contact 0 with g1 := o1, g2 := o2, depth := dInfinity } hcand hothers himportant
  have h2 := rayHitLoop_skip CONTACTS_UNIMPORTANT dEpsilon dot13 (rayAlongX x y z len)
    (boxConvex hx hy hz pos) flags 1
    { pos := rayPoint (rayAlongX x y z len) (contact 0).pos
        (1 * rayAlpha (rayAlongX x y z len) (boxConvex hx hy hz pos) 1)
      normal := setVec3 (contact 0).normal
        (1 * offset (boxConvex hx hy hz pos).planes (1 * 4) 0)
        (1 * offset (boxConvex hx hy hz pos).planes (1 * 4) 1)
        (1 * offset (boxConvex hx hy hz pos).planes (1 * 4) 2)
      depth := 1 * rayAlpha (rayAlongX x y z len) (boxConvex hx hy hz pos) 1
      g1 := o1, g2 := o2 } 4 0 2
    (fun j hj2 hj => xray_box_no_candidate x y z len hx hy hz pos dEpsilon _ (le_of_lt heps) j
      (by omega) (by omega))
  have hrun : rayHitLoop CONTACTS_UNIMPORTANT dEpsilon dot13 (rayAlongX x y z len)
      (boxConvex hx hy hz pos) flags 1 (boxConvex hx hy hz pos).planecount 0
      { contact 0 with g1 := o1, g2 := o2, depth := dInfinity } =
      { pos := rayPoint (rayAlongX x y z len) (contact 0).pos
          (1 * rayAlpha (rayAlongX x y z len) (boxConvex hx hy hz pos) 1)
        normal := setVec3 (contact 0).normal
          (1 * offset (boxConvex hx hy hz pos).planes (1 * 4) 0)
          (1 * offset (boxConvex hx hy hz pos).planes (1 * 4) 1)
          (1 * offset (boxConvex hx hy hz pos).planes (1 * 4) 2)
        depth := 1 * rayAlpha (rayAlongX x y z len) (boxConvex hx hy hz pos) 1
        g1 := o1, g2 := o2 } := by
    show rayHitLoop _ _ _ _ _ _ _ (1 + 5) 0 _ = _
    rw [h0]
    show rayHitLoop _ _ _ _ _ _ _ (4 + 1) 1 _ = _
    rw [h1]
    show rayHitLoop _ _ _ _ _ _ _ (4 + 0) 2 _ = _
    rw [h2]
    rfl
  rw [hrun]
  refine ⟨_, rfl, ?_, ?_, ?_, ?_, ?_⟩
  · show (if _ ≤ _ then 1 else 0) = 1
    rw [if_pos]
    show 1 * rayAlpha (rayAlongX x y z len) (boxConvex hx hy hz pos) 1 ≤ len
    rw [ha1]
    exact hreach
  · simp only [Function.update_same]
    exact ha1
  · simp only [Function.update_same]
    rw [(hpt _ _).1, ha1]
    ring
  · simp only [Function.update_same]
    exact (hpt _ _).2.1
  · simp only [Function.update_same]
    exact (hpt _ _).2.2

end XRayBoxRuns

section XRayBoxMiss

variable (x y z len hx hy hz : ℚ) (pos : Nat → ℚ) (NUMC_MASK CONTACTS_UNIMPORTANT : Nat)
  (dInfinity dEpsilon : ℚ) (o1 o2 flags : Nat) (contact : Nat → dContactGeom ℚ)

/-- A ray along `+x` that starts in front of the `-x` face of a box and reaches
its plane at a point whose `y` coordinate exceeds `hx + dEpsilon`:
`dCollideRayConvex` returns 0 and leaves the depth at `dInfinity`. -/
theorem xray_box_miss (hmaxc : 1 ≤ flags &&& NUMC_MASK) (heps : 0 < dEpsilon)
    (heps1 : dEpsilon < 1) (hfront : 0 ≤ -x - hx) (hreach : -x - hx ≤ len)
    (hlen : len < dInfinity) (hyout : dEpsilon < y - hx) :
    ∃ c, dCollideRayConvex NUMC_MASK CONTACTS_UNIMPORTANT dInfinity dEpsilon dot13
        (rayAlongX x y z len) (boxConvex hx hy hz pos) o1 o2 flags contact = .ok c ∧
      c.count = 0 ∧ (c.contact 0).depth = dInfinity := by
  have hstart := xray_box_start x y z len hx hy hz pos hfront
  have ha1 : (1 : ℚ) * rayAlpha (rayAlongX x y z len) (boxConvex hx hy hz pos) 1 = -x - hx := by
    rw [rayAlpha_box x y z len hx hy hz pos 1 (by decide), one_mul]
    simp
  have hpt := rayPoint_alongX x y z len
  have hcand : rayCandidate dEpsilon dot13 (rayAlongX x y z len) (boxConvex hx hy hz pos) 1
      dInfinity 1 := by
    unfold rayCandidate
    rw [ha1, rayBeta_box x y z len hx hy hz pos 1 (by decide)]
    refine ⟨?_, hfront, hreach, lt_of_le_of_lt hreach hlen⟩
    simp only [List.getD_cons_succ, List.getD_cons_zero, mul_one]
    linarith
  have hothers : rayOtherPlanesLoop dEpsilon (boxConvex hx hy hz pos)
      (offset (boxConvex hx hy hz pos).planes (1 * 4))
      (rayPoint (rayAlongX x y z len) (contact 0).pos
        (1 * rayAlpha (rayAlongX x y z len) (boxConvex hx hy hz pos) 1)) 1
      (boxConvex hx hy hz pos).planecount 0 = 1 := by
    refine rayOtherPlanesLoop_one _ _ _ _ _ _ 0 ⟨2, Nat.zero_le _, (by show 2 < 0 + 6; decide),
      by decide, ?_⟩
    rw [box_plane_dot hx hy hz pos _ 2 (by decide), box_plane_offset hx hy hz pos 1 (by decide),
      (hpt _ _).2.1]
    simpa using hyout
  unfold dCollideRayConvex
  rw [if_neg (not_not.2 hmaxc)]
  simp only
  rw [hstart]
  simp only [ne_eq, one_ne_zero, not_false_eq_true, if_true]
  have h0 := rayHitLoop_skip CONTACTS_UNIMPORTANT dEpsilon dot13 (rayAlongX x y z len)
    (boxConvex hx hy hz pos) flags 1
    { contact 0 with g1 := o1, g2 := o2, depth := dInfinity } 1 5 0
    (fun j _ hj => xray_box_no_candidate x y z len hx hy hz pos dEpsilon _ (le_of_lt heps) j
      (by omega) (by omega))
  have h1 := rayHitLoop_reject CONTACTS_UNIMPORTANT dEpsilon dot13 (rayAlongX x y z len)
    (boxConvex hx hy hz pos) flags 1 4 1
    { contact 0 with g1 := o1, g2 := o2, depth := dInfinity } hcand hothers
  have h2 := rayHitLoop_skip CONTACTS_UNIMPORTANT dEpsilon dot13 (rayAlongX x y z len)
    (boxConvex hx hy hz pos) flags 1
    { pos := rayPoint (rayAlongX x y z len) (contact 0).pos
        (1 * rayAlpha (rayAlongX x y z len) (boxConvex hx hy hz pos) 1)
      normal := (contact 0).normal
      depth := dInfinity
      g1 := o1, g2 := o2 } 4 0 2
    (fun j hj2 hj => xray_box_no_candidate x y z len hx hy hz pos dEpsilon _ (le_of_lt heps) j
      (by omega) (by omega))
  have hrun : rayHitLoop CONTACTS_UNIMPORTANT dEpsilon dot13 (rayAlongX x y z len)
      (boxConvex hx hy hz pos) flags 1 (boxConvex hx hy hz pos).planecount 0
      { contact 0 with g1 := o1, g2 := o2, depth := dInfinity } =
      { pos := rayPoint (rayAlongX x y z len) (contact 0).pos
          (1 * rayAlpha (rayAlongX x y z len) (boxConvex hx hy hz pos) 1)
        normal := (contact 0).normal
        depth := dInfinity
        g1 := o1, g2 := o2 } := by
    show rayHitLoop _ _ _ _ _ _ _ (1 + 5) 0 _ = _
    rw [h0]
    show rayHitLoop _ _ _ _ _ _ _ (4 + 1) 1 _ = _
    rw [h1]
    show rayHitLoop _ _ _ _ _ _ _ (4 + 0) 2 _ = _
    rw [h2]
    rfl
  rw [hrun]
  refine ⟨_, rfl, ?_, ?_⟩
  · show (if _ ≤ _ then 1 else 0) = 0
    rw [if_neg]
    show ¬ (dInfinity ≤ len)
    exact not_le.2 hlen
  · simp only [Function.update_same]

end XRayBoxMiss

/-! ## The ray collider: the claims -/

/-- The test of `dCollideRayConvex` on its own product: for every convex hull and
every ray shorter than `dInfinity` (with `maxc >= 1`) whose origin lies on or in
front of the plane of some face, when the product `dDOT13( plane, R+2 )` that the
routine takes for normal times direction is not below `-dEpsilon` for every face
whose plane the origin is on or in front of, `dCollideRayConvex` returns 0. What
the product is depends on the entries of `R` that `dDOT13` reads. -/
theorem ray_convex_miss {α : Type} [LinearOrderedField α]
    (NUMC_MASK CONTACTS_UNIMPORTANT : Nat) (dInfinity dEpsilon : α)
    (dDOT13 : (Nat → α) → (Nat → α) → α) (ray : dxRay α) (convex : dxConvex α)
    (o1 o2 flags : Nat) (contact : Nat → dContactGeom α)
    (hmaxc : 1 ≤ flags &&& NUMC_MASK) (hlen : ray.length < dInfinity)
    (houtside : ∃ i, i < convex.planecount ∧ 0 ≤ rayAlpha ray convex i)
    (haway : ∀ i, i < convex.planecount → 0 ≤ rayAlpha ray convex i →
      -dEpsilon ≤ rayBeta dDOT13 ray convex i) :
    ∃ c, dCollideRayConvex NUMC_MASK CONTACTS_UNIMPORTANT dInfinity dEpsilon dDOT13 ray convex
        o1 o2 flags contact = .ok c ∧ c.count = 0 := by
  obtain ⟨i, hi, hpos⟩ := houtside
  have hflag : rayStartLoop ray convex convex.planecount 0 = 1 :=
    rayStartLoop_outside ray convex convex.planecount 0 ⟨i, Nat.zero_le _, by omega, hpos⟩
  refine ⟨_, dCollideRayConvex_no_candidate CONTACTS_UNIMPORTANT dEpsilon dDOT13 ray convex
    flags NUMC_MASK dInfinity o1 o2 contact hmaxc hlen ?_, rfl⟩
  intro j hj hcand
  rw [hflag] at hcand
  simp only [ne_eq, one_ne_zero, not_false_eq_true, if_true] at hcand
  unfold rayCandidate at hcand
  rw [mul_one, one_mul] at hcand
  exact absurd hcand.1 (not_lt.2 (haway j hj hcand.2.1))

/-- The unit cube at the origin and the ray of length 5 from `(0,0,2)` along `+z`,
with `dDOT13` read as `dDOTpq(a,b,1,3)`: the origin is in front of the top face
only, for which the product the routine takes is `0`, and the routine returns
0. -/
theorem ray_convex_miss_witness :
    ∃ c, dCollideRayConvex 0xffff 0x80000000 1000000 (1 / 1000000) dot13 (rayAt 0 0 2 5)
        (cubeConvex (1 / 2) (fun _ => 0) []) 1 2 1 noContacts = .ok c ∧ c.count = 0 :=
  ray_convex_miss 0xffff 0x80000000 1000000 (1 / 1000000) dot13 (rayAt 0 0 2 5)
    (cubeConvex (1 / 2) (fun _ => 0) []) 1 2 1 noContacts (by decide)
    (by simp only [rayAt]; norm_num)
    ⟨4, by decide, by simp [rayAlpha, rayAt, cubeConvex, cubePlanes, dDOT, offset]; norm_num⟩
    (by
      intro i hi hfront
      have hi6 : i < 6 := hi
      interval_cases i <;>
        simp [rayAlpha, rayBeta, rayAt, cubeConvex, cubePlanes, dDOT, dot13, offset,
          identityR] at hfront ⊢ <;> norm_num at hfront ⊢)

/-- C22, the code at the failing input: the unit cube at the origin and the ray of
length 10 from `(0, 0, 3/4)`, above the face `+z`, along the unit direction
`(4/5, 0, 3/5)`, with `dDOT13` read as the macro `dDOTpq(a,b,1,3)`. The origin is
in front of the plane of the face `+z` only, and the direction does not point
toward it: normal times direction is `3/5`. The routine takes
`dDOT13( plane, R+2 )`, which reads `R[2]`, `R[5]`, `R[8]`, that is
`(4/5, 1, -4/5)` and not the direction `R[2]`, `R[6]`, `R[10]`; for the face `+z`
it finds `beta = -4/5`, accepts the face and returns 1 with depth `1/4` and the
position `(1/5, 0, 9/10)`. -/
theorem ray_convex_hit_pointing_away :
    (∃ i, i < 6 ∧
      0 ≤ rayAlpha (rayTilted 0 0 (3 / 4) 10) (boxConvex (1 / 2) (1 / 2) (1 / 2) (fun _ => 0)) i) ∧
    (∀ i, i < 6 →
      0 ≤ rayAlpha (rayTilted 0 0 (3 / 4) 10)
        (boxConvex (1 / 2) (1 / 2) (1 / 2) (fun _ => 0)) i →
      0 < dDOT (offset (boxConvex (1 / 2) (1 / 2) (1 / 2) (fun _ => 0)).planes (i * 4))
        (rayDirection (rayTilted 0 0 (3 / 4) 10))) ∧
    rayBeta dot13 (rayTilted 0 0 (3 / 4) 10)
      (boxConvex (1 / 2) (1 / 2) (1 / 2) (fun _ => 0)) 4 = -4 / 5 ∧
    ∃ c, dCollideRayConvex 0xffff 0x80000000 1000000 (1 / 1000000) dot13
        (rayTilted 0 0 (3 / 4) 10) (boxConvex (1 / 2) (1 / 2) (1 / 2) (fun _ => 0)) 1 2 1
        noContacts = .ok c ∧
      c.count = 1 ∧ (c.contact 0).depth = 1 / 4 ∧
      (c.contact 0).pos 0 = 1 / 5 ∧ (c.contact 0).pos 1 = 0 ∧
      (c.contact 0).pos 2 = 9 / 10 := by
  have halpha : ∀ i, i < 6 →
      rayAlpha (rayTilted 0 0 (3 / 4) 10) (boxConvex (1 / 2) (1 / 2) (1 / 2) (fun _ => 0)) i =
        ([-1 / 2, -1 / 2, -1 / 2, -1 / 2, 1 / 4, -5 / 4] : List ℚ).getD i 0 := by
    intro i hi
    interval_cases i <;>
      simp [rayAlpha, rayTilted, boxConvex, dCreateConvex, FillEdges, boxPlanes, dDOT, offset] <;>
      norm_num
  have hbeta4 : rayBeta dot13 (rayTilted 0 0 (3 / 4) 10)
      (boxConvex (1 / 2) (1 / 2) (1 / 2) (fun _ => 0)) 4 = -4 / 5 := by
    simp [rayBeta, rayTilted, boxConvex, dCreateConvex, FillEdges, boxPlanes, dot13, offset,
      tiltedR]
  have hpt : ∀ (old : Nat → ℚ) (alpha : ℚ),
      rayPoint (rayTilted 0 0 (3 / 4) 10) old alpha 0 = alpha * (4 / 5) ∧
      rayPoint (rayTilted 0 0 (3 / 4) 10) old alpha 1 = 0 ∧
      rayPoint (rayTilted 0 0 (3 / 4) 10) old alpha 2 = 3 / 4 + alpha * (3 / 5) := by
    intro old alpha
    simp [rayPoint, rayTilted, setVec3, tiltedR]
  have ha4 : (1 : ℚ) * rayAlpha (rayTilted 0 0 (3 / 4) 10)
      (boxConvex (1 / 2) (1 / 2) (1 / 2) (fun _ => 0)) 4 = 1 / 4 := by
    rw [halpha 4 (by decide), one_mul]
    simp
  have hnocand : ∀ (depth : ℚ) (j : Nat), j < 6 → j ≠ 4 →
      ¬ rayCandidate (1 / 1000000) dot13 (rayTilted 0 0 (3 / 4) 10)
        (boxConvex (1 / 2) (1 / 2) (1 / 2) (fun _ => 0)) 1 depth j := by
    intro depth j hj hj4 h
    have ha := h.2.1
    rw [halpha j hj, one_mul] at ha
    interval_cases j <;> simp at ha <;> first | omega | linarith
  refine ⟨⟨4, by decide, by rw [halpha 4 (by decide)]; norm_num⟩, ?_, hbeta4, ?_⟩
  · intro i hi hfront
    rw [halpha i hi] at hfront
    interval_cases i <;> simp at hfront <;> try linarith
    simp [rayDirection, rayTilted, boxConvex, dCreateConvex, FillEdges, boxPlanes, dDOT,
      offset, tiltedR]
  have hstart : rayStartLoop (rayTilted 0 0 (3 / 4) 10)
      (boxConvex (1 / 2) (1 / 2) (1 / 2) (fun _ => 0))
      (boxConvex (1 / 2) (1 / 2) (1 / 2) (fun _ => 0)).planecount 0 = 1 := by
    refine rayStartLoop_outside _ _ _ 0 ⟨4, Nat.zero_le _, (by show 4 < 0 + 6; decide), ?_⟩
    rw [halpha 4 (by decide)]
    norm_num
  have hcand : rayCandidate (1 / 1000000) dot13 (rayTilted 0 0 (3 / 4) 10)
      (boxConvex (1 / 2) (1 / 2) (1 / 2) (fun _ => 0)) 1 1000000 4 := by
    unfold rayCandidate
    rw [ha4, hbeta4]
    refine ⟨by norm_num, by norm_num, ?_, by norm_num⟩
    show (1 / 4 : ℚ) ≤ 10
    norm_num
  have hothers : rayOtherPlanesLoop (1 / 1000000)
      (boxConvex (1 / 2) (1 / 2) (1 / 2) (fun _ => 0))
      (offset (boxConvex (1 / 2) (1 / 2) (1 / 2) (fun _ => 0)).planes (4 * 4))
      (rayPoint (rayTilted 0 0 (3 / 4) 10) (noContacts 0).pos
        (1 * rayAlpha (rayTilted 0 0 (3 / 4) 10)
          (boxConvex (1 / 2) (1 / 2) (1 / 2) (fun _ => 0)) 4)) 4
      (boxConvex (1 / 2) (1 / 2) (1 / 2) (fun _ => 0)).planecount 0 = 0 := by
    refine rayOtherPlanesLoop_zero _ _ _ _ _ _ 0 ?_
    intro j _ hj hj4
    have hj6 : j < 6 := by simpa using hj
    rw [box_plane_dot (1 / 2) (1 / 2) (1 / 2) (fun _ => 0) _ j hj6,
      box_plane_offset (1 / 2) (1 / 2) (1 / 2) (fun _ => 0) 4 (by decide), ha4,
      (hpt _ _).1, (hpt _ _).2.1, (hpt _ _).2.2]
    interval_cases j <;> simp <;> first | omega | norm_num
  unfold dCollideRayConvex
  rw [if_neg (not_not.2 (by decide))]
  simp only
  rw [hstart]
  simp only [ne_eq, one_ne_zero, not_false_eq_true, if_true]
  have h0 := rayHitLoop_skip 0x80000000 (1 / 1000000) dot13 (rayTilted 0 0 (3 / 4) 10)
    (boxConvex (1 / 2) (1 / 2) (1 / 2) (fun _ => 0)) 1 1
    { noContacts 0 with g1 := 1, g2 := 2, depth := 1000000 } 4 2 0
    (fun j _ hj => hnocand _ j (by omega) (by omega))
  have h1 := rayHitLoop_accept 0x80000000 (1 / 1000000) dot13 (rayTilted 0 0 (3 / 4) 10)
    (boxConvex (1 / 2) (1 / 2) (1 / 2) (fun _ => 0)) 1 1 1 4
    { noContacts 0 with g1 := 1, g2 := 2, depth := 1000000 } hcand hothers (by decide)
  have h2 := rayHitLoop_skip 0x80000000 (1 / 1000000) dot13 (rayTilted 0 0 (3 / 4) 10)
    (boxConvex (1 / 2) (1 / 2) (1 / 2) (fun _ => 0)) 1 1
    { pos := rayPoint (rayTilted 0 0 (3 / 4) 10) (noContacts 0).pos
        (1 * rayAlpha (rayTilted 0 0 (3 / 4) 10)
          (boxConvex (1 / 2) (1 / 2) (1 / 2) (fun _ => 0)) 4)
      normal := setVec3 (noContacts 0).normal
        (1 * offset (boxConvex (1 / 2) (1 / 2) (1 / 2) (fun _ => 0)).planes (4 * 4) 0)
        (1 * offset (boxConvex (1 / 2) (1 / 2) (1 / 2) (fun _ => 0)).planes (4 * 4) 1)
        (1 * offset (boxConvex (1 / 2) (1 / 2) (1 / 2) (fun _ => 0)).planes (4 * 4) 2)
      depth := 1 * rayAlpha (rayTilted 0 0 (3 / 4) 10)
        (boxConvex (1 / 2) (1 / 2) (1 / 2) (fun _ => 0)) 4
      g1 := 1, g2 := 2 } 1 0 5
    (fun j hj5 hj => hnocand _ j (by omega) (by omega))
  have hrun : rayHitLoop 0x80000000 (1 / 1000000) dot13 (rayTilted 0 0 (3 / 4) 10)
      (boxConvex (1 / 2) (1 / 2) (1 / 2) (fun _ => 0)) 1 1
      (boxConvex (1 / 2) (1 / 2) (1 / 2) (fun _ => 0)).planecount 0
      { noContacts 0 with g1 := 1, g2 := 2, depth := 1000000 } =
      { pos := rayPoint (rayTilted 0 0 (3 / 4) 10) (noContacts 0).pos
          (1 * rayAlpha (rayTilted 0 0 (3 / 4) 10)
            (boxConvex (1 / 2) (1 / 2) (1 / 2) (fun _ => 0)) 4)
        normal := setVec3 (noContacts 0).normal
          (1 * offset (boxConvex (1 / 2) (1 / 2) (1 / 2) (fun _ => 0)).planes (4 * 4) 0)
          (1 * offset (boxConvex (1 / 2) (1 / 2) (1 / 2) (fun _ => 0)).planes (4 * 4) 1)
          (1 * offset (boxConvex (1 / 2) (1 / 2) (1 / 2) (fun _ => 0)).planes (4 * 4) 2)
        depth := 1 * rayAlpha (rayTilted 0 0 (3 / 4) 10)
          (boxConvex (1 / 2) (1 / 2) (1 / 2) (fun _ => 0)) 4
        g1 := 1, g2 := 2 } := by
    show rayHitLoop _ _ _ _ _ _ _ (4 + 2) 0 _ = _
    rw [h0]
    show rayHitLoop _ _ _ _ _ _ _ (1 + 1) 4 _ = _
    rw [h1]
    show rayHitLoop _ _ _ _ _ _ _ (1 + 0) 5 _ = _
    rw [h2]
    rfl
  rw [hrun]
  refine ⟨_, rfl, ?_, ?_, ?_, ?_, ?_⟩
  · show (if _ ≤ _ then 1 else 0) = 1
    rw [if_pos]
    show 1 * rayAlpha (rayTilted 0 0 (3 / 4) 10)
      (boxConvex (1 / 2) (1 / 2) (1 / 2) (fun _ => 0)) 4 ≤ 10
    rw [ha4]
    norm_num
  · simp only [Function.update_same]
    exact ha4
  · simp only [Function.update_same]
    rw [(hpt _ _).1, ha4]
    norm_num
  · simp only [Function.update_same]
    exact (hpt _ _).2.1
  · simp only [Function.update_same]
    rw [(hpt _ _).2.2, ha4]
    norm_num

/-- C23, the code at the failing input: the box of half-extents `(2, 0.5, 0.5)` at
the origin and the ray of length 10 from `(-5,1,0)` along `+x` (its rotation
`cyclicR` is one for which the readings of `dDOT13` with strides 3 and 4 agree).
The ray passes the box at `y = 1`, outside the face `+y` at `y = 0.5`; the
routine tests the point `(-2,1,0)` on the plane of the face `-x` against the
other normals with the offset `2` of the face `-x` and accepts it:
`dCollideRayConvex` returns 1 with depth 3, and the point violates the
half-space of the face `+y` taken with its own offset, `n.p - d = 0.5`. -/
theorem ray_convex_accepts_point_off_hull :
    ∃ c, dCollideRayConvex 0xffff 0x80000000 1000000 (1 / 1000000) dot13
        (rayAlongX (-5) 1 0 10) (boxConvex 2 (1 / 2) (1 / 2) (fun _ => 0)) 1 2 1 noContacts =
        .ok c ∧
      c.count = 1 ∧ (c.contact 0).depth = 3 ∧
      (1 / 1000000 : ℚ) <
        dDOT (offset (boxConvex 2 (1 / 2) (1 / 2) (fun _ => 0)).planes (2 * 4))
          (c.contact 0).pos -
        offset (boxConvex 2 (1 / 2) (1 / 2) (fun _ => 0)).planes (2 * 4) 3 := by
  obtain ⟨c, hc, h1, h2, h3, h4, h5⟩ := xray_box_hit (-5) 1 0 10 2 (1 / 2) (1 / 2) (fun _ => 0)
    0xffff 0x80000000 1000000 (1 / 1000000) 1 2 1 noContacts (by decide) (by decide)
    (by norm_num) (by norm_num) (by norm_num) (by norm_num) (by norm_num) (by norm_num)
    (by norm_num) (by norm_num) (by norm_num) (by norm_num)
  refine ⟨c, hc, h1, by rw [h2]; norm_num, ?_⟩
  rw [box_plane_dot 2 (1 / 2) (1 / 2) (fun _ => 0) _ 2 (by decide),
    box_plane_offset 2 (1 / 2) (1 / 2) (fun _ => 0) 2 (by decide), h4]
  norm_num

/-- C24, the code at the failing input: the unit cube at the origin and the ray of
length 10 from `(-2,0,0)` along `+x` give 1 contact at depth `1.5`; with the
position of the cube and the origin of the ray both moved by `(0,10,0)`, the
routine, which never reads the position of the convex, returns 0 and leaves the
depth at `dInfinity`. -/
theorem ray_convex_ignores_convex_position :
    (∃ c, dCollideRayConvex 0xffff 0x80000000 1000000 (1 / 1000000) dot13
        (rayAlongX (-2) 0 0 10) (boxConvex (1 / 2) (1 / 2) (1 / 2) (fun _ => 0)) 1 2 1
        noContacts = .ok c ∧
      c.count = 1 ∧ (c.contact 0).depth = 3 / 2) ∧
    (∃ c, dCollideRayConvex 0xffff 0x80000000 1000000 (1 / 1000000) dot13
        (rayAlongX (-2) 10 0 10)
        (boxConvex (1 / 2) (1 / 2) (1 / 2) (fun k => if k = 1 then 10 else 0)) 1 2 1
        noContacts = .ok c ∧
      c.count = 0 ∧ (c.contact 0).depth = 1000000) := by
  refine ⟨?_, ?_⟩
  · obtain ⟨c, hc, h1, h2, _⟩ := xray_box_hit (-2) 0 0 10 (1 / 2) (1 / 2) (1 / 2) (fun _ => 0)
      0xffff 0x80000000 1000000 (1 / 1000000) 1 2 1 noContacts (by decide) (by decide)
      (by norm_num) (by norm_num) (by norm_num) (by norm_num) (by norm_num) (by norm_num)
      (by norm_num) (by norm_num) (by norm_num) (by norm_num)
    exact ⟨c, hc, h1, by rw [h2]; norm_num⟩
  · exact xray_box_miss (-2) 10 0 10 (1 / 2) (1 / 2) (1 / 2) (fun k => if k = 1 then 10 else 0)
      0xffff 0x80000000 1000000 (1 / 1000000) 1 2 1 noContacts (by decide) (by norm_num)
      (by norm_num) (by norm_num) (by norm_num) (by norm_num) (by norm_num)

/-! ## Convex against convex: the reference face -/

section ReferenceFaceLemmas

variable {α : Type} [LinearOrderedField α] (dNormalize3 : (Nat → α) → (Nat → α))
  (cvx1 cvx2 : dxConvex α)

/-- When no face that it visits separates the shapes, the loop of
`CheckSATConvexFaces` returns `true`, and it either leaves its variables as they
were, every straddling face being at least as deep as `min_depth`, or it leaves
them at a straddling face that is strictly less deep than the old `min_depth`
and at most as deep as every straddling face visited. -/
theorem CheckSATConvexFacesLoop_true (rem : Nat) :
    ∀ (i : Nat) (st : SATState α),
      (∀ j, i ≤ j → j < i + rem → ¬ faceSeparates dNormalize3 cvx1 cvx2 j) →
      ∃ st2, CheckSATConvexFacesLoop dNormalize3 cvx1 cvx2 rem i st = (true, st2) ∧
        ((st2 = st ∧ ∀ j, i ≤ j → j < i + rem → faceStraddles dNormalize3 cvx1 cvx2 j →
            dFabs st.min_depth ≤ dFabs (faceDepth dNormalize3 cvx1 cvx2 j)) ∨
          ∃ f, i ≤ f ∧ f < i + rem ∧ faceStraddles dNormalize3 cvx1 cvx2 f ∧
            st2 = { min_depth := faceDepth dNormalize3 cvx1 cvx2 f, side_index := (f : Int),
                    g1 := some cvx1, g2 := some cvx2 } ∧
            dFabs (faceDepth dNormalize3 cvx1 cvx2 f) < dFabs st.min_depth ∧
            ∀ j, i ≤ j → j < i + rem → faceStraddles dNormalize3 cvx1 cvx2 j →
              dFabs (faceDepth dNormalize3 cvx1 cvx2 f) ≤
                dFabs (faceDepth dNormalize3 cvx1 cvx2 j)) := by
  induction rem with
  | zero =>
    intro i st _
    exact ⟨st, rfl, Or.inl ⟨rfl, fun j h1 h2 => by omega⟩⟩
  | succ rem ih =>
    intro i st hnosep
    have hno : ¬ faceSeparates dNormalize3 cvx1 cvx2 i := hnosep i (le_refl _) (by omega)
    have hrest : ∀ j, i + 1 ≤ j → j < i + 1 + rem → ¬ faceSeparates dNormalize3 cvx1 cvx2 j :=
      fun j h1 h2 => hnosep j (by omega) (by omega)
    rw [CheckSATConvexFacesLoop]
    by_cases hupd : faceStraddles dNormalize3 cvx1 cvx2 i ∧
        dFabs (faceDepth dNormalize3 cvx1 cvx2 i) < dFabs st.min_depth
    · obtain ⟨st2, hrun, hres⟩ := ih (i + 1)
        { min_depth := faceDepth dNormalize3 cvx1 cvx2 i, side_index := (i : Int),
          g1 := some cvx1, g2 := some cvx2 } hrest
      refine ⟨st2, ((if_neg hno).trans ((if_pos hupd).trans hrun)), Or.inr ?_⟩
      rcases hres with ⟨heq, hall⟩ | ⟨f, hf1, hf2, hf3, hf4, hf5, hf6⟩
      · refine ⟨i, le_refl _, by omega, hupd.1, heq, hupd.2, ?_⟩
        intro j hj1 hj2 hjs
        by_cases hji : j = i
        · rw [hji]
        · exact hall j (by omega) (by omega) hjs
      · refine ⟨f, by omega, by omega, hf3, hf4, lt_trans hf5 hupd.2, ?_⟩
        intro j hj1 hj2 hjs
        by_cases hji : j = i
        · rw [hji]
          exact le_of_lt hf5
        · exact hf6 j (by omega) (by omega) hjs
    · obtain ⟨st2, hrun, hres⟩ := ih (i + 1) st hrest
      refine ⟨st2, ((if_neg hno).trans ((if_neg hupd).trans hrun)), ?_⟩
      have hi : faceStraddles dNormalize3 cvx1 cvx2 i →
          dFabs st.min_depth ≤ dFabs (faceDepth dNormalize3 cvx1 cvx2 i) :=
        fun hs => not_lt.1 (fun hlt => hupd ⟨hs, hlt⟩)
      rcases hres with ⟨heq, hall⟩ | ⟨f, hf1, hf2, hf3, hf4, hf5, hf6⟩
      · refine Or.inl ⟨heq, ?_⟩
        intro j hj1 hj2 hjs
        by_cases hji : j = i
        · rw [hji]
          exact hi (hji ▸ hjs)
        · exact hall j (by omega) (by omega) hjs
      · refine Or.inr ⟨f, by omega, by omega, hf3, hf4, hf5, ?_⟩
        intro j hj1 hj2 hjs
        by_cases hji : j = i
        · rw [hji]
          exact le_trans (le_of_lt hf5) (hi (hji ▸ hjs))
        · exact hf6 j (by omega) (by omega) hjs

theorem CheckSATConvexEdgesInner_true (e1 : Nat → α) (js : List (Nat × Nat))
    (h : ∀ j, j ∈ js →
      ¬ ((ComputeInterval cvx2 (edgePlane e1 (edgeVector cvx2 j))).2 <
          (ComputeInterval cvx1 (edgePlane e1 (edgeVector cvx2 j))).1 ∨
        (ComputeInterval cvx1 (edgePlane e1 (edgeVector cvx2 j))).2 <
          (ComputeInterval cvx2 (edgePlane e1 (edgeVector cvx2 j))).1)) :
    CheckSATConvexEdgesInner cvx1 cvx2 e1 js = true := by
  induction js with
  | nil => rfl
  | cons x xs ih =>
    rw [CheckSATConvexEdgesInner]
    exact (if_neg (h x (List.mem_cons_self _ _))).trans
      (ih (fun j hj => h j (List.mem_cons_of_mem _ hj)))

theorem CheckSATConvexEdgesOuter_true (is : List (Nat × Nat))
    (h : ∀ i, i ∈ is →
      CheckSATConvexEdgesInner cvx1 cvx2 (edgeVector cvx1 i) cvx2.edges = true) :
    CheckSATConvexEdgesOuter cvx1 cvx2 is = true := by
  induction is with
  | nil => rfl
  | cons x xs ih =>
    rw [CheckSATConvexEdgesOuter]
    exact (if_pos (h x (List.mem_cons_self _ _))).trans
      (ih (fun j hj => h j (List.mem_cons_of_mem _ hj)))

/-- The loop of `TestConvexIntersection` over the vertices of the face: it stores
the world-space vertices in order until `maxc` contacts are reached. -/
theorem faceContactLoop_spec (g1 : dxConvex α) (pPoly : Nat → Nat) (maxc : Nat) (rem : Nat) :
    ∀ (i : Nat) (contact : Nat → dContactGeom α), i < maxc →
      (faceContactLoop g1 pPoly maxc rem i (i, contact)).count = min maxc (i + rem) ∧
      ∀ k, (faceContactLoop g1 pPoly maxc rem i (i, contact)).contact k =
        if i ≤ k ∧ k < min maxc (i + rem) then
          { contact k with
            pos := dVector3Add g1.final_posr.pos
              (dMULTIPLY0_331 (contact k).pos g1.final_posr.R
                (offset g1.points (pPoly (k + 1) * 3)))
              (dMULTIPLY0_331 (contact k).pos g1.final_posr.R
                (offset g1.points (pPoly (k + 1) * 3))) }
        else contact k := by
  induction rem with
  | zero =>
    intro i contact hi
    refine ⟨?_, ?_⟩
    · show i = min maxc (i + 0)
      rw [Nat.add_zero, Nat.min_eq_right (le_of_lt hi)]
    · intro k
      rw [if_neg]
      · rfl
      · intro h
        have := Nat.min_le_right maxc (i + 0)
        omega
  | succ rem ih =>
    intro i contact hi
    rw [faceContactLoop]
    by_cases hmax : i + 1 = maxc
    · rw [if_pos hmax]
      have hmin : min maxc (i + (rem + 1)) = i + 1 := by
        rw [← hmax]
        exact Nat.min_eq_left (by omega)
      refine ⟨hmin.symm, ?_⟩
      intro k
      rw [hmin]
      by_cases hk : k = i
      · rw [hk, if_pos ⟨le_refl _, Nat.lt_succ_self _⟩]
        exact Function.update_same _ _ _
      · rw [if_neg (by omega)]
        exact Function.update_noteq hk _ _
    · rw [if_neg hmax]
      obtain ⟨h1, h2⟩ := ih (i + 1) (Function.update contact i
        { contact i with
          pos := dVector3Add g1.final_posr.pos
            (dMULTIPLY0_331 (contact i).pos g1.final_posr.R
              (offset g1.points (pPoly (i + 1) * 3)))
            (dMULTIPLY0_331 (contact i).pos g1.final_posr.R
              (offset g1.points (pPoly (i + 1) * 3))) }) (by omega)
      have hidx : i + 1 + rem = i + (rem + 1) := by omega
      rw [hidx] at h1 h2
      refine ⟨h1, ?_⟩
      intro k
      rw [h2 k]
      by_cases hk : k = i
      · have hlt : i < min maxc (i + (rem + 1)) := Nat.lt_min.2 ⟨hi, by omega⟩
        rw [hk, if_neg (by omega), if_pos ⟨le_refl _, hlt⟩]
        exact Function.update_same _ _ _
      · rw [Function.update_noteq hk]
        by_cases hc : i + 1 ≤ k ∧ k < min maxc (i + (rem + 1))
        · rw [if_pos hc, if_pos ⟨by omega, hc.2⟩]
        · rw [if_neg hc, if_neg (by omega)]

end ReferenceFaceLemmas

section ReferenceFaceChoice

variable {α : Type} [LinearOrderedField α] (dNormalize3 : (Nat → α) → (Nat → α))
  (Convex1 Convex2 : dxConvex α) (dInfinity : α)

/-- The two runs of `CheckSATConvexFaces` in `TestConvexIntersection`, when no face
separates the shapes and some face straddles: both return `true`, and the
variables end at a straddling face, of either shape, that is at most as deep as
every straddling face of both. -/
theorem CheckSATConvexFaces_reference
    (hf1 : ∀ i, i < Convex1.planecount → ¬ faceSeparates dNormalize3 Convex1 Convex2 i)
    (hf2 : ∀ i, i < Convex2.planecount → ¬ faceSeparates dNormalize3 Convex2 Convex1 i)
    (hstr : (∃ i, i < Convex1.planecount ∧ faceStraddles dNormalize3 Convex1 Convex2 i) ∨
      (∃ i, i < Convex2.planecount ∧ faceStraddles dNormalize3 Convex2 Convex1 i))
    (hfin1 : ∀ i, i < Convex1.planecount →
      dFabs (faceDepth dNormalize3 Convex1 Convex2 i) < dFabs dInfinity)
    (hfin2 : ∀ i, i < Convex2.planecount →
      dFabs (faceDepth dNormalize3 Convex2 Convex1 i) < dFabs dInfinity) :
    ∃ st1 g other f,
      CheckSATConvexFaces dNormalize3 Convex1 Convex2
        { min_depth := dInfinity, side_index := -1, g1 := none, g2 := none } = (true, st1) ∧
      CheckSATConvexFaces dNormalize3 Convex2 Convex1 st1 =
        (true, { min_depth := faceDepth dNormalize3 g other f, side_index := (f : Int),
                 g1 := some g, g2 := some other }) ∧
      ((g = Convex1 ∧ other = Convex2) ∨ (g = Convex2 ∧ other = Convex1)) ∧
      f < g.planecount ∧ faceStraddles dNormalize3 g other f ∧
      (∀ i, i < Convex1.planecount → faceStraddles dNormalize3 Convex1 Convex2 i →
        dFabs (faceDepth dNormalize3 g other f) ≤
          dFabs (faceDepth dNormalize3 Convex1 Convex2 i)) ∧
      (∀ i, i < Convex2.planecount → faceStraddles dNormalize3 Convex2 Convex1 i →
        dFabs (faceDepth dNormalize3 g other f) ≤
          dFabs (faceDepth dNormalize3 Convex2 Convex1 i)) := by
  obtain ⟨st1, hrun1, hres1⟩ := CheckSATConvexFacesLoop_true dNormalize3 Convex1 Convex2
    Convex1.planecount 0
    { min_depth := dInfinity, side_index := -1, g1 := none, g2 := none }
    (fun j _ hj => hf1 j (by omega))
  obtain ⟨st2, hrun2, hres2⟩ := CheckSATConvexFacesLoop_true dNormalize3 Convex2 Convex1
    Convex2.planecount 0 st1 (fun j _ hj => hf2 j (by omega))
  rw [Nat.zero_add] at hres1 hres2
  rcases hres2 with ⟨heq2, hall2⟩ | ⟨f2, _, hf2lt, hs2, hst2, hlt2, hmin2⟩
  · rcases hres1 with ⟨heq1, hall1⟩ | ⟨f1, _, hf1lt, hs1, hst1, hlt1, hmin1⟩
    · exfalso
      rw [heq1] at hall2
      rcases hstr with ⟨i, hi, hs⟩ | ⟨i, hi, hs⟩
      · exact absurd (hfin1 i hi) (not_lt.2 (hall1 i (Nat.zero_le _) hi hs))
      · exact absurd (hfin2 i hi) (not_lt.2 (hall2 i (Nat.zero_le _) hi hs))
    · refine ⟨st1, Convex1, Convex2, f1, hrun1, ?_, Or.inl ⟨rfl, rfl⟩, hf1lt, hs1, ?_, ?_⟩
      · exact hrun2.trans (by rw [heq2, hst1])
      · exact fun i hi hs => hmin1 i (Nat.zero_le _) hi hs
      · intro i hi hs
        have := hall2 i (Nat.zero_le _) hi hs
        rw [hst1] at this
        exact this
  · refine ⟨st1, Convex2, Convex1, f2, hrun1, ?_, Or.inr ⟨rfl, rfl⟩, hf2lt, hs2, ?_, ?_⟩
    · rw [← hst2]
      exact hrun2
    · intro i hi hs
      rcases hres1 with ⟨heq1, hall1⟩ | ⟨f1, _, hf1lt, hs1, hst1, hlt1, hmin1⟩
      · rw [heq1] at hlt2
        exact le_of_lt (lt_of_lt_of_le hlt2 (hall1 i (Nat.zero_le _) hi hs))
      · rw [hst1] at hlt2
        exact le_of_lt (lt_of_lt_of_le hlt2 (hmin1 i (Nat.zero_le _) hi hs))
    · exact fun i hi hs => hmin2 i (Nat.zero_le _) hi hs

end ReferenceFaceChoice

/-! ### Two axis-aligned cubes -/

section TwoCubes

variable (hA hX : ℚ) (posA posX : Nat → ℚ) (eA eX : List (Nat × Nat))

/-- The value that `ComputeInterval` computes for vertex `v` of one cube on the
plane of face `i` of another, with the identity for `dNormalize3`. -/
theorem cube_face_value (i : Nat) (hi : i < 6) (v : Nat) (hv : v < 8) :
    dDOT (worldPoint (cubeConvex hA posA eA) (v * 3))
        (facePlane (fun w => w) (cubeConvex hX posX eX) i) -
      facePlane (fun w => w) (cubeConvex hX posX eX) i 3 =
    (if i % 2 = 0 then 1 else -1) *
      (posA (i / 2) + cubePoints hA (v * 3 + i / 2) - posX (i / 2)) - hX := by
  interval_cases i <;>
    simp [dDOT, worldPoint, facePlane, cubeConvex, dVector3Add, dMULTIPLY0_331, setVec3, offset,
      identityR, cubePlanes, Function.update_apply] <;> ring

theorem cubePoints_zero (h : ℚ) (c : Nat) (hc : c < 3) : cubePoints h (0 * 3 + c) = -h := by
  interval_cases c <;> simp [cubePoints]

theorem cubePoints_seven (h : ℚ) (c : Nat) (hc : c < 3) : cubePoints h (7 * 3 + c) = h := by
  interval_cases c <;> simp [cubePoints]

/-- The interval of a cube on the plane of face `i` of another cube. -/
theorem cube_face_interval (hh : 0 ≤ hA) (i : Nat) (hi : i < 6) :
    ComputeInterval (cubeConvex hA posA eA) (facePlane (fun w => w) (cubeConvex hX posX eX) i) =
      ((if i % 2 = 0 then 1 else -1) * (posA (i / 2) - posX (i / 2)) - hA - hX,
        (if i % 2 = 0 then 1 else -1) * (posA (i / 2) - posX (i / 2)) + hA - hX) := by
  obtain ⟨hb, ⟨v0, hv0, hmin⟩, ⟨v1, hv1, hmax⟩⟩ := ComputeInterval_spec (cubeConvex hA posA eA)
    (facePlane (fun w => w) (cubeConvex hX posX eX) i) (show 1 ≤ 8 by decide)
  have hc : i / 2 < 3 := by omega
  have hval := cube_face_value hA hX posA posX eA eX i hi
  have hlow := hval 0 (by decide)
  have hhigh := hval 7 (by decide)
  rw [cubePoints_zero hA _ hc] at hlow
  rw [cubePoints_seven hA _ hc] at hhigh
  have hb0 := hb 0 (show 0 < 8 by decide)
  have hb7 := hb 7 (show 7 < 8 by decide)
  rw [hlow] at hb0
  rw [hhigh] at hb7
  rw [hval v0 hv0] at hmin
  rw [hval v1 hv1] at hmax
  have hp0 := cubePoints_cases hA (v0 * 3 + i / 2)
  have hp1 := cubePoints_cases hA (v1 * 3 + i / 2)
  refine Prod.ext ?_ ?_
  · show (ComputeInterval _ _).1 = _
    by_cases hs : i % 2 = 0
    · simp only [hs, if_true] at hmin hb0 hb7 ⊢
      rcases hp0 with h | h <;> rw [h] at hmin <;> linarith
    · simp only [hs, if_false] at hmin hb0 hb7 ⊢
      rcases hp0 with h | h <;> rw [h] at hmin <;> linarith
  · show (ComputeInterval _ _).2 = _
    by_cases hs : i % 2 = 0
    · simp only [hs, if_true] at hmax hb0 hb7 ⊢
      rcases hp1 with h | h <;> rw [h] at hmax <;> linarith
    · simp only [hs, if_false] at hmax hb0 hb7 ⊢
      rcases hp1 with h | h <;> rw [h] at hmax <;> linarith

end TwoCubes

/-! ### The reference face: the claim -/

/-- C21: the contacts of convex against convex come from the reference face. When
no tested axis separates the two shapes (no face plane of either and no cross
product of an edge of the first with an edge of the second gives disjoint
intervals) and the interval of the other shape straddles zero on some face (with
`maxc >= 1`, and `dInfinity` deeper than the overlap on every face),
`dCollideConvexConvex` returns, and there is a reference face `f` of one of the
shapes `g` that straddles and whose absolute overlap depth is the least among
the straddling faces of both shapes: the count returned is the minimum of `maxc`
and the number of vertices of that face, and the position of contact `k` is the
world-space position of the `k`-th vertex of the face. -/
theorem convex_convex_reference_face {α : Type} [LinearOrderedField α] (NUMC_MASK : Nat)
    (dInfinity : α) (dNormalize3 : (Nat → α) → (Nat → α)) (Convex1 Convex2 : dxConvex α)
    (flags : Nat) (contact : Nat → dContactGeom α) (hmaxc : 1 ≤ flags &&& NUMC_MASK)
    (hf1 : ∀ i, i < Convex1.planecount → ¬ faceSeparates dNormalize3 Convex1 Convex2 i)
    (hf2 : ∀ i, i < Convex2.planecount → ¬ faceSeparates dNormalize3 Convex2 Convex1 i)
    (he : ∀ e1, e1 ∈ Convex1.edges → ∀ e2, e2 ∈ Convex2.edges →
      ¬ ((ComputeInterval Convex2
            (edgePlane (edgeVector Convex1 e1) (edgeVector Convex2 e2))).2 <
          (ComputeInterval Convex1
            (edgePlane (edgeVector Convex1 e1) (edgeVector Convex2 e2))).1 ∨
        (ComputeInterval Convex1
            (edgePlane (edgeVector Convex1 e1) (edgeVector Convex2 e2))).2 <
          (ComputeInterval Convex2
            (edgePlane (edgeVector Convex1 e1) (edgeVector Convex2 e2))).1))
    (hstr : (∃ i, i < Convex1.planecount ∧ faceStraddles dNormalize3 Convex1 Convex2 i) ∨
      (∃ i, i < Convex2.planecount ∧ faceStraddles dNormalize3 Convex2 Convex1 i))
    (hfin1 : ∀ i, i < Convex1.planecount →
      dFabs (faceDepth dNormalize3 Convex1 Convex2 i) < dFabs dInfinity)
    (hfin2 : ∀ i, i < Convex2.planecount →
      dFabs (faceDepth dNormalize3 Convex2 Convex1 i) < dFabs dInfinity) :
    ∃ c g other f,
      dCollideConvexConvex NUMC_MASK dInfinity dNormalize3 Convex1 Convex2 flags contact =
        .ok c ∧
      ((g = Convex1 ∧ other = Convex2) ∨ (g = Convex2 ∧ other = Convex1)) ∧
      f < g.planecount ∧ faceStraddles dNormalize3 g other f ∧
      (∀ i, i < Convex1.planecount → faceStraddles dNormalize3 Convex1 Convex2 i →
        dFabs (faceDepth dNormalize3 g other f) ≤
          dFabs (faceDepth dNormalize3 Convex1 Convex2 i)) ∧
      (∀ i, i < Convex2.planecount → faceStraddles dNormalize3 Convex2 Convex1 i →
        dFabs (faceDepth dNormalize3 g other f) ≤
          dFabs (faceDepth dNormalize3 Convex2 Convex1 i)) ∧
      c.count = min (flags &&& NUMC_MASK) (g.polygons (skipPolygons g.polygons f 0)) ∧
      ∀ k, k < c.count → ∀ j, j < 3 →
        (c.contact k).pos j =
          worldPoint g (g.polygons (skipPolygons g.polygons f 0 + (k + 1)) * 3) j := by
  obtain ⟨st1, g, other, f, hrun1, hrun2, hrole, hflt, hfs, hmin1, hmin2⟩ :=
    CheckSATConvexFaces_reference dNormalize3 Convex1 Convex2 dInfinity hf1 hf2 hstr hfin1 hfin2
  have hedges : CheckSATConvexEdges Convex1 Convex2 = true :=
    CheckSATConvexEdgesOuter_true Convex1 Convex2 Convex1.edges
      (fun e1 h1 => CheckSATConvexEdgesInner_true Convex1 Convex2 _ Convex2.edges
        (fun e2 h2 => he e1 h1 e2 h2))
  obtain ⟨hcount, hcon⟩ := faceContactLoop_spec g
    (offset g.polygons (skipPolygons g.polygons f 0)) (flags &&& NUMC_MASK)
    (g.polygons (skipPolygons g.polygons f 0)) 0 contact (by omega)
  rw [Nat.zero_add] at hcount hcon
  have hrun : dCollideConvexConvex NUMC_MASK dInfinity dNormalize3 Convex1 Convex2 flags
      contact = .ok (faceContactLoop g (offset g.polygons (skipPolygons g.polygons f 0))
        (flags &&& NUMC_MASK) (g.polygons (skipPolygons g.polygons f 0)) 0 (0, contact)) := by
    unfold dCollideConvexConvex
    rw [if_neg (not_not.2 hmaxc)]
    unfold TestConvexIntersection
    simp only
    rw [if_neg (show ¬ (flags &&& NUMC_MASK = 0) from by omega), hrun1]
    simp only [Bool.true_eq_false, if_false]
    rw [hrun2, hedges]
    simp only [Bool.true_eq_false, if_false, Int.toNat_ofNat]
  refine ⟨_, g, other, f, hrun, hrole, hflt, hfs, hmin1, hmin2, hcount, ?_⟩
  intro k hk j hj
  rw [hcount] at hk
  rw [hcon k, if_pos ⟨Nat.zero_le _, hk⟩]
  interval_cases j <;>
    simp [worldPoint, dVector3Add, dMULTIPLY0_331, setVec3, offset]

/-- C21, witness: the unit cube at the origin against the unit cube at
`(0.75, 0, 0)`, with the identity for `dNormalize3`, `NUMC_MASK = 0xffff`,
`flags = 4` and `dInfinity = 1000000`; the face `+x` of the first cube
straddles. -/
theorem convex_convex_reference_face_witness :
    ∃ c g other f,
      dCollideConvexConvex 0xffff 1000000 (fun w => w) originCube shiftedCube 4 noContacts =
        .ok c ∧
      ((g = originCube ∧ other = shiftedCube) ∨ (g = shiftedCube ∧ other = originCube)) ∧
      f < g.planecount ∧ faceStraddles (fun w => w) g other f ∧
      (∀ i, i < originCube.planecount → faceStraddles (fun w => w) originCube shiftedCube i →
        dFabs (faceDepth (fun w => w) g other f) ≤
          dFabs (faceDepth (fun w => w) originCube shiftedCube i)) ∧
      (∀ i, i < shiftedCube.planecount → faceStraddles (fun w => w) shiftedCube originCube i →
        dFabs (faceDepth (fun w => w) g other f) ≤
          dFabs (faceDepth (fun w => w) shiftedCube originCube i)) ∧
      c.count = min (4 &&& 0xffff) (g.polygons (skipPolygons g.polygons f 0)) ∧
      ∀ k, k < c.count → ∀ j, j < 3 →
        (c.contact k).pos j =
          worldPoint g (g.polygons (skipPolygons g.polygons f 0 + (k + 1)) * 3) j :=
  convex_convex_reference_face 0xffff 1000000 (fun w => w) originCube shiftedCube 4 noContacts
    (by decide)
    (by
      intro i hi
      have hi6 : i < 6 := hi
      unfold faceSeparates originCube shiftedCube
      rw [cube_face_interval _ _ _ _ _ _ (by norm_num) i hi6,
        cube_face_interval _ _ _ _ _ _ (by norm_num) i hi6]
      interval_cases i <;> norm_num)
    (by
      intro i hi
      have hi6 : i < 6 := hi
      unfold faceSeparates originCube shiftedCube
      rw [cube_face_interval _ _ _ _ _ _ (by norm_num) i hi6,
        cube_face_interval _ _ _ _ _ _ (by norm_num) i hi6]
      interval_cases i <;> norm_num)
    (fun e1 h1 => absurd h1 (List.not_mem_nil e1))
    (Or.inl ⟨0, by decide, by
      unfold faceStraddles originCube shiftedCube
      rw [cube_face_interval _ _ _ _ _ _ (by norm_num) 0 (by decide)]
      norm_num⟩)
    (by
      intro i hi
      have hi6 : i < 6 := hi
      unfold faceDepth originCube shiftedCube
      rw [cube_face_interval _ _ _ _ _ _ (by norm_num) i hi6,
        cube_face_interval _ _ _ _ _ _ (by norm_num) i hi6]
      interval_cases i <;> norm_num [dFabs])
    (by
      intro i hi
      have hi6 : i < 6 := hi
      unfold faceDepth originCube shiftedCube
      rw [cube_face_interval _ _ _ _ _ _ (by norm_num) i hi6,
        cube_face_interval _ _ _ _ _ _ (by norm_num) i hi6]
      interval_cases i <;> norm_num [dFabs])

/-! ## Contents of the convex-plane contacts -/

/-- C31: convex-plane contact contents. For every convex, plane and `maxc >= 1`,
when some vertex has signed distance `<= 0` and some vertex has signed distance
`>= 0`, `dCollideConvexPlane` returns `min (maxc, number of vertices with signed
distance <= 0)`, and contact `k` below that count describes the `k`-th such
vertex in index order: its position is the world-space vertex, its normal the
plane normal, its depth minus the signed distance, which is not negative, `g1`
is the convex and `g2` the plane; otherwise it returns 0. -/
theorem convex_plane_contact_contents {α : Type} [LinearOrderedField α] (NUMC_MASK : Nat)
    (Convex : dxConvex α) (Plane : dxPlane α) (o1 o2 flags : Nat)
    (contact : Nat → dContactGeom α) (h1 : 1 ≤ flags &&& NUMC_MASK)
    (h2 : BOTH_SIGNS &&& NUMC_MASK = 0) :
    ∃ c, dCollideConvexPlane NUMC_MASK Convex Plane o1 o2 flags contact = .ok c ∧
      (((∃ k, k < Convex.pointcount ∧ planeDistance Convex Plane k ≤ 0) ∧
        (∃ k, k < Convex.pointcount ∧ 0 ≤ planeDistance Convex Plane k)) →
        c.count = min (flags &&& NUMC_MASK)
          (touching Convex Plane 0 Convex.pointcount).length ∧
        ∀ k, k < c.count →
          ∃ v, (touching Convex Plane 0 Convex.pointcount)[k]? = some v ∧
            v < Convex.pointcount ∧ planeDistance Convex Plane v ≤ 0 ∧
            (∀ j, j < 3 → (c.contact k).pos j = worldPoint Convex (v * 3) j) ∧
            (∀ j, j < 3 → (c.contact k).normal j = Plane.p j) ∧
            (c.contact k).depth = -planeDistance Convex Plane v ∧
            0 ≤ (c.contact k).depth ∧
            (c.contact k).g1 = o1 ∧ (c.contact k).g2 = o2) ∧
      (¬ ((∃ k, k < Convex.pointcount ∧ planeDistance Convex Plane k ≤ 0) ∧
        (∃ k, k < Convex.pointcount ∧ 0 ≤ planeDistance Convex Plane k)) → c.count = 0) := by
  obtain ⟨c, hc, hboth, hnot, hcon⟩ := dCollideConvexPlane_spec NUMC_MASK Convex Plane o1 o2
    flags contact h1 h2
  refine ⟨c, hc, ?_, hnot⟩
  intro hb
  refine ⟨hboth hb, ?_⟩
  intro k hk
  rw [hboth hb] at hk
  have hklen : k < (touching Convex Plane 0 Convex.pointcount).length :=
    lt_of_lt_of_le hk (Nat.min_le_right _ _)
  have hget : (touching Convex Plane 0 Convex.pointcount)[k]? =
      some ((touching Convex Plane 0 Convex.pointcount).getD k 0) := by
    rw [List.getD_eq_getElem?_getD, List.getElem?_eq_getElem hklen]
    rfl
  have hmem : (touching Convex Plane 0 Convex.pointcount).getD k 0 ∈
      touching Convex Plane 0 Convex.pointcount := by
    rw [List.getD_eq_getElem _ _ hklen]
    exact List.getElem_mem _
  obtain ⟨hv, hd⟩ := (mem_touching Convex Plane Convex.pointcount _).1 hmem
  refine ⟨_, hget, hv, hd, ?_⟩
  rw [hcon k, if_pos hk]
  refine ⟨?_, ?_, rfl, ?_, rfl, rfl⟩
  · intro j hj
    simp only [planeContact, dVector3Copy, setVec3]
    interval_cases j <;> simp
  · intro j hj
    simp only [planeContact, dVector3Copy, setVec3]
    interval_cases j <;> simp
  · simp only [planeContact]
    linarith

/-- C31, witness: the unit cube cut by the plane `z = 0.4` with room for four
contacts. -/
theorem convex_plane_contact_contents_witness :
    1 ≤ 4 &&& 0xffff ∧ BOTH_SIGNS &&& 0xffff = 0 ∧
    ∃ c, dCollideConvexPlane 0xffff (cubeConvex (1 / 2) (fun _ => 0) []) (zPlane (2 / 5)) 1 2 4
        noContacts = .ok c ∧
      (((∃ k, k < 8 ∧
            planeDistance (cubeConvex (1 / 2) (fun _ => 0) []) (zPlane (2 / 5)) k ≤ 0) ∧
        (∃ k, k < 8 ∧
            0 ≤ planeDistance (cubeConvex (1 / 2) (fun _ => 0) []) (zPlane (2 / 5)) k)) →
        c.count = min (4 &&& 0xffff)
          (touching (cubeConvex (1 / 2) (fun _ => 0) []) (zPlane (2 / 5)) 0 8).length) :=
  ⟨by decide, by decide,
   (convex_plane_contact_contents 0xffff (cubeConvex (1 / 2) (fun _ => 0) [])
     (zPlane (2 / 5)) 1 2 4 noContacts (by decide) (by decide)).imp
     (fun _ h => ⟨h.1, fun hb => (h.2.1 hb).1⟩)⟩

/-! ## Enumeration of the members -/

/-- What `getGeom` returns for an index below the count of a well-formed
space. -/
theorem getGeom_of_lt {α : Type} (s : dxSAPSpace α) (hwf : WellFormed s) (i : Nat)
    (hi : (i : Int) < s.count) :
    ∃ g, getGeom s (i : Int) = .ok g ∧ (s.DirtyList ++ s.GeomList)[i]? = some g := by
  obtain ⟨_, _, _, hcount⟩ := hwf
  have hnn : ¬ ¬ ((0 : Int) ≤ (i : Int) ∧ (i : Int) < s.count) :=
    not_not.2 ⟨Int.ofNat_nonneg i, hi⟩
  unfold getGeom
  rw [if_neg hnn]
  by_cases hd : i < s.DirtyList.length
  · have hd2 : (i : Int) < (s.DirtyList.length : Int) := by omega
    refine ⟨s.DirtyList.getD i 0, ?_, ?_⟩
    · simp only [hd2, if_true, Int.toNat_ofNat, getElem?_of_lt_getD s.DirtyList i hd]
    · rw [List.getElem?_append_left hd]
      exact getElem?_of_lt_getD s.DirtyList i hd
  · have hd2 : ¬ (i : Int) < (s.DirtyList.length : Int) := by omega
    have hg : i - s.DirtyList.length < s.GeomList.length := by omega
    have hsub : ((i : Int) - (s.DirtyList.length : Int)).toNat = i - s.DirtyList.length := by
      omega
    refine ⟨s.GeomList.getD (i - s.DirtyList.length) 0, ?_, ?_⟩
    · simp only [hd2, if_false, hsub, getElem?_of_lt_getD s.GeomList _ hg]
    · rw [List.getElem?_append_right (by omega)]
      exact getElem?_of_lt_getD s.GeomList _ hg

/-- The two lists of a well-formed space hold no geometry twice. -/
theorem members_nodup {α : Type} (s : dxSAPSpace α) (hwf : WellFormed s) :
    (s.DirtyList ++ s.GeomList).Nodup := by
  have hwf' := hwf
  obtain ⟨_, hdirty, hclean, _⟩ := hwf
  have hndD : s.DirtyList.Nodup :=
    nodup_of_index s.DirtyList (fun x => (s.heap x).next) (fun i hi => (hdirty i hi).2.2.1)
  have hndG : s.GeomList.Nodup :=
    nodup_of_index s.GeomList (fun x => (s.heap x).tome) (fun i hi => (hclean i hi).2.2.1)
  rw [List.nodup_append]
  refine ⟨hndD, hndG, ?_⟩
  intro a ha hb
  exact dirty_not_mem_clean s hwf' a ha hb

/-- C39: `getGeom` enumerates the members. For every well-formed space with count
`c`, `getGeom (i)` for `i = 0 .. c-1` returns entry `i` of the dirty list followed
by the clean list, every member is returned for exactly one such `i`, and
`getGeom` fails with "index out of range" for `i < 0` and for `i >= c`. -/
theorem getGeom_enumerates {α : Type} (s : dxSAPSpace α) (hwf : WellFormed s) :
    s.count = ((s.DirtyList ++ s.GeomList).length : Int) ∧
    (∀ i : Nat, (i : Int) < s.count →
      ∃ g, getGeom s (i : Int) = .ok g ∧ (s.DirtyList ++ s.GeomList)[i]? = some g) ∧
    (∀ g, g ∈ s.DirtyList ++ s.GeomList →
      ∃ i : Nat, ((i : Int) < s.count ∧ getGeom s (i : Int) = .ok g) ∧
        ∀ j : Nat, (j : Int) < s.count → getGeom s (j : Int) = .ok g → j = i) ∧
    (∀ i : Int, i < 0 ∨ s.count ≤ i → getGeom s i = .failed "index out of range" 0) := by
  have hcount : s.count = ((s.DirtyList ++ s.GeomList).length : Int) := by
    rw [List.length_append]
    push_cast
    exact hwf.2.2.2
  have hnd := members_nodup s hwf
  refine ⟨hcount, fun i hi => getGeom_of_lt s hwf i hi, ?_, ?_⟩
  · intro g hg
    obtain ⟨i, hi⟩ := mem_getElem?_of_mem _ _ hg
    have hilt : i < (s.DirtyList ++ s.GeomList).length := by
      rcases Nat.lt_or_ge i (s.DirtyList ++ s.GeomList).length with h | h
      · exact h
      · rw [List.getElem?_eq_none h] at hi; cases hi
    have hic : (i : Int) < s.count := by rw [hcount]; exact_mod_cast hilt
    obtain ⟨g2, hrun, hget⟩ := getGeom_of_lt s hwf i hic
    rw [hi] at hget
    cases hget
    refine ⟨i, ⟨hic, hrun⟩, ?_⟩
    intro j hj hrunj
    obtain ⟨g3, hrun3, hget3⟩ := getGeom_of_lt s hwf j hj
    rw [hrunj] at hrun3
    cases hrun3
    have hjlt : j < (s.DirtyList ++ s.GeomList).length := by
      rw [hcount] at hj; exact_mod_cast hj
    exact List.getElem?_inj hjlt hnd (hget3.trans hi.symm)
  · intro i hi
    unfold getGeom
    rw [if_pos (by omega)]

/-- C39, witness: the space with dirty list `1, 2, 3` and clean list `4, 5`. -/
theorem getGeom_enumerates_witness :
    WellFormed demoSpace ∧
    (List.map (fun i : Nat => getGeom demoSpace (i : Int)) (List.range 5) =
      [.ok 1, .ok 2, .ok 3, .ok 4, .ok 5]) ∧
    (∀ i : Int, i < 0 ∨ demoSpace.count ≤ i →
      getGeom demoSpace i = .failed "index out of range" 0) :=
  ⟨by decide, rfl, (getGeom_enumerates demoSpace (by decide)).2.2.2⟩

/-! ## Adding a geometry that was removed -/

/-- C37, the code at a failing input: the members `4` (of the clean list) and `2`
(of the dirty list) of the well-formed, unlocked demonstration space. `remove`
succeeds on each and leaves a well-formed, unlocked space that no longer lists
the geometry, whose parent space is null; but both stored indices of the
geometry, the `next` link among them, hold the invalid index `-1` and not null,
and the following `add` fails its assertion "geom is already in a space". -/
theorem removed_geometry_cannot_be_added :
    WellFormed demoSpace ∧ demoSpace.lock_count = 0 ∧
    4 ∈ demoSpace.GeomList ∧ 2 ∈ demoSpace.DirtyList ∧
    (∃ s1, remove 1 4 demoSpace 4 = .ok s1 ∧ WellFormed s1 ∧ s1.lock_count = 0 ∧
      4 ∉ s1.DirtyList ∧ 4 ∉ s1.GeomList ∧
      (s1.heap 4).parent_space = 0 ∧ (s1.heap 4).next = -1 ∧ (s1.heap 4).tome = -1 ∧
      add 1 4 s1 4 = .failed "geom is already in a space" s1) ∧
    (∃ s1, remove 1 4 demoSpace 2 = .ok s1 ∧ WellFormed s1 ∧ s1.lock_count = 0 ∧
      2 ∉ s1.DirtyList ∧ 2 ∉ s1.GeomList ∧
      (s1.heap 2).parent_space = 0 ∧ (s1.heap 2).next = -1 ∧ (s1.heap 2).tome = -1 ∧
      add 1 4 s1 2 = .failed "geom is already in a space" s1) :=
  ⟨by decide, by decide, by decide, by decide,
   ⟨_, rfl, by decide, by decide, by decide, by decide, by decide, by decide, by decide, rfl⟩,
   ⟨_, rfl, by decide, by decide, by decide, by decide, by decide, by decide, by decide, rfl⟩⟩

/-! ## Segment against plane -/

/-- With a divisor other than zero `IntersectSegmentPlane` returns `true` exactly
when the parameter of the point where the line through `a` and `b` meets the
plane is in `[0, 1]`; the point `q` it writes is then on the plane, and otherwise
`q` is as it was. -/
theorem IntersectSegmentPlane_spec {α : Type} [LinearOrderedField α] (negZero : Bool)
    (a b p : Nat → α) (q : Nat → α)
    (hden : p 0 * (b 0 - a 0) + p 1 * (b 1 - a 1) + p 2 * (b 2 - a 2) ≠ 0) :
    (IntersectSegmentPlane negZero a b p q).2.1 =
      .num ((p 3 - dDOT p a) / (p 0 * (b 0 - a 0) + p 1 * (b 1 - a 1) + p 2 * (b 2 - a 2))) ∧
    ((IntersectSegmentPlane negZero a b p q).1 = true ↔
      0 ≤ (p 3 - dDOT p a) / (p 0 * (b 0 - a 0) + p 1 * (b 1 - a 1) + p 2 * (b 2 - a 2)) ∧
      (p 3 - dDOT p a) / (p 0 * (b 0 - a 0) + p 1 * (b 1 - a 1) + p 2 * (b 2 - a 2)) ≤ 1) ∧
    ((IntersectSegmentPlane negZero a b p q).1 = true →
      dDOT p (IntersectSegmentPlane negZero a b p q).2.2 = p 3) ∧
    ((IntersectSegmentPlane negZero a b p q).1 = false →
      (IntersectSegmentPlane negZero a b p q).2.2 = q) := by
  have hdot : dDOT p (setVec3 (fun _ => 0) (b 0 - a 0) (b 1 - a 1) (b 2 - a 2)) =
      p 0 * (b 0 - a 0) + p 1 * (b 1 - a 1) + p 2 * (b 2 - a 2) := by
    simp [dDOT, setVec3]
  have ht : dRealDiv negZero (p 3 - dDOT p a)
      (dDOT p (setVec3 (fun _ => 0) (b 0 - a 0) (b 1 - a 1) (b 2 - a 2))) =
      .num ((p 3 - dDOT p a) /
        (p 0 * (b 0 - a 0) + p 1 * (b 1 - a 1) + p 2 * (b 2 - a 2))) := by
    unfold dRealDiv
    rw [hdot, if_neg hden]
  unfold IntersectSegmentPlane
  simp only [ht, dRealQuotient.ge, dRealQuotient.le, dRealQuotient.value, decide_eq_true_eq]
  by_cases hin : 0 ≤ (p 3 - dDOT p a) /
      (p 0 * (b 0 - a 0) + p 1 * (b 1 - a 1) + p 2 * (b 2 - a 2)) ∧
      (p 3 - dDOT p a) / (p 0 * (b 0 - a 0) + p 1 * (b 1 - a 1) + p 2 * (b 2 - a 2)) ≤ 1
  · rw [if_pos hin]
    refine ⟨rfl, ⟨fun _ => hin, fun _ => rfl⟩, ?_, fun h => Bool.noConfusion h⟩
    intro _
    simp only [dDOT, setVec3]
    simp only [if_true, one_ne_zero, if_false, OfNat.ofNat_ne_zero, OfNat.ofNat_ne_one,
      ite_true, ite_false]
    field_simp
    ring
  · rw [if_neg hin]
    exact ⟨rfl, ⟨fun h => Bool.noConfusion h, fun h => absurd h hin⟩,
      fun h => Bool.noConfusion h, fun _ => rfl⟩

/-- C32, the code at the failing input: the top face of the octagonal prism, a
convex octagon in the plane `z = 1` with the corner `(4/3, 2)` first, and the
point `p = (43/30, 9/5, 1)`. The point is in the plane of the face and strictly
on the inner side of the planes of all eight side faces, so it lies inside the
octagon. `IsPointInPolygon` returns `false` in its first iteration: with
`a = (4/3, 2, 1)`, `b = (-4/3, 2, 1)` and `c = (-2, 3/2, 1)` both `d1 = ab.ap` and
`d2 = ac.ap` are negative, and the corner `a` is written to `out`. The centre
`(0, 0, 1)` of the face is accepted. -/
theorem IsPointInPolygon_rejects_interior_point :
    dDOT (offset octagonPrism.planes (0 * 4)) (vec4 (43 / 30) (9 / 5) 1 0) -
      offset octagonPrism.planes (0 * 4) 3 = 0 ∧
    (∀ j, 2 ≤ j → j < 10 →
      dDOT (offset octagonPrism.planes (j * 4)) (vec4 (43 / 30) (9 / 5) 1 0) -
        offset octagonPrism.planes (j * 4) 3 < 0) ∧
    octagonPrism.polygons 0 = 8 ∧
    (IsPointInPolygon (vec4 (43 / 30) (9 / 5) 1 0) octagonPrism.polygons octagonPrism
      (fun _ => 0)).1 = false ∧
    (IsPointInPolygon (vec4 (43 / 30) (9 / 5) 1 0) octagonPrism.polygons octagonPrism
      (fun _ => 0)).2 0 = 4 / 3 ∧
    (IsPointInPolygon (vec4 (43 / 30) (9 / 5) 1 0) octagonPrism.polygons octagonPrism
      (fun _ => 0)).2 1 = 2 ∧
    (IsPointInPolygon (vec4 (43 / 30) (9 / 5) 1 0) octagonPrism.polygons octagonPrism
      (fun _ => 0)).2 2 = 1 ∧
    (IsPointInPolygon (vec4 0 0 1 0) octagonPrism.polygons octagonPrism (fun _ => 0)).1 =
      true := by
  have hrun : IsPointInPolygon (vec4 (43 / 30) (9 / 5) 1 0) octagonPrism.polygons octagonPrism
      (fun _ => 0) = (false, setVec3 (fun _ => 0) (4 / 3) 2 1) := by
    have h8 : octagonPrism.polygons 0 = 7 + 1 := rfl
    unfold IsPointInPolygon
    rw [h8, IsPointInPolygonLoop]
    simp only
    rw [if_pos]
    · congr 1
      simp [worldPoint, dVector3Add, dMULTIPLY0_331, setVec3, dDOT, offset, octagonPrism,
        dCreateConvex, FillEdges, octagonPolygons, octagonPoints, octagonCorners, identityR]
    · simp [worldPoint, dVector3Add, dMULTIPLY0_331, setVec3, dDOT, offset, octagonPrism,
        dCreateConvex, FillEdges, octagonPolygons, octagonPoints, octagonCorners, identityR,
        vec4]
      norm_num
  refine ⟨?_, ?_, rfl, ?_, ?_, ?_, ?_, ?_⟩
  · simp [dDOT, offset, octagonPrism, dCreateConvex, FillEdges, octagonPlanes, vec4]
  · intro j h2 h10
    interval_cases j <;>
      simp [dDOT, offset, octagonPrism, dCreateConvex, FillEdges, octagonPlanes, vec4] <;>
      norm_num
  · rw [hrun]
  · rw [hrun]; simp [setVec3]
  · rw [hrun]; simp [setVec3]
  · rw [hrun]; simp [setVec3]
  · have h8 : octagonPrism.polygons 0 = 8 := rfl
    unfold IsPointInPolygon
    rw [h8]
    simp [IsPointInPolygonLoop, worldPoint, dVector3Add, dMULTIPLY0_331, setVec3, dDOT, offset,
      octagonPrism, dCreateConvex, FillEdges, octagonPolygons, octagonPoints, octagonCorners,
      identityR, vec4]
    norm_num

/-! ### An oblique ray against a cube -/

section ObliqueRay

variable (x y len : ℚ) (pos : Nat → ℚ)

theorem rayAlpha_oblique (i : Nat) (hi : i < 6) :
    rayAlpha (rayOblique x y 0 len) (boxConvex (1 / 2) (1 / 2) (1 / 2) pos) i =
      ([x - 1 / 2, -x - 1 / 2, y - 1 / 2, -y - 1 / 2, -1 / 2, -1 / 2] : List ℚ).getD i 0 := by
  interval_cases i <;>
    simp [rayAlpha, rayOblique, boxConvex, dCreateConvex, FillEdges, boxPlanes, dDOT, offset] <;>
    norm_num

theorem rayBeta_oblique (i : Nat) (hi : i < 6) :
    rayBeta dot13 (rayOblique x y 0 len) (boxConvex (1 / 2) (1 / 2) (1 / 2) pos) i =
      ([4 / 5, -4 / 5, 4 / 5, -4 / 5, -1, 1] : List ℚ).getD i 0 := by
  interval_cases i <;>
    simp [rayBeta, rayOblique, boxConvex, dCreateConvex, FillEdges, boxPlanes, dot13, offset,
      obliqueR] <;>
    norm_num

theorem rayPoint_oblique (old : Nat → ℚ) (alpha : ℚ) :
    rayPoint (rayOblique x y 0 len) old alpha 0 = x + alpha * (4 / 5) ∧
    rayPoint (rayOblique x y 0 len) old alpha 1 = y + alpha * (3 / 5) ∧
    rayPoint (rayOblique x y 0 len) old alpha 2 = 0 := by
  simp [rayPoint, rayOblique, setVec3, obliqueR]

theorem oblique_box_start (hfront : 0 ≤ -x - 1 / 2) :
    rayStartLoop (rayOblique x y 0 len) (boxConvex (1 / 2) (1 / 2) (1 / 2) pos)
      (boxConvex (1 / 2) (1 / 2) (1 / 2) pos).planecount 0 = 1 := by
  refine rayStartLoop_outside _ _ _ 0 ⟨1, Nat.zero_le _, (by show 1 < 0 + 6; decide), ?_⟩
  rw [rayAlpha_oblique x y len pos 1 (by decide)]
  simpa using hfront

/-- The faces `+x`, `+y`, `+z` and `-z` of the cube fail the test of the second
loop for the oblique ray in the plane `z = 0` that starts at `x <= -1/2`. -/
theorem oblique_box_no_candidate (dEpsilon depth : ℚ) (heps : 0 ≤ dEpsilon)
    (hfront : 0 ≤ -x - 1 / 2) (j : Nat) (hj : j < 6) (hj1 : j ≠ 1) (hj3 : j ≠ 3) :
    ¬ rayCandidate dEpsilon dot13 (rayOblique x y 0 len)
      (boxConvex (1 / 2) (1 / 2) (1 / 2) pos) 1 depth j := by
  intro h
  have hb := h.1
  have ha := h.2.1
  rw [rayBeta_oblique x y len pos j hj, mul_one] at hb
  rw [rayAlpha_oblique x y len pos j hj, one_mul] at ha
  interval_cases j <;> simp at hb ha <;> first | omega | linarith

end ObliqueRay

section ObliqueRayRuns

variable (x y len : ℚ) (pos : Nat → ℚ) (NUMC_MASK CONTACTS_UNIMPORTANT : Nat)
  (dInfinity dEpsilon : ℚ) (o1 o2 flags : Nat) (contact : Nat → dContactGeom ℚ)

theorem oblique_face1_candidate (heps1 : dEpsilon < 4 / 5) (hfront : 0 ≤ -x - 1 / 2)
    (hreach : -x - 1 / 2 ≤ len) (hlen : len < dInfinity) :
    rayCandidate dEpsilon dot13 (rayOblique x y 0 len)
      (boxConvex (1 / 2) (1 / 2) (1 / 2) pos) 1 dInfinity 1 := by
  unfold rayCandidate
  rw [rayAlpha_oblique x y len pos 1 (by decide), rayBeta_oblique x y len pos 1 (by decide)]
  simp only [List.getD_cons_succ, List.getD_cons_zero, mul_one, one_mul]
  exact ⟨by linarith, hfront, hreach, lt_of_le_of_lt hreach hlen⟩

theorem oblique_face1_others (old : Nat → ℚ) (heps : 0 < dEpsilon)
    (hfront : 0 ≤ -x - 1 / 2)
    (hy1 : y + (-x - 1 / 2) * (3 / 5) - 1 / 2 ≤ dEpsilon)
    (hy2 : -(y + (-x - 1 / 2) * (3 / 5)) - 1 / 2 ≤ dEpsilon) :
    rayOtherPlanesLoop dEpsilon (boxConvex (1 / 2) (1 / 2) (1 / 2) pos)
      (offset (boxConvex (1 / 2) (1 / 2) (1 / 2) pos).planes (1 * 4))
      (rayPoint (rayOblique x y 0 len) old
        (1 * rayAlpha (rayOblique x y 0 len) (boxConvex (1 / 2) (1 / 2) (1 / 2) pos) 1)) 1
      (boxConvex (1 / 2) (1 / 2) (1 / 2) pos).planecount 0 = 0 := by
  have hpt := rayPoint_oblique x y len
  refine rayOtherPlanesLoop_zero _ _ _ _ _ _ 0 ?_
  intro j _ hj hj1
  have hj6 : j < 6 := by simpa using hj
  rw [box_plane_dot (1 / 2) (1 / 2) (1 / 2) pos _ j hj6,
    box_plane_offset (1 / 2) (1 / 2) (1 / 2) pos 1 (by decide),
    rayAlpha_oblique x y len pos 1 (by decide),
    (hpt _ _).1, (hpt _ _).2.1, (hpt _ _).2.2]
  interval_cases j <;> simp <;> first | omega | linarith

/-- An oblique ray that starts in front of the `-x` face of the cube, above the
plane of its `-y` face: `dCollideRayConvex` accepts the face `-x` and reports the
point at the parameter `-x - 1/2`, the distance of the start from the plane of
that face, with that parameter as the depth. -/
theorem oblique_box_single (hmaxc : 1 ≤ flags &&& NUMC_MASK)
    (himportant : flags &&& CONTACTS_UNIMPORTANT = 0) (heps : 0 < dEpsilon)
    (heps1 : dEpsilon < 4 / 5) (hfront : 0 ≤ -x - 1 / 2) (hreach : -x - 1 / 2 ≤ len)
    (hlen : len < dInfinity) (hybelow : -y - 1 / 2 < 0)
    (hy1 : y + (-x - 1 / 2) * (3 / 5) - 1 / 2 ≤ dEpsilon)
    (hy2 : -(y + (-x - 1 / 2) * (3 / 5)) - 1 / 2 ≤ dEpsilon) :
    ∃ c, dCollideRayConvex NUMC_MASK CONTACTS_UNIMPORTANT dInfinity dEpsilon dot13
        (rayOblique x y 0 len) (boxConvex (1 / 2) (1 / 2) (1 / 2) pos) o1 o2 flags contact =
        .ok c ∧
      c.count = 1 ∧ (c.contact 0).depth = -x - 1 / 2 ∧
      (c.contact 0).pos 0 = x + (-x - 1 / 2) * (4 / 5) ∧
      (c.contact 0).pos 1 = y + (-x - 1 / 2) * (3 / 5) ∧ (c.contact 0).pos 2 = 0 ∧
      (c.contact 0).normal 0 = -1 ∧ (c.contact 0).normal 1 = 0 ∧
      (c.contact 0).normal 2 = 0 := by
  have hstart := oblique_box_start x y len pos hfront
  have ha1 : (1 : ℚ) * rayAlpha (rayOblique x y 0 len)
      (boxConvex (1 / 2) (1 / 2) (1 / 2) pos) 1 = -x - 1 / 2 := by
    rw [rayAlpha_oblique x y len pos 1 (by decide), one_mul]
    simp
  have hpt := rayPoint_oblique x y len
  have hcand := oblique_face1_candidate x y len pos dInfinity dEpsilon heps1 hfront hreach hlen
  have hothers := oblique_face1_others x y len pos dEpsilon (contact 0).pos heps hfront hy1 hy2
  unfold dCollideRayConvex
  rw [if_neg (not_not.2 hmaxc)]
  simp only
  rw [hstart]
  simp only [ne_eq, one_ne_zero, not_false_eq_true, if_true]
  have h0 := rayHitLoop_skip CONTACTS_UNIMPORTANT dEpsilon dot13 (rayOblique x y 0 len)
    (boxConvex (1 / 2) (1 / 2) (1 / 2) pos) flags 1
    { contact 0 with g1 := o1, g2 := o2, depth := dInfinity } 1 5 0
    (fun j _ hj => oblique_box_no_candidate x y len pos dEpsilon _ (le_of_lt heps) hfront j
      (by omega) (by omega) (by omega))
  have h1 := rayHitLoop_accept CONTACTS_UNIMPORTANT dEpsilon dot13 (rayOblique x y 0 len)
    (boxConvex (1 / 2) (1 / 2) (1 / 2) pos) flags 1 4 1
    { contact 0 with g1 := o1, g2 := o2, depth := dInfinity } hcand hothers himportant
  have h2 := rayHitLoop_skip CONTACTS_UNIMPORTANT dEpsilon dot13 (rayOblique x y 0 len)
    (boxConvex (1 / 2) (1 / 2) (1 / 2) pos) flags 1
    { pos := rayPoint (rayOblique x y 0 len) (contact 0).pos
        (1 * rayAlpha (rayOblique x y 0 len) (boxConvex (1 / 2) (1 / 2) (1 / 2) pos) 1)
      normal := setVec3 (contact 0).normal
        (1 * offset (boxConvex (1 / 2) (1 / 2) (1 / 2) pos).planes (1 * 4) 0)
        (1 * offset (boxConvex (1 / 2) (1 / 2) (1 / 2) pos).planes (1 * 4) 1)
        (1 * offset (boxConvex (1 / 2) (1 / 2) (1 / 2) pos).planes (1 * 4) 2)
      depth := 1 * rayAlpha (rayOblique x y 0 len) (boxConvex (1 / 2) (1 / 2) (1 / 2) pos) 1
      g1 := o1, g2 := o2 } 4 0 2
    (by
      intro j hj2 hj
      by_cases hj3 : j = 3
      · subst hj3
        intro h
        have ha := h.2.1
        rw [rayAlpha_oblique x y len pos 3 (by decide), one_mul] at ha
        simp at ha
        linarith
      · exact oblique_box_no_candidate x y len pos dEpsilon _ (le_of_lt heps) hfront j
          (by omega) (by omega) hj3)
  have hrun : rayHitLoop CONTACTS_UNIMPORTANT dEpsilon dot13 (rayOblique x y 0 len)
      (boxConvex (1 / 2) (1 / 2) (1 / 2) pos) flags 1
      (boxConvex (1 / 2) (1 / 2) (1 / 2) pos).planecount 0
      { contact 0 with g1 := o1, g2 := o2, depth := dInfinity } =
      { pos := rayPoint (rayOblique x y 0 len) (contact 0).pos
          (1 * rayAlpha (rayOblique x y 0 len) (boxConvex (1 / 2) (1 / 2) (1 / 2) pos) 1)
        normal := setVec3 (contact 0).normal
          (1 * offset (boxConvex (1 / 2) (1 / 2) (1 / 2) pos).planes (1 * 4) 0)
          (1 * offset (boxConvex (1 / 2) (1 / 2) (1 / 2) pos).planes (1 * 4) 1)
          (1 * offset (boxConvex (1 / 2) (1 / 2) (1 / 2) pos).planes (1 * 4) 2)
        depth := 1 * rayAlpha (rayOblique x y 0 len) (boxConvex (1 / 2) (1 / 2) (1 / 2) pos) 1
        g1 := o1, g2 := o2 } := by
    show rayHitLoop _ _ _ _ _ _ _ (1 + 5) 0 _ = _
    rw [h0]
    show rayHitLoop _ _ _ _ _ _ _ (4 + 1) 1 _ = _
    rw [h1]
    show rayHitLoop _ _ _ _ _ _ _ (4 + 0) 2 _ = _
    rw [h2]
    rfl
  rw [hrun]
  refine ⟨_, rfl, ?_, ?_, ?_, ?_, ?_, ?_, ?_, ?_⟩
  · show (if _ ≤ _ then 1 else 0) = 1
    rw [if_pos]
    show 1 * rayAlpha (rayOblique x y 0 len) (boxConvex (1 / 2) (1 / 2) (1 / 2) pos) 1 ≤ len
    rw [ha1]
    exact hreach
  · simp only [Function.update_same]
    exact ha1
  · simp only [Function.update_same]
    rw [(hpt _ _).1, ha1]
  · simp only [Function.update_same]
    rw [(hpt _ _).2.1, ha1]
  · simp only [Function.update_same]
    exact (hpt _ _).2.2
  · simp [Function.update_same, setVec3, boxConvex, dCreateConvex, FillEdges, boxPlanes,
      offset]
  · simp [Function.update_same, setVec3, boxConvex, dCreateConvex, FillEdges, boxPlanes,
      offset]
  · simp [Function.update_same, setVec3, boxConvex, dCreateConvex, FillEdges, boxPlanes,
      offset]

end ObliqueRayRuns

section ObliqueRayOverwrite

variable (x y len : ℚ) (pos : Nat → ℚ) (NUMC_MASK CONTACTS_UNIMPORTANT : Nat)
  (dInfinity dEpsilon : ℚ) (o1 o2 flags : Nat) (contact : Nat → dContactGeom ℚ)

/-- An oblique ray that starts in front of the `-x` face of the cube and below
the plane of its `-y` face, nearer to the latter plane: `dCollideRayConvex`
accepts the face `-x`, then takes the face `-y` for a candidate, writes its point
to the contact and rejects it. The depth and the normal are those of the face
`-x`, the position is the point computed for the face `-y`. -/
theorem oblique_box_overwrite (hmaxc : 1 ≤ flags &&& NUMC_MASK)
    (himportant : flags &&& CONTACTS_UNIMPORTANT = 0) (heps : 0 < dEpsilon)
    (heps1 : dEpsilon < 4 / 5) (hfront : 0 ≤ -x - 1 / 2) (hreach : -x - 1 / 2 ≤ len)
    (hlen : len < dInfinity)
    (hy1 : y + (-x - 1 / 2) * (3 / 5) - 1 / 2 ≤ dEpsilon)
    (hy2 : -(y + (-x - 1 / 2) * (3 / 5)) - 1 / 2 ≤ dEpsilon)
    (hbelow : 0 ≤ -y - 1 / 2) (hnearer : -y - 1 / 2 < -x - 1 / 2)
    (hout : dEpsilon < -(x + (-y - 1 / 2) * (4 / 5)) - 1 / 2) :
    ∃ c, dCollideRayConvex NUMC_MASK CONTACTS_UNIMPORTANT dInfinity dEpsilon dot13
        (rayOblique x y 0 len) (boxConvex (1 / 2) (1 / 2) (1 / 2) pos) o1 o2 flags contact =
        .ok c ∧
      c.count = 1 ∧ (c.contact 0).depth = -x - 1 / 2 ∧
      (c.contact 0).pos 0 = x + (-y - 1 / 2) * (4 / 5) ∧
      (c.contact 0).pos 1 = y + (-y - 1 / 2) * (3 / 5) ∧ (c.contact 0).pos 2 = 0 ∧
      (c.contact 0).normal 0 = -1 ∧ (c.contact 0).normal 1 = 0 ∧
      (c.contact 0).normal 2 = 0 := by
  have hstart := oblique_box_start x y len pos hfront
  have ha1 : (1 : ℚ) * rayAlpha (rayOblique x y 0 len)
      (boxConvex (1 / 2) (1 / 2) (1 / 2) pos) 1 = -x - 1 / 2 := by
    rw [rayAlpha_oblique x y len pos 1 (by decide), one_mul]
    simp
  have ha3 : (1 : ℚ) * rayAlpha (rayOblique x y 0 len)
      (boxConvex (1 / 2) (1 / 2) (1 / 2) pos) 3 = -y - 1 / 2 := by
    rw [rayAlpha_oblique x y len pos 3 (by decide), one_mul]
    simp
  have hpt := rayPoint_oblique x y len
  have hcand := oblique_face1_candidate x y len pos dInfinity dEpsilon heps1 hfront hreach hlen
  have hothers := oblique_face1_others x y len pos dEpsilon (contact 0).pos heps hfront hy1 hy2
  have hcand3 : rayCandidate dEpsilon dot13 (rayOblique x y 0 len)
      (boxConvex (1 / 2) (1 / 2) (1 / 2) pos) 1
      (1 * rayAlpha (rayOblique x y 0 len) (boxConvex (1 / 2) (1 / 2) (1 / 2) pos) 1) 3 := by
    unfold rayCandidate
    rw [ha1, ha3, rayBeta_oblique x y len pos 3 (by decide)]
    simp only [List.getD_cons_succ, List.getD_cons_zero, mul_one]
    exact ⟨by linarith, hbelow, le_of_lt (lt_of_lt_of_le hnearer hreach), hnearer⟩
  have hothers3 : ∀ old : Nat → ℚ,
      rayOtherPlanesLoop dEpsilon (boxConvex (1 / 2) (1 / 2) (1 / 2) pos)
        (offset (boxConvex (1 / 2) (1 / 2) (1 / 2) pos).planes (3 * 4))
        (rayPoint (rayOblique x y 0 len) old
          (1 * rayAlpha (rayOblique x y 0 len) (boxConvex (1 / 2) (1 / 2) (1 / 2) pos) 3)) 3
        (boxConvex (1 / 2) (1 / 2) (1 / 2) pos).planecount 0 = 1 := by
    intro old
    refine rayOtherPlanesLoop_one _ _ _ _ _ _ 0
      ⟨1, Nat.zero_le _, (by show 1 < 0 + 6; decide), by decide, ?_⟩
    rw [box_plane_dot (1 / 2) (1 / 2) (1 / 2) pos _ 1 (by decide),
      box_plane_offset (1 / 2) (1 / 2) (1 / 2) pos 3 (by decide), ha3, (hpt _ _).1]
    simpa using hout
  unfold dCollideRayConvex
  rw [if_neg (not_not.2 hmaxc)]
  simp only
  rw [hstart]
  simp only [ne_eq, one_ne_zero, not_false_eq_true, if_true]
  have h0 := rayHitLoop_skip CONTACTS_UNIMPORTANT dEpsilon dot13 (rayOblique x y 0 len)
    (boxConvex (1 / 2) (1 / 2) (1 / 2) pos) flags 1
    { contact 0 with g1 := o1, g2 := o2, depth := dInfinity } 1 5 0
    (fun j _ hj => oblique_box_no_candidate x y len pos dEpsilon _ (le_of_lt heps) hfront j
      (by omega) (by omega) (by omega))
  have h1 := rayHitLoop_accept CONTACTS_UNIMPORTANT dEpsilon dot13 (rayOblique x y 0 len)
    (boxConvex (1 / 2) (1 / 2) (1 / 2) pos) flags 1 4 1
    { contact 0 with g1 := o1, g2 := o2, depth := dInfinity } hcand hothers himportant
  have h2 := rayHitLoop_skip CONTACTS_UNIMPORTANT dEpsilon dot13 (rayOblique x y 0 len)
    (boxConvex (1 / 2) (1 / 2) (1 / 2) pos) flags 1
    { pos := rayPoint (rayOblique x y 0 len) (contact 0).pos
        (1 * rayAlpha (rayOblique x y 0 len) (boxConvex (1 / 2) (1 / 2) (1 / 2) pos) 1)
      normal := setVec3 (contact 0).normal
        (1 * offset (boxConvex (1 / 2) (1 / 2) (1 / 2) pos).planes (1 * 4) 0)
        (1 * offset (boxConvex (1 / 2) (1 / 2) (1 / 2) pos).planes (1 * 4) 1)
        (1 * offset (boxConvex (1 / 2) (1 / 2) (1 / 2) pos).planes (1 * 4) 2)
      depth := 1 * rayAlpha (rayOblique x y 0 len) (boxConvex (1 / 2) (1 / 2) (1 / 2) pos) 1
      g1 := o1, g2 := o2 } 1 3 2
    (fun j hj2 hj => oblique_box_no_candidate x y len pos dEpsilon _ (le_of_lt heps) hfront j
      (by omega) (by omega) (by omega))
  have h3 := rayHitLoop_reject CONTACTS_UNIMPORTANT dEpsilon dot13 (rayOblique x y 0 len)
    (boxConvex (1 / 2) (1 / 2) (1 / 2) pos) flags 1 2 3
    { pos := rayPoint (rayOblique x y 0 len) (contact 0).pos
        (1 * rayAlpha (rayOblique x y 0 len) (boxConvex (1 / 2) (1 / 2) (1 / 2) pos) 1)
      normal := setVec3 (contact 0).normal
        (1 * offset (boxConvex (1 / 2) (1 / 2) (1 / 2) pos).planes (1 * 4) 0)
        (1 * offset (boxConvex (1 / 2) (1 / 2) (1 / 2) pos).planes (1 * 4) 1)
        (1 * offset (boxConvex (1 / 2) (1 / 2) (1 / 2) pos).planes (1 * 4) 2)
      depth := 1 * rayAlpha (rayOblique x y 0 len) (boxConvex (1 / 2) (1 / 2) (1 / 2) pos) 1
      g1 := o1, g2 := o2 } hcand3 (hothers3 _)
  have h4 := rayHitLoop_skip CONTACTS_UNIMPORTANT dEpsilon dot13 (rayOblique x y 0 len)
    (boxConvex (1 / 2) (1 / 2) (1 / 2) pos) flags 1
    { pos := rayPoint (rayOblique x y 0 len)
        (rayPoint (rayOblique x y 0 len) (contact 0).pos
          (1 * rayAlpha (rayOblique x y 0 len) (boxConvex (1 / 2) (1 / 2) (1 / 2) pos) 1))
        (1 * rayAlpha (rayOblique x y 0 len) (boxConvex (1 / 2) (1 / 2) (1 / 2) pos) 3)
      normal := setVec3 (contact 0).normal
        (1 * offset (boxConvex (1 / 2) (1 / 2) (1 / 2) pos).planes (1 * 4) 0)
        (1 * offset (boxConvex (1 / 2) (1 / 2) (1 / 2) pos).planes (1 * 4) 1)
        (1 * offset (boxConvex (1 / 2) (1 / 2) (1 / 2) pos).planes (1 * 4) 2)
      depth := 1 * rayAlpha (rayOblique x y 0 len) (boxConvex (1 / 2) (1 / 2) (1 / 2) pos) 1
      g1 := o1, g2 := o2 } 2 0 4
    (fun j hj2 hj => oblique_box_no_candidate x y len pos dEpsilon _ (le_of_lt heps) hfront j
      (by omega) (by omega) (by omega))
  have hrun : rayHitLoop CONTACTS_UNIMPORTANT dEpsilon dot13 (rayOblique x y 0 len)
      (boxConvex (1 / 2) (1 / 2) (1 / 2) pos) flags 1
      (boxConvex (1 / 2) (1 / 2) (1 / 2) pos).planecount 0
      { contact 0 with g1 := o1, g2 := o2, depth := dInfinity } =
      { pos := rayPoint (rayOblique x y 0 len)
          (rayPoint (rayOblique x y 0 len) (contact 0).pos
            (1 * rayAlpha (rayOblique x y 0 len) (boxConvex (1 / 2) (1 / 2) (1 / 2) pos) 1))
          (1 * rayAlpha (rayOblique x y 0 len) (boxConvex (1 / 2) (1 / 2) (1 / 2) pos) 3)
        normal := setVec3 (contact 0).normal
          (1 * offset (boxConvex (1 / 2) (1 / 2) (1 / 2) pos).planes (1 * 4) 0)
          (1 * offset (boxConvex (1 / 2) (1 / 2) (1 / 2) pos).planes (1 * 4) 1)
          (1 * offset (boxConvex (1 / 2) (1 / 2) (1 / 2) pos).planes (1 * 4) 2)
        depth := 1 * rayAlpha (rayOblique x y 0 len) (boxConvex (1 / 2) (1 / 2) (1 / 2) pos) 1
        g1 := o1, g2 := o2 } := by
    show rayHitLoop _ _ _ _ _ _ _ (1 + 5) 0 _ = _
    rw [h0]
    show rayHitLoop _ _ _ _ _ _ _ (4 + 1) 1 _ = _
    rw [h1]
    show rayHitLoop _ _ _ _ _ _ _ (1 + 3) 2 _ = _
    rw [h2]
    show rayHitLoop _ _ _ _ _ _ _ (2 + 1) 3 _ = _
    rw [h3]
    show rayHitLoop _ _ _ _ _ _ _ (2 + 0) 4 _ = _
    rw [h4]
    rfl
  rw [hrun]
  refine ⟨_, rfl, ?_, ?_, ?_, ?_, ?_, ?_, ?_, ?_⟩
  · show (if _ ≤ _ then 1 else 0) = 1
    rw [if_pos]
    show 1 * rayAlpha (rayOblique x y 0 len) (boxConvex (1 / 2) (1 / 2) (1 / 2) pos) 1 ≤ len
    rw [ha1]
    exact hreach
  · simp only [Function.update_same]
    exact ha1
  · simp only [Function.update_same]
    rw [(hpt _ _).1, ha3]
  · simp only [Function.update_same]
    rw [(hpt _ _).2.1, ha3]
  · simp only [Function.update_same]
    exact (hpt _ _).2.2
  · simp [Function.update_same, setVec3, boxConvex, dCreateConvex, FillEdges, boxPlanes,
      offset]
  · simp [Function.update_same, setVec3, boxConvex, dCreateConvex, FillEdges, boxPlanes,
      offset]
  · simp [Function.update_same, setVec3, boxConvex, dCreateConvex, FillEdges, boxPlanes,
      offset]

end ObliqueRayOverwrite

/-! ## The contact of the ray collider -/

/-- C33, the code at the failing input: the unit cube at the origin and the ray of
length 10 from `(-1,0,0)` along the unit direction `(4/5, 3/5, 0)` (its rotation
`obliqueR` is one for which the readings of `dDOT13` with strides 3 and 4 give
the same run). The ray meets the plane `x = -1/2` of the face `-x` at the
parameter `5/8`, in the point `(-1/2, 3/8, 0)` of that face. `dCollideRayConvex`
accepts the face `-x` and returns 1, but it takes the distance `1/2` of the start
from the plane for the parameter: the depth is `1/2`, and the position
`(-3/5, 3/10, 0)` is off the plane of the face, `n.pos - d = 1/10`. -/
theorem ray_convex_contact_off_face :
    ∃ c, dCollideRayConvex 0xffff 0x80000000 1000000 (1 / 1000000) dot13
        (rayOblique (-1) 0 0 10) (boxConvex (1 / 2) (1 / 2) (1 / 2) (fun _ => 0)) 1 2 1
        noContacts = .ok c ∧
      c.count = 1 ∧ (c.contact 0).depth = 1 / 2 ∧
      (c.contact 0).normal 0 = -1 ∧ (c.contact 0).normal 1 = 0 ∧
      (c.contact 0).normal 2 = 0 ∧
      (c.contact 0).pos 0 = -3 / 5 ∧ (c.contact 0).pos 1 = 3 / 10 ∧
      (c.contact 0).pos 2 = 0 ∧
      dDOT (offset (boxConvex (1 / 2) (1 / 2) (1 / 2) (fun _ => 0)).planes (1 * 4))
          (c.contact 0).pos -
        offset (boxConvex (1 / 2) (1 / 2) (1 / 2) (fun _ => 0)).planes (1 * 4) 3 = 1 / 10 ∧
      dDOT (offset (boxConvex (1 / 2) (1 / 2) (1 / 2) (fun _ => 0)).planes (1 * 4))
          (rayPoint (rayOblique (-1) 0 0 10) (fun _ => 0) (5 / 8)) -
        offset (boxConvex (1 / 2) (1 / 2) (1 / 2) (fun _ => 0)).planes (1 * 4) 3 = 0 ∧
      rayPoint (rayOblique (-1) 0 0 10) (fun _ => 0) (5 / 8) 1 = 3 / 8 := by
  obtain ⟨c, hc, h1, h2, h3, h4, h5, h6, h7, h8⟩ := oblique_box_single (-1) 0 10 (fun _ => 0)
    0xffff 0x80000000 1000000 (1 / 1000000) 1 2 1 noContacts (by decide) (by decide)
    (by norm_num) (by norm_num) (by norm_num) (by norm_num) (by norm_num) (by norm_num)
    (by norm_num) (by norm_num)
  have hpt := rayPoint_oblique (-1) 0 10 (fun _ => 0) (5 / 8)
  refine ⟨c, hc, h1, by rw [h2]; norm_num, h6, h7, h8, by rw [h3]; norm_num,
    by rw [h4]; norm_num, h5, ?_, ?_, ?_⟩
  · rw [box_plane_dot (1 / 2) (1 / 2) (1 / 2) (fun _ => 0) _ 1 (by decide),
      box_plane_offset (1 / 2) (1 / 2) (1 / 2) (fun _ => 0) 1 (by decide), h3]
    norm_num
  · rw [box_plane_dot (1 / 2) (1 / 2) (1 / 2) (fun _ => 0) _ 1 (by decide),
      box_plane_offset (1 / 2) (1 / 2) (1 / 2) (fun _ => 0) 1 (by decide), hpt.1]
    norm_num
  · rw [hpt.2.1]
    norm_num

/-- C38, the code at the failing input: the unit cube at the origin and the ray of
length 10 from `(-2,-1,0)` along the unit direction `(4/5, 3/5, 0)` (rotation
`obliqueR`, for which the readings of `dDOT13` with strides 3 and 4 give the same
run). `dCollideRayConvex` accepts the face `-x` with depth `3/2` and the point
`(-4/5, -1/10, 0)`; it then examines the face `-y`, writes the point
`(-8/5, -7/10, 0)` at the parameter `1/2` to the contact and rejects the face. It
returns 1 with the depth `3/2` and the normal of the face `-x` and with the
position of the rejected face, which is not the start of the ray plus the depth
times its direction. -/
theorem ray_convex_position_of_rejected_face :
    ∃ c, dCollideRayConvex 0xffff 0x80000000 1000000 (1 / 1000000) dot13
        (rayOblique (-2) (-1) 0 10) (boxConvex (1 / 2) (1 / 2) (1 / 2) (fun _ => 0)) 1 2 1
        noContacts = .ok c ∧
      c.count = 1 ∧ (c.contact 0).depth = 3 / 2 ∧
      (c.contact 0).normal 0 = -1 ∧ (c.contact 0).normal 1 = 0 ∧
      (c.contact 0).normal 2 = 0 ∧
      (c.contact 0).pos 0 = -8 / 5 ∧ (c.contact 0).pos 1 = -7 / 10 ∧
      (c.contact 0).pos 2 = 0 ∧
      rayPoint (rayOblique (-2) (-1) 0 10) (fun _ => 0) (c.contact 0).depth 0 = -4 / 5 ∧
      rayPoint (rayOblique (-2) (-1) 0 10) (fun _ => 0) (c.contact 0).depth 1 = -1 / 10 ∧
      rayPoint (rayOblique (-2) (-1) 0 10) (fun _ => 0) (c.contact 0).depth 2 = 0 := by
  obtain ⟨c, hc, h1, h2, h3, h4, h5, h6, h7, h8⟩ := oblique_box_overwrite (-2) (-1) 10
    (fun _ => 0) 0xffff 0x80000000 1000000 (1 / 1000000) 1 2 1 noContacts (by decide)
    (by decide) (by norm_num) (by norm_num) (by norm_num) (by norm_num) (by norm_num)
    (by norm_num) (by norm_num) (by norm_num) (by norm_num) (by norm_num)
  have hpt := rayPoint_oblique (-2) (-1) 10 (fun _ => 0) (c.contact 0).depth
  refine ⟨c, hc, h1, by rw [h2]; norm_num, h6, h7, h8, by rw [h3]; norm_num,
    by rw [h4]; norm_num, h5, ?_, ?_, hpt.2.2⟩
  · rw [hpt.1, h2]
    norm_num
  · rw [hpt.2.1, h2]
    norm_num

/-! ## Box pruning: the sentinel and the pairs pushed -/

section BoxPruningSentinel

variable {α : Type} [LinearOrder α]

/-- One sweep over a part of the index array that holds an entry whose key is
above `m0` stops there: it reads no entry past it and returns. -/
theorem sweep_some (poslist : List α) (geoms : List (dxGeom α)) (a1 a2 : Nat)
    (id0 : Nat) (g0 : dxGeom α) (m0 m1 m2 : α) :
    ∀ (l : List Nat), (∀ x ∈ l, ∃ v, poslist[x]? = some v) →
      (∀ x ∈ l, ∀ v, poslist[x]? = some v → v ≤ m0 → ∃ g, geoms[x]? = some g) →
      (∃ x ∈ l, ∃ v, poslist[x]? = some v ∧ m0 < v) →
      ∃ ps, sweep poslist geoms a1 a2 id0 g0 m0 m1 m2 l = some ps := by
  intro l
  induction l with
  | nil =>
    intro _ _ hstop
    obtain ⟨x, hx, _⟩ := hstop
    cases hx
  | cons id1 rest ih =>
    intro hpos hgeo hstop
    obtain ⟨p1, hp1⟩ := hpos id1 (List.mem_cons_self _ _)
    by_cases hle : p1 ≤ m0
    · obtain ⟨g1, hg1⟩ := hgeo id1 (List.mem_cons_self _ _) p1 hp1 hle
      have hstop2 : ∃ x ∈ rest, ∃ v, poslist[x]? = some v ∧ m0 < v := by
        obtain ⟨x, hx, v, hv, hlt⟩ := hstop
        rcases List.mem_cons.1 hx with rfl | hx2
        · rw [hp1] at hv
          cases hv
          exact absurd hle (not_le.2 hlt)
        · exact ⟨x, hx2, v, hv, hlt⟩
      obtain ⟨more, hmore⟩ := ih (fun x hx => hpos x (List.mem_cons_of_mem _ hx))
        (fun x hx => hgeo x (List.mem_cons_of_mem _ hx)) hstop2
      by_cases htest : (g1.aabb a1 ≤ m1 ∧ g0.aabb a1 ≤ g1.aabb (a1 + 1)) ∧
          (g1.aabb a2 ≤ m2 ∧ g0.aabb a2 ≤ g1.aabb (a2 + 1))
      · exact ⟨⟨id0, id1⟩ :: more, by simp only [sweep, hp1, hle, hg1, hmore, htest]; rfl⟩
      · exact ⟨more, by simp only [sweep, hp1, hle, hg1, hmore, htest]; rfl⟩
    · exact ⟨[], by simp only [sweep, hp1, hle]; rfl⟩

/-- The pairs pushed by one sweep are a sublist of the pairs of `id0` with the
entries swept, in their order. -/
theorem sweep_sublist (poslist : List α) (geoms : List (dxGeom α)) (a1 a2 : Nat)
    (id0 : Nat) (g0 : dxGeom α) (m0 m1 m2 : α) :
    ∀ (l : List Nat) (ps : List Pair),
      sweep poslist geoms a1 a2 id0 g0 m0 m1 m2 l = some ps →
      ps.Sublist (l.map (fun j => (⟨id0, j⟩ : Pair))) := by
  intro l
  induction l with
  | nil => intro ps h; simp [sweep] at h
  | cons id1 rest ih =>
    intro ps h
    simp only [sweep] at h
    split at h
    · cases h
    · split at h
      · split at h
        · cases h
        · split at h
          · cases h
          · rename_i more hmore
            have ihm := ih more hmore
            split at h
            · cases h
              exact List.Sublist.cons₂ _ ihm
            · cases h
              exact List.Sublist.cons _ ihm
      · cases h
        exact List.nil_sublist _

/-- The main loop on an index array without duplicates whose last entry is the
sentinel entry `sent`, every other entry being a box whose primary-axis maximum
is below the key of the sentinel: the loop returns, without a read past the end
of the index array and without a read of `geoms[sent]`. -/
theorem pruneLoop_some (poslist : List α) (geoms : List (dxGeom α)) (a0 a1 a2 : Nat)
    (sent : Nat) (inf4 : α) (hposSent : poslist[sent]? = some inf4) :
    ∀ (l pre : List Nat), l.Nodup → (l ≠ [] → l.getLast? = some sent) →
      (∀ x ∈ l, x ≠ sent → ∃ g, geoms[x]? = some g ∧ g.aabb (a0 + 1) < inf4 ∧
        ∃ v, poslist[x]? = some v) →
      ∃ pairs, pruneLoop poslist geoms a0 a1 a2 (pre ++ l) (pre ++ l).length l pre.length
          = some pairs := by
  intro l
  induction l with
  | nil =>
    intro pre _ _ _
    exact ⟨[], by simp [pruneLoop]⟩
  | cons id0 rest ih =>
    intro pre hnodup hlast hbox
    have hnd := List.nodup_cons.1 hnodup
    have hpos0 : ∃ p0, poslist[id0]? = some p0 := by
      by_cases h0 : id0 = sent
      · exact ⟨inf4, by rw [h0]; exact hposSent⟩
      · obtain ⟨g, _, _, v, hv⟩ := hbox id0 (List.mem_cons_self _ _) h0
        exact ⟨v, hv⟩
    obtain ⟨p0, hp0⟩ := hpos0
    have hlen : (pre ++ id0 :: rest).length = pre.length + rest.length + 1 := by
      simp; omega
    rw [pruneLoop_cons poslist geoms a0 a1 a2 _ pre id0 rest p0 hp0, hlen]
    have hlt : pre.length < pre.length + rest.length + 1 := by omega
    rw [if_pos hlt]
    cases hrest : rest with
    | nil => exact ⟨[], by simp [pruneLoop]⟩
    | cons y ys =>
      rw [← hrest]
      have hne : rest ≠ [] := by rw [hrest]; exact List.cons_ne_nil _ _
      have hlt2 : pre.length + 1 < pre.length + rest.length + 1 := by
        have : 0 < rest.length := List.length_pos.2 hne
        omega
      rw [if_pos hlt2]
      have hlastr : rest.getLast? = some sent := by
        have h1 := hlast (List.cons_ne_nil _ _)
        rw [hrest] at h1 ⊢
        rw [List.getLast?_cons_cons] at h1
        exact h1
      have hsentr : sent ∈ rest := List.mem_of_getLast?_eq_some hlastr
      have hid0 : id0 ≠ sent := fun h0 => hnd.1 (h0 ▸ hsentr)
      obtain ⟨g0, hg0, hmax0, v0, hv0⟩ := hbox id0 (List.mem_cons_self _ _) hid0
      have hposr : ∀ x ∈ rest, ∃ v, poslist[x]? = some v := by
        intro x hx
        by_cases hxs : x = sent
        · exact ⟨inf4, by rw [hxs]; exact hposSent⟩
        · obtain ⟨g, _, _, v, hv⟩ := hbox x (List.mem_cons_of_mem _ hx) hxs
          exact ⟨v, hv⟩
      have hgeor : ∀ x ∈ rest, ∀ v, poslist[x]? = some v → v ≤ g0.aabb (a0 + 1) →
          ∃ g, geoms[x]? = some g := by
        intro x hx v hv hvle
        have hxs : x ≠ sent := by
          intro h
          rw [h, hposSent] at hv
          cases hv
          exact absurd hvle (not_le.2 hmax0)
        obtain ⟨g, hg, _⟩ := hbox x (List.mem_cons_of_mem _ hx) hxs
        exact ⟨g, hg⟩
      obtain ⟨ps, hps⟩ := sweep_some poslist geoms a1 a2 id0 g0
        (g0.aabb (a0 + 1)) (g0.aabb (a1 + 1)) (g0.aabb (a2 + 1)) rest hposr hgeor
        ⟨sent, hsentr, inf4, hposSent, hmax0⟩
      obtain ⟨more, hmore⟩ := ih (pre ++ [id0]) hnd.2 (fun _ => hlastr)
        (fun x hx => hbox x (List.mem_cons_of_mem _ hx))
      have hlen2 : ((pre ++ [id0]) ++ rest).length = pre.length + rest.length + 1 := by
        simp; omega
      rw [hlen2] at hmore
      exact ⟨ps ++ more, by simp only [hg0, hps, hmore]⟩

/-- The pairs pushed by the main loop on an index array without duplicates: no
pair is pushed twice, a pair joins two different entries of the array, and no
pair is pushed in both orders. -/
theorem pruneLoop_once (poslist : List α) (geoms : List (dxGeom α)) (a0 a1 a2 : Nat)
    (total : Nat) :
    ∀ (l pre : List Nat) (pairs : List Pair), l.Nodup →
      pruneLoop poslist geoms a0 a1 a2 (pre ++ l) total l pre.length = some pairs →
      pairs.Nodup ∧ (∀ p ∈ pairs, p.id0 ∈ l ∧ p.id1 ∈ l ∧ p.id0 ≠ p.id1) ∧
        ∀ p ∈ pairs, (⟨p.id1, p.id0⟩ : Pair) ∉ pairs := by
  intro l
  induction l with
  | nil =>
    intro pre pairs _ h
    simp [pruneLoop] at h
    subst h
    exact ⟨List.nodup_nil, fun p hp => absurd hp (List.not_mem_nil p),
        fun p hp => absurd hp (List.not_mem_nil p)⟩
  | cons id0 rest ih =>
    intro pre pairs hnodup h
    have hnd := List.nodup_cons.1 hnodup
    have hnil : ([] : List Pair).Nodup ∧
        (∀ p ∈ ([] : List Pair), p.id0 ∈ id0 :: rest ∧ p.id1 ∈ id0 :: rest ∧ p.id0 ≠ p.id1) ∧
        ∀ p ∈ ([] : List Pair), (⟨p.id1, p.id0⟩ : Pair) ∉ ([] : List Pair) :=
      ⟨List.nodup_nil, fun p hp => absurd hp (List.not_mem_nil p),
        fun p hp => absurd hp (List.not_mem_nil p)⟩
    have hlift : ∀ more : List Pair,
        (more.Nodup ∧ (∀ p ∈ more, p.id0 ∈ rest ∧ p.id1 ∈ rest ∧ p.id0 ≠ p.id1) ∧
          ∀ p ∈ more, (⟨p.id1, p.id0⟩ : Pair) ∉ more) →
        (more.Nodup ∧
          (∀ p ∈ more, p.id0 ∈ id0 :: rest ∧ p.id1 ∈ id0 :: rest ∧ p.id0 ≠ p.id1) ∧
          ∀ p ∈ more, (⟨p.id1, p.id0⟩ : Pair) ∉ more) := by
      intro more ⟨h1, h2, h3⟩
      exact ⟨h1, fun p hp => ⟨List.mem_cons_of_mem _ (h2 p hp).1,
        List.mem_cons_of_mem _ (h2 p hp).2.1, (h2 p hp).2.2⟩, h3⟩
    cases hp0 : poslist[id0]? with
    | none =>
      unfold pruneLoop at h
      simp only [hp0] at h
      split at h
      · cases h
      · cases h; exact hnil
    | some p0 =>
      rw [pruneLoop_cons poslist geoms a0 a1 a2 total pre id0 rest p0 hp0] at h
      split at h
      · split at h
        · split at h
          · cases h
          · rename_i g0 hg0
            split at h
            · cases h
            · rename_i ps hps
              split at h
              · cases h
              · rename_i more hmore
                cases h
                obtain ⟨hm1, hm2, hm3⟩ := ih (pre ++ [id0]) more hnd.2 hmore
                have hsub := sweep_sublist poslist geoms a1 a2 id0 g0 _ _ _ rest ps hps
                have hps0 : ∀ p ∈ ps, p.id0 = id0 ∧ p.id1 ∈ rest := by
                  intro p hp
                  obtain ⟨e0, hmem, _⟩ :=
                    sweep_sound poslist geoms a1 a2 id0 g0 _ _ _ rest ps hps p hp
                  exact ⟨e0, hmem⟩
                have hinj : Function.Injective (fun j => (⟨id0, j⟩ : Pair)) := by
                  intro a b hab
                  exact congrArg Pair.id1 hab
                have hpsnd : ps.Nodup := (hnd.2.map hinj).sublist hsub
                refine ⟨?_, ?_, ?_⟩
                · rw [List.nodup_append]
                  refine ⟨hpsnd, hm1, ?_⟩
                  intro p hp1 hp2
                  exact hnd.1 ((hps0 p hp1).1 ▸ (hm2 p hp2).1)
                · intro p hp
                  rcases List.mem_append.1 hp with hp1 | hp2
                  · obtain ⟨e0, hmem⟩ := hps0 p hp1
                    refine ⟨by rw [e0]; exact List.mem_cons_self _ _,
                      List.mem_cons_of_mem _ hmem, ?_⟩
                    rw [e0]
                    intro hc
                    exact hnd.1 (hc ▸ hmem)
                  · exact ⟨List.mem_cons_of_mem _ (hm2 p hp2).1,
                      List.mem_cons_of_mem _ (hm2 p hp2).2.1, (hm2 p hp2).2.2⟩
                · intro p hp hrev
                  rcases List.mem_append.1 hp with hp1 | hp2
                  · obtain ⟨e0, hmem⟩ := hps0 p hp1
                    rcases List.mem_append.1 hrev with hr1 | hr2
                    · have := (hps0 _ hr1).2
                      exact hnd.1 (e0 ▸ this)
                    · have := (hm2 _ hr2).2.1
                      exact hnd.1 (e0 ▸ this)
                  · rcases List.mem_append.1 hrev with hr1 | hr2
                    · have h1 := (hps0 _ hr1).1
                      have h2 := (hm2 p hp2).2.1
                      exact hnd.1 (h1 ▸ h2)
                    · exact hm3 p hp2 hr2
        · exact hlift pairs (ih (pre ++ [id0]) pairs hnd.2 h)
      · cases h; exact hnil

end BoxPruningSentinel

section SentinelClaim

variable {α : Type} [LinearOrder α]

/-- When the index array is a permutation of `0..n`, `BoxPruning` pushes no pair
twice, pushes no pair in both orders, and every pair it pushes joins two
different boxes. -/
theorem BoxPruning_once (toFloat : α → α) (ODE_INFINITY4 : α)
    (RadixSort : List α → List Nat) (ax0idx ax1idx ax2idx : Nat)
    (geoms : List (dxGeom α)) (pairs : List Pair)
    (hperm : (RadixSort (buildPoslist toFloat ODE_INFINITY4 ax0idx geoms)).Perm
      (List.range (geoms.length + 1)))
    (hrun : BoxPruning toFloat ODE_INFINITY4 RadixSort ax0idx ax1idx ax2idx geoms
      = some pairs) :
    pairs.Nodup ∧
      (∀ p ∈ pairs, p.id0 < geoms.length ∧ p.id1 < geoms.length ∧ p.id0 ≠ p.id1) ∧
      ∀ p ∈ pairs, (⟨p.id1, p.id0⟩ : Pair) ∉ pairs := by
  have hnodup : (RadixSort (buildPoslist toFloat ODE_INFINITY4 ax0idx geoms)).Nodup :=
    hperm.nodup_iff.2 (List.nodup_range _)
  unfold BoxPruning at hrun
  obtain ⟨h1, h2, h3⟩ := pruneLoop_once (buildPoslist toFloat ODE_INFINITY4 ax0idx geoms)
    geoms ax0idx ax1idx ax2idx (geoms.length + 1)
    (RadixSort (buildPoslist toFloat ODE_INFINITY4 ax0idx geoms)) [] pairs hnodup hrun
  refine ⟨h1, ?_, h3⟩
  intro p hp
  obtain ⟨_, g0, p1, g1, hg0, _, hg1, _⟩ :=
    pruneLoop_sound (buildPoslist toFloat ODE_INFINITY4 ax0idx geoms) geoms ax0idx ax1idx
      ax2idx (geoms.length + 1) (fun _ _ => True)
      (RadixSort (buildPoslist toFloat ODE_INFINITY4 ax0idx geoms)) [] pairs
      (List.pairwise_of_forall (fun _ _ => trivial)) hrun p hp
  refine ⟨?_, ?_, (h2 p hp).2.2⟩
  · rcases Nat.lt_or_ge p.id0 geoms.length with h | h
    · exact h
    · rw [List.getElem?_eq_none h] at hg0; cases hg0
  · rcases Nat.lt_or_ge p.id1 geoms.length with h | h
    · exact h
    · rw [List.getElem?_eq_none h] at hg1; cases hg1

/-- C35: the sentinel bounds the sweep. For finite boxes whose primary-axis maxima
are all below the sentinel and an index array that is a permutation of `0..n`
ending at the index `n` of the sentinel, `BoxPruning` returns its pair list: no
scan reads the index array at or beyond position `n+1` and none reads
`geoms[n]`, a read that the model answers with `none`. Every index in every
pair pushed is below `n`, and the two indices of a pair are distinct. -/
theorem sentinel_bounds_sweep (toFloat : α → α) (ODE_INFINITY4 : α)
    (RadixSort : List α → List Nat) (ax0idx ax1idx ax2idx : Nat)
    (geoms : List (dxGeom α))
    (hmax : ∀ g ∈ geoms, g.aabb (ax0idx + 1) < ODE_INFINITY4)
    (hperm : (RadixSort (buildPoslist toFloat ODE_INFINITY4 ax0idx geoms)).Perm
      (List.range (geoms.length + 1)))
    (hlast : (RadixSort (buildPoslist toFloat ODE_INFINITY4 ax0idx geoms)).getLast? =
      some geoms.length) :
    ∃ pairs, BoxPruning toFloat ODE_INFINITY4 RadixSort ax0idx ax1idx ax2idx geoms
        = some pairs ∧
      ∀ p ∈ pairs, p.id0 < geoms.length ∧ p.id1 < geoms.length ∧ p.id0 ≠ p.id1 := by
  have hsentpos := buildPoslist_getElem?_length toFloat ODE_INFINITY4 ax0idx geoms
  have hnodup : (RadixSort (buildPoslist toFloat ODE_INFINITY4 ax0idx geoms)).Nodup :=
    hperm.nodup_iff.2 (List.nodup_range _)
  have hmemS : ∀ x, x ∈ RadixSort (buildPoslist toFloat ODE_INFINITY4 ax0idx geoms) ↔
      x < geoms.length + 1 := by
    intro x
    rw [hperm.mem_iff, List.mem_range]
  obtain ⟨pairs, hpairs⟩ := pruneLoop_some
    (buildPoslist toFloat ODE_INFINITY4 ax0idx geoms) geoms ax0idx ax1idx ax2idx
    geoms.length ODE_INFINITY4 hsentpos
    (RadixSort (buildPoslist toFloat ODE_INFINITY4 ax0idx geoms)) [] hnodup
    (fun _ => hlast)
    (by
      intro x hx hxs
      have hxlt : x < geoms.length := by
        have := (hmemS x).1 hx
        omega
      refine ⟨geoms[x], List.getElem?_eq_getElem hxlt, hmax _ (List.getElem_mem hxlt),
        toFloat (geoms[x].aabb ax0idx),
        buildPoslist_getElem?_lt toFloat ODE_INFINITY4 ax0idx geoms x geoms[x]
          (List.getElem?_eq_getElem hxlt)⟩)
  have hlen : (RadixSort (buildPoslist toFloat ODE_INFINITY4 ax0idx geoms)).length
      = geoms.length + 1 := by
    rw [hperm.length_eq, List.length_range]
  have hrun : BoxPruning toFloat ODE_INFINITY4 RadixSort ax0idx ax1idx ax2idx geoms
      = some pairs := by
    unfold BoxPruning
    simp only [List.nil_append, List.length_nil, hlen] at hpairs
    exact hpairs
  exact ⟨pairs, hrun, (BoxPruning_once toFloat ODE_INFINITY4 RadixSort ax0idx ax1idx ax2idx
    geoms pairs hperm hrun).2.1⟩

end SentinelClaim

/-- C35, witness: three boxes over the integers with `⊤` for the sentinel, sorted
by their minima on the first axis as `1, 0, 2` with the sentinel entry `3`
last. -/
theorem sentinel_bounds_sweep_witness :
    ([1, 0, 2, 3] : List Nat).getLast? = some 3 ∧
    (∀ g ∈ [mkBoxT 2 9 0 7 0 7, mkBoxT 0 3 1 2 3 4, mkBoxT 5 6 0 1 0 1],
      g.aabb (0 + 1) < (⊤ : WithTop Int)) ∧
    ∃ pairs, BoxPruning id (⊤ : WithTop Int) (fun _ => [1, 0, 2, 3]) 0 2 4
        [mkBoxT 2 9 0 7 0 7, mkBoxT 0 3 1 2 3 4, mkBoxT 5 6 0 1 0 1] = some pairs ∧
      ∀ p ∈ pairs, p.id0 < 3 ∧ p.id1 < 3 ∧ p.id0 ≠ p.id1 :=
  ⟨by decide, by decide,
   sentinel_bounds_sweep id (⊤ : WithTop Int) (fun _ => [1, 0, 2, 3]) 0 2 4
    [mkBoxT 2 9 0 7 0 7, mkBoxT 0 3 1 2 3 4, mkBoxT 5 6 0 1 0 1] (by decide) (by decide)
    (by decide)⟩

/-! ## The pairs handed to the pair filter in one pass -/

section HandedRuns

variable {α δ : Type} (GEOM_AABB_BAD : Nat) (AABBTest : Nat → Nat → (Nat → α) → Int)
  (callback : δ → Nat → Nat → dxSAPSpace α → Outcome (dxSAPSpace α)) (data : δ)

theorem Outcome.bind_bind {σ : Type} (o : Outcome σ) (f g : σ → Outcome σ) :
    (o.bind f).bind g = o.bind (fun s => (f s).bind g) := by
  cases o <;> rfl

theorem collideAll_append (a b : List (Nat × Nat)) :
    ∀ p : Pass α δ, collideAll GEOM_AABB_BAD AABBTest callback data (a ++ b) p =
      (collideAll GEOM_AABB_BAD AABBTest callback data a p).bind
        (collideAll GEOM_AABB_BAD AABBTest callback data b) := by
  induction a with
  | nil => intro p; rfl
  | cons c rest ih =>
    intro p
    show (collidePair GEOM_AABB_BAD AABBTest callback data c.1 c.2 p).bind
      (collideAll GEOM_AABB_BAD AABBTest callback data (rest ++ b)) = _
    have hfun : collideAll GEOM_AABB_BAD AABBTest callback data (rest ++ b) =
        fun s => (collideAll GEOM_AABB_BAD AABBTest callback data rest s).bind
          (collideAll GEOM_AABB_BAD AABBTest callback data b) := funext ih
    rw [hfun]
    exact (Outcome.bind_bind _ _ _).symm

theorem collideWith_eq_collideAll (g1 : Nat) (l : List Nat) :
    ∀ p : Pass α δ, collideWith GEOM_AABB_BAD AABBTest callback data g1 l p =
      collideAll GEOM_AABB_BAD AABBTest callback data (l.map (fun g2 => (g1, g2))) p := by
  induction l with
  | nil => intro p; rfl
  | cons g2 rest ih =>
    intro p
    show (collidePair GEOM_AABB_BAD AABBTest callback data g1 g2 p).bind
      (collideWith GEOM_AABB_BAD AABBTest callback data g1 rest) =
      (collidePair GEOM_AABB_BAD AABBTest callback data g1 g2 p).bind
        (collideAll GEOM_AABB_BAD AABBTest callback data (rest.map (fun g2 => (g1, g2))))
    rw [funext ih]

theorem collideInfinite_eq_collideAll (TmpGeomList : List Nat) (l : List Nat) :
    ∀ p : Pass α δ, collideInfinite GEOM_AABB_BAD AABBTest callback data TmpGeomList l p =
      collideAll GEOM_AABB_BAD AABBTest callback data (handedInfinite TmpGeomList l) p := by
  induction l with
  | nil => intro p; rfl
  | cons g1 rest ih =>
    intro p
    show ((collideWith GEOM_AABB_BAD AABBTest callback data g1 rest p).bind
      (collideWith GEOM_AABB_BAD AABBTest callback data g1 TmpGeomList)).bind
      (collideInfinite GEOM_AABB_BAD AABBTest callback data TmpGeomList rest) =
      collideAll GEOM_AABB_BAD AABBTest callback data
        ((rest.map (fun g2 => (g1, g2)) ++ TmpGeomList.map (fun g2 => (g1, g2))) ++
          handedInfinite TmpGeomList rest) p
    rw [collideAll_append, collideAll_append, funext ih,
      funext (collideWith_eq_collideAll GEOM_AABB_BAD AABBTest callback data g1 TmpGeomList),
      collideWith_eq_collideAll]

theorem collideOverlapping_eq_collideAll (TmpGeomList : List Nat) (pairs : List Pair)
    (hin : ∀ pair ∈ pairs, pair.id0 < TmpGeomList.length ∧ pair.id1 < TmpGeomList.length) :
    ∀ p : Pass α δ,
      collideOverlapping GEOM_AABB_BAD AABBTest callback data TmpGeomList pairs p =
        collideAll GEOM_AABB_BAD AABBTest callback data
          (handedOverlapping TmpGeomList pairs) p := by
  induction pairs with
  | nil => intro p; rfl
  | cons pair rest ih =>
    intro p
    obtain ⟨h0, h1⟩ := hin pair (List.mem_cons_self _ _)
    have ihr := ih (fun q hq => hin q (List.mem_cons_of_mem _ hq))
    unfold collideOverlapping
    rw [getElem?_of_lt_getD TmpGeomList pair.id0 h0,
      getElem?_of_lt_getD TmpGeomList pair.id1 h1]
    simp only
    rw [funext ihr]
    rfl

end HandedRuns

section HandedLists

/-- In a list without duplicates an entry is counted once and any other value not
at all. -/
theorem count_of_nodup {β : Type} [BEq β] [LawfulBEq β] (c : β) :
    ∀ (l : List β), l.Nodup → (c ∈ l → l.count c = 1) ∧ (c ∉ l → l.count c = 0) := by
  intro l
  induction l with
  | nil => intro _; exact ⟨fun h => absurd h (List.not_mem_nil c), fun _ => rfl⟩
  | cons x rest ih =>
    intro hnd
    obtain ⟨hx, hr⟩ := List.nodup_cons.1 hnd
    obtain ⟨ih1, ih2⟩ := ih hr
    rw [List.count_cons]
    constructor
    · intro hc
      rcases List.mem_cons.1 hc with h | h
      · subst h
        rw [ih2 hx]
        simp
      · rw [ih1 h]
        have hne : ¬ (x == c) = true := by
          intro he
          have : x = c := eq_of_beq he
          exact hx (this ▸ h)
        simp [hne]
    · intro hc
      have h1 : c ∉ rest := fun h => hc (List.mem_cons_of_mem _ h)
      have hne : ¬ (x == c) = true := by
        intro he
        have : x = c := eq_of_beq he
        exact hc (this ▸ List.mem_cons_self _ _)
      rw [ih2 h1]
      simp [hne]

/-- The two lists that the separation loop of `collide` appends to its
accumulators are sublists of the clean list. -/
theorem separate_sublist {α : Type} [DecidableEq α] (heap : Nat → dxGeom α)
    (GEOM_ENABLED : Nat) (dInfinity : α) (axis0max : Nat) (l : List Nat) :
    ∀ acc : List Nat × List Nat, ∃ l1 l2, l1.Sublist l ∧ l2.Sublist l ∧
      separate heap GEOM_ENABLED dInfinity axis0max l acc = (acc.1 ++ l1, acc.2 ++ l2) := by
  induction l with
  | nil => intro acc; exact ⟨[], [], List.Sublist.refl _, List.Sublist.refl _, by simp [separate]⟩
  | cons g rest ih =>
    intro acc
    unfold separate
    split
    · obtain ⟨l1, l2, h1, h2, h3⟩ := ih acc
      exact ⟨l1, l2, h1.cons _, h2.cons _, h3⟩
    · split
      · obtain ⟨l1, l2, h1, h2, h3⟩ := ih (acc.1, acc.2 ++ [g])
        refine ⟨l1, g :: l2, h1.cons _, h2.cons₂ _, ?_⟩
        rw [h3]
        simp
      · obtain ⟨l1, l2, h1, h2, h3⟩ := ih (acc.1 ++ [g], acc.2)
        refine ⟨g :: l1, l2, h1.cons₂ _, h2.cons _, ?_⟩
        rw [h3]
        simp

/-- The two temporary lists of a pass over a clean list without duplicates hold
no geometry twice, and no geometry is in both. -/
theorem separate_nodup {α : Type} [DecidableEq α] (heap : Nat → dxGeom α)
    (GEOM_ENABLED : Nat) (dInfinity : α) (axis0max : Nat) (l : List Nat) (hnd : l.Nodup) :
    (separate heap GEOM_ENABLED dInfinity axis0max l ([], [])).1.Nodup ∧
    (separate heap GEOM_ENABLED dInfinity axis0max l ([], [])).2.Nodup ∧
    ∀ g, g ∈ (separate heap GEOM_ENABLED dInfinity axis0max l ([], [])).2 →
      g ∉ (separate heap GEOM_ENABLED dInfinity axis0max l ([], [])).1 := by
  obtain ⟨l1, l2, h1, h2, h3⟩ := separate_sublist heap GEOM_ENABLED dInfinity axis0max l ([], [])
  refine ⟨?_, ?_, ?_⟩
  · rw [h3]
    simpa using hnd.sublist h1
  · rw [h3]
    simpa using hnd.sublist h2
  · intro g hg2 hg1
    rcases (mem_separate_fst heap GEOM_ENABLED dInfinity axis0max l ([], []) g).1 hg1 with h | h
    · exact absurd h (List.not_mem_nil g)
    · rcases (mem_separate_snd heap GEOM_ENABLED dInfinity axis0max l ([], []) g).1 hg2
        with h' | h'
      · exact absurd h' (List.not_mem_nil g)
      · exact h.2.2 h'.2.2

theorem mem_handedInfinite_fst (Tmp : List Nat) :
    ∀ (l : List Nat) (c : Nat × Nat), c ∈ handedInfinite Tmp l →
      c.1 ∈ l ∧ (c.2 ∈ l ∨ c.2 ∈ Tmp) := by
  intro l
  induction l with
  | nil => intro c hc; cases hc
  | cons g1 rest ih =>
    intro c hc
    unfold handedInfinite at hc
    rcases List.mem_append.1 hc with h | h
    · rcases List.mem_append.1 h with h | h
      · obtain ⟨x, hx, rfl⟩ := List.mem_map.1 h
        exact ⟨List.mem_cons_self _ _, Or.inl (List.mem_cons_of_mem _ hx)⟩
      · obtain ⟨x, hx, rfl⟩ := List.mem_map.1 h
        exact ⟨List.mem_cons_self _ _, Or.inr hx⟩
    · obtain ⟨h1, h2⟩ := ih c h
      refine ⟨List.mem_cons_of_mem _ h1, ?_⟩
      rcases h2 with h2 | h2
      · exact Or.inl (List.mem_cons_of_mem _ h2)
      · exact Or.inr h2

/-- The pairs handed by the loop over the infinite geometries: none twice, none in
both orders, none of a geometry with itself, and every pair of two different
infinite geometries and every pair of an infinite and a finite geometry is among
them in one order. -/
theorem handedInfinite_once (Tmp : List Nat) (hTmp : Tmp.Nodup) :
    ∀ (l : List Nat), l.Nodup → (∀ g ∈ l, g ∉ Tmp) →
      (handedInfinite Tmp l).Nodup ∧
      (∀ c ∈ handedInfinite Tmp l, c.1 ≠ c.2 ∧ (c.2, c.1) ∉ handedInfinite Tmp l) ∧
      (∀ a ∈ l, ∀ b, (b ∈ l ∧ a ≠ b) ∨ b ∈ Tmp →
        (a, b) ∈ handedInfinite Tmp l ∨ (b, a) ∈ handedInfinite Tmp l) := by
  intro l
  induction l with
  | nil =>
    intro _ _
    exact ⟨List.nodup_nil, fun c hc => absurd hc (List.not_mem_nil c),
      fun a ha => absurd ha (List.not_mem_nil a)⟩
  | cons g1 rest ih =>
    intro hnd hdis
    have hnd2 := List.nodup_cons.1 hnd
    have hg1T : g1 ∉ Tmp := hdis g1 (List.mem_cons_self _ _)
    have hdisr : ∀ g ∈ rest, g ∉ Tmp := fun g hg => hdis g (List.mem_cons_of_mem _ hg)
    obtain ⟨ih1, ih2, ih3⟩ := ih hnd2.2 hdisr
    have hinj : Function.Injective (fun g2 : Nat => (g1, g2)) := by
      intro a b hab
      exact congrArg Prod.snd hab
    have hfront : ∀ c ∈ rest.map (fun g2 => (g1, g2)) ++ Tmp.map (fun g2 => (g1, g2)),
        c.1 = g1 ∧ (c.2 ∈ rest ∨ c.2 ∈ Tmp) := by
      intro c hc
      rcases List.mem_append.1 hc with h | h
      · obtain ⟨x, hx, rfl⟩ := List.mem_map.1 h
        exact ⟨rfl, Or.inl hx⟩
      · obtain ⟨x, hx, rfl⟩ := List.mem_map.1 h
        exact ⟨rfl, Or.inr hx⟩
    have hback := mem_handedInfinite_fst Tmp rest
    have hg1not : ∀ x, (x ∈ rest ∨ x ∈ Tmp) → x ≠ g1 := by
      intro x hx hc
      rcases hx with h | h
      · exact hnd2.1 (hc ▸ h)
      · exact hg1T (hc ▸ h)
    unfold handedInfinite
    refine ⟨?_, ?_, ?_⟩
    · rw [List.nodup_append]
      refine ⟨?_, ih1, ?_⟩
      · rw [List.nodup_append]
        refine ⟨hnd2.2.map hinj, hTmp.map hinj, ?_⟩
        intro c h1 h2
        obtain ⟨x, hx, rfl⟩ := List.mem_map.1 h1
        obtain ⟨y, hy, hxy⟩ := List.mem_map.1 h2
        have : y = x := congrArg Prod.snd hxy
        exact hdisr x hx (this ▸ hy)
      · intro c h1 h2
        exact hnd2.1 ((hfront c h1).1 ▸ (hback c h2).1)
    · intro c hc
      rcases List.mem_append.1 hc with h | h
      · obtain ⟨e1, h2⟩ := hfront c h
        refine ⟨fun hc2 => hg1not c.2 h2 (hc2.symm.trans e1), ?_⟩
        intro hrev
        rcases List.mem_append.1 hrev with hr | hr
        · have := (hfront _ hr).1
          exact hg1not c.2 h2 this
        · have := (hback _ hr).2
          exact hg1not c.1 this e1
      · obtain ⟨hne, hnrev⟩ := ih2 c h
        refine ⟨hne, ?_⟩
        intro hrev
        rcases List.mem_append.1 hrev with hr | hr
        · have := (hfront _ hr).1
          exact hg1not c.2 (hback c h).2 this
        · exact hnrev hr
    · intro a ha b hb
      rcases List.mem_cons.1 ha with rfl | ha2
      · left
        apply List.mem_append_left
        rcases hb with ⟨hb1, hab⟩ | hb
        · rcases List.mem_cons.1 hb1 with h | h
          · exact absurd h.symm hab
          · exact List.mem_append_left _ (List.mem_map.2 ⟨b, h, rfl⟩)
        · exact List.mem_append_right _ (List.mem_map.2 ⟨b, hb, rfl⟩)
      · rcases hb with ⟨hb1, hab⟩ | hb
        · rcases List.mem_cons.1 hb1 with h | h
          · right
            apply List.mem_append_left
            rw [h]
            exact List.mem_append_left _ (List.mem_map.2 ⟨a, ha2, rfl⟩)
          · rcases ih3 a ha2 b (Or.inl ⟨h, hab⟩) with h' | h'
            · exact Or.inl (List.mem_append_right _ h')
            · exact Or.inr (List.mem_append_right _ h')
        · rcases ih3 a ha2 b (Or.inr hb) with h' | h'
          · exact Or.inl (List.mem_append_right _ h')
          · exact Or.inr (List.mem_append_right _ h')

/-- The pairs handed by the loop over the overlapping boxes, for pairs of indices
none of which occurs twice or in both orders or joins an index with itself. -/
theorem handedOverlapping_once (Tmp : List Nat) (hTmp : Tmp.Nodup) (pairs : List Pair)
    (hnd : pairs.Nodup)
    (hin : ∀ p ∈ pairs, p.id0 < Tmp.length ∧ p.id1 < Tmp.length ∧ p.id0 ≠ p.id1)
    (hrev : ∀ p ∈ pairs, (⟨p.id1, p.id0⟩ : Pair) ∉ pairs) :
    (handedOverlapping Tmp pairs).Nodup ∧
    (∀ c ∈ handedOverlapping Tmp pairs, c.1 ∈ Tmp ∧ c.2 ∈ Tmp ∧ c.1 ≠ c.2 ∧
      (c.2, c.1) ∉ handedOverlapping Tmp pairs) ∧
    (∀ a b, (a, b) ∈ handedOverlapping Tmp pairs ↔
      ∃ p ∈ pairs, Tmp[p.id0]? = some a ∧ Tmp[p.id1]? = some b) := by
  have hmem : ∀ a b, (a, b) ∈ handedOverlapping Tmp pairs ↔
      ∃ p ∈ pairs, Tmp[p.id0]? = some a ∧ Tmp[p.id1]? = some b := by
    intro a b
    unfold handedOverlapping
    rw [List.mem_map]
    constructor
    · rintro ⟨p, hp, heq⟩
      obtain ⟨h0, h1, _⟩ := hin p hp
      refine ⟨p, hp, ?_, ?_⟩
      · rw [getElem?_of_lt_getD Tmp _ h0]
        exact congrArg some (congrArg Prod.fst heq)
      · rw [getElem?_of_lt_getD Tmp _ h1]
        exact congrArg some (congrArg Prod.snd heq)
    · rintro ⟨p, hp, ha, hb⟩
      obtain ⟨h0, h1, _⟩ := hin p hp
      rw [getElem?_of_lt_getD Tmp _ h0] at ha
      rw [getElem?_of_lt_getD Tmp _ h1] at hb
      exact ⟨p, hp, by rw [Option.some.inj ha, Option.some.inj hb]⟩
  have hidx : ∀ p ∈ pairs, ∀ q ∈ pairs,
      Tmp[p.id0]? = Tmp[q.id0]? → Tmp[p.id1]? = Tmp[q.id1]? → p = q := by
    intro p hp q hq e0 e1
    obtain ⟨hp0, hp1, _⟩ := hin p hp
    obtain ⟨hq0, hq1, _⟩ := hin q hq
    have i0 : p.id0 = q.id0 := List.getElem?_inj hp0 hTmp e0
    have i1 : p.id1 = q.id1 := List.getElem?_inj hp1 hTmp e1
    cases p
    cases q
    simp only at i0 i1
    rw [i0, i1]
  refine ⟨?_, ?_, hmem⟩
  · unfold handedOverlapping
    refine List.Nodup.map_on ?_ hnd
    intro p hp q hq heq
    obtain ⟨hp0, hp1, _⟩ := hin p hp
    obtain ⟨hq0, hq1, _⟩ := hin q hq
    apply hidx p hp q hq
    · rw [getElem?_of_lt_getD Tmp _ hp0, getElem?_of_lt_getD Tmp _ hq0]
      exact congrArg some (congrArg Prod.fst heq)
    · rw [getElem?_of_lt_getD Tmp _ hp1, getElem?_of_lt_getD Tmp _ hq1]
      exact congrArg some (congrArg Prod.snd heq)
  · rintro ⟨a, b⟩ hc
    obtain ⟨p, hp, ha, hb⟩ := (hmem a b).1 hc
    obtain ⟨hp0, hp1, hpne⟩ := hin p hp
    refine ⟨List.getElem?_mem ha, List.getElem?_mem hb, ?_, ?_⟩
    · intro hab
      have hab' : a = b := hab
      apply hpne
      exact List.getElem?_inj hp0 hTmp (ha.trans (hab' ▸ hb.symm))
    · intro hr
      obtain ⟨q, hq, hqa, hqb⟩ := (hmem b a).1 hr
      have : q = ⟨p.id1, p.id0⟩ := by
        obtain ⟨hq0, hq1, _⟩ := hin q hq
        have i0 : q.id0 = p.id1 := List.getElem?_inj hq0 hTmp (hqa.trans hb.symm)
        have i1 : q.id1 = p.id0 := List.getElem?_inj hq1 hTmp (hqb.trans ha.symm)
        cases q
        simp only at i0 i1
        rw [i0, i1]
      exact hrev p hp (this ▸ hq)

end HandedLists

section HandedPass

variable {α δ : Type} [LinearOrder α]

/-- The body of `collide` on the cleaned space, when box pruning returns its pairs
and their indices are positions of `TmpGeomList`: the calls of
`collideGeomsNoAABBs` on the pairs of `handedPairs`, in order, and
`lock_count--`. -/
theorem collideCleaned_handed (toFloat : α → α) (ODE_INFINITY4 : α)
    (RadixSort : List α → List Nat) (ax0idx ax1idx ax2idx : Nat)
    (GEOM_AABB_BAD GEOM_ENABLED : Nat) (dInfinity : α)
    (AABBTest : Nat → Nat → (Nat → α) → Int)
    (callback : δ → Nat → Nat → dxSAPSpace α → Outcome (dxSAPSpace α)) (data : δ)
    (s2 : dxSAPSpace α) (overlapBoxes : List Pair)
    (hbox : (if 0 < (separate s2.heap GEOM_ENABLED dInfinity (ax0idx + 1) s2.GeomList
          ([], [])).1.length then
        BoxPruning toFloat ODE_INFINITY4 RadixSort ax0idx ax1idx ax2idx
          ((separate s2.heap GEOM_ENABLED dInfinity (ax0idx + 1) s2.GeomList ([], [])).1.map
            s2.heap)
      else some []) = some overlapBoxes)
    (hin : ∀ p ∈ overlapBoxes,
      p.id0 < (separate s2.heap GEOM_ENABLED dInfinity (ax0idx + 1) s2.GeomList
        ([], [])).1.length ∧
      p.id1 < (separate s2.heap GEOM_ENABLED dInfinity (ax0idx + 1) s2.GeomList
        ([], [])).1.length) :
    collideCleaned toFloat ODE_INFINITY4 RadixSort ax0idx ax1idx ax2idx GEOM_AABB_BAD
        GEOM_ENABLED dInfinity AABBTest callback data s2 =
      (collideAll GEOM_AABB_BAD AABBTest callback data
        (handedPairs (separate s2.heap GEOM_ENABLED dInfinity (ax0idx + 1) s2.GeomList
            ([], [])).1
          (separate s2.heap GEOM_ENABLED dInfinity (ax0idx + 1) s2.GeomList ([], [])).2
          overlapBoxes)
        { space := s2, calls := [] }).bind unlock := by
  unfold collideCleaned
  simp only
  rw [hbox]
  simp only
  rw [collideOverlapping_eq_collideAll GEOM_AABB_BAD AABBTest callback data _ _ hin,
    funext (collideInfinite_eq_collideAll GEOM_AABB_BAD AABBTest callback data _ _),
    ← collideAll_append]
  rfl

/-- The pairs handed to the pair filter in one pass over a clean list without
duplicates, for the pairs that box pruning pushes when the sorter returns a
permutation: no pair of a geometry with itself, no unordered pair twice, every
pair with an infinite member once, and the finite pairs as box pruning pushes
them. -/
theorem handedPairs_once (toFloat : α → α) (ODE_INFINITY4 : α)
    (RadixSort : List α → List Nat) (ax0idx ax1idx ax2idx : Nat) (GEOM_ENABLED : Nat)
    (dInfinity : α) (heap : Nat → dxGeom α) (GeomList : List Nat) (hnd : GeomList.Nodup)
    (Tmp Inf : List Nat)
    (hTmp : Tmp = (separate heap GEOM_ENABLED dInfinity (ax0idx + 1) GeomList ([], [])).1)
    (hInf : Inf = (separate heap GEOM_ENABLED dInfinity (ax0idx + 1) GeomList ([], [])).2)
    (hperm : 0 < Tmp.length →
      (RadixSort (buildPoslist toFloat ODE_INFINITY4 ax0idx (Tmp.map heap))).Perm
        (List.range (Tmp.length + 1)))
    (overlapBoxes : List Pair)
    (hbox : (if 0 < Tmp.length then
        BoxPruning toFloat ODE_INFINITY4 RadixSort ax0idx ax1idx ax2idx (Tmp.map heap)
      else some []) = some overlapBoxes) :
    (overlapBoxes.Nodup ∧
      ∀ p ∈ overlapBoxes, (p.id0 < Tmp.length ∧ p.id1 < Tmp.length) ∧ p.id0 ≠ p.id1 ∧
        (⟨p.id1, p.id0⟩ : Pair) ∉ overlapBoxes) ∧
    (∀ a, (handedPairs Tmp Inf overlapBoxes).count (a, a) = 0) ∧
    (∀ a b, a ≠ b → (handedPairs Tmp Inf overlapBoxes).count (a, b) +
      (handedPairs Tmp Inf overlapBoxes).count (b, a) ≤ 1) ∧
    (∀ a b, a ∈ Inf → b ∈ Inf ∨ b ∈ Tmp → a ≠ b →
      (handedPairs Tmp Inf overlapBoxes).count (a, b) +
        (handedPairs Tmp Inf overlapBoxes).count (b, a) = 1) ∧
    (∀ a b, a ∈ Tmp → b ∈ Tmp →
      ((a, b) ∈ handedPairs Tmp Inf overlapBoxes ↔
        ∃ p ∈ overlapBoxes, Tmp[p.id0]? = some a ∧ Tmp[p.id1]? = some b)) := by
  obtain ⟨hT, hI, hdis⟩ := separate_nodup heap GEOM_ENABLED dInfinity (ax0idx + 1) GeomList hnd
  rw [← hTmp] at hT hdis
  rw [← hInf] at hI hdis
  have hpairs : overlapBoxes.Nodup ∧
      (∀ p ∈ overlapBoxes, p.id0 < Tmp.length ∧ p.id1 < Tmp.length ∧ p.id0 ≠ p.id1) ∧
      ∀ p ∈ overlapBoxes, (⟨p.id1, p.id0⟩ : Pair) ∉ overlapBoxes := by
    by_cases hpos : 0 < Tmp.length
    · rw [if_pos hpos] at hbox
      have h := BoxPruning_once toFloat ODE_INFINITY4 RadixSort ax0idx ax1idx ax2idx
        (Tmp.map heap) overlapBoxes (by simpa using hperm hpos) hbox
      simpa using h
    · rw [if_neg hpos] at hbox
      cases hbox
      exact ⟨List.nodup_nil, fun p hp => absurd hp (List.not_mem_nil p),
        fun p hp => absurd hp (List.not_mem_nil p)⟩
  obtain ⟨hp1, hp2, hp3⟩ := hpairs
  obtain ⟨ho1, ho2, ho3⟩ := handedOverlapping_once Tmp hT overlapBoxes hp1 hp2 hp3
  obtain ⟨hi1, hi2, hi3⟩ := handedInfinite_once Tmp hT Inf hI hdis
  have hifst := mem_handedInfinite_fst Tmp Inf
  have hndp : (handedPairs Tmp Inf overlapBoxes).Nodup := by
    unfold handedPairs
    rw [List.nodup_append]
    refine ⟨ho1, hi1, ?_⟩
    intro c hc1 hc2
    exact hdis c.1 (hifst c hc2).1 (ho2 c hc1).1
  have hself : ∀ c ∈ handedPairs Tmp Inf overlapBoxes, c.1 ≠ c.2 := by
    intro c hc
    rcases List.mem_append.1 hc with h | h
    · exact (ho2 c h).2.2.1
    · exact (hi2 c h).1
  have hasym : ∀ c ∈ handedPairs Tmp Inf overlapBoxes,
      (c.2, c.1) ∉ handedPairs Tmp Inf overlapBoxes := by
    intro c hc hr
    rcases List.mem_append.1 hc with h | h
    · rcases List.mem_append.1 hr with h' | h'
      · exact (ho2 c h).2.2.2 h'
      · exact hdis c.2 (hifst _ h').1 (ho2 c h).2.1
    · rcases List.mem_append.1 hr with h' | h'
      · exact hdis c.1 (hifst c h).1 (ho2 _ h').2.1
      · exact (hi2 c h).2 h'
  have hone : ∀ c ∈ handedPairs Tmp Inf overlapBoxes,
      (handedPairs Tmp Inf overlapBoxes).count c = 1 :=
    fun c hc => (count_of_nodup c _ hndp).1 hc
  have hzero : ∀ c, c ∉ handedPairs Tmp Inf overlapBoxes →
      (handedPairs Tmp Inf overlapBoxes).count c = 0 :=
    fun c hc => (count_of_nodup c _ hndp).2 hc
  refine ⟨⟨hp1, fun p hp => ⟨⟨(hp2 p hp).1, (hp2 p hp).2.1⟩, (hp2 p hp).2.2, hp3 p hp⟩⟩,
    ?_, ?_, ?_, ?_⟩
  · intro a
    exact hzero _ (fun h => hself _ h rfl)
  · intro a b hab
    by_cases h1 : (a, b) ∈ handedPairs Tmp Inf overlapBoxes
    · rw [hone _ h1, hzero _ (hasym _ h1)]
    · rw [hzero _ h1]
      by_cases h2 : (b, a) ∈ handedPairs Tmp Inf overlapBoxes
      · rw [hone _ h2]
      · rw [hzero _ h2]
        exact Nat.zero_le _
  · intro a b ha hb hab
    have hcov : (a, b) ∈ handedInfinite Tmp Inf ∨ (b, a) ∈ handedInfinite Tmp Inf := by
      apply hi3 a ha b
      rcases hb with hb | hb
      · exact Or.inl ⟨hb, hab⟩
      · exact Or.inr hb
    rcases hcov with h | h
    · have h1 : (a, b) ∈ handedPairs Tmp Inf overlapBoxes := List.mem_append_right _ h
      rw [hone _ h1, hzero _ (hasym _ h1)]
    · have h1 : (b, a) ∈ handedPairs Tmp Inf overlapBoxes := List.mem_append_right _ h
      rw [hone _ h1, hzero _ (hasym _ h1)]
  · intro a b ha hb
    rw [← ho3 a b]
    unfold handedPairs
    rw [List.mem_append]
    constructor
    · rintro (h | h)
      · exact h
      · exact absurd ha (hdis a (hifst _ h).1)
    · exact Or.inl

end HandedPass

/-- C36: each pair is considered once. Take a well-formed space whose virtual
calls respect it, let `s2` be the space as `cleanGeoms` leaves it in `collide`,
`Tmp` and `Inf` the finite and the infinite list of its enabled members, and let
box pruning, run with a sorter that returns a permutation, push `overlapBoxes`.
Then the pass is the sequence of the calls of `collideGeomsNoAABBs` on the pairs
of `handedPairs`, in order, followed by `lock_count--`; `overlapBoxes` holds no
pair twice, no pair in both orders and no pair of an index with itself; no
geometry is handed over with itself; an unordered pair of two different
geometries is handed over at most once; a pair with a member in the infinite set
is handed over exactly once; and a pair of two finite members is handed over
exactly when box pruning pushes the pair of their indices. -/
theorem each_pair_once {α δ : Type} [LinearOrder α] (toFloat : α → α)
    (ODE_INFINITY4 : α) (RadixSort : List α → List Nat) (ax0idx ax1idx ax2idx : Nat)
    (IS_SPACE : Nat → Bool)
    (cleanGeomsOf recomputeAABB : Nat → (Nat → dxGeom α) → (Nat → dxGeom α))
    (GEOM_DIRTY GEOM_AABB_BAD GEOM_ENABLED : Nat) (dInfinity : α)
    (AABBTest : Nat → Nat → (Nat → α) → Int)
    (callback : δ → Nat → Nat → dxSAPSpace α → Outcome (dxSAPSpace α)) (data : δ)
    (s : dxSAPSpace α) (hwf : WellFormed s)
    (hR1 : RespectsSpace s.self cleanGeomsOf) (hR2 : RespectsSpace s.self recomputeAABB)
    (s2 : dxSAPSpace α)
    (hs2 : s2 = cleanGeoms IS_SPACE cleanGeomsOf recomputeAABB GEOM_DIRTY GEOM_AABB_BAD
      { s with lock_count := s.lock_count + 1 })
    (Tmp Inf : List Nat)
    (hTmp : Tmp = (separate s2.heap GEOM_ENABLED dInfinity (ax0idx + 1) s2.GeomList
      ([], [])).1)
    (hInf : Inf = (separate s2.heap GEOM_ENABLED dInfinity (ax0idx + 1) s2.GeomList
      ([], [])).2)
    (hperm : 0 < Tmp.length →
      (RadixSort (buildPoslist toFloat ODE_INFINITY4 ax0idx (Tmp.map s2.heap))).Perm
        (List.range (Tmp.length + 1)))
    (overlapBoxes : List Pair)
    (hbox : (if 0 < Tmp.length then
        BoxPruning toFloat ODE_INFINITY4 RadixSort ax0idx ax1idx ax2idx (Tmp.map s2.heap)
      else some []) = some overlapBoxes) :
    collide toFloat ODE_INFINITY4 RadixSort ax0idx ax1idx ax2idx IS_SPACE cleanGeomsOf
        recomputeAABB GEOM_DIRTY GEOM_AABB_BAD GEOM_ENABLED dInfinity AABBTest (some callback)
        data s =
      (collideAll GEOM_AABB_BAD AABBTest callback data (handedPairs Tmp Inf overlapBoxes)
        { space := s2, calls := [] }).bind unlock ∧
    (overlapBoxes.Nodup ∧
      ∀ p ∈ overlapBoxes, (p.id0 < Tmp.length ∧ p.id1 < Tmp.length) ∧ p.id0 ≠ p.id1 ∧
        (⟨p.id1, p.id0⟩ : Pair) ∉ overlapBoxes) ∧
    (∀ a, (handedPairs Tmp Inf overlapBoxes).count (a, a) = 0) ∧
    (∀ a b, a ≠ b → (handedPairs Tmp Inf overlapBoxes).count (a, b) +
      (handedPairs Tmp Inf overlapBoxes).count (b, a) ≤ 1) ∧
    (∀ a b, a ∈ Inf → b ∈ Inf ∨ b ∈ Tmp → a ≠ b →
      (handedPairs Tmp Inf overlapBoxes).count (a, b) +
        (handedPairs Tmp Inf overlapBoxes).count (b, a) = 1) ∧
    (∀ a b, a ∈ Tmp → b ∈ Tmp →
      ((a, b) ∈ handedPairs Tmp Inf overlapBoxes ↔
        ∃ p ∈ overlapBoxes, Tmp[p.id0]? = some a ∧ Tmp[p.id1]? = some b)) := by
  have hwf1 : WellFormed { s with lock_count := s.lock_count + 1 } := hwf
  have hwf2 := cleanGeoms_wellFormed IS_SPACE cleanGeomsOf recomputeAABB GEOM_DIRTY
    GEOM_AABB_BAD _ hwf1 hR1 hR2
  have hdl := (cleanGeoms_spec IS_SPACE cleanGeomsOf recomputeAABB GEOM_DIRTY
    GEOM_AABB_BAD _ hwf1 hR1 hR2).2.1
  rw [← hs2] at hwf2 hdl
  have hc2 : ((s2.GeomList.length : Nat) : Int) = s2.count := by
    rw [hwf2.2.2.2, hdl]
    simp
  have hnd : s2.GeomList.Nodup :=
    nodup_of_index s2.GeomList (fun x => (s2.heap x).tome)
      (fun i hi => (hwf2.2.2.1 i hi).2.2.1)
  have hlists := handedPairs_once toFloat ODE_INFINITY4 RadixSort ax0idx ax1idx ax2idx
    GEOM_ENABLED dInfinity s2.heap s2.GeomList hnd Tmp Inf hTmp hInf hperm overlapBoxes hbox
  refine ⟨?_, hlists⟩
  have hin : ∀ p ∈ overlapBoxes, p.id0 < Tmp.length ∧ p.id1 < Tmp.length :=
    fun p hp => (hlists.1.2 p hp).1
  subst hTmp
  subst hInf
  have hrun := collideCleaned_handed toFloat ODE_INFINITY4 RadixSort ax0idx ax1idx ax2idx
    GEOM_AABB_BAD GEOM_ENABLED dInfinity AABBTest callback data s2 overlapBoxes hbox hin
  rw [← hrun]
  unfold collide
  simp only
  rw [← hs2, if_neg (not_not.2 hc2)]

/-- C36, witness: the pass over `mixedSpace` with `dInfinity = 2000000`. The cubes
`1` and `2` are finite and overlap, the geometry `3` is infinite; the pairs handed
over are `(1,2)`, `(3,1)` and `(3,2)`. -/
theorem each_pair_once_witness :
    WellFormed mixedSpace ∧
    handedPairs [1, 2] [3] [⟨0, 1⟩] = [(1, 2), (3, 1), (3, 2)] ∧
    collide (fun x => x) 1000000 (fun _ => [0, 1, 2]) 0 2 4 (fun _ => false)
        (fun _ h => h) (fun _ h => h) 1 4 16 2000000 (fun _ _ _ => 1)
        (some (fun (_ _ _ : Nat) (st : dxSAPSpace Int) =>
          (Outcome.ok st : Outcome (dxSAPSpace Int)))) 7 mixedSpace =
      (collideAll 4 (fun _ _ _ => 1)
        (fun (_ _ _ : Nat) (st : dxSAPSpace Int) => (Outcome.ok st : Outcome (dxSAPSpace Int)))
        7 (handedPairs [1, 2] [3] [⟨0, 1⟩])
        { space := cleanGeoms (fun _ => false) (fun _ h => h) (fun _ h => h) 1 4
            { mixedSpace with lock_count := mixedSpace.lock_count + 1 },
          calls := [] }).bind unlock :=
  ⟨by decide, by decide,
   (each_pair_once (fun x => x) 1000000 (fun _ => [0, 1, 2]) 0 2 4 (fun _ => false)
    (fun _ h => h) (fun _ h => h) 1 4 16 2000000 (fun _ _ _ => 1)
    (fun (_ _ _ : Nat) (st : dxSAPSpace Int) => (Outcome.ok st : Outcome (dxSAPSpace Int))) 7
    mixedSpace (by decide) (fun _ _ _ => ⟨rfl, fun _ => ⟨rfl, rfl, fun _ => rfl⟩⟩)
    (fun _ _ _ => ⟨rfl, fun _ => ⟨rfl, rfl, fun _ => rfl⟩⟩) _ rfl [1, 2] [3] (by decide)
    (by decide) (fun _ => by decide) [⟨0, 1⟩] (by decide)).1⟩

end SAP
